import Mathlib

/-!
Dashboard portability engine of `gcli`.

A shallow embedding of `cmd/dashboard.go`: the recursive discovery of data-source
references (`discoverDatasourceUIDs`), the export step of `dash read --external`
(the body of `dashReadCmd` after the two HTTP fetches), the decoding of JSON text it
relies on, the template resolution of `dash create` (`dashCreateCmd`, from the file read to
the creation call) and the edit session of `dash update` (the loop of `dashUpdateCmd`);
and of `internal/datasource` (`ResolveID` after the catalog is fetched), `internal/config`
(the stored configuration behind `SaveProfile`, `LoadAll`, `SetActive`, `GetActive`) and
`cmd/completion_install.go` (what `installForShell` and `uninstallForShell` do to the rc
file).

Conventions of the embedding.

* A Go `string` is a Lean `String`; the text primitives work on its list of characters.
* A Go `map[string]T` is an association list with at most one entry per key when built
  through `mapSet`; `mapGet` reads the first entry of a key, `mapDelete` drops every entry.
* A Go `map[string]bool` used as a set is a list to which `setAdd` appends absent members.
* Go leaves the iteration order of `range` over a map unspecified. `discoverDatasourceUIDs`
  builds a set, so it is embedded with the order of the association list; the export loop
  depends on the order, which is therefore an explicit argument `order`.
* A JSON number is kept as its literal text (Go decodes it to a `float64`); a literal
  outside `float64` is the decoding error that Go reports for it.
* `json.Unmarshal` is embedded twice: `decode` is the value when it returns no error,
  `unmarshalIgnored` what it has stored when its error is ignored (line 215).
* The Unicode case table of `strings.ToUpper` is data of the Go release: it is the argument
  `upper`, consulted outside ASCII only. The examples are computed with `latin1Upper`.
* `json.MarshalIndent` is `marshalIndent`; the escapes that changed between releases and the
  text of a `float64` are the argument `Encoding`. What `dash read --external` prints, the
  template file that `dash create` reads, is `templateText`.
* What a command reads from its terminal, its editor or the server is an argument: the
  answers are a list of texts, the editor and the server of a round are functions.
* The configuration file is the configuration that `load` reads back from it; encoding it
  and writing the file are taken to succeed.
-/

namespace Gcli

/-! ## Go strings -/

/-- `strings.HasPrefix(s, p)`. -/
def hasPrefix (s p : String) : Bool := p.data.isPrefixOf s.data

/-- The scanner of `strings.ReplaceAll` for a non-empty `old`: leftmost occurrences,
never overlapping. `skip` counts the characters of the occurrence just replaced that are
still to be dropped. -/
def replaceScan (old new : List Char) : Nat → List Char → List Char
  | _, [] => []
  | skip + 1, _ :: cs => replaceScan old new skip cs
  | 0, c :: cs =>
    if old.isPrefixOf (c :: cs) then new ++ replaceScan old new (old.length - 1) cs
    else c :: replaceScan old new 0 cs

/-- `strings.ReplaceAll` on character lists. An empty `old` matches before every
character and at the end of the text. -/
def replaceAllChars (s old new : List Char) : List Char :=
  match old with
  | [] => new ++ s.foldr (fun c acc => c :: (new ++ acc)) []
  | _ :: _ => replaceScan old new 0 s

/-- `strings.ReplaceAll(s, old, new)`. -/
def replaceAll (s old new : String) : String :=
  ⟨replaceAllChars s.data old.data new.data⟩

/-- `unicode.ToUpper(r)`: below `unicode.MaxASCII` the letters `a`..`z` are mapped to
`A`..`Z` by arithmetic and every other rune to itself; above it the rune is mapped through
`unicode.CaseRanges`. That table is data of the Go release the program is built with; it is
the argument `upper`, which gives the upper case of a rune outside ASCII. -/
def unicodeToUpper (upper : Char → Char) (r : Char) : Char :=
  if r.toNat ≤ 0x7F then r.toUpper else upper r

/-- `strings.ToUpper(s)`: every rune of `s` mapped by `unicode.ToUpper`. (The branch for an
ASCII text computes the same text without the table.) -/
def toUpper (upper : Char → Char) (s : String) : String :=
  ⟨s.data.map (unicodeToUpper upper)⟩

/-- The entries of `unicode.CaseRanges` for the Latin-1 Supplement, which are the same in
every release of the table: `à`..`þ` without `÷` are 32 above their upper case, `ÿ` has the
upper case `Ÿ` (U+0178) and `µ` the upper case `Μ` (U+039C); `ß` has none. Every other
rune is left as it is. The examples of this development are computed with this table. -/
def latin1Upper (r : Char) : Char :=
  if 0xE0 ≤ r.toNat ∧ r.toNat ≤ 0xFE ∧ r.toNat ≠ 0xF7 then Char.ofNat (r.toNat - 32)
  else if r.toNat = 0xFF then Char.ofNat 0x178
  else if r.toNat = 0xB5 then Char.ofNat 0x39C
  else r

/-! ## Go maps and sets -/

/-- The read `m[k]` of a Go map, with its `ok` flag as the option. -/
def mapGet {α : Type} (k : String) : List (String × α) → Option α
  | [] => none
  | (k1, v) :: rest => if k1 = k then some v else mapGet k rest

/-- The assignment `m[k] = v` of a Go map. -/
def mapSet {α : Type} (k : String) (v : α) : List (String × α) → List (String × α)
  | [] => [(k, v)]
  | (k1, v1) :: rest => if k1 = k then (k, v) :: rest else (k1, v1) :: mapSet k v rest

/-- The statement `delete(m, k)` of a Go map. -/
def mapDelete {α : Type} (k : String) (m : List (String × α)) : List (String × α) :=
  m.filter (fun kv => decide (kv.1 ≠ k))

/-- The assignment `set[s] = true` of a Go `map[string]bool` used as a set. -/
def setAdd (s : String) (set : List String) : List String :=
  if s ∈ set then set else set ++ [s]

/-! ## JSON values (`interface{}` as decoded by `encoding/json`) -/

/-- A decoded JSON value: `nil`, `bool`, `float64` (kept as its literal), `string`,
`[]interface{}` and `map[string]interface{}`. -/
inductive JSON where
  | null
  | bool (b : Bool)
  | num (lit : String)
  | str (s : String)
  | arr (xs : List JSON)
  | obj (kvs : List (String × JSON))

mutual
/-- Decidable equality of JSON values. -/
def decEqJSON : (a b : JSON) → Decidable (a = b)
  | .null, .null => isTrue rfl
  | .bool a, .bool b =>
    if h : a = b then isTrue (by rw [h]) else isFalse (by intro e; cases e; exact h rfl)
  | .num a, .num b =>
    if h : a = b then isTrue (by rw [h]) else isFalse (by intro e; cases e; exact h rfl)
  | .str a, .str b =>
    if h : a = b then isTrue (by rw [h]) else isFalse (by intro e; cases e; exact h rfl)
  | .arr a, .arr b =>
    match decEqElems a b with
    | isTrue h => isTrue (by rw [h])
    | isFalse h => isFalse (by intro e; cases e; exact h rfl)
  | .obj a, .obj b =>
    match decEqFields a b with
    | isTrue h => isTrue (by rw [h])
    | isFalse h => isFalse (by intro e; cases e; exact h rfl)
  | .null, .bool _ | .null, .num _ | .null, .str _ | .null, .arr _ | .null, .obj _
  | .bool _, .null | .bool _, .num _ | .bool _, .str _ | .bool _, .arr _ | .bool _, .obj _
  | .num _, .null | .num _, .bool _ | .num _, .str _ | .num _, .arr _ | .num _, .obj _
  | .str _, .null | .str _, .bool _ | .str _, .num _ | .str _, .arr _ | .str _, .obj _
  | .arr _, .null | .arr _, .bool _ | .arr _, .num _ | .arr _, .str _ | .arr _, .obj _
  | .obj _, .null | .obj _, .bool _ | .obj _, .num _ | .obj _, .str _ | .obj _, .arr _ =>
    isFalse (by intro e; cases e)
/-- Decidable equality of lists of JSON values. -/
def decEqElems : (a b : List JSON) → Decidable (a = b)
  | [], [] => isTrue rfl
  | [], _ :: _ | _ :: _, [] => isFalse (by intro e; cases e)
  | x :: xs, y :: ys =>
    match decEqJSON x y, decEqElems xs ys with
    | isTrue h1, isTrue h2 => isTrue (by rw [h1, h2])
    | isFalse h1, _ => isFalse (by intro e; cases e; exact h1 rfl)
    | _, isFalse h2 => isFalse (by intro e; cases e; exact h2 rfl)
/-- Decidable equality of the fields of JSON objects. -/
def decEqFields : (a b : List (String × JSON)) → Decidable (a = b)
  | [], [] => isTrue rfl
  | [], _ :: _ | _ :: _, [] => isFalse (by intro e; cases e)
  | (k1, x) :: xs, (k2, y) :: ys =>
    if hk : k1 = k2 then
      match decEqJSON x y, decEqFields xs ys with
      | isTrue h1, isTrue h2 => isTrue (by rw [hk, h1, h2])
      | isFalse h1, _ => isFalse (by intro e; cases e; exact h1 rfl)
      | _, isFalse h2 => isFalse (by intro e; cases e; exact h2 rfl)
    else isFalse (by intro e; cases e; exact hk rfl)
end

instance : DecidableEq JSON := decEqJSON

mutual
/-- Every node of a JSON value: the value itself and, through any nesting of objects
and arrays, every field value and every array element. -/
def nodes : JSON → List JSON
  | .obj kvs => .obj kvs :: nodesFields kvs
  | .arr xs => .arr xs :: nodesElems xs
  | .null => [.null]
  | .bool b => [.bool b]
  | .num n => [.num n]
  | .str s => [.str s]
/-- The nodes below the fields of an object. -/
def nodesFields : List (String × JSON) → List JSON
  | [] => []
  | (_, v) :: rest => nodes v ++ nodesFields rest
/-- The nodes below the elements of an array. -/
def nodesElems : List JSON → List JSON
  | [] => []
  | v :: rest => nodes v ++ nodesElems rest
end

/-! ## Reference discovery (`discoverDatasourceUIDs`, dashboard.go 639-665) -/

mutual
/-- `discoverDatasourceUIDs(v, uids)`: the set `uids` after the call. -/
def discoverDatasourceUIDs : JSON → List String → List String
  | .obj val, uids =>
    let uids1 :=
      match mapGet "datasource" val with
      | some (.str dsv) =>
        if dsv ≠ "" ∧ dsv ≠ "grafana" ∧ hasPrefix dsv "$" = false then setAdd dsv uids
        else uids
      | some (.obj dsv) =>
        match mapGet "uid" dsv with
        | some (.str uid) =>
          if uid ≠ "" ∧ uid ≠ "grafana" ∧ hasPrefix uid "$" = false then setAdd uid uids
          else uids
        | _ => uids
      | _ => uids
    discoverFields val uids1
  | .arr val, uids => discoverElems val uids
  | .null, uids => uids
  | .bool _, uids => uids
  | .num _, uids => uids
  | .str _, uids => uids
/-- The loop `for _, v2 := range val` over the fields of an object. -/
def discoverFields : List (String × JSON) → List String → List String
  | [], uids => uids
  | (_, v2) :: rest, uids => discoverFields rest (discoverDatasourceUIDs v2 uids)
/-- The loop `for _, v2 := range val` over the elements of an array. -/
def discoverElems : List JSON → List String → List String
  | [], uids => uids
  | v2 :: rest, uids => discoverElems rest (discoverDatasourceUIDs v2 uids)
end

/-- The object node `n` binds a data source by identifier `s`: its `datasource` field is
the string `s`, or an object whose `uid` field is the string `s`. -/
def RefersTo (n : JSON) (s : String) : Prop :=
  ∃ val, n = .obj val ∧
    (mapGet "datasource" val = some (.str s) ∨
      ∃ dsv, mapGet "datasource" val = some (.obj dsv) ∧ mapGet "uid" dsv = some (.str s))

/-- A concrete identifier: not empty, not the platform default `grafana`, not a variable. -/
def Concrete (s : String) : Prop :=
  s ≠ "" ∧ s ≠ "grafana" ∧ hasPrefix s "$" = false

instance (s : String) : Decidable (Concrete s) := by
  unfold Concrete; infer_instance

/-- What `discoverDatasourceUIDs` may add to the set: a concrete identifier bound by a
node of `v`. -/
def Found (v : JSON) (s : String) : Prop :=
  (∃ n, n ∈ nodes v ∧ RefersTo n s) ∧ Concrete s

/-! ## Decoding JSON text (`json.Unmarshal`)

A model of the decoder of `encoding/json` for the targets `interface{}` and
`map[string]interface{}`: the grammar of RFC 8259, the string escapes, the last of several
equal keys of an object winning, the nesting limit of the scanner and the conversion of a
number literal to a `float64`. `json.Unmarshal` first checks the whole text (`checkValid`)
and leaves the target alone when the text is no JSON; an error found later, while the
values are stored, is recorded and the decoding goes on, so that a caller that ignores the
error finds the target filled. The decoder therefore has two modes: the strict one gives
the value when `json.Unmarshal` returns no error, the lenient one the value left in the
target when the error is ignored. A text is a Lean `String`, which cannot hold invalid
UTF-8 (a Lean `Char` is a valid code point). -/

/-- The white space the decoder skips between tokens. -/
def isSpace (c : Char) : Bool := c = ' ' || c = '\t' || c = '\r' || c = '\n'

/-- Drops leading white space. -/
def skipWs : List Char → List Char
  | [] => []
  | c :: cs => if isSpace c then skipWs cs else c :: cs

/-- The value of a hexadecimal digit. -/
def hexVal (c : Char) : Option Nat :=
  if '0' ≤ c ∧ c ≤ '9' then some (c.toNat - 48)
  else if 'a' ≤ c ∧ c ≤ 'f' then some (c.toNat - 87)
  else if 'A' ≤ c ∧ c ≤ 'F' then some (c.toNat - 55)
  else none

/-- The value of the four hexadecimal digits of a `\u` escape. -/
def hex4 (a b c d : Char) : Option Nat :=
  match hexVal a, hexVal b, hexVal c, hexVal d with
  | some w, some x, some y, some z => some (((w * 16 + x) * 16 + y) * 16 + z)
  | _, _, _, _ => none

/-- U+FFFD, which the decoder writes for an unpaired surrogate. -/
def replacementChar : Char := Char.ofNat 0xFFFD

/-- Writes U+FFFD for a high surrogate that was not followed by a low one. -/
def flushSurrogate (pending : Option Nat) (acc : List Char) : List Char :=
  match pending with
  | some _ => replacementChar :: acc
  | none => acc

/-- Decodes a string literal after its opening quote: the decoded characters and the text
after the closing quote. `pending` holds a high surrogate read from the previous escape,
`acc` the characters decoded so far, last first. -/
def scanString : Option Nat → List Char → List Char → Option (List Char × List Char)
  | _, _, [] => none
  | pending, acc, c :: rest =>
    if c = '"' then some ((flushSurrogate pending acc).reverse, rest)
    else if c = '\\' then
      match rest with
      | [] => none
      | e :: rest1 =>
        if e = '"' then scanString none ('"' :: flushSurrogate pending acc) rest1
        else if e = '\\' then scanString none ('\\' :: flushSurrogate pending acc) rest1
        else if e = '/' then scanString none ('/' :: flushSurrogate pending acc) rest1
        else if e = 'b' then scanString none (Char.ofNat 8 :: flushSurrogate pending acc) rest1
        else if e = 'f' then scanString none (Char.ofNat 12 :: flushSurrogate pending acc) rest1
        else if e = 'n' then scanString none ('\n' :: flushSurrogate pending acc) rest1
        else if e = 'r' then scanString none ('\r' :: flushSurrogate pending acc) rest1
        else if e = 't' then scanString none ('\t' :: flushSurrogate pending acc) rest1
        else if e = 'u' then
          match rest1 with
          | h1 :: h2 :: h3 :: h4 :: rest2 =>
            match hex4 h1 h2 h3 h4 with
            | none => none
            | some n =>
              if 0xD800 ≤ n ∧ n < 0xDC00 then
                scanString (some n) (flushSurrogate pending acc) rest2
              else if 0xDC00 ≤ n ∧ n < 0xE000 then
                match pending with
                | some hi =>
                  scanString none
                    (Char.ofNat ((hi - 0xD800) * 0x400 + (n - 0xDC00) + 0x10000) :: acc) rest2
                | none => scanString none (replacementChar :: acc) rest2
              else scanString none (Char.ofNat n :: flushSurrogate pending acc) rest2
          | _ => none
        else none
    else if c.toNat < 0x20 then none
    else scanString none (c :: flushSurrogate pending acc) rest

/-- A decimal digit. -/
def isDigit (c : Char) : Bool := decide ('0' ≤ c ∧ c ≤ '9')

/-- Splits off the leading digits; `acc` holds the digits read so far, last first. -/
def scanDigits : List Char → List Char → List Char × List Char
  | acc, [] => (acc.reverse, [])
  | acc, c :: rest =>
    if isDigit c then scanDigits (c :: acc) rest else (acc.reverse, c :: rest)

/-- An optional sign in front of the digits of an exponent. -/
def scanSign : List Char → List Char × List Char
  | [] => ([], [])
  | c :: rest => if c = '+' ∨ c = '-' then ([c], rest) else ([], c :: rest)

/-- The integer part of a number: `0`, or digits not starting with `0`. -/
def scanInt : List Char → Option (List Char × List Char)
  | [] => none
  | c :: rest =>
    if c = '0' then some (['0'], rest)
    else
      match scanDigits [] (c :: rest) with
      | ([], _) => none
      | (ds, r) => some (ds, r)

/-- The optional fraction of a number: `.` and at least one digit. -/
def scanFrac : List Char → Option (List Char × List Char)
  | [] => some ([], [])
  | c :: rest =>
    if c = '.' then
      match scanDigits [] rest with
      | ([], _) => none
      | (ds, r) => some ('.' :: ds, r)
    else some ([], c :: rest)

/-- The optional exponent of a number: `e` or `E`, an optional sign, at least one digit. -/
def scanExp : List Char → Option (List Char × List Char)
  | [] => some ([], [])
  | c :: rest =>
    if c = 'e' ∨ c = 'E' then
      match scanDigits [] (scanSign rest).2 with
      | ([], _) => none
      | (ds, r) => some (c :: ((scanSign rest).1 ++ ds), r)
    else some ([], c :: rest)

/-- An optional minus sign in front of a number. -/
def scanMinus : List Char → List Char × List Char
  | [] => ([], [])
  | c :: rest => if c = '-' then (['-'], rest) else ([], c :: rest)

/-- A number literal and the text after it. -/
def scanNumber (input : List Char) : Option (List Char × List Char) :=
  match scanInt (scanMinus input).2 with
  | none => none
  | some (ip, r1) =>
    match scanFrac r1 with
    | none => none
    | some (fp, r2) =>
      match scanExp r2 with
      | none => none
      | some (ep, r3) => some ((scanMinus input).1 ++ ip ++ fp ++ ep, r3)

/-- Whether `input` starts with the characters of `word`; the text after them. -/
def scanWord (word input : List Char) : Option (List Char) :=
  if word.isPrefixOf input then some (input.drop word.length) else none

/-- The number that a run of decimal digits writes. -/
def digitsNat (ds : List Char) : Nat := ds.foldl (fun n c => n * 10 + (c.toNat - 48)) 0

/-- The exponent written after the digits of a number literal, 0 when there is none. -/
def exponentOf : List Char → Int
  | [] => 0
  | c :: r =>
    if c = 'e' ∨ c = 'E' then
      if (scanSign r).1 = ['-'] then -((digitsNat (scanDigits [] (scanSign r).2).1 : Nat) : Int)
      else ((digitsNat (scanDigits [] (scanSign r).2).1 : Nat) : Int)
    else 0

/-- The text of a number literal after the digits of its integer part: the digits of the
fraction and the text after them. -/
def fractionOf : List Char → List Char × List Char
  | [] => ([], [])
  | c :: r => if c = '.' then scanDigits [] r else ([], c :: r)

/-- The limit of `float64`: 2^1024 - 2^970, half a unit in the last place above the largest
finite value (2^1024 - 2^971); a number at or above it is rounded to infinity. The powers
are written with small exponents, 1024 = 4 * 256 and 970 = 5 * 194. -/
def float64Limit : Nat := (2 ^ 256) ^ 4 - (2 ^ 194) ^ 5

/-- Whether `strconv.ParseFloat(lit, 64)` returns a range error for the number literal
`lit`: the number written is, in absolute value, at or above the limit. The number is the
digits of the integer part and of the fraction, times ten to the exponent less the number
of digits of the fraction. -/
def overflowsFloat64 (lit : List Char) : Bool :=
  if 0 ≤ exponentOf (fractionOf (scanDigits [] (scanMinus lit).2).2).2 -
      ((fractionOf (scanDigits [] (scanMinus lit).2).2).1.length : Int) then
    decide (float64Limit ≤
      digitsNat ((scanDigits [] (scanMinus lit).2).1 ++
          (fractionOf (scanDigits [] (scanMinus lit).2).2).1) *
        10 ^ (exponentOf (fractionOf (scanDigits [] (scanMinus lit).2).2).2 -
          ((fractionOf (scanDigits [] (scanMinus lit).2).2).1.length : Int)).toNat)
  else
    decide (float64Limit *
        10 ^ (((fractionOf (scanDigits [] (scanMinus lit).2).2).1.length : Int) -
          exponentOf (fractionOf (scanDigits [] (scanMinus lit).2).2).2).toNat ≤
      digitsNat ((scanDigits [] (scanMinus lit).2).1 ++
        (fractionOf (scanDigits [] (scanMinus lit).2).2).1))

/-- The Go value of a number literal (`convertNumber` for an `interface{}`): the number,
kept as its literal, when it is within `float64`. Past it `json.Unmarshal` records an error
and stores nothing, which leaves `nil` in the place of the number. -/
def numberValue (lenient : Bool) (lit : List Char) : Option JSON :=
  if overflowsFloat64 lit then (if lenient then some .null else none) else some (.num ⟨lit⟩)

/-- The nesting limit of the scanner (`maxNestingDepth`): an array or object may be opened
while fewer than this many are open. -/
def maxNestingDepth : Nat := 10000

mutual
/-- Decodes one JSON value at the head of the text, `depth` arrays and objects being open.
Every recursive call is made after a character has been consumed or with less fuel, and
`decodeWith` supplies more fuel than the text has characters. -/
def decodeValue (lenient : Bool) : Nat → Nat → List Char → Option (JSON × List Char)
  | _, 0, _ => none
  | depth, fuel + 1, input =>
    match skipWs input with
    | [] => none
    | c :: rest =>
      if c = '"' then
        match scanString none [] rest with
        | some (s, r) => some (.str ⟨s⟩, r)
        | none => none
      else if c = '[' then
        if depth < maxNestingDepth then
          match skipWs rest with
          | [] => none
          | c1 :: r =>
            if c1 = ']' then some (.arr [], r)
            else decodeElems lenient (depth + 1) fuel [] (c1 :: r)
        else none
      else if c = '{' then
        if depth < maxNestingDepth then
          match skipWs rest with
          | [] => none
          | c1 :: r =>
            if c1 = '}' then some (.obj [], r)
            else decodeMembers lenient (depth + 1) fuel [] (c1 :: r)
        else none
      else if c = 't' then
        match scanWord ['r', 'u', 'e'] rest with
        | some r => some (.bool true, r)
        | none => none
      else if c = 'f' then
        match scanWord ['a', 'l', 's', 'e'] rest with
        | some r => some (.bool false, r)
        | none => none
      else if c = 'n' then
        match scanWord ['u', 'l', 'l'] rest with
        | some r => some (.null, r)
        | none => none
      else
        match scanNumber (c :: rest) with
        | some (lit, r) =>
          match numberValue lenient lit with
          | some v => some (v, r)
          | none => none
        | none => none
/-- Decodes the elements of an array after its opening bracket; `acc` holds the elements
decoded so far, last first. -/
def decodeElems (lenient : Bool) : Nat → Nat → List JSON → List Char → Option (JSON × List Char)
  | _, 0, _, _ => none
  | depth, fuel + 1, acc, input =>
    match decodeValue lenient depth fuel input with
    | none => none
    | some (v, r) =>
      match skipWs r with
      | [] => none
      | c :: r1 =>
        if c = ',' then decodeElems lenient depth fuel (v :: acc) r1
        else if c = ']' then some (.arr (v :: acc).reverse, r1)
        else none
/-- Decodes the members of an object after its opening brace; `acc` is the map built so
far. -/
def decodeMembers (lenient : Bool) :
    Nat → Nat → List (String × JSON) → List Char → Option (JSON × List Char)
  | _, 0, _, _ => none
  | depth, fuel + 1, acc, input =>
    match skipWs input with
    | [] => none
    | q :: r0 =>
      if q = '"' then
        match scanString none [] r0 with
        | none => none
        | some (k, r1) =>
          match skipWs r1 with
          | [] => none
          | c :: r2 =>
            if c = ':' then
              match decodeValue lenient depth fuel r2 with
              | none => none
              | some (v, r3) =>
                match skipWs r3 with
                | [] => none
                | c1 :: r4 =>
                  if c1 = ',' then decodeMembers lenient depth fuel (mapSet ⟨k⟩ v acc) r4
                  else if c1 = '}' then some (.obj (mapSet ⟨k⟩ v acc), r4)
                  else none
            else none
      else none
end

/-- The value of a text that is one JSON value between optional white space, `none` for
any other text, in the strict or in the lenient mode. -/
def decodeWith (lenient : Bool) (text : String) : Option JSON :=
  match decodeValue lenient 0 (2 * text.data.length + 2) text.data with
  | some (v, r) => if skipWs r = [] then some v else none
  | none => none

/-- `json.Unmarshal(text, &v)` for `var v interface{}` when it returns no error: the value
of a text that is one JSON value between optional white space, with every number within
`float64` and the nesting within the limit; `none` when it returns an error. -/
def decode (text : String) : Option JSON := decodeWith false text

/-- `json.Unmarshal(text, &m)` for `var m map[string]interface{}`: the map of an object,
the nil map (which reads as the empty map) of `null`, an error for any other text. -/
def unmarshalObject (text : String) : Option (List (String × JSON)) :=
  match decode text with
  | some (.obj kvs) => some kvs
  | some .null => some []
  | _ => none

/-- `json.Unmarshal(text, &m)` for a fresh `var m map[string]interface{}` whose error is
ignored: what is left in `m`. A text that is no JSON leaves the nil map, which reads as the
empty map, and so does a text whose value is no object; in the map of an object a number
past `float64` has left `nil`. -/
def unmarshalIgnored (text : String) : List (String × JSON) :=
  match decodeWith true text with
  | some (.obj kvs) => kvs
  | _ => []

/-! ## Export as an external template (`dashReadCmd`, dashboard.go 162-233) -/

/-- An entry of the data-source catalog (`allDS`); `Typ` is the field `Type` of the source. -/
structure DataSource where
  UID : String
  Name : String
  Typ : String
deriving DecidableEq

/-- The loop of lines 169-172: `dsMap[ds.UID] = ds` for each catalog entry in turn. -/
def dsMap (allDS : List DataSource) : List (String × DataSource) :=
  allDS.foldl (fun m ds => mapSet ds.UID ds m) []

/-- Lines 188-189: the input name derived from the display name of a data source. -/
def varName (upper : Char → Char) (name : String) : String :=
  replaceAll ("DS_" ++ toUpper upper (replaceAll name "-" "_")) " " "_"

/-- Lines 191-196: the Template Input of a resolved data source. -/
def inputEntry (upper : Char → Char) (ds : DataSource) : JSON :=
  .obj [("name", .str (varName upper ds.Name)), ("label", .str ds.Name),
    ("type", .str "datasource"), ("pluginId", .str ds.Typ)]

/-- Lines 199-204: the Template Requirement of a plugin type. -/
def requireEntry (pluginType : String) : JSON :=
  .obj [("type", .str "datasource"), ("id", .str pluginType), ("name", .str pluginType),
    ("version", .str "1.0.0")]

/-- Line 181: the fixed requirement describing the platform. -/
def grafanaRequirement : JSON :=
  .obj [("type", .str "grafana"), ("id", .str "grafana"), ("name", .str "Grafana"),
    ("version", .str "1.0.0")]

/-- The text `"s"`: `fmt.Sprintf` with the format of a quoted `%s`. -/
def quoted (s : String) : String := "\"" ++ s ++ "\""

/-- The placeholder expression of an input name, `$` followed by the name in braces. -/
def placeholder (name : String) : String := "$\x7b" ++ name ++ "\x7d"

/-- The variables of the export loop (lines 179-185). -/
structure ExportState where
  inputs : List JSON
  requires : List JSON
  pluginMap : List String
  jsonStr : String

/-- Lines 179-185: the state before the loop; `raw` is the text of the dashboard body. -/
def exportInit (raw : String) : ExportState :=
  { inputs := [], requires := [grafanaRequirement], pluginMap := [], jsonStr := raw }

/-- Lines 187-210: one iteration of the loop over `usedUIDs`. -/
def exportStep (upper : Char → Char) (m : List (String × DataSource)) (st : ExportState)
    (uid : String) : ExportState :=
  match mapGet uid m with
  | some ds =>
    { inputs := st.inputs ++ [inputEntry upper ds]
      requires :=
        if ds.Typ ∈ st.pluginMap then st.requires else st.requires ++ [requireEntry ds.Typ]
      pluginMap := setAdd ds.Typ st.pluginMap
      jsonStr := replaceAll st.jsonStr (quoted uid) (quoted (placeholder (varName upper ds.Name))) }
  | none => st

/-- Lines 186-211: the loop, visiting the identifiers in the order `order`. -/
def exportLoop (upper : Char → Char) (raw : String) (allDS : List DataSource)
    (order : List String) : ExportState :=
  order.foldl (exportStep upper (dsMap allDS)) (exportInit raw)

/-- How `json.MarshalIndent` writes a slice: `null` for the nil slice that nothing was
appended to. -/
def sliceJSON (xs : List JSON) : JSON :=
  match xs with
  | [] => .null
  | _ :: _ => .arr xs

/-- Lines 214-220: the rewritten text decoded again, the error ignored, without the
instance-specific fields. -/
def finalDash (jsonStr : String) : List (String × JSON) :=
  mapDelete "version" (mapDelete "uid" (mapDelete "id" (unmarshalIgnored jsonStr)))

/-- Lines 222-229: the output map, the metadata first and every field of `finalDash`
assigned on top of it. -/
def exportOutput (st : ExportState) : List (String × JSON) :=
  (finalDash st.jsonStr).foldl (fun out kv => mapSet kv.1 kv.2 out)
    [("__inputs", sliceJSON st.inputs), ("__requires", sliceJSON st.requires)]

/-- The identifiers found in the dashboard body `raw` (lines 145-148 and 175-176). -/
def usedUIDs (raw : String) : List String :=
  match unmarshalObject raw with
  | some dashObj => discoverDatasourceUIDs (.obj dashObj) []
  | none => []

/-- The export step of `dash read --external` on the body text `raw` and the catalog
`allDS`, the loop over `usedUIDs` visiting the identifiers in the order `order`: the
exported template, or the error of line 147. -/
def exportExternal (upper : Char → Char) (raw : String) (allDS : List DataSource)
    (order : List String) : Except String JSON :=
  match unmarshalObject raw with
  | none => .error "manual export failed: could not parse dashboard JSON"
  | some _ => .ok (.obj (exportOutput (exportLoop upper raw allDS order)))

instance : DecidableEq (Except String JSON) := fun a b =>
  match a, b with
  | .ok x, .ok y =>
    if h : x = y then isTrue (by rw [h]) else isFalse (by intro e; cases e; exact h rfl)
  | .error x, .error y =>
    if h : x = y then isTrue (by rw [h]) else isFalse (by intro e; cases e; exact h rfl)
  | .ok _, .error _ => isFalse (by intro e; cases e)
  | .error _, .ok _ => isFalse (by intro e; cases e)

/-- The orders in which Go may visit the keys of `usedUIDs`: each key once. -/
def IterationOrder (raw : String) (order : List String) : Prop :=
  order.Perm (usedUIDs raw)

/-- The value of a top-level field of a template. -/
def field (k : String) : JSON → Option JSON
  | .obj kvs => mapGet k kvs
  | _ => none

/-- The derivation of an input name in the words of the specification, on characters:
every maximal run of non-alphanumeric characters becomes one `_`. `inRun` tells that the
previous character was already part of such a run. -/
def collapseRuns : Bool → List Char → List Char
  | _, [] => []
  | inRun, c :: cs =>
    if c.isAlphanum then c :: collapseRuns false cs
    else if inRun then collapseRuns true cs
    else '_' :: collapseRuns true cs

/-- The input name the specification describes: the prefix `DS_`, then the display name
uppercased with every maximal run of non-alphanumeric characters collapsed to one `_`. -/
def specInputName (upper : Char → Char) (name : String) : String :=
  "DS_" ++ ⟨collapseRuns false (toUpper upper name).data⟩

/-- The catalog entries of the identifiers that the catalog resolves, in the order in
which the loop visits them. -/
def resolved (allDS : List DataSource) (order : List String) : List DataSource :=
  order.filterMap (fun uid => mapGet uid (dsMap allDS))

/-- The keys of a map. -/
def mapKeys {α : Type} (m : List (String × α)) : List String := m.map Prod.fst

/-- The `name` fields of the entries of the `__inputs` array of a template. -/
def templateInputNames (out : JSON) : List String :=
  match field "__inputs" out with
  | some (.arr xs) =>
    xs.filterMap (fun e =>
      match field "name" e with
      | some (.str s) => some s
      | _ => none)
  | _ => []

/-! ## Template substitution read as text

The extraction replaces the quoted identifier by the quoted placeholder (line 209), the
resolver of `dash create` replaces the placeholder by the selected identifier (lines
555-559). Both are textual. A text is read here as the stretch before its first quote
followed by segments, each led by a quote. -/

/-- `strings.Contains(s, sub)`. -/
def contains (s sub : String) : Prop := sub.data <:+: s.data

instance (s sub : String) : Decidable (contains s sub) := by
  unfold contains; infer_instance

/-- The resolved references in the order of the visit: the identifier and the input name
derived for it. -/
def resolvedPairs (upper : Char → Char) (allDS : List DataSource) (order : List String) :
    List (String × String) :=
  order.filterMap
    (fun uid => (mapGet uid (dsMap allDS)).map (fun ds => (uid, varName upper ds.Name)))

/-- Lines 555-559: the substitution loop of `dash create` over `mappings` (input name to
selected identifier), visiting the entries in the given order. -/
def substituteMappings (data : String) (mappings : List (String × String)) : String :=
  mappings.foldl (fun jsonStr m => replaceAll jsonStr (placeholder m.1) m.2) data

/-- The map `mappings` of `dash create` (line 541) when every declared input is answered
with the identifier it was derived from: one assignment per input, in their order. -/
def mappingsBack (upper : Char → Char) (allDS : List DataSource) (order : List String) :
    List (String × String) :=
  (resolvedPairs upper allDS order).foldl (fun m p => mapSet p.2 p.1 m) []

/-- The pairs of the extraction on characters: the identifier and its placeholder. -/
def charPairs (pairs : List (String × String)) : List (List Char × List Char) :=
  pairs.map (fun p => (p.1.data, (placeholder p.2).data))

/-- The text of segments each led by a quote. -/
def led : List (List Char) → List Char
  | [] => []
  | s :: rest => '"' :: (s ++ led rest)

/-- One pass of the extraction on the segments after the first quote: a segment equal to
`u` that is closed by a quote becomes `r`, and the segment after it is not examined. -/
def passSegs (u r : List Char) : List (List Char) → List (List Char)
  | [] => []
  | [s] => [s]
  | s :: s1 :: rest =>
    if s = u then r :: s1 :: passSegs u r rest else s :: passSegs u r (s1 :: rest)

/-- Applies `f` to every segment but the last. -/
def mapInit (f : List Char → List Char) : List (List Char) → List (List Char)
  | [] => []
  | [s] => [s]
  | s :: s1 :: rest => f s :: mapInit f (s1 :: rest)

/-- The substitution of a list of pairs: the second component of the first pair whose
first component is `s`, or `s` itself. -/
def subst : List (List Char × List Char) → List Char → List Char
  | [], s => s
  | (u, r) :: rest, s => if s = u then r else subst rest s

/-- No occurrence of the quoted `u` shares a quote with the next one: no two neighbouring
segments, both closed by a quote, are `u`. -/
def OverlapFree (u : List Char) : List (List Char) → Prop
  | s :: s1 :: x :: rest => ¬ (s = u ∧ s1 = u) ∧ OverlapFree u (s1 :: x :: rest)
  | _ => True

/-- The extraction loop on characters: for each pair `(u, r)` in turn, the quoted `u` is
replaced by the quoted `r`. -/
def extractChars (P : List (List Char × List Char)) (t : List Char) : List Char :=
  P.foldl (fun t p => replaceScan ('"' :: (p.1 ++ ['"'])) ('"' :: (p.2 ++ ['"'])) 0 t) t

/-- The resolution loop on characters: for each pair `(u, r)` in turn, `r` is replaced by
`u`. -/
def resolveChars (M : List (List Char × List Char)) (t : List Char) : List Char :=
  M.foldl (fun t m => replaceScan m.2 m.1 0 t) t

/-- What the extraction needs of its pairs `(u, r)` and of the text `t`: no quote in an
identifier `u` or a placeholder `r`, placeholders that are no identifiers, distinct
identifiers, and no occurrence of the quoted `u` sharing a quote with the next. -/
structure Extractable (P : List (List Char × List Char)) (t : List Char) : Prop where
  uq : ∀ p, p ∈ P → '"' ∉ p.1
  rq : ∀ p, p ∈ P → '"' ∉ p.2
  ru : ∀ p, p ∈ P → ∀ p1, p1 ∈ P → p.2 ≠ p1.1
  nodup : (P.map Prod.fst).Nodup
  overlap : ∀ p, p ∈ P → ¬ ('"' :: (p.1 ++ '"' :: (p.1 ++ ['"']))) <:+: t

/-- What the round trip needs on top: placeholders that are not empty and occur neither
in the text nor inside the placeholder of another identifier. -/
structure Hygienic (P : List (List Char × List Char)) (t : List Char) : Prop where
  ext : Extractable P t
  rne : ∀ p, p ∈ P → p.2 ≠ []
  fresh : ∀ p, p ∈ P → ¬ p.2 <:+: t
  apart : ∀ p, p ∈ P → ∀ p1, p1 ∈ P → p.1 ≠ p1.1 → ¬ p.2 <:+: p1.2

/-- Every string of the decoded value `v` stands quoted in the text `W`. -/
def Good (W : List Char) (v : JSON) : Prop :=
  ∀ s, JSON.str s ∈ nodes v → ('"' :: (s.data ++ ['"'])) <:+: W

/-- Two texts that are both empty or both start with a quote. -/
def Tails (ta tb : List Char) : Prop :=
  (ta = [] ∧ tb = []) ∨ ∃ x y, ta = '"' :: x ∧ tb = '"' :: y

/-- The text `b` is the text `a` with the substitution of the pairs `P` applied to every
segment closed by a quote, both read from a position outside the string literals. -/
def Rel (P : List (List Char × List Char)) (a b : List Char) : Prop :=
  ∃ pre l, '"' ∉ pre ∧ (∀ s, s ∈ l → '"' ∉ s) ∧
    a = pre ++ led l ∧ b = pre ++ led (mapInit (subst P) l)

/-- The outcome of a scanner on two texts with the same stretch before their tails: both
fail, or both return the same literal and stop at the same place. -/
def SameScan (ta tb : List Char) (ra rb : Option (List Char × List Char)) : Prop :=
  (ra = none ∧ rb = none) ∨
    ∃ lit pre1, '"' ∉ pre1 ∧ ra = some (lit, pre1 ++ ta) ∧ rb = some (lit, pre1 ++ tb)

/-- The substitution of the pairs `P` on a string. -/
def substS (P : List (List Char × List Char)) (a : String) : String := ⟨subst P a.data⟩

/-- Every placeholder of the pairs is free of quotes and starts with `$`. -/
def Placeholders (P : List (List Char × List Char)) : Prop :=
  ∀ p, p ∈ P → '"' ∉ p.2 ∧ ∃ t, p.2 = '$' :: t

/-- The decoded values `v` of the body and `w` of the template at the same place: what
discovery finds in `w` it finds in `v` and the substitution leaves it alone, a string of
the template is the substituted string of the body, and so is the string under `uid` of an
object of the template. -/
def Sim (P : List (List Char × List Char)) (v w : JSON) : Prop :=
  (∀ x, Found w x → Found v x ∧ substS P x = x) ∧
  (∀ x, w = .str x → ∃ a, v = .str a ∧ substS P a = x) ∧
  (∀ m1 x, w = .obj m1 → mapGet "uid" m1 = some (.str x) →
    ∃ m a, v = .obj m ∧ mapGet "uid" m = some (.str a) ∧ substS P a = x)

/-- Every element decoded from the template has a similar element decoded from the body. -/
def ElemSim (P : List (List Char × List Char)) (acc acc1 : List JSON) : Prop :=
  ∀ e1, e1 ∈ acc1 → ∃ e, e ∈ acc ∧ Sim P e e1

/-- Every member decoded from the template has a similar member decoded from the body,
under the key that the substitution maps to its key. -/
def EntSim (P : List (List Char × List Char)) (acc acc1 : List (String × JSON)) : Prop :=
  ∀ kv1, kv1 ∈ acc1 → ∃ kv, kv ∈ acc ∧ substS P kv.1 = kv1.1 ∧ Sim P kv.2 kv1.2

/-- A text that starts with `$`. -/
def Dollar (b : List Char) : Prop := ∃ t, b = '$' :: t

/-! ## Go text helpers of the interactive commands -/

/-- `unicode.IsSpace`: the white space that `strings.TrimSpace` and `bytes.TrimSpace`
remove. -/
def unicodeIsSpace (c : Char) : Bool :=
  (9 ≤ c.toNat && c.toNat ≤ 13) || c.toNat = 0x20 || c.toNat = 0x85 || c.toNat = 0xA0 ||
  c.toNat = 0x1680 || (0x2000 ≤ c.toNat && c.toNat ≤ 0x200A) || c.toNat = 0x2028 ||
  c.toNat = 0x2029 || c.toNat = 0x202F || c.toNat = 0x205F || c.toNat = 0x3000

/-- `TrimSpace` on characters: the leading and the trailing white space is dropped. -/
def trimSpaceChars (s : List Char) : List Char :=
  ((s.dropWhile unicodeIsSpace).reverse.dropWhile unicodeIsSpace).reverse

/-- `strings.TrimSpace(s)`. -/
def trimSpace (s : String) : String := ⟨trimSpaceChars s.data⟩

/-- `strings.ToLower(s)`. The letters `A`..`Z` are mapped to `a`..`z`; characters outside
ASCII, which Go maps through the Unicode case tables, are left as they are (none of them
is mapped to `y`, the only text the result is compared with). -/
def toLower (s : String) : String := ⟨s.data.map Char.toLower⟩

/-- The value of a run of decimal digits, `none` when a character is no digit. -/
def digitsValue : List Char → Nat → Option Nat
  | [], n => some n
  | c :: cs, n => if isDigit c then digitsValue cs (n * 10 + (c.toNat - 48)) else none

/-- `strconv.Atoi(s)` for a 64-bit `int`: an optional sign and one or more decimal digits,
with an error (`none`) for any other text and for a value out of the range of `int`. -/
def atoi (s : String) : Option Int :=
  match s.data with
  | [] => none
  | c :: cs =>
    let body := if c = '-' ∨ c = '+' then cs else c :: cs
    match body with
    | [] => none
    | _ :: _ =>
      match digitsValue body 0 with
      | none => none
      | some n =>
        if c = '-' then (if n ≤ 2 ^ 63 then some (-(n : Int)) else none)
        else (if n < 2 ^ 63 then some (n : Int) else none)

/-- One `reader.ReadString('\n')` with the error ignored: the next answer, and the empty
text at the end of the input. -/
def readString : List String → String × List String
  | [] => ("", [])
  | s :: rest => (s, rest)

/-! ## Template resolution of `dash create` (`dashCreateCmd`, dashboard.go 462-626) -/

/-- How a command, or a part of it, ends: with a value, with an error returned by `RunE`,
with a run-time panic (a failed type assertion, an assignment to a nil map), or never:
at the end of the input `ReadString` returns the empty text on every call, which the
selection loop rejects, so it prompts forever. -/
inductive Outcome (α : Type) where
  | ok (a : α)
  | failed (err : String)
  | panicked
  | waiting
  deriving DecidableEq

/-- The comma-ok assertion `v, _ := x.(string)`: the string, or `""` for anything else. -/
def asString : Option JSON → String
  | some (.str s) => s
  | _ => ""

/-- The loop of lines 523-529: the positions in the catalog of the data sources whose type
is `pluginID`, in catalog order. -/
def filterByType (availableDS : List DataSource) (pluginID : String) : List Nat :=
  availableDS.enum.foldl
    (fun filtered p => if p.2.Typ = pluginID then filtered ++ [p.1] else filtered) []

/-- The expression `availableDS[filtered[idx-1]].UID` of line 541; `none` is an index out of
range. -/
def selectedUID (availableDS : List DataSource) (filtered : List Nat) (idx : Int) :
    Option String :=
  match filtered[(idx - 1).toNat]? with
  | none => none
  | some i =>
    match availableDS[i]? with
    | none => none
    | some ds => some ds.UID

/-- The selection loop of lines 535-545 on the answers still to be read: the identifier
selected and the answers left unread. -/
def selectLoop (availableDS : List DataSource) (filtered : List Nat) :
    List String → Outcome String × List String
  | [] => (.waiting, [])
  | inputStr :: rest =>
    match atoi (trimSpace inputStr) with
    | none => selectLoop availableDS filtered rest
    | some idx =>
      if 0 < idx ∧ idx ≤ (filtered.length : Int) then
        match selectedUID availableDS filtered idx with
        | some uid => (.ok uid, rest)
        | none => (.panicked, rest)
      else selectLoop availableDS filtered rest

/-- The loop over the declared inputs, lines 512-547: the mapping from input name to
selected identifier, or how the loop ended, and the answers left unread. -/
def resolveInputs (availableDS : List DataSource) :
    List JSON → List String → List (String × String) →
      Outcome (List (String × String)) × List String
  | [], answers, mappings => (.ok mappings, answers)
  | .obj im :: rest, answers, mappings =>
    if asString (mapGet "type" im) = "datasource" then
      if (filterByType availableDS (asString (mapGet "pluginId" im))).length = 0 then
        (.failed ("no datasources found for type " ++ asString (mapGet "pluginId" im)), answers)
      else
        match selectLoop availableDS
            (filterByType availableDS (asString (mapGet "pluginId" im))) answers with
        | (.ok uid, answers1) =>
          resolveInputs availableDS rest answers1
            (mapSet (asString (mapGet "name" im)) uid mappings)
        | (.failed err, answers1) => (.failed err, answers1)
        | (.panicked, answers1) => (.panicked, answers1)
        | (.waiting, answers1) => (.waiting, answers1)
    else resolveInputs availableDS rest answers mappings
  | .null :: _, answers, _ => (.panicked, answers)
  | .bool _ :: _, answers, _ => (.panicked, answers)
  | .num _ :: _, answers, _ => (.panicked, answers)
  | .str _ :: _, answers, _ => (.panicked, answers)
  | .arr _ :: _, answers, _ => (.panicked, answers)

/-- A Go `map[string]interface{}` that may be nil: `none` is the nil map. -/
abbrev GoMap := Option (List (String × JSON))

/-- The assignment `m[k] = v`, which panics on a nil map. -/
def goMapSet (k : String) (v : JSON) : GoMap → Outcome GoMap
  | none => .panicked
  | some kvs => .ok (some (mapSet k v kvs))

/-- What `json.Marshal` writes for a map: `null` for the nil map. -/
def goMapJSON : GoMap → JSON
  | none => .null
  | some kvs => .obj kvs

/-- One override prompt of lines 575-595: the answer, and on `y` the new value of `key`. -/
def promptOverride (key : String) (dashRaw : GoMap) (answers : List String) :
    Outcome GoMap × List String :=
  if toLower (trimSpace (readString answers).1) = "y" then
    (goMapSet key (.str (trimSpace (readString (readString answers).2).1)) dashRaw,
      (readString (readString answers).2).2)
  else (.ok dashRaw, (readString answers).2)

/-- Lines 571-603: the two override prompts, read from a reader of their own, and the
payload of the creation call. -/
def createPayload (dashRaw : GoMap) (answers : List String) : Outcome JSON :=
  match promptOverride "title" dashRaw answers with
  | (.ok dashRaw1, answers1) =>
    match promptOverride "uid" dashRaw1 answers1 with
    | (.ok dashRaw2, _) =>
      .ok (.obj [("dashboard", goMapJSON dashRaw2), ("overwrite", .bool false)])
    | (.failed err, _) => .failed err
    | (.panicked, _) => .panicked
    | (.waiting, _) => .waiting
  | (.failed err, _) => .failed err
  | (.panicked, _) => .panicked
  | (.waiting, _) => .waiting

/-- What one run of `dash create` did: how it ended (`ok` is the creation call issued with
that payload), the text after the substitution loop of lines 555-559 when the run reached
it, and the answers the selection prompts left unread. -/
structure CreateRun where
  result : Outcome JSON
  substituted : Option String
  unread : List String
  deriving DecidableEq

/-- The second `json.Unmarshal` of line 562, into the map that holds the first decoding:
the members of the text are stored over the entries the map has, `null` makes it nil. -/
def unmarshalInto (dashRaw : List (String × JSON)) (jsonStr : String) : Option GoMap :=
  match decode jsonStr with
  | some (.obj kvs) => some (some (kvs.foldl (fun m kv => mapSet kv.1 kv.2 m) dashRaw))
  | some .null => some none
  | _ => none

/-- The command `dash create` from the file read (line 468) to the creation call (line
612), for an active profile and a catalog `availableDS` that was fetched. `jsonError` is the
message of the decoder for a text it rejects, `rangeOrder` the order in which `range`
visits the mapping, `answers` what the selection prompts read and `answers2` what the
override prompts read. -/
def dashCreate (jsonError : String → String)
    (rangeOrder : List (String × String) → List (String × String))
    (data : String) (availableDS : List DataSource) (answers answers2 : List String) :
    CreateRun :=
  match decode data with
  | some (.obj dashRaw) =>
    match mapGet "__inputs" dashRaw with
    | some (.arr (input :: inputs)) =>
      match resolveInputs availableDS (input :: inputs) answers [] with
      | (.ok mappings, unread) =>
        match unmarshalInto dashRaw (substituteMappings data (rangeOrder mappings)) with
        | some (some dashRaw1) =>
          ⟨createPayload (some (mapDelete "__requires" (mapDelete "__inputs" dashRaw1)))
            answers2, some (substituteMappings data (rangeOrder mappings)), unread⟩
        | some none =>
          ⟨createPayload none answers2,
            some (substituteMappings data (rangeOrder mappings)), unread⟩
        | none =>
          ⟨.failed ("failed to re-parse dashboard after mapping: " ++
              jsonError (substituteMappings data (rangeOrder mappings))),
            some (substituteMappings data (rangeOrder mappings)), unread⟩
      | (.failed err, unread) => ⟨.failed err, none, unread⟩
      | (.panicked, unread) => ⟨.panicked, none, unread⟩
      | (.waiting, unread) => ⟨.waiting, none, unread⟩
    | _ => ⟨createPayload (some dashRaw) answers2, none, answers⟩
  | some .null => ⟨createPayload none answers2, none, answers⟩
  | _ => ⟨.failed ("invalid dashboard JSON: " ++ jsonError data), none, answers⟩

/-- The order of `range` over a map is any order of its entries. -/
def RangeOrder (rangeOrder : List (String × String) → List (String × String)) : Prop :=
  ∀ m, (rangeOrder m).Perm m

/-- The inputs the file declares: the elements of a non-empty array `__inputs`. -/
def declaredInputs (data : String) : List JSON :=
  match decode data with
  | some (.obj dashRaw) =>
    match mapGet "__inputs" dashRaw with
    | some (.arr inputs) => inputs
    | _ => []
  | _ => []

/-- The text after an opening `$\x7b` reaches a closing brace before any `$`. -/
def closesBefore : List Char → Bool
  | [] => false
  | c :: cs => if c = '\x7d' then true else if c = '$' then false else closesBefore cs

/-- Every `$\x7b` of the text is closed by a brace before the next `$`: no placeholder
expression is left open, and none starts inside another. -/
def placeholdersClosed : List Char → Bool
  | [] => true
  | [_] => true
  | c :: d :: b =>
    (if c = '$' ∧ d = '\x7b' then closesBefore b else true) && placeholdersClosed (d :: b)

/-- The same, read on the occurrences: after every `$\x7b` comes a stretch without `$` and
without a closing brace, and then a closing brace. -/
def Closed (t : List Char) : Prop :=
  ∀ a b, t = a ++ '$' :: '\x7b' :: b → ∃ x y, b = x ++ '\x7d' :: y ∧ '$' ∉ x ∧ '\x7d' ∉ x

/-! ## The edit session of `dash update` (`dashUpdateCmd`, dashboard.go 361-454) -/

/-- The text written to the temporary file, lines 369-373: the content, after the two
lines of the error annotation and an empty line when `lastError` is set. -/
def tmpFileText (lastError content : String) : String :=
  (if lastError ≠ "" then
    "// ERROR: " ++ lastError ++ "\n" ++ "// Fix the error below and save to retry.\n\n"
  else "") ++ content

/-- `bytes.Split(b, []byte("\n"))`: the texts between the line breaks, one more than there
are line breaks. -/
def splitLines : List Char → List (List Char)
  | [] => [[]]
  | c :: cs =>
    if c = '\n' then [] :: splitLines cs
    else
      match splitLines cs with
      | [] => [[c]]
      | line :: lines => (c :: line) :: lines

/-- `strings.Join(lines, "\n")`. -/
def joinLines : List (List Char) → List Char
  | [] => []
  | [line] => line
  | line :: line1 :: lines => line ++ '\n' :: joinLines (line1 :: lines)

/-- The test of line 400: the trimmed line starts with `//` or with `#`. -/
def isCommentLine (line : List Char) : Bool :=
  ['/', '/'].isPrefixOf (trimSpaceChars line) || ['#'].isPrefixOf (trimSpaceChars line)

/-- The loop of lines 396-404: the lines of the edited text that are no comment lines. -/
def cleanLines (updated : List Char) : List (List Char) :=
  (splitLines updated).foldl
    (fun cleanLines line => if isCommentLine line then cleanLines else cleanLines ++ [line]) []

/-- The text `cleanJSON` of line 405. -/
def cleanJSON (updated : String) : String := ⟨joinLines (cleanLines updated.data)⟩

/-- `json.Unmarshal(text, &dashObj)` for a fresh `var dashObj map[string]interface{}`: the
map of an object, the nil map of `null`, an error for any other text (a text that is no
JSON, a value that is no object, a number past `float64`, a nesting past the limit). -/
def unmarshalNew (text : String) : Option GoMap :=
  match decode text with
  | some (.obj kvs) => some (some kvs)
  | some .null => some none
  | _ => none

/-- The errors that `json.Unmarshal` returns for a map, with the variable parts of their
messages: the syntax errors of the scanner (the end of the text inside a value; a character
where none may stand, `quoted` being `quoteChar(c)` and `context` the place; the nesting
limit), and the `UnmarshalTypeError` of a value that cannot be stored, with the description
of the value and the Go type. -/
inductive UnmarshalError where
  | unexpectedEnd
  | invalidCharacter (quoted context : String)
  | exceededMaxDepth
  | cannotUnmarshal (value typ : String)
  deriving DecidableEq

/-- The method `Error` of these errors: the message. -/
def UnmarshalError.Error : UnmarshalError → String
  | .unexpectedEnd => "unexpected end of JSON input"
  | .invalidCharacter quoted context => "invalid character " ++ quoted ++ " " ++ context
  | .exceededMaxDepth => "exceeded max depth"
  | .cannotUnmarshal value typ =>
    "json: cannot unmarshal " ++ value ++ " into Go value of type " ++ typ

/-- The update payload of lines 420-426. -/
def updatePayload (dashObj : GoMap) (folderUID : String) : JSON :=
  .obj ([("dashboard", goMapJSON dashObj), ("overwrite", .bool true)] ++
    (if folderUID ≠ "" then [("folderUid", .str folderUID)] else []))

/-- What the editor step of a round gives: the text read back from the file, or the error
of a failed step (the temporary file, the editor, the reading back). -/
inductive EditorRun where
  | failed (err : String)
  | saved (updated : String)
  deriving DecidableEq

/-- What the update call gives: a transport error, or a response with its status code,
status line and body. -/
inductive Reply where
  | unreachable (err : String)
  | response (statusCode : Nat) (status : String) (body : String)
  deriving DecidableEq

/-- The collaborators of one round: the editor, from the text written to the file to what
it leaves there, and the server, from the payload of the update call to its reply. -/
structure RoundEnv where
  editor : String → EditorRun
  server : JSON → Reply

/-- How a round ends: the loop goes on with a new `lastError` and `content`, or the command
returns nil, or it returns an error. -/
inductive Next where
  | again (lastError content : String)
  | done
  | error (err : String)
  deriving DecidableEq

/-- One round: the payload of the update call when the round made one, and how the round
ended. -/
structure Round where
  call : Option JSON
  next : Next
  deriving DecidableEq

/-- The second half of an iteration, lines 395-451: the edited text read back is cleaned,
checked and submitted. `jsonError` is the message of the decoder for a text it rejects. -/
def validateAndSubmit (jsonError : String → String) (folderUID : String)
    (server : JSON → Reply) (updated : String) : Round :=
  if trimSpace (cleanJSON updated) = "" then ⟨none, .done⟩
  else
    match unmarshalNew (cleanJSON updated) with
    | none => ⟨none, .again (jsonError (cleanJSON updated)) (cleanJSON updated)⟩
    | some dashObj =>
      match server (updatePayload dashObj folderUID) with
      | .unreachable err => ⟨some (updatePayload dashObj folderUID), .error err⟩
      | .response statusCode status body =>
        if statusCode ≠ 200 then
          ⟨some (updatePayload dashObj folderUID),
            .again (status ++ ": " ++ body) (cleanJSON updated)⟩
        else ⟨some (updatePayload dashObj folderUID), .done⟩

/-- One iteration of the loop of lines 362-452: the file is written, the editor runs, and
what it leaves is validated and submitted. -/
def editRound (jsonError : String → String) (folderUID : String) (env : RoundEnv)
    (lastError content : String) : Round :=
  match env.editor (tmpFileText lastError content) with
  | .failed err => ⟨none, .error err⟩
  | .saved updated => validateAndSubmit jsonError folderUID env.server updated

/-- A session: the update calls made, in order, and how it ended; `again` is the state in
which the session waits when the rounds given are used up. -/
structure Session where
  calls : List JSON
  last : Next
  deriving DecidableEq

/-- The loop of lines 362-452 over the rounds given, from the state `lastError`, `content`
and the calls made so far. -/
def editLoop (jsonError : String → String) (folderUID : String) :
    List RoundEnv → String → String → List JSON → Session
  | [], lastError, content, calls => ⟨calls, .again lastError content⟩
  | env :: rest, lastError, content, calls =>
    match (editRound jsonError folderUID env lastError content).next with
    | .again lastError1 content1 =>
      editLoop jsonError folderUID rest lastError1 content1
        (calls ++ (editRound jsonError folderUID env lastError content).call.toList)
    | .done => ⟨calls ++ (editRound jsonError folderUID env lastError content).call.toList, .done⟩
    | .error err =>
      ⟨calls ++ (editRound jsonError folderUID env lastError content).call.toList, .error err⟩

/-! ## Name resolution of data sources (`internal/datasource/datasource.go`) -/

/-- The struct `DataSource` of the package `datasource`: the numeric id and the name of a
catalog entry. -/
structure datasource.DataSource where
  ID : Int
  Name : String
  deriving DecidableEq

/-- `fmt.Sprintf("%d", id)`. -/
def decimal (id : Int) : String := toString id

/-- The test of line 55: the entry matches by its id in decimal or by its name. -/
def datasource.matches (ds : datasource.DataSource) (idOrName : String) : Bool :=
  decimal ds.ID = idOrName || ds.Name = idOrName

/-- The function `ResolveID` from the catalog decoded at line 50 on (lines 54-60): the id
of the first entry that matches, or the error of line 60. -/
def datasource.ResolveID : List datasource.DataSource → String → Except String Int
  | [], idOrName => .error ("datasource " ++ idOrName ++ " not found")
  | ds :: dss, idOrName =>
    if datasource.matches ds idOrName then .ok ds.ID
    else datasource.ResolveID dss idOrName

instance : DecidableEq (Except String Int) := fun a b =>
  match a, b with
  | .ok x, .ok y => if h : x = y then isTrue (by rw [h]) else isFalse (fun hh => h (by cases hh; rfl))
  | .error x, .error y =>
    if h : x = y then isTrue (by rw [h]) else isFalse (fun hh => h (by cases hh; rfl))
  | .ok _, .error _ => isFalse (fun hh => by cases hh)
  | .error _, .ok _ => isFalse (fun hh => by cases hh)

/-! ## The stored configuration (`internal/config/config.go`) -/

/-- The struct `Profile` of the package `config`. -/
structure config.Profile where
  Name : String
  URL : String
  User : String
  Pass : String
  deriving DecidableEq

/-- The struct `fileConfig`: the active profile name, the active organization and the
profiles by name. -/
structure config.fileConfig where
  Active : String
  ActiveOrg : String
  Profiles : List (String × config.Profile)
  deriving DecidableEq

/-- The configuration file as `load` finds it: missing, unreadable or not parseable (with
the error), or holding a configuration. The configuration held is what `yaml.Unmarshal`
reads from the file; `yaml.Marshal` followed by `yaml.Unmarshal` is taken to give a
configuration back, and the file system to let the file be written. -/
inductive config.Store where
  | missing
  | broken (err : String)
  | holding (cfg : config.fileConfig)
  deriving DecidableEq

/-- The function `load`, lines 37-57: a missing file reads as the empty configuration. -/
def config.load : config.Store → Except String config.fileConfig
  | .missing => .ok ⟨"", "", []⟩
  | .broken err => .error err
  | .holding cfg => .ok cfg

/-- The function `save`, lines 59-69. -/
def config.save (cfg : config.fileConfig) : config.Store := .holding cfg

/-- The function `SaveProfile`, lines 72-79: the error returned, if any, and the stored
configuration afterwards. -/
def config.SaveProfile (p : config.Profile) (st : config.Store) :
    Option String × config.Store :=
  match config.load st with
  | .error err => (some err, st)
  | .ok cfg => (none, config.save { cfg with Profiles := mapSet p.Name p cfg.Profiles })

/-- The function `LoadAll`, lines 81-87. -/
def config.LoadAll (st : config.Store) : Except String (List (String × config.Profile)) :=
  match config.load st with
  | .error err => .error err
  | .ok cfg => .ok cfg.Profiles

/-- The function `SetActive`, lines 89-99: the error returned, if any, and the stored
configuration afterwards. -/
def config.SetActive (name : String) (st : config.Store) : Option String × config.Store :=
  match config.load st with
  | .error err => (some err, st)
  | .ok cfg =>
    match mapGet name cfg.Profiles with
    | none => (some ("profile " ++ name ++ " does not exist"), st)
    | some _ => (none, config.save { cfg with Active := name })

/-- The function `GetActive`, lines 101-114: `ok none` is the nil profile returned without
an error when no profile is active. -/
def config.GetActive (st : config.Store) : Except String (Option config.Profile) :=
  match config.load st with
  | .error err => .error err
  | .ok cfg =>
    if cfg.Active = "" then .ok none
    else
      match mapGet cfg.Active cfg.Profiles with
      | none => .error ("active profile " ++ cfg.Active ++ " not found")
      | some p => .ok (some p)

/-! ## Installing the shell completion (`cmd/completion_install.go`) -/

/-- The path `compFile` of lines 89-94 and 154-155, for a home directory that is a clean
path. -/
def compFile (home shell : String) : String := home ++ "/.gcli/completion/gcli." ++ shell

/-- The sourcing line of lines 119-124. -/
def sourceLine (shell compFile : String) : String :=
  if shell = "zsh" then "[[ -f " ++ compFile ++ " ]] && source " ++ compFile
  else "source " ++ compFile

/-- `strings.Contains(s, sub)`. -/
def containsB (s sub : String) : Bool := decide (contains s sub)

/-- The end of `installForShell`, lines 126-144: the content of the rc file afterwards, from
its content before (`none` when the file does not exist). -/
def installRc (shell compFile : String) (rc : Option String) : String :=
  match rc with
  | none => sourceLine shell compFile ++ "\n"
  | some content =>
    if ¬ containsB content compFile then
      content ++ ("\n# gcli completion\n" ++ sourceLine shell compFile ++ "\n")
    else content

/-- One iteration of the loop of lines 169-179 on the lines kept so far and the flag
`skip`. -/
def uninstallStep (compFile : String) (st : List String × Bool) (line : String) :
    List String × Bool :=
  if containsB line "# gcli completion" then (st.1, true)
  else if st.2 && (containsB line compFile || containsB line ("source " ++ compFile)) then
    (st.1, false)
  else (st.1 ++ [line], st.2)

/-- The end of `uninstallForShell`, lines 166-181: the content of the rc file afterwards. -/
def uninstallRc (compFile content : String) : String :=
  ⟨joinLines ((((splitLines content.data).map String.mk).foldl (uninstallStep compFile)
    ([], false)).1.map String.data)⟩

/-! ## The dashboard against the template -/

/-- The keys of an object node; any other node has none. -/
def keysOf : JSON → List String
  | .obj kvs => mapKeys kvs
  | _ => []

/-- The substitution of the pairs `P` leaves every object key of the value `v` as it is. -/
def KeysFixed (P : List (List Char × List Char)) (v : JSON) : Prop :=
  ∀ n, n ∈ nodes v → ∀ k, k ∈ keysOf n → substS P k = k

/-- The decoded values `v` of the body and `w` of the template at the same place, read
from the body: what discovery finds in `v` and the substitution leaves alone it finds in
`w`, a string of the body has become its substituted string, and so has the string under
`uid` of an object of the body. -/
def Fwd1 (P : List (List Char × List Char)) (v w : JSON) : Prop :=
  (∀ x, Found v x → substS P x = x → Found w x) ∧
  (∀ a, v = .str a → w = .str (substS P a)) ∧
  (∀ m a, v = .obj m → mapGet "uid" m = some (.str a) →
    ∃ m1, w = .obj m1 ∧ mapGet "uid" m1 = some (.str (substS P a)))

/-- The same for a value whose object keys the substitution leaves alone, with the
members of an object of the body found under their keys in the template. -/
def Fwd (P : List (List Char × List Char)) (v w : JSON) : Prop :=
  KeysFixed P v → Fwd1 P v w ∧
    ∀ m, v = .obj m → ∃ m1, w = .obj m1 ∧
      ∀ kv, kv ∈ m → ∃ y1, mapGet kv.1 m1 = some y1 ∧ Fwd1 P kv.2 y1

/-- Every element decoded from the body has its element decoded from the template. -/
def ElemFwd (P : List (List Char × List Char)) (acc acc1 : List JSON) : Prop :=
  ∀ e, e ∈ acc → ∃ e1, e1 ∈ acc1 ∧ Fwd P e e1

/-- Every member decoded from the body has its member decoded from the template under the
same key, when the substitution leaves the keys decoded so far alone. -/
def EntFwd (P : List (List Char × List Char)) (acc acc1 : List (String × JSON)) : Prop :=
  (∀ k, k ∈ mapKeys acc → substS P k = k) →
    ∀ kv, kv ∈ acc → ∃ y1, mapGet kv.1 acc1 = some y1 ∧ Fwd P kv.2 y1

/-! ## Writing JSON text (`json.MarshalIndent`) -/

/-- What the text written by `encoding/json` depends on besides the value. The characters
U+0008 and U+000C of a string are written `\b` and `\f` by the newer releases of Go and
`\u0008` and `\u000c` by the older ones: `shortEscapes` says which. `floatText` gives the
text of a number, which is `strconv.AppendFloat` of the `float64` that its literal was
converted to (format `f`, or `e` below 1e-6 and from 1e21 on), for each literal. -/
structure Encoding where
  shortEscapes : Bool
  floatText : String → String

/-- The hexadecimal digit of a number below 16, in lower case. -/
def hexDigit (n : Nat) : Char := "0123456789abcdef".data.getD n '0'

/-- How `appendString` writes one character of a string, HTML escaping being on (it is for
`json.Marshal` and `json.MarshalIndent`): the quote and the backslash after a backslash,
the short escapes, `\u00XX` for the other control characters and for `<`, `>`, `&`,
`\u2028` and `\u2029` for the line separators U+2028 and U+2029, every other character
as it is. -/
def escapeChar (shortEscapes : Bool) (c : Char) : List Char :=
  if c = '"' then ['\\', '"']
  else if c = '\\' then ['\\', '\\']
  else if c = '\n' then ['\\', 'n']
  else if c = '\r' then ['\\', 'r']
  else if c = '\t' then ['\\', 't']
  else if c.toNat = 8 ∧ shortEscapes = true then ['\\', 'b']
  else if c.toNat = 12 ∧ shortEscapes = true then ['\\', 'f']
  else if c.toNat < 0x20 ∨ c = '<' ∨ c = '>' ∨ c = '&' then
    ['\\', 'u', '0', '0', hexDigit (c.toNat / 16), hexDigit (c.toNat % 16)]
  else if c.toNat = 0x2028 ∨ c.toNat = 0x2029 then
    ['\\', 'u', '2', '0', '2', hexDigit (c.toNat % 16)]
  else [c]

/-- The text of a string between its quotes, as `appendString` writes it. -/
def escapeString (shortEscapes : Bool) (s : String) : List Char :=
  s.data.flatMap (escapeChar shortEscapes)

/-- The order of Go strings, `a < b`: byte by byte on the UTF-8 encoding, which is the
order of the code points, a proper prefix being less. -/
def lessChars : List Char → List Char → Bool
  | _, [] => false
  | [], _ :: _ => true
  | a :: as, b :: bs =>
    if a.toNat < b.toNat then true
    else if b.toNat < a.toNat then false
    else lessChars as bs

/-- Puts a member into a list of members sorted by key, before the first member with a
greater key. -/
def insertField (kv : String × JSON) : List (String × JSON) → List (String × JSON)
  | [] => [kv]
  | kv1 :: rest =>
    if lessChars kv.1.data kv1.1.data then kv :: kv1 :: rest else kv1 :: insertField kv rest

/-- The members of a map in the order in which `encoding/json` writes them: sorted by
key, the keys compared as strings. -/
def sortFields (kvs : List (String × JSON)) : List (String × JSON) :=
  kvs.foldr insertField []

mutual
/-- The value with the members of every object in the order in which they are written. -/
def sortKeys : JSON → JSON
  | .obj kvs => .obj (sortFields (sortKeysFields kvs))
  | .arr xs => .arr (sortKeysElems xs)
  | .null => .null
  | .bool b => .bool b
  | .num n => .num n
  | .str s => .str s
/-- The same for the values of the members of an object. -/
def sortKeysFields : List (String × JSON) → List (String × JSON)
  | [] => []
  | (k, v) :: rest => (k, sortKeys v) :: sortKeysFields rest
/-- The same for the elements of an array. -/
def sortKeysElems : List JSON → List JSON
  | [] => []
  | v :: rest => sortKeys v :: sortKeysElems rest
end

/-- The line break of `json.Indent` with the indent of two blanks: a newline and two
blanks for each open array or object. -/
def newlineIndent (depth : Nat) : List Char := '\n' :: List.replicate (2 * depth) ' '

mutual
/-- The indented text of a value, `depth` arrays and objects being open, its members in
the order given. `key` and `str` write the text between the quotes of an object key and of
a string, `num` the text of a number. An empty array or object is written without a line
break, a member as its key, a colon, a blank and its value, and members and elements are
separated by a comma and a line break. -/
def render (key str num : String → List Char) : Nat → JSON → List Char
  | _, .null => ['n', 'u', 'l', 'l']
  | _, .bool true => ['t', 'r', 'u', 'e']
  | _, .bool false => ['f', 'a', 'l', 's', 'e']
  | _, .num lit => num lit
  | _, .str s => '"' :: (str s ++ ['"'])
  | _, .arr [] => ['[', ']']
  | d, .arr (x :: xs) =>
    '[' :: (newlineIndent (d + 1) ++
      (renderElems key str num (d + 1) (x :: xs) ++ (newlineIndent d ++ [']'])))
  | _, .obj [] => ['\x7b', '\x7d']
  | d, .obj (kv :: kvs) =>
    '\x7b' :: (newlineIndent (d + 1) ++
      (renderFields key str num (d + 1) (kv :: kvs) ++ (newlineIndent d ++ ['\x7d'])))
/-- The elements of an array, each on its line. -/
def renderElems (key str num : String → List Char) : Nat → List JSON → List Char
  | _, [] => []
  | d, [x] => render key str num d x
  | d, x :: y :: rest =>
    render key str num d x ++ ',' :: (newlineIndent d ++ renderElems key str num d (y :: rest))
/-- The members of an object, each on its line. -/
def renderFields (key str num : String → List Char) : Nat → List (String × JSON) → List Char
  | _, [] => []
  | d, [(k, v)] => '"' :: (key k ++ '"' :: ':' :: ' ' :: render key str num d v)
  | d, (k, v) :: kv :: rest =>
    '"' :: (key k ++ '"' :: ':' :: ' ' :: (render key str num d v ++
      ',' :: (newlineIndent d ++ renderFields key str num d (kv :: rest))))
end

/-- `json.MarshalIndent(v, "", "  ")`: the members of every object sorted by key, strings
and keys escaped, the layout of `json.Indent`. -/
def marshalIndent (enc : Encoding) (v : JSON) : String :=
  ⟨render (escapeString enc.shortEscapes) (escapeString enc.shortEscapes)
    (fun lit => (enc.floatText lit).data) 0 (sortKeys v)⟩

/-- Line 232: what `fmt.Println(string(pretty))` writes for the exported template `out`,
the text of the template file. -/
def templateText (enc : Encoding) (out : JSON) : String := marshalIndent enc out ++ "\n"

/-! ## The strings of a value -/

mutual
/-- The value `v` with `g` applied to every string that is a value; the keys of the
objects are left as they are. -/
def mapStrings (g : String → String) : JSON → JSON
  | .obj kvs => .obj (mapStringsFields g kvs)
  | .arr xs => .arr (mapStringsElems g xs)
  | .str s => .str (g s)
  | .null => .null
  | .bool b => .bool b
  | .num n => .num n
/-- The same for the values of the members of an object. -/
def mapStringsFields (g : String → String) : List (String × JSON) → List (String × JSON)
  | [] => []
  | (k, v) :: rest => (k, mapStrings g v) :: mapStringsFields g rest
/-- The same for the elements of an array. -/
def mapStringsElems (g : String → String) : List JSON → List JSON
  | [] => []
  | v :: rest => mapStrings g v :: mapStringsElems g rest
end

/-- The value `w` decoded from the template is the value `v` decoded from the body with
the substitution of the pairs `P` applied to its strings, when the substitution leaves the
object keys of `v` alone. -/
def StrEq (P : List (List Char × List Char)) (v w : JSON) : Prop :=
  KeysFixed P v → w = mapStrings (substS P) v

/-- The members decoded from the body and from the template, one for one: the same key, and
the value of the template following the value of the body. -/
def EntEq (P : List (List Char × List Char)) (acc acc1 : List (String × JSON)) : Prop :=
  (∀ k, k ∈ mapKeys acc → substS P k = k) →
    List.Forall₂ (fun kv kv1 => kv1.1 = kv.1 ∧ StrEq P kv.2 kv1.2) acc acc1

/-- A string that `appendString` writes as it is: none of its characters is escaped. -/
def Unescaped (shortEscapes : Bool) (s : String) : Prop :=
  ∀ c, c ∈ s.data → escapeChar shortEscapes c = [c]

instance (shortEscapes : Bool) (s : String) : Decidable (Unescaped shortEscapes s) := by
  unfold Unescaped; infer_instance

/-- Members with the same keys, written alike: the member `b` written with `K1` and `S1`
has the text of the member `a` written with `K` and `S`. -/
def SameText (K S K1 S1 num : String → List Char) (a b : String × JSON) : Prop :=
  b.1 = a.1 ∧ K1 b.1 = K a.1 ∧ ∀ d, render K1 S1 num d b.2 = render K S num d a.2

/-- A key of some object of the value. -/
def KeyIn (k : String) (v : JSON) : Prop := ∃ n, n ∈ nodes v ∧ k ∈ keysOf n

/-- The state of the export loop with the body text left as it was: the inputs and
requirements of the loop, none of its replacements. -/
def unreplaced (st : ExportState) (raw : String) : ExportState :=
  { inputs := st.inputs, requires := st.requires, pluginMap := st.pluginMap, jsonStr := raw }

/-! # Theorems -/

variable {upper : Char → Char}

/-! ## Discovery: lemmas -/

theorem mem_setAdd (s t : String) (set : List String) :
    t ∈ setAdd s set ↔ t = s ∨ t ∈ set := by
  unfold setAdd
  split
  · constructor
    · intro h; exact Or.inr h
    · rintro (h | h)
      · subst h; assumption
      · exact h
  · simp [List.mem_append, or_comm]

theorem nodup_setAdd (s : String) (set : List String) (h : set.Nodup) :
    (setAdd s set).Nodup := by
  unfold setAdd
  split
  · exact h
  · rename_i hs
    rw [List.nodup_append]
    refine ⟨h, List.nodup_singleton s, ?_⟩
    intro a ha hb
    rw [List.mem_singleton] at hb
    subst hb
    exact hs ha

mutual
theorem discover_mono (s : String) : ∀ (v : JSON) (uids : List String),
    s ∈ uids → s ∈ discoverDatasourceUIDs v uids
  | .obj val, uids, h => by
    rw [discoverDatasourceUIDs]
    apply discoverFields_mono
    dsimp only
    split
    · split
      · exact (mem_setAdd _ _ _).2 (Or.inr h)
      · exact h
    · split
      · split
        · exact (mem_setAdd _ _ _).2 (Or.inr h)
        · exact h
      · exact h
    · exact h
  | .arr val, uids, h => by
    rw [discoverDatasourceUIDs]
    exact discoverElems_mono s val uids h
  | .null, uids, h => by rw [discoverDatasourceUIDs]; exact h
  | .bool _, uids, h => by rw [discoverDatasourceUIDs]; exact h
  | .num _, uids, h => by rw [discoverDatasourceUIDs]; exact h
  | .str _, uids, h => by rw [discoverDatasourceUIDs]; exact h
theorem discoverFields_mono (s : String) : ∀ (kvs : List (String × JSON)) (uids : List String),
    s ∈ uids → s ∈ discoverFields kvs uids
  | [], uids, h => by rw [discoverFields]; exact h
  | (_, v2) :: rest, uids, h => by
    rw [discoverFields]
    exact discoverFields_mono s rest _ (discover_mono s v2 uids h)
theorem discoverElems_mono (s : String) : ∀ (xs : List JSON) (uids : List String),
    s ∈ uids → s ∈ discoverElems xs uids
  | [], uids, h => by rw [discoverElems]; exact h
  | v2 :: rest, uids, h => by
    rw [discoverElems]
    exact discoverElems_mono s rest _ (discover_mono s v2 uids h)
end

mutual
theorem discover_complete_aux (n : JSON) (s : String) (hr : RefersTo n s) (hc : Concrete s) :
    ∀ (v : JSON) (uids : List String), n ∈ nodes v → s ∈ discoverDatasourceUIDs v uids
  | .obj val, uids, h => by
    have hc : s ≠ "" ∧ s ≠ "grafana" ∧ hasPrefix s "$" = false := hc
    rw [nodes, List.mem_cons] at h
    rw [discoverDatasourceUIDs]
    rcases h with h | h
    · apply discoverFields_mono
      obtain ⟨val1, hval, href⟩ := hr
      rw [h] at hval
      cases hval
      rcases href with h1 | ⟨dsv, h1, h2⟩
      · rw [h1]
        dsimp only
        rw [if_pos hc]
        exact (mem_setAdd _ _ _).2 (Or.inl rfl)
      · rw [h1]
        dsimp only
        rw [h2]
        dsimp only
        rw [if_pos hc]
        exact (mem_setAdd _ _ _).2 (Or.inl rfl)
    · exact discoverFields_complete_aux n s hr hc val _ h
  | .arr val, uids, h => by
    rw [nodes, List.mem_cons] at h
    rw [discoverDatasourceUIDs]
    rcases h with h | h
    · obtain ⟨val1, hval, _⟩ := hr
      rw [h] at hval
      cases hval
    · exact discoverElems_complete_aux n s hr hc val uids h
  | .null, uids, h => by
    rw [nodes, List.mem_singleton] at h
    obtain ⟨val1, hval, _⟩ := hr
    rw [h] at hval
    cases hval
  | .bool _, uids, h => by
    rw [nodes, List.mem_singleton] at h
    obtain ⟨val1, hval, _⟩ := hr
    rw [h] at hval
    cases hval
  | .num _, uids, h => by
    rw [nodes, List.mem_singleton] at h
    obtain ⟨val1, hval, _⟩ := hr
    rw [h] at hval
    cases hval
  | .str _, uids, h => by
    rw [nodes, List.mem_singleton] at h
    obtain ⟨val1, hval, _⟩ := hr
    rw [h] at hval
    cases hval
theorem discoverFields_complete_aux (n : JSON) (s : String) (hr : RefersTo n s)
    (hc : Concrete s) : ∀ (kvs : List (String × JSON)) (uids : List String),
    n ∈ nodesFields kvs → s ∈ discoverFields kvs uids
  | [], uids, h => by rw [nodesFields] at h; cases h
  | (_, v2) :: rest, uids, h => by
    rw [nodesFields, List.mem_append] at h
    rw [discoverFields]
    rcases h with h | h
    · exact discoverFields_mono s rest _ (discover_complete_aux n s hr hc v2 uids h)
    · exact discoverFields_complete_aux n s hr hc rest _ h
theorem discoverElems_complete_aux (n : JSON) (s : String) (hr : RefersTo n s)
    (hc : Concrete s) : ∀ (xs : List JSON) (uids : List String),
    n ∈ nodesElems xs → s ∈ discoverElems xs uids
  | [], uids, h => by rw [nodesElems] at h; cases h
  | v2 :: rest, uids, h => by
    rw [nodesElems, List.mem_append] at h
    rw [discoverElems]
    rcases h with h | h
    · exact discoverElems_mono s rest _ (discover_complete_aux n s hr hc v2 uids h)
    · exact discoverElems_complete_aux n s hr hc rest _ h
end

mutual
theorem discover_sound_aux (s : String) : ∀ (v : JSON) (uids : List String),
    s ∈ discoverDatasourceUIDs v uids → s ∈ uids ∨ Found v s
  | .obj val, uids, h => by
    rw [discoverDatasourceUIDs] at h
    rcases discoverFields_sound_aux s val _ h with h1 | ⟨⟨n, hn, hr⟩, hc⟩
    · have self_mem : JSON.obj val ∈ nodes (JSON.obj val) := by
        rw [nodes]; exact List.mem_cons_self _ _
      split at h1
      · rename_i dsv hget
        split at h1
        · rename_i hc
          rcases (mem_setAdd _ _ _).1 h1 with h2 | h2
          · subst h2
            exact Or.inr ⟨⟨_, self_mem, val, rfl, Or.inl hget⟩, hc⟩
          · exact Or.inl h2
        · exact Or.inl h1
      · rename_i dsv hget
        split at h1
        · rename_i uid hget2
          split at h1
          · rename_i hc
            rcases (mem_setAdd _ _ _).1 h1 with h2 | h2
            · subst h2
              exact Or.inr ⟨⟨_, self_mem, val, rfl, Or.inr ⟨dsv, hget, hget2⟩⟩, hc⟩
            · exact Or.inl h2
          · exact Or.inl h1
        · exact Or.inl h1
      · exact Or.inl h1
    · refine Or.inr ⟨⟨n, ?_, hr⟩, hc⟩
      rw [nodes]
      exact List.mem_cons_of_mem _ hn
  | .arr val, uids, h => by
    rw [discoverDatasourceUIDs] at h
    rcases discoverElems_sound_aux s val uids h with h1 | ⟨⟨n, hn, hr⟩, hc⟩
    · exact Or.inl h1
    · refine Or.inr ⟨⟨n, ?_, hr⟩, hc⟩
      rw [nodes]
      exact List.mem_cons_of_mem _ hn
  | .null, uids, h => by rw [discoverDatasourceUIDs] at h; exact Or.inl h
  | .bool _, uids, h => by rw [discoverDatasourceUIDs] at h; exact Or.inl h
  | .num _, uids, h => by rw [discoverDatasourceUIDs] at h; exact Or.inl h
  | .str _, uids, h => by rw [discoverDatasourceUIDs] at h; exact Or.inl h
theorem discoverFields_sound_aux (s : String) : ∀ (kvs : List (String × JSON))
    (uids : List String), s ∈ discoverFields kvs uids →
    s ∈ uids ∨ ((∃ n, n ∈ nodesFields kvs ∧ RefersTo n s) ∧ Concrete s)
  | [], uids, h => by rw [discoverFields] at h; exact Or.inl h
  | (_, v2) :: rest, uids, h => by
    rw [discoverFields] at h
    rcases discoverFields_sound_aux s rest _ h with h1 | ⟨⟨n, hn, hr⟩, hc⟩
    · rcases discover_sound_aux s v2 uids h1 with h2 | ⟨⟨n, hn, hr⟩, hc⟩
      · exact Or.inl h2
      · refine Or.inr ⟨⟨n, ?_, hr⟩, hc⟩
        rw [nodesFields]
        exact List.mem_append_left _ hn
    · refine Or.inr ⟨⟨n, ?_, hr⟩, hc⟩
      rw [nodesFields]
      exact List.mem_append_right _ hn
theorem discoverElems_sound_aux (s : String) : ∀ (xs : List JSON)
    (uids : List String), s ∈ discoverElems xs uids →
    s ∈ uids ∨ ((∃ n, n ∈ nodesElems xs ∧ RefersTo n s) ∧ Concrete s)
  | [], uids, h => by rw [discoverElems] at h; exact Or.inl h
  | v2 :: rest, uids, h => by
    rw [discoverElems] at h
    rcases discoverElems_sound_aux s rest _ h with h1 | ⟨⟨n, hn, hr⟩, hc⟩
    · rcases discover_sound_aux s v2 uids h1 with h2 | ⟨⟨n, hn, hr⟩, hc⟩
      · exact Or.inl h2
      · refine Or.inr ⟨⟨n, ?_, hr⟩, hc⟩
        rw [nodesElems]
        exact List.mem_append_left _ hn
    · refine Or.inr ⟨⟨n, ?_, hr⟩, hc⟩
      rw [nodesElems]
      exact List.mem_append_right _ hn
end

mutual
theorem discover_nodup : ∀ (v : JSON) (uids : List String),
    uids.Nodup → (discoverDatasourceUIDs v uids).Nodup
  | .obj val, uids, h => by
    rw [discoverDatasourceUIDs]
    apply discoverFields_nodup
    split
    · split
      · exact nodup_setAdd _ _ h
      · exact h
    · split
      · split
        · exact nodup_setAdd _ _ h
        · exact h
      · exact h
    · exact h
  | .arr val, uids, h => by
    rw [discoverDatasourceUIDs]
    exact discoverElems_nodup val uids h
  | .null, uids, h => by rw [discoverDatasourceUIDs]; exact h
  | .bool _, uids, h => by rw [discoverDatasourceUIDs]; exact h
  | .num _, uids, h => by rw [discoverDatasourceUIDs]; exact h
  | .str _, uids, h => by rw [discoverDatasourceUIDs]; exact h
theorem discoverFields_nodup : ∀ (kvs : List (String × JSON)) (uids : List String),
    uids.Nodup → (discoverFields kvs uids).Nodup
  | [], uids, h => by rw [discoverFields]; exact h
  | (_, v2) :: rest, uids, h => by
    rw [discoverFields]
    exact discoverFields_nodup rest _ (discover_nodup v2 uids h)
theorem discoverElems_nodup : ∀ (xs : List JSON) (uids : List String),
    uids.Nodup → (discoverElems xs uids).Nodup
  | [], uids, h => by rw [discoverElems]; exact h
  | v2 :: rest, uids, h => by
    rw [discoverElems]
    exact discoverElems_nodup rest _ (discover_nodup v2 uids h)
end

theorem usedUIDs_nodup (raw : String) : (usedUIDs raw).Nodup := by
  unfold usedUIDs
  split
  · exact discover_nodup _ _ List.nodup_nil
  · exact List.nodup_nil

theorem IterationOrder.nodup {raw : String} {order : List String}
    (h : IterationOrder raw order) : order.Nodup :=
  (List.Perm.nodup_iff h).2 (usedUIDs_nodup raw)

/-! ## Discovery: the claims -/

/-- C1 (discovery completeness): for every JSON value `d` and every object node `n`
reachable in `d` through any nesting of objects and arrays, if the `datasource` field of
`n` is a string `s`, or an object whose `uid` field is a string `s`, and `s` is not empty,
not `grafana` and does not begin with `$`, then `s` is in the set produced by
`discoverDatasourceUIDs d` from the empty set. -/
theorem discovery_complete (d n : JSON) (s : String)
    (hn : n ∈ nodes d) (hr : RefersTo n s) (hc : Concrete s) :
    s ∈ discoverDatasourceUIDs d [] :=
  discover_complete_aux n s hr hc d [] hn

theorem discovery_complete_witness :
    JSON.obj [("datasource", .obj [("uid", .str "abc")])] ∈
        nodes (.obj [("panels", .arr [.obj [("targets", .arr
          [.obj [("datasource", .obj [("uid", .str "abc")])]])]])]) ∧
      "abc" ∈ discoverDatasourceUIDs (.obj [("panels", .arr [.obj [("targets", .arr
          [.obj [("datasource", .obj [("uid", .str "abc")])]])]])]) [] :=
  ⟨by decide,
    discovery_complete _ (.obj [("datasource", .obj [("uid", .str "abc")])]) "abc"
      (by decide) ⟨_, rfl, Or.inr ⟨[("uid", .str "abc")], by decide, by decide⟩⟩ (by decide)⟩

/-- C2 (discovery soundness and exclusion): for every JSON value `d`, every identifier in
the set produced by `discoverDatasourceUIDs d` from the empty set is the string value of a
`datasource` field, or the string `uid` of an object-valued `datasource` field, of some
object node of `d`; and it is never empty, `grafana`, or a string beginning with `$`. -/
theorem discovery_sound (d : JSON) (s : String) (h : s ∈ discoverDatasourceUIDs d []) :
    (∃ n, n ∈ nodes d ∧ RefersTo n s) ∧
      s ≠ "" ∧ s ≠ "grafana" ∧ hasPrefix s "$" = false := by
  rcases discover_sound_aux s d [] h with h1 | h1
  · cases h1
  · exact h1

theorem discovery_sound_witness :
    "uid-123" ∈ discoverDatasourceUIDs
        (.obj [("panels", .arr [.obj [("datasource", .str "uid-123")],
          .obj [("datasource", .str "$ds")], .obj [("datasource", .str "grafana")]])]) [] ∧
      ((∃ n, n ∈ nodes (.obj [("panels", .arr [.obj [("datasource", .str "uid-123")],
          .obj [("datasource", .str "$ds")], .obj [("datasource", .str "grafana")]])]) ∧
          RefersTo n "uid-123") ∧
        "uid-123" ≠ "" ∧ "uid-123" ≠ "grafana" ∧ hasPrefix "uid-123" "$" = false) :=
  ⟨by decide, discovery_sound _ "uid-123" (by decide)⟩

/-! ## Go maps: lemmas -/

theorem mapGet_mapSet {α : Type} (k k1 : String) (v : α) (m : List (String × α)) :
    mapGet k (mapSet k1 v m) = if k1 = k then some v else mapGet k m := by
  induction m with
  | nil => simp [mapSet, mapGet]
  | cons kv rest ih =>
    obtain ⟨k2, v2⟩ := kv
    by_cases h21 : k2 = k1
    · subst h21
      by_cases h2 : k2 = k <;> simp [mapSet, mapGet, h2]
    · by_cases h2 : k2 = k
      · subst h2
        simp [mapSet, mapGet, h21, Ne.symm h21]
      · simp [mapSet, mapGet, h21, h2, ih]

theorem mapGet_mapDelete {α : Type} (k k1 : String) (m : List (String × α)) :
    mapGet k (mapDelete k1 m) = if k = k1 then none else mapGet k m := by
  induction m with
  | nil => simp [mapDelete, mapGet]
  | cons kv rest ih =>
    obtain ⟨k2, v2⟩ := kv
    unfold mapDelete at ih ⊢
    by_cases h21 : k2 = k1
    · subst h21
      by_cases h2 : k = k2
      · subst h2; simpa [List.filter, mapGet] using ih
      · simp only [List.filter, ne_eq, not_true_eq_false, decide_False, ih, h2, if_false]
        simp [mapGet, Ne.symm h2]
    · by_cases h2 : k = k1
      · subst h2
        simp only [List.filter, ne_eq, h21, not_false_eq_true, decide_True, mapGet, if_true,
          if_false]
        simpa using ih
      · simp only [List.filter, ne_eq, h21, not_false_eq_true, decide_True, mapGet, h2,
          if_false]
        rw [ih, if_neg h2]

theorem mapGet_eq_none_iff {α : Type} (k : String) (m : List (String × α)) :
    mapGet k m = none ↔ k ∉ mapKeys m := by
  induction m with
  | nil => simp [mapGet, mapKeys]
  | cons kv rest ih =>
    obtain ⟨k2, v2⟩ := kv
    by_cases h2 : k2 = k
    · subst h2; simp [mapGet, mapKeys]
    · simp only [mapGet, if_neg h2, ih, mapKeys, List.map_cons, List.mem_cons]
      constructor
      · rintro h (h3 | h3)
        · exact h2 h3.symm
        · exact h h3
      · intro h h3
        exact h (Or.inr h3)

theorem mapKeys_mapSet {α : Type} (k : String) (v : α) (m : List (String × α)) (t : String) :
    t ∈ mapKeys (mapSet k v m) ↔ t = k ∨ t ∈ mapKeys m := by
  induction m with
  | nil => simp [mapSet, mapKeys]
  | cons kv rest ih =>
    obtain ⟨k2, v2⟩ := kv
    by_cases h2 : k2 = k
    · subst h2; simp [mapSet, mapKeys]
    · simp only [mapKeys] at ih
      simp only [mapSet, if_neg h2, mapKeys, List.map_cons, List.mem_cons, ih]
      tauto

theorem nodup_mapSet {α : Type} (k : String) (v : α) (m : List (String × α))
    (h : (mapKeys m).Nodup) : (mapKeys (mapSet k v m)).Nodup := by
  induction m with
  | nil => simp [mapSet, mapKeys]
  | cons kv rest ih =>
    obtain ⟨k2, v2⟩ := kv
    simp only [mapKeys, List.map_cons, List.nodup_cons] at h
    by_cases h2 : k2 = k
    · subst h2
      simpa [mapSet, mapKeys] using h
    · simp only [mapSet, if_neg h2, mapKeys, List.map_cons, List.nodup_cons]
      refine ⟨?_, ih h.2⟩
      intro hmem
      rcases (mapKeys_mapSet k v rest k2).1 hmem with h3 | h3
      · exact h2 h3
      · exact h.1 h3

theorem nodup_mapDelete {α : Type} (k : String) (m : List (String × α))
    (h : (mapKeys m).Nodup) : (mapKeys (mapDelete k m)).Nodup := by
  unfold mapKeys mapDelete
  exact List.Nodup.sublist (List.Sublist.map _ (List.filter_sublist m)) h

/-- Assigning the entries of a map with distinct keys on top of `base`: an entry of the
map wins over the entry of `base` with its key. -/
theorem mapGet_foldl_mapSet (k : String) : ∀ (kvs base : List (String × JSON)),
    (mapKeys kvs).Nodup →
    mapGet k (kvs.foldl (fun out kv => mapSet kv.1 kv.2 out) base) =
      match mapGet k kvs with
      | some v => some v
      | none => mapGet k base
  | [], base, _ => by simp [mapGet]
  | (k1, v1) :: rest, base, h => by
    simp only [mapKeys, List.map_cons, List.nodup_cons] at h
    rw [List.foldl_cons, mapGet_foldl_mapSet k rest _ h.2]
    by_cases h1 : k1 = k
    · subst h1
      have hnone : mapGet k1 rest = none := (mapGet_eq_none_iff k1 rest).2 h.1
      simp [hnone, mapGet, mapGet_mapSet]
    · simp only [mapGet, if_neg h1, mapGet_mapSet]

/-! ## The decoder: the keys of a decoded object are distinct -/

theorem numberValue_cases (md : Bool) (lit : List Char) (v : JSON)
    (h : numberValue md lit = some v) : v = .num ⟨lit⟩ ∨ v = .null := by
  unfold numberValue at h
  split at h
  · split at h
    · simp only [Option.some.injEq] at h
      exact Or.inr h.symm
    · cases h
  · simp only [Option.some.injEq] at h
    exact Or.inl h.symm

theorem decodeMembers_nodup {md : Bool} {dp : Nat} :
    ∀ (fuel : Nat) (acc : List (String × JSON)) (input : List Char)
    (v : JSON) (r : List Char), (mapKeys acc).Nodup →
    decodeMembers md dp fuel acc input = some (v, r) →
    ∃ kvs, v = .obj kvs ∧ (mapKeys kvs).Nodup
  | 0, acc, input, v, r, _, h => by
    rw [decodeMembers] at h
    cases h
  | fuel + 1, acc, input, v, r, hacc, h => by
    rw [decodeMembers] at h
    split at h
    · cases h
    · split at h
      · split at h
        · cases h
        · split at h
          · cases h
          · split at h
            · split at h
              · cases h
              · split at h
                · cases h
                · split at h
                  · exact decodeMembers_nodup fuel _ _ v r (nodup_mapSet _ _ _ hacc) h
                  · split at h
                    · simp only [Option.some.injEq, Prod.mk.injEq] at h
                      exact ⟨_, h.1.symm, nodup_mapSet _ _ _ hacc⟩
                    · cases h
            · cases h
      · cases h

theorem decodeElems_arr {md : Bool} {dp : Nat} :
    ∀ (fuel : Nat) (acc : List JSON) (input : List Char)
    (v : JSON) (r : List Char), decodeElems md dp fuel acc input = some (v, r) →
    ∃ xs, v = .arr xs
  | 0, acc, input, v, r, h => by
    rw [decodeElems] at h
    cases h
  | fuel + 1, acc, input, v, r, h => by
    rw [decodeElems] at h
    split at h
    · cases h
    · split at h
      · cases h
      · split at h
        · exact decodeElems_arr fuel _ _ v r h
        · split at h
          · simp only [Option.some.injEq, Prod.mk.injEq] at h
            exact ⟨_, h.1.symm⟩
          · cases h

theorem decodeValue_obj_nodup {md : Bool} {dp : Nat} (fuel : Nat) (input : List Char)
    (kvs : List (String × JSON))
    (r : List Char) (h : decodeValue md dp fuel input = some (.obj kvs, r)) :
    (mapKeys kvs).Nodup := by
  cases fuel with
  | zero => rw [decodeValue] at h; cases h
  | succ fuel =>
    rw [decodeValue] at h
    split at h
    · cases h
    · split at h
      · split at h <;> cases h
      · split at h
        · split at h
          · split at h
            · cases h
            · split at h
              · cases h
              · obtain ⟨xs, hxs⟩ := decodeElems_arr _ _ _ _ _ h
                cases hxs
          · cases h
        · split at h
          · split at h
            · split at h
              · cases h
              · split at h
                · simp only [Option.some.injEq, Prod.mk.injEq] at h
                  cases h.1
                  simp [mapKeys]
                · obtain ⟨kvs1, h1, h2⟩ := decodeMembers_nodup _ _ _ _ _ (by simp [mapKeys]) h
                  cases h1
                  exact h2
            · cases h
          · split at h
            · split at h <;> cases h
            · split at h
              · split at h <;> cases h
              · split at h
                · split at h <;> cases h
                · split at h
                  · split at h
                    · rename_i hnum
                      simp only [Option.some.injEq, Prod.mk.injEq] at h
                      rw [h.1] at hnum
                      rcases numberValue_cases _ _ _ hnum with h1 | h1 <;> cases h1
                    · cases h
                  · cases h

theorem numberValue_lenient (lit : List Char) (v : JSON)
    (h : numberValue false lit = some v) : numberValue true lit = some v := by
  unfold numberValue at h ⊢
  split at h
  · cases h
  · rename_i ho
    rw [if_neg ho]
    exact h

mutual
/-- What the strict decoder reads, the lenient decoder reads as well. -/
theorem decodeValue_lenient : ∀ (dp fuel : Nat) (input : List Char) (v : JSON)
    (r : List Char), decodeValue false dp fuel input = some (v, r) →
    decodeValue true dp fuel input = some (v, r)
  | dp, 0, input, v, r, h => by
    rw [decodeValue] at h
    cases h
  | dp, fuel + 1, input, v, r, h => by
    rw [decodeValue] at h ⊢
    cases hsw : skipWs input with
    | nil => rw [hsw] at h; cases h
    | cons c r0 =>
      rw [hsw] at h
      dsimp only at h ⊢
      by_cases hq : c = '"'
      · rw [if_pos hq] at h ⊢
        exact h
      · rw [if_neg hq] at h ⊢
        by_cases hbr : c = '['
        · rw [if_pos hbr] at h ⊢
          by_cases hdp : dp < maxNestingDepth
          · rw [if_pos hdp] at h ⊢
            cases hsw1 : skipWs r0 with
            | nil => rw [hsw1] at h; cases h
            | cons c1 r1 =>
              rw [hsw1] at h
              dsimp only at h ⊢
              by_cases hc1 : c1 = ']'
              · rw [if_pos hc1] at h ⊢
                exact h
              · rw [if_neg hc1] at h ⊢
                exact decodeElems_lenient (dp + 1) fuel [] _ v r h
          · rw [if_neg hdp] at h
            cases h
        · rw [if_neg hbr] at h ⊢
          by_cases hbc : c = '\x7b'
          · rw [if_pos hbc] at h ⊢
            by_cases hdp : dp < maxNestingDepth
            · rw [if_pos hdp] at h ⊢
              cases hsw1 : skipWs r0 with
              | nil => rw [hsw1] at h; cases h
              | cons c1 r1 =>
                rw [hsw1] at h
                dsimp only at h ⊢
                by_cases hc1 : c1 = '\x7d'
                · rw [if_pos hc1] at h ⊢
                  exact h
                · rw [if_neg hc1] at h ⊢
                  exact decodeMembers_lenient (dp + 1) fuel [] _ v r h
            · rw [if_neg hdp] at h
              cases h
          · rw [if_neg hbc] at h ⊢
            by_cases ht : c = 't'
            · rw [if_pos ht] at h ⊢
              exact h
            · rw [if_neg ht] at h ⊢
              by_cases hf : c = 'f'
              · rw [if_pos hf] at h ⊢
                exact h
              · rw [if_neg hf] at h ⊢
                by_cases hn : c = 'n'
                · rw [if_pos hn] at h ⊢
                  exact h
                · rw [if_neg hn] at h ⊢
                  cases hnum : scanNumber (c :: r0) with
                  | none => rw [hnum] at h; cases h
                  | some p =>
                    obtain ⟨lit, r2⟩ := p
                    rw [hnum] at h
                    dsimp only at h ⊢
                    cases hnv : numberValue false lit with
                    | none => rw [hnv] at h; cases h
                    | some x =>
                      rw [hnv] at h
                      rw [numberValue_lenient lit x hnv]
                      exact h
theorem decodeElems_lenient : ∀ (dp fuel : Nat) (acc : List JSON) (input : List Char)
    (v : JSON) (r : List Char), decodeElems false dp fuel acc input = some (v, r) →
    decodeElems true dp fuel acc input = some (v, r)
  | dp, 0, acc, input, v, r, h => by
    rw [decodeElems] at h
    cases h
  | dp, fuel + 1, acc, input, v, r, h => by
    rw [decodeElems] at h ⊢
    cases hv : decodeValue false dp fuel input with
    | none => rw [hv] at h; cases h
    | some p =>
      obtain ⟨x, r1⟩ := p
      rw [hv] at h
      rw [decodeValue_lenient dp fuel input x r1 hv]
      dsimp only at h ⊢
      cases hsw : skipWs r1 with
      | nil => rw [hsw] at h; cases h
      | cons c r2 =>
        rw [hsw] at h
        dsimp only at h ⊢
        by_cases hc : c = ','
        · rw [if_pos hc] at h ⊢
          exact decodeElems_lenient dp fuel _ _ v r h
        · rw [if_neg hc] at h ⊢
          exact h
theorem decodeMembers_lenient : ∀ (dp fuel : Nat) (acc : List (String × JSON))
    (input : List Char) (v : JSON) (r : List Char),
    decodeMembers false dp fuel acc input = some (v, r) →
    decodeMembers true dp fuel acc input = some (v, r)
  | dp, 0, acc, input, v, r, h => by
    rw [decodeMembers] at h
    cases h
  | dp, fuel + 1, acc, input, v, r, h => by
    rw [decodeMembers] at h ⊢
    cases hsw : skipWs input with
    | nil => rw [hsw] at h; cases h
    | cons q r0 =>
      rw [hsw] at h
      dsimp only at h ⊢
      by_cases hq : q = '"'
      · rw [if_pos hq] at h ⊢
        cases hss : scanString none [] r0 with
        | none => rw [hss] at h; cases h
        | some p =>
          obtain ⟨k, r1⟩ := p
          rw [hss] at h
          dsimp only at h ⊢
          cases hsw1 : skipWs r1 with
          | nil => rw [hsw1] at h; cases h
          | cons c r2 =>
            rw [hsw1] at h
            dsimp only at h ⊢
            by_cases hc : c = ':'
            · rw [if_pos hc] at h ⊢
              cases hv : decodeValue false dp fuel r2 with
              | none => rw [hv] at h; cases h
              | some p2 =>
                obtain ⟨x, r3⟩ := p2
                rw [hv] at h
                rw [decodeValue_lenient dp fuel r2 x r3 hv]
                dsimp only at h ⊢
                cases hsw3 : skipWs r3 with
                | nil => rw [hsw3] at h; cases h
                | cons c1 r4 =>
                  rw [hsw3] at h
                  dsimp only at h ⊢
                  by_cases hc1 : c1 = ','
                  · rw [if_pos hc1] at h ⊢
                    exact decodeMembers_lenient dp fuel _ _ v r h
                  · rw [if_neg hc1] at h ⊢
                    exact h
            · rw [if_neg hc] at h
              cases h
      · rw [if_neg hq] at h
        cases h
end

theorem decodeWith_lenient (text : String) (v : JSON) (h : decodeWith false text = some v) :
    decodeWith true text = some v := by
  unfold decodeWith at h ⊢
  cases hv : decodeValue false 0 (2 * text.data.length + 2) text.data with
  | none => rw [hv] at h; cases h
  | some p =>
    obtain ⟨x, r⟩ := p
    rw [hv] at h
    rw [decodeValue_lenient 0 _ _ x r hv]
    exact h

/-- When `json.Unmarshal` returns no error, the map it leaves is the map it returns. -/
theorem unmarshalIgnored_of_unmarshalObject (text : String) (kvs : List (String × JSON))
    (h : unmarshalObject text = some kvs) : unmarshalIgnored text = kvs := by
  unfold unmarshalObject decode at h
  unfold unmarshalIgnored
  cases hd : decodeWith false text with
  | none => rw [hd] at h; cases h
  | some v =>
    rw [hd] at h
    rw [decodeWith_lenient text v hd]
    cases v with
    | obj m =>
      simp only [Option.some.injEq] at h
      exact h
    | null =>
      simp only [Option.some.injEq] at h
      exact h
    | bool b => cases h
    | num n => cases h
    | str s => cases h
    | arr xs => cases h

theorem decodeWith_obj_nodup (md : Bool) (text : String) (kvs : List (String × JSON))
    (hd : decodeWith md text = some (.obj kvs)) : (mapKeys kvs).Nodup := by
  unfold decodeWith at hd
  split at hd
  · rename_i v r hv
    split at hd
    · simp only [Option.some.injEq] at hd
      subst hd
      exact decodeValue_obj_nodup _ _ _ _ hv
    · cases hd
  · cases hd

theorem unmarshalObject_nodup (text : String) (kvs : List (String × JSON))
    (h : unmarshalObject text = some kvs) : (mapKeys kvs).Nodup := by
  unfold unmarshalObject at h
  split at h
  · rename_i kvs1 hd
    simp only [Option.some.injEq] at h
    subst h
    exact decodeWith_obj_nodup false text _ hd
  · simp only [Option.some.injEq] at h
    subst h
    simp [mapKeys]
  · cases h

theorem unmarshalIgnored_nodup (text : String) : (mapKeys (unmarshalIgnored text)).Nodup := by
  unfold unmarshalIgnored
  split
  · rename_i kvs hd
    exact decodeWith_obj_nodup true text _ hd
  · simp [mapKeys]

/-! ## Input names -/

theorem toUpper_eq_space (c : Char) : c.toUpper = ' ' ↔ c = ' ' := by
  constructor
  · intro h
    by_cases hr : c.toNat ≥ 97 ∧ c.toNat ≤ 122
    · exfalso
      have h1 : Char.ofNat (c.toNat - 32) = ' ' := by
        have h0 : c.toUpper = Char.ofNat (c.toNat - 32) := by
          unfold Char.toUpper
          exact if_pos hr
        rw [← h0]; exact h
      obtain ⟨h2, h3⟩ := hr
      generalize c.toNat = n at h1 h2 h3
      interval_cases n <;> revert h1 <;> decide
    · have h0 : c.toUpper = c := by
        unfold Char.toUpper
        exact if_neg hr
      rw [← h0]; exact h
  · intro h; subst h; decide

theorem replaceScan_single (a b : Char) (s : List Char) :
    replaceScan [a] [b] 0 s = s.map (fun c => if c = a then b else c) := by
  induction s with
  | nil => rfl
  | cons c cs ih =>
    rw [replaceScan]
    by_cases h : c = a
    · subst h
      simp [ih]
    · have hp : ([a].isPrefixOf (c :: cs)) = false := by
        simp [List.isPrefixOf, Ne.symm h]
      simp [hp, ih, h]

theorem unicodeToUpper_ascii (upper : Char → Char) (c : Char) (h : c.toNat ≤ 0x7F) :
    unicodeToUpper upper c = c.toUpper := by
  unfold unicodeToUpper
  exact if_pos h

theorem unicodeToUpper_eq_space (upper : Char → Char)
    (hsp : ∀ c : Char, 0x7F < c.toNat → upper c ≠ ' ') (c : Char) :
    unicodeToUpper upper c = ' ' ↔ c = ' ' := by
  unfold unicodeToUpper
  by_cases h : c.toNat ≤ 0x7F
  · rw [if_pos h]; exact toUpper_eq_space c
  · rw [if_neg h]
    constructor
    · intro h1; exact absurd h1 (hsp c (by omega))
    · intro h1; subst h1; exact absurd (by decide) h

theorem latin1Upper_ne_space (c : Char) (h : 0x7F < c.toNat) : latin1Upper c ≠ ' ' := by
  have hc : ∀ n : Nat, Char.ofNat n = ' ' → n = 32 ∨ ¬ n.isValidChar := by
    intro n hn
    by_cases hv : n.isValidChar
    · left
      have h1 : (Char.ofNat n).toNat = n := by
        unfold Char.ofNat
        rw [dif_pos hv]
        rfl
      rw [hn] at h1
      exact h1.symm
    · exact Or.inr hv
  unfold latin1Upper
  split
  · rename_i h1
    intro h2
    rcases hc _ h2 with h3 | h3
    · omega
    · exact h3 (Or.inl (by omega))
  · split
    · decide
    · split
      · decide
      · intro h2
        rw [h2] at h
        revert h
        decide

/-- C6 as the code has it (input-name derivation): for every display name `n`, the
derived input name is `DS_` followed by `n` with each `-` and each blank replaced by one
`_` and every other character replaced by its upper case, which is that of
`unicode.ToUpper`: `A`..`Z` for `a`..`z`, the entry of the case table `upper` outside ASCII
(no rune has the blank as its upper case). Runs are not collapsed and other non-alphanumeric
characters are kept. -/
theorem varName_eq (upper : Char → Char)
    (hsp : ∀ c : Char, 0x7F < c.toNat → upper c ≠ ' ') (n : String) :
    varName upper n =
      "DS_" ++
        ⟨n.data.map (fun c => if c = '-' ∨ c = ' ' then '_' else unicodeToUpper upper c)⟩ := by
  apply String.ext
  have h1 : "-".data = ['-'] := rfl
  have h2 : "_".data = ['_'] := rfl
  have h3 : " ".data = [' '] := rfl
  have h4 : "DS_".data = ['D', 'S', '_'] := rfl
  simp only [varName, replaceAll, replaceAllChars, toUpper, String.data_append, h1, h2, h3,
    h4, replaceScan_single, List.map_append, List.map_map]
  congr 1
  apply List.map_congr_left
  intro c _
  simp only [Function.comp]
  by_cases hd : c = '-'
  · subst hd
    have hu : unicodeToUpper upper '_' = '_' := rfl
    simp [hu]
  · by_cases hs : c = ' '
    · subst hs
      have hu : unicodeToUpper upper ' ' = ' ' := rfl
      simp [hu]
    · have hu : ¬ unicodeToUpper upper c = ' ' :=
        fun h => hs ((unicodeToUpper_eq_space upper hsp c).1 h)
      simp [hd, hs, hu]

/-- The derivation of C6 on a name with a letter outside ASCII, with a run of separators
and a bracket: `é` is uppercased by the table. -/
theorem varName_eq_witness :
    (∀ c : Char, 0x7F < c.toNat → latin1Upper c ≠ ' ') ∧
      varName latin1Upper "café - (eu)" =
        "DS_" ++ ⟨"café - (eu)".data.map
          (fun c => if c = '-' ∨ c = ' ' then '_' else unicodeToUpper latin1Upper c)⟩ :=
  ⟨latin1Upper_ne_space, varName_eq latin1Upper latin1Upper_ne_space "café - (eu)"⟩

/-- Names that differ only in the case of a letter outside ASCII derive the same input
name: `strings.ToUpper` maps `é` to `É`. -/
theorem varName_latin1 :
    varName latin1Upper "café" = "DS_CAFÉ" ∧
      varName latin1Upper "é" = varName latin1Upper "É" := by
  decide

/-- C6 as stated fails: a run of three separators yields three `_`, and brackets are
kept, where the specification collapses both to one `_`. -/
theorem varName_not_collapsed :
    varName latin1Upper "Prometheus - EU" = "DS_PROMETHEUS___EU" ∧
      specInputName latin1Upper "Prometheus - EU" = "DS_PROMETHEUS_EU" ∧
      varName latin1Upper "Prom (EU)" = "DS_PROM_(EU)" ∧
      specInputName latin1Upper "Prom (EU)" = "DS_PROM_EU_" ∧
      varName latin1Upper "Prometheus - EU" ≠ specInputName latin1Upper "Prometheus - EU" := by
  decide

/-! ## The export loop: lemmas -/

theorem exportLoop_nil (raw : String) (allDS : List DataSource) :
    exportLoop upper raw allDS [] = exportInit raw := rfl

theorem exportLoop_append (raw : String) (allDS : List DataSource) (xs ys : List String) :
    exportLoop upper raw allDS (xs ++ ys) =
      ys.foldl (exportStep upper (dsMap allDS)) (exportLoop upper raw allDS xs) := by
  simp [exportLoop, List.foldl_append]

theorem exportLoop_concat (raw : String) (allDS : List DataSource) (xs : List String)
    (uid : String) :
    exportLoop upper raw allDS (xs ++ [uid]) =
      exportStep upper (dsMap allDS) (exportLoop upper raw allDS xs) uid := by
  simp [exportLoop, List.foldl_append]

theorem resolved_concat (allDS : List DataSource) (xs : List String) (uid : String) :
    resolved allDS (xs ++ [uid]) =
      resolved allDS xs ++
        (match mapGet uid (dsMap allDS) with
         | some ds => [ds]
         | none => []) := by
  unfold resolved
  rw [List.filterMap_append]
  congr 1
  cases h : mapGet uid (dsMap allDS) <;> simp [List.filterMap, h]

theorem exportLoop_inputs (raw : String) (allDS : List DataSource) (order : List String) :
    (exportLoop upper raw allDS order).inputs = (resolved allDS order).map (inputEntry upper) := by
  induction order using List.reverseRecOn with
  | nil => rfl
  | append_singleton xs uid ih =>
    rw [exportLoop_concat, resolved_concat]
    unfold exportStep
    cases h : mapGet uid (dsMap allDS) with
    | none => simpa using ih
    | some ds => simp [ih]

theorem exportLoop_requires (raw : String) (allDS : List DataSource) (order : List String) :
    (exportLoop upper raw allDS order).requires =
      grafanaRequirement :: (exportLoop upper raw allDS order).pluginMap.map requireEntry := by
  induction order using List.reverseRecOn with
  | nil => rfl
  | append_singleton xs uid ih =>
    rw [exportLoop_concat]
    unfold exportStep
    cases h : mapGet uid (dsMap allDS) with
    | none => exact ih
    | some ds =>
      dsimp only
      unfold setAdd
      by_cases hm : ds.Typ ∈ (exportLoop upper raw allDS xs).pluginMap
      · rw [if_pos hm, if_pos hm]; exact ih
      · rw [if_neg hm, if_neg hm, ih]; simp

theorem exportLoop_pluginMap_nodup (raw : String) (allDS : List DataSource)
    (order : List String) : (exportLoop upper raw allDS order).pluginMap.Nodup := by
  induction order using List.reverseRecOn with
  | nil => exact List.nodup_nil
  | append_singleton xs uid ih =>
    rw [exportLoop_concat]
    unfold exportStep
    cases h : mapGet uid (dsMap allDS) with
    | none => exact ih
    | some ds => exact nodup_setAdd _ _ ih

theorem mem_exportLoop_pluginMap (raw : String) (allDS : List DataSource)
    (order : List String) (t : String) :
    t ∈ (exportLoop upper raw allDS order).pluginMap ↔ ∃ ds, ds ∈ resolved allDS order ∧ ds.Typ = t := by
  induction order using List.reverseRecOn with
  | nil => simp [exportLoop_nil, exportInit, resolved]
  | append_singleton xs uid ih =>
    rw [exportLoop_concat, resolved_concat]
    unfold exportStep
    cases h : mapGet uid (dsMap allDS) with
    | none => simpa using ih
    | some ds =>
      dsimp only
      rw [mem_setAdd, ih]
      constructor
      · rintro (h1 | ⟨d, hd, hdt⟩)
        · exact ⟨ds, by simp, h1.symm⟩
        · exact ⟨d, by simp [hd], hdt⟩
      · rintro ⟨d, hd, hdt⟩
        rw [List.mem_append, List.mem_singleton] at hd
        rcases hd with hd | hd
        · exact Or.inr ⟨d, hd, hdt⟩
        · subst hd; exact Or.inl hdt.symm

/-- The text after the loop: one `strings.ReplaceAll` per resolved identifier, in the
order of the visit. -/
theorem exportLoop_jsonStr (raw : String) (allDS : List DataSource) (order : List String) :
    (exportLoop upper raw allDS order).jsonStr =
      (order.filterMap (fun uid => (mapGet uid (dsMap allDS)).map (fun ds => (uid, ds)))).foldl
        (fun text p => replaceAll text (quoted p.1) (quoted (placeholder (varName upper p.2.Name))))
        raw := by
  induction order using List.reverseRecOn with
  | nil => rfl
  | append_singleton xs uid ih =>
    rw [exportLoop_concat, List.filterMap_append, List.foldl_append, ← ih]
    unfold exportStep
    cases h : mapGet uid (dsMap allDS) <;> simp [List.filterMap, h]

theorem exportLoop_jsonStr_of_unresolved (raw : String) (allDS : List DataSource)
    (order : List String) (h : resolved allDS order = []) :
    (exportLoop upper raw allDS order).jsonStr = raw := by
  induction order using List.reverseRecOn with
  | nil => rfl
  | append_singleton xs uid ih =>
    rw [resolved_concat] at h
    rw [exportLoop_concat]
    unfold exportStep
    cases hm : mapGet uid (dsMap allDS) with
    | none =>
      rw [hm] at h
      exact ih (by simpa using h)
    | some ds =>
      rw [hm] at h
      simp at h

theorem finalDash_nodup (jsonStr : String) : (mapKeys (finalDash jsonStr)).Nodup := by
  unfold finalDash
  apply nodup_mapDelete
  apply nodup_mapDelete
  apply nodup_mapDelete
  exact unmarshalIgnored_nodup jsonStr

theorem mapGet_finalDash (jsonStr k : String) :
    mapGet k (finalDash jsonStr) =
      if k = "version" ∨ k = "uid" ∨ k = "id" then none
      else mapGet k (unmarshalIgnored jsonStr) := by
  unfold finalDash
  rw [mapGet_mapDelete, mapGet_mapDelete, mapGet_mapDelete]
  by_cases h1 : k = "version"
  · simp [h1]
  · by_cases h2 : k = "uid"
    · simp [h2]
    · by_cases h3 : k = "id"
      · simp [h3]
      · simp [h1, h2, h3]

/-- A top-level field of the output: the field of `finalDash` when it has the key, the
generated metadata otherwise. -/
theorem field_exportOutput (st : ExportState) (k : String) :
    field k (.obj (exportOutput st)) =
      match mapGet k (finalDash st.jsonStr) with
      | some v => some v
      | none =>
        mapGet k [("__inputs", sliceJSON st.inputs), ("__requires", sliceJSON st.requires)] := by
  unfold field exportOutput
  exact mapGet_foldl_mapSet k _ _ (finalDash_nodup _)

theorem exportExternal_ok (raw : String) (allDS : List DataSource) (order : List String)
    (h : unmarshalObject raw ≠ none) :
    exportExternal upper raw allDS order = .ok (.obj (exportOutput (exportLoop upper raw allDS order))) := by
  unfold exportExternal
  cases hp : unmarshalObject raw with
  | none => exact absurd hp h
  | some _ => rfl

theorem exportExternal_eq_ok (raw : String) (allDS : List DataSource) (order : List String)
    (out : JSON) (h : exportExternal upper raw allDS order = .ok out) :
    out = .obj (exportOutput (exportLoop upper raw allDS order)) := by
  unfold exportExternal at h
  split at h
  · cases h
  · simp only [Except.ok.injEq] at h
    exact h.symm

/-! ## Substitution on characters -/

/-! ### replaceScan -/

theorem replaceScan_skip (old new : List Char) : ∀ (xs rest : List Char),
    replaceScan old new xs.length (xs ++ rest) = replaceScan old new 0 rest
  | [], rest => rfl
  | _ :: xs, rest => by
    rw [List.length_cons, List.cons_append, replaceScan]
    exact replaceScan_skip old new xs rest

theorem replaceScan_match (old new rest : List Char) (h : old ≠ []) :
    replaceScan old new 0 (old ++ rest) = new ++ replaceScan old new 0 rest := by
  cases old with
  | nil => exact absurd rfl h
  | cons a old1 =>
    rw [List.cons_append, replaceScan]
    have hp : (a :: old1).isPrefixOf (a :: (old1 ++ rest)) = true := by
      rw [List.isPrefixOf_iff_prefix]
      exact ⟨rest, rfl⟩
    rw [if_pos hp]
    have hl : (a :: old1).length - 1 = old1.length := by simp
    rw [hl, replaceScan_skip]

theorem replaceScan_nomatch (old new : List Char) (c : Char) (cs : List Char)
    (h : ¬ old <+: c :: cs) :
    replaceScan old new 0 (c :: cs) = c :: replaceScan old new 0 cs := by
  rw [replaceScan]
  have hp : ¬ old.isPrefixOf (c :: cs) = true := by
    rw [List.isPrefixOf_iff_prefix]
    exact h
  rw [if_neg hp]

theorem replaceScan_nil (old new : List Char) : replaceScan old new 0 [] = [] := rfl

/-- A text without any occurrence of `old` is left as it is. -/
theorem replaceScan_of_absent (old new : List Char) : ∀ (s : List Char),
    ¬ old <:+: s → replaceScan old new 0 s = s
  | [], _ => rfl
  | c :: cs, h => by
    have h1 : ¬ old <+: c :: cs := fun hp => h hp.isInfix
    have h2 : ¬ old <:+: cs := fun hi => h (List.infix_cons hi)
    rw [replaceScan_nomatch old new c cs h1, replaceScan_of_absent old new cs h2]

theorem replaceScan_self (old new : List Char) (h : old ≠ []) :
    replaceScan old new 0 old = new := by
  have h1 := replaceScan_match old new [] h
  rw [List.append_nil, replaceScan_nil, List.append_nil] at h1
  exact h1

/-- A stretch of text without the first character of `old` is copied. -/
theorem replaceScan_skip_free (a : Char) (old1 new : List Char) : ∀ (s rest : List Char),
    a ∉ s → replaceScan (a :: old1) new 0 (s ++ rest) = s ++ replaceScan (a :: old1) new 0 rest
  | [], rest, _ => rfl
  | c :: cs, rest, h => by
    rw [List.mem_cons, not_or] at h
    have h1 : ¬ (a :: old1) <+: c :: (cs ++ rest) := by
      intro hp
      rw [List.cons_prefix_cons] at hp
      exact h.1 hp.1
    rw [List.cons_append, replaceScan_nomatch _ _ _ _ h1,
      replaceScan_skip_free a old1 new cs rest h.2]
    rfl

/-! ### quotes -/

theorem first_quote_unique : ∀ (a b x y : List Char), '"' ∉ a → '"' ∉ b →
    a ++ '"' :: x = b ++ '"' :: y → a = b ∧ x = y
  | [], [], x, y, _, _, h => by
    simp only [List.nil_append, List.cons.injEq, true_and] at h
    exact ⟨rfl, h⟩
  | [], c :: b, x, y, _, hb, h => by
    simp only [List.nil_append, List.cons_append, List.cons.injEq] at h
    exact absurd (List.mem_cons.2 (Or.inl h.1)) hb
  | c :: a, [], x, y, ha, _, h => by
    simp only [List.nil_append, List.cons_append, List.cons.injEq] at h
    exact absurd (List.mem_cons.2 (Or.inl h.1.symm)) ha
  | c :: a, d :: b, x, y, ha, hb, h => by
    simp only [List.cons_append, List.cons.injEq] at h
    rw [List.mem_cons, not_or] at ha hb
    obtain ⟨h1, h2⟩ := first_quote_unique a b x y ha.2 hb.2 h.2
    exact ⟨by rw [h.1, h1], h2⟩

theorem led_append : ∀ (xs ys : List (List Char)), led (xs ++ ys) = led xs ++ led ys
  | [], ys => rfl
  | s :: xs, ys => by
    rw [List.cons_append, led, led, led_append xs ys]
    simp

/-- The quoted `u` is at the head of a quote-led text exactly when the first segment is
`u` and is closed by a quote. -/
theorem quoted_prefix_iff (u s x : List Char) (hu : '"' ∉ u) (hs : '"' ∉ s) :
    ('"' :: (u ++ ['"'])) <+: ('"' :: (s ++ '"' :: x)) ↔ s = u := by
  rw [List.cons_prefix_cons]
  constructor
  · rintro ⟨_, t, ht⟩
    rw [List.append_assoc, List.singleton_append] at ht
    exact (first_quote_unique u s t x hu hs ht).1.symm
  · intro h
    subst h
    exact ⟨rfl, x, by simp⟩

theorem quoted_not_prefix_last (u s : List Char) (hs : '"' ∉ s) :
    ¬ ('"' :: (u ++ ['"'])) <+: ('"' :: s) := by
  rw [List.cons_prefix_cons]
  rintro ⟨_, t, ht⟩
  apply hs
  rw [← ht]
  simp

/-! ### the extraction pass on segments -/

/-- One `strings.ReplaceAll` of the quoted `u` by the quoted `r`, on a quote-led text. -/
theorem replaceScan_led (u r : List Char) (hu : '"' ∉ u) : ∀ (inner : List (List Char)),
    (∀ s, s ∈ inner → '"' ∉ s) →
    replaceScan ('"' :: (u ++ ['"'])) ('"' :: (r ++ ['"'])) 0 (led inner) =
      led (passSegs u r inner)
  | [], _ => rfl
  | [s], h => by
    have hs : '"' ∉ s := h s (List.mem_singleton.2 rfl)
    rw [passSegs, led, led, List.append_nil,
      replaceScan_nomatch _ _ _ _ (quoted_not_prefix_last u s hs)]
    have h2 := replaceScan_skip_free '"' (u ++ ['"']) ('"' :: (r ++ ['"'])) s [] hs
    rw [List.append_nil] at h2
    rw [h2, replaceScan_nil, List.append_nil]
  | s :: s1 :: rest, h => by
    have hs : '"' ∉ s := h s (List.mem_cons_self _ _)
    have hs1 : '"' ∉ s1 := h s1 (List.mem_cons_of_mem _ (List.mem_cons_self _ _))
    have hrest : ∀ x, x ∈ rest → '"' ∉ x := fun x hx =>
      h x (List.mem_cons_of_mem _ (List.mem_cons_of_mem _ hx))
    have htail : ∀ x, x ∈ s1 :: rest → '"' ∉ x := fun x hx => h x (List.mem_cons_of_mem _ hx)
    rw [passSegs]
    by_cases hsu : s = u
    · subst hsu
      rw [if_pos rfl]
      have e1 : led (s :: s1 :: rest) = ('"' :: (s ++ ['"'])) ++ (s1 ++ led rest) := by
        simp [led]
      rw [e1, replaceScan_match _ _ _ (List.cons_ne_nil _ _),
        replaceScan_skip_free '"' (s ++ ['"']) _ s1 (led rest) hs1,
        replaceScan_led s r hu rest hrest]
      simp [led]
    · rw [if_neg hsu]
      have e1 : led (s :: s1 :: rest) = '"' :: (s ++ '"' :: (s1 ++ led rest)) := by
        simp [led]
      have hnp : ¬ ('"' :: (u ++ ['"'])) <+: ('"' :: (s ++ '"' :: (s1 ++ led rest))) :=
        fun hp => hsu ((quoted_prefix_iff u s _ hu hs).1 hp)
      rw [e1, replaceScan_nomatch _ _ _ _ hnp,
        replaceScan_skip_free '"' (u ++ ['"']) _ s _ hs]
      have e2 : '"' :: (s1 ++ led rest) = led (s1 :: rest) := rfl
      rw [e2, replaceScan_led u r hu (s1 :: rest) htail]
      rfl

/-! ### the resolution pass on segments -/

theorem prefix_of_prefix_append_quote (p s rest : List Char) (hp : '"' ∉ p)
    (h : p <+: s ++ '"' :: rest) : p <+: s := by
  obtain ⟨t, ht⟩ := h
  rcases List.append_eq_append_iff.1 ht with ⟨a, ha, _⟩ | ⟨c, hc, hc2⟩
  · exact ⟨a, ha.symm⟩
  · cases c with
    | nil =>
      rw [List.append_nil] at hc
      exact ⟨[], by rw [List.append_nil, hc]⟩
    | cons d c =>
      simp only [List.cons_append, List.cons.injEq] at hc2
      exfalso
      apply hp
      rw [hc, ← hc2.1]
      simp

/-- An occurrence of a pattern without quotes never spans a quote. -/
theorem replaceScan_append_quote (p new : List Char) (hp : '"' ∉ p) (hne : p ≠ []) :
    ∀ (n : Nat) (s rest : List Char), s.length ≤ n →
    replaceScan p new 0 (s ++ '"' :: rest) =
      replaceScan p new 0 s ++ '"' :: replaceScan p new 0 rest
  | n, [], rest, _ => by
    have h1 : ¬ p <+: '"' :: rest := by
      intro h
      cases p with
      | nil => exact hne rfl
      | cons a p1 =>
        rw [List.cons_prefix_cons] at h
        exact hp (by rw [h.1]; exact List.mem_cons_self _ _)
    rw [List.nil_append, replaceScan_nomatch _ _ _ _ h1]
    rfl
  | 0, c :: cs, rest, hn => by simp at hn
  | n + 1, c :: cs, rest, hn => by
    by_cases h : p <+: c :: cs ++ '"' :: rest
    · obtain ⟨s1, hs1⟩ := prefix_of_prefix_append_quote p (c :: cs) rest hp h
      have hlen : s1.length ≤ n := by
        have h2 := congrArg List.length hs1
        have h3 : 0 < p.length := List.length_pos.2 hne
        simp only [List.length_append, List.length_cons] at h2 hn
        omega
      rw [← hs1, List.append_assoc, replaceScan_match _ _ _ hne, replaceScan_match _ _ _ hne,
        replaceScan_append_quote p new hp hne n s1 rest hlen, List.append_assoc]
    · have h2 : ¬ p <+: c :: cs := fun hp2 => h (hp2.trans (List.prefix_append _ _))
      have hlen : cs.length ≤ n := by
        simp only [List.length_cons] at hn
        omega
      rw [List.cons_append] at h ⊢
      rw [replaceScan_nomatch _ _ _ _ h, replaceScan_nomatch _ _ _ _ h2,
        replaceScan_append_quote p new hp hne n cs rest hlen]
      rfl

/-- A `strings.ReplaceAll` of a pattern without quotes works segment by segment. -/
theorem replaceScan_segments (p new : List Char) (hp : '"' ∉ p) (hne : p ≠ []) :
    ∀ (inner : List (List Char)) (s0 : List Char),
    replaceScan p new 0 (s0 ++ led inner) =
      replaceScan p new 0 s0 ++ led (inner.map (replaceScan p new 0))
  | [], s0 => by simp [led]
  | s :: rest, s0 => by
    rw [led, replaceScan_append_quote p new hp hne s0.length s0 _ (Nat.le_refl _),
      replaceScan_segments p new hp hne rest s]
    rfl

/-! ### occurrences of a quoted text -/

theorem segment_occurs (s0 : List Char) : ∀ (inner : List (List Char)) (s : List Char),
    s ∈ inner → s <:+: s0 ++ led inner
  | x :: rest, s, h => by
    rw [List.mem_cons] at h
    rcases h with h | h
    · subst h
      exact ⟨s0 ++ ['"'], led rest, by simp [led]⟩
    · obtain ⟨a, b, hab⟩ := segment_occurs x rest s h
      exact ⟨s0 ++ '"' :: a, b, by rw [led, ← hab]; simp⟩

theorem first_occurs (s0 : List Char) (inner : List (List Char)) : s0 <:+: s0 ++ led inner :=
  (List.prefix_append _ _).isInfix

/-- An occurrence of the quoted `u` in a text is a segment `u` closed by a quote. -/
theorem quoted_infix_segment (u : List Char) (hu : '"' ∉ u) :
    ∀ (inner : List (List Char)) (s0 : List Char), '"' ∉ s0 → (∀ s, s ∈ inner → '"' ∉ s) →
    ('"' :: (u ++ ['"'])) <:+: s0 ++ led inner →
    ∃ pre x post, inner = pre ++ u :: x :: post
  | [], s0, hs0, _, h => by
    exfalso
    obtain ⟨a, b, hab⟩ := h
    apply hs0
    rw [led, List.append_nil] at hab
    rw [← hab]
    simp
  | s :: rest, s0, hs0, hin, h => by
    obtain ⟨a, b, hab⟩ := h
    have hs : '"' ∉ s := hin s (List.mem_cons_self _ _)
    have hrest : ∀ x, x ∈ rest → '"' ∉ x := fun x hx => hin x (List.mem_cons_of_mem _ hx)
    have hab1 : a ++ '"' :: (u ++ '"' :: b) = s0 ++ '"' :: (s ++ led rest) := by
      rw [led] at hab
      rw [← hab]
      simp
    rcases List.append_eq_append_iff.1 hab1 with ⟨a1, ha1, ha2⟩ | ⟨c1, hc1, hc2⟩
    · -- `s0 = a ++ a1`: the quote of the occurrence lies in `s0` unless `a1` is empty
      cases a1 with
      | nil =>
        rw [List.nil_append, List.cons.injEq] at ha2
        have h3 := ha2.2
        cases rest with
        | nil =>
          exfalso
          apply hs
          rw [led, List.append_nil] at h3
          rw [← h3]
          simp
        | cons x post =>
          rw [led] at h3
          have h4 := first_quote_unique u s b (x ++ led post) hu hs h3
          exact ⟨[], x, post, by rw [h4.1]; rfl⟩
      | cons d a1 =>
        exfalso
        rw [List.cons_append, List.cons.injEq] at ha2
        apply hs0
        rw [ha1, ← ha2.1]
        simp
    · cases c1 with
      | nil =>
        rw [List.nil_append, List.cons.injEq] at hc2
        have h3 := hc2.2
        cases rest with
        | nil =>
          exfalso
          apply hs
          rw [led, List.append_nil] at h3
          rw [h3]
          simp
        | cons x post =>
          rw [led] at h3
          have h4 := first_quote_unique u s b (x ++ led post) hu hs h3.symm
          exact ⟨[], x, post, by rw [h4.1]; rfl⟩
      | cons d c1 =>
        rw [List.cons_append, List.cons.injEq] at hc2
        have h5 : ('"' :: (u ++ ['"'])) <:+: s ++ led rest :=
          ⟨c1, b, by rw [hc2.2]; simp⟩
        obtain ⟨pre, x, post, hp⟩ := quoted_infix_segment u hu rest s hs hrest h5
        exact ⟨s :: pre, x, post, by rw [hp]; rfl⟩

/-! ### segments -/

theorem exists_segments : ∀ (t : List Char), ∃ s0 inner,
    t = s0 ++ led inner ∧ '"' ∉ s0 ∧ ∀ s, s ∈ inner → '"' ∉ s
  | [] => ⟨[], [], rfl, by simp, by simp⟩
  | c :: cs => by
    obtain ⟨s0, inner, ht, hs0, hin⟩ := exists_segments cs
    by_cases hc : c = '"'
    · refine ⟨[], s0 :: inner, ?_, by simp, ?_⟩
      · rw [hc, ht]; rfl
      · intro s hs
        rw [List.mem_cons] at hs
        rcases hs with hs | hs
        · rw [hs]; exact hs0
        · exact hin s hs
    · refine ⟨c :: s0, inner, by rw [ht]; rfl, ?_, hin⟩
      rw [List.mem_cons, not_or]
      exact ⟨fun h => hc h.symm, hs0⟩

theorem mapInit_mapInit (f g : List Char → List Char) : ∀ (l : List (List Char)),
    mapInit g (mapInit f l) = mapInit (fun s => g (f s)) l
  | [] => rfl
  | [s] => rfl
  | s :: s1 :: rest => by
    have ih := mapInit_mapInit f g (s1 :: rest)
    cases rest with
    | nil => rfl
    | cons x post =>
      rw [mapInit, mapInit] at ih ⊢
      rw [mapInit, mapInit, ih, mapInit]

theorem mapInit_id : ∀ (l : List (List Char)), mapInit (fun s => s) l = l
  | [] => rfl
  | [_] => rfl
  | s :: s1 :: rest => by rw [mapInit, mapInit_id (s1 :: rest)]

theorem mapInit_congr (f g : List Char → List Char) : ∀ (l : List (List Char)),
    (∀ s, s ∈ l → f s = g s) → mapInit f l = mapInit g l
  | [], _ => rfl
  | [s], _ => rfl
  | s :: s1 :: rest, h => by
    rw [mapInit, mapInit, h s (List.mem_cons_self _ _),
      mapInit_congr f g (s1 :: rest) (fun x hx => h x (List.mem_cons_of_mem _ hx))]

theorem mem_mapInit (f : List Char → List Char) : ∀ (l : List (List Char)) (y : List Char),
    y ∈ mapInit f l → y ∈ l ∨ ∃ s, s ∈ l ∧ y = f s
  | [], y, h => by simp [mapInit] at h
  | [s], y, h => Or.inl h
  | s :: s1 :: rest, y, h => by
    rw [mapInit, List.mem_cons] at h
    rcases h with h | h
    · exact Or.inr ⟨s, List.mem_cons_self _ _, h⟩
    · rcases mem_mapInit f (s1 :: rest) y h with h1 | ⟨x, hx, hy⟩
      · exact Or.inl (List.mem_cons_of_mem _ h1)
      · exact Or.inr ⟨x, List.mem_cons_of_mem _ hx, hy⟩

/-- A segment of `mapInit f l` that is closed by a quote is an image under `f`. -/
theorem mapInit_eq_append (f : List Char → List Char) : ∀ (l pre : List (List Char))
    (y x : List Char) (post : List (List Char)),
    mapInit f l = pre ++ y :: x :: post → ∃ s, s ∈ l ∧ y = f s
  | [], pre, y, x, post, h => by
    rw [mapInit] at h
    simp at h
  | [s], pre, y, x, post, h => by
    rw [mapInit] at h
    have h1 := congrArg List.length h
    simp at h1
    omega
  | s :: s1 :: rest, pre, y, x, post, h => by
    rw [mapInit] at h
    cases pre with
    | nil =>
      rw [List.nil_append, List.cons.injEq] at h
      exact ⟨s, List.mem_cons_self _ _, h.1.symm⟩
    | cons d pre =>
      rw [List.cons_append, List.cons.injEq] at h
      obtain ⟨a, ha, hy⟩ := mapInit_eq_append f (s1 :: rest) pre y x post h.2
      exact ⟨a, List.mem_cons_of_mem _ ha, hy⟩

theorem overlapFree_mapInit (u : List Char) (f : List Char → List Char)
    (hf : ∀ s, f s = u → s = u) : ∀ (l : List (List Char)),
    OverlapFree u l → OverlapFree u (mapInit f l)
  | [], _ => trivial
  | [_], _ => trivial
  | [_, _], _ => trivial
  | s :: s1 :: x :: rest, h => by
    rw [OverlapFree] at h
    have ih := overlapFree_mapInit u f hf (s1 :: x :: rest) h.2
    cases rest with
    | nil =>
      simp only [mapInit, OverlapFree]
      exact ⟨fun hh => h.1 ⟨hf s hh.1, hf s1 hh.2⟩, trivial⟩
    | cons y post =>
      simp only [mapInit] at ih ⊢
      rw [OverlapFree]
      exact ⟨fun hh => h.1 ⟨hf s hh.1, hf s1 hh.2⟩, ih⟩

theorem overlapFree_of_absent (u : List Char) : ∀ (l : List (List Char)),
    ¬ ('"' :: (u ++ '"' :: (u ++ ['"']))) <:+: led l → OverlapFree u l
  | [], _ => trivial
  | [_], _ => trivial
  | [_, _], _ => trivial
  | s :: s1 :: x :: rest, h => by
    rw [OverlapFree]
    constructor
    · rintro ⟨h1, h2⟩
      apply h
      subst h1
      subst h2
      exact ⟨[], x ++ led rest, by simp [led]⟩
    · apply overlapFree_of_absent u (s1 :: x :: rest)
      intro hi
      apply h
      obtain ⟨a, b, hab⟩ := hi
      exact ⟨'"' :: (s ++ a), b, by rw [led, ← hab]; simp⟩

/-- The pass under the recursive form of the overlap condition. -/
theorem passSegs_of_overlapFree (u r : List Char) : ∀ (inner : List (List Char)),
    OverlapFree u inner →
    passSegs u r inner = mapInit (fun s => if s = u then r else s) inner
  | [], _ => rfl
  | [_], _ => rfl
  | [s, s1], _ => by
    rw [passSegs, mapInit, mapInit, passSegs]
    by_cases hsu : s = u
    · rw [if_pos hsu, if_pos hsu]
    · rw [if_neg hsu, if_neg hsu, passSegs]
  | s :: s1 :: x :: rest, h => by
    rw [OverlapFree] at h
    have ih1 := passSegs_of_overlapFree u r (s1 :: x :: rest) h.2
    rw [passSegs, mapInit]
    by_cases hsu : s = u
    · have hs1 : s1 ≠ u := fun h1 => h.1 ⟨hsu, h1⟩
      have hrest : OverlapFree u (x :: rest) := by
        cases rest with
        | nil => trivial
        | cons y post =>
          cases post with
          | nil => trivial
          | cons z post1 =>
            have h2 := h.2
            rw [OverlapFree] at h2
            exact h2.2
      rw [if_pos hsu, if_pos hsu, mapInit, if_neg hs1,
        passSegs_of_overlapFree u r (x :: rest) hrest]
    · rw [if_neg hsu, if_neg hsu, ih1]

/-! ### the substitution of a list of pairs -/

theorem subst_of_not_mem : ∀ (P : List (List Char × List Char)) (s : List Char),
    s ∉ P.map Prod.fst → subst P s = s
  | [], _, _ => rfl
  | (u, r) :: rest, s, h => by
    rw [List.map_cons, List.mem_cons, not_or] at h
    rw [subst, if_neg h.1, subst_of_not_mem rest s h.2]

theorem subst_cases : ∀ (P : List (List Char × List Char)) (s : List Char),
    subst P s = s ∨ ∃ p, p ∈ P ∧ p.1 = s ∧ subst P s = p.2
  | [], _ => Or.inl rfl
  | (u, r) :: rest, s => by
    rw [subst]
    by_cases h : s = u
    · rw [if_pos h]
      exact Or.inr ⟨(u, r), List.mem_cons_self _ _, h.symm, rfl⟩
    · rw [if_neg h]
      rcases subst_cases rest s with h1 | ⟨p, hp, hp1, hp2⟩
      · exact Or.inl h1
      · exact Or.inr ⟨p, List.mem_cons_of_mem _ hp, hp1, hp2⟩

theorem subst_of_mem : ∀ (P : List (List Char × List Char)) (p : List Char × List Char),
    (P.map Prod.fst).Nodup → p ∈ P → subst P p.1 = p.2
  | (u, r) :: rest, p, hn, hp => by
    rw [List.map_cons, List.nodup_cons] at hn
    rw [List.mem_cons] at hp
    rw [subst]
    rcases hp with hp | hp
    · subst hp
      rw [if_pos rfl]
    · have hne : p.1 ≠ u := by
        intro h
        apply hn.1
        have h1 := List.mem_map_of_mem Prod.fst hp
        rw [h] at h1
        exact h1
      rw [if_neg hne, subst_of_mem rest p hn.2 hp]

theorem subst_perm (P M : List (List Char × List Char)) (hn : (P.map Prod.fst).Nodup)
    (hperm : M.Perm P) (s : List Char) : subst M s = subst P s := by
  have hnM : (M.map Prod.fst).Nodup := (List.Perm.nodup_iff (hperm.map _)).2 hn
  by_cases h : s ∈ P.map Prod.fst
  · obtain ⟨p, hp, hps⟩ := List.mem_map.1 h
    rw [← hps, subst_of_mem P p hn hp, subst_of_mem M p hnM (hperm.mem_iff.2 hp)]
  · have hM : s ∉ M.map Prod.fst := fun hm => h ((hperm.map _).mem_iff.1 hm)
    rw [subst_of_not_mem P s h, subst_of_not_mem M s hM]

theorem subst_concat (P : List (List Char × List Char)) (u r s : List Char) :
    subst (P ++ [(u, r)]) s =
      if s ∈ P.map Prod.fst then subst P s else if s = u then r else s := by
  induction P with
  | nil => simp [subst]
  | cons p rest ih =>
    obtain ⟨u1, r1⟩ := p
    rw [List.cons_append, subst, subst, ih]
    by_cases h : s = u1
    · simp [h]
    · have hm : s ∈ u1 :: List.map Prod.fst rest ↔ s ∈ List.map Prod.fst rest := by
        rw [List.mem_cons]
        exact ⟨fun h1 => h1.resolve_left h, Or.inr⟩
      simp only [List.map_cons, if_neg h, hm]

/-- A placeholder is never an identifier, so a substituted segment is an identifier only
if it was one and was not replaced. -/
theorem subst_eq_uid (P : List (List Char × List Char)) (u s : List Char)
    (hru : ∀ p, p ∈ P → p.2 ≠ u) (h : subst P s = u) : s = u := by
  rcases subst_cases P s with h1 | ⟨p, hp, _, hp2⟩
  · rw [← h1, h]
  · exact absurd (hp2.symm.trans h) (hru p hp)

theorem subst_quote_free (P : List (List Char × List Char)) (s : List Char)
    (hrq : ∀ p, p ∈ P → '"' ∉ p.2) (hs : '"' ∉ s) : '"' ∉ subst P s := by
  rcases subst_cases P s with h1 | ⟨p, hp, _, hp2⟩
  · rw [h1]; exact hs
  · rw [hp2]; exact hrq p hp

/-! ### the extraction loop on segments -/

theorem extractable_init {P : List (List Char × List Char)} {p : List Char × List Char}
    {t : List Char} (h : Extractable (P ++ [p]) t) : Extractable P t where
  uq := fun x hx => h.uq x (List.mem_append_left _ hx)
  rq := fun x hx => h.rq x (List.mem_append_left _ hx)
  ru := fun x hx y hy => h.ru x (List.mem_append_left _ hx) y (List.mem_append_left _ hy)
  nodup := by
    have h1 := h.nodup
    rw [List.map_append] at h1
    exact (List.nodup_append.1 h1).1
  overlap := fun x hx => h.overlap x (List.mem_append_left _ hx)

theorem extractable_tail {P : List (List Char × List Char)} {p : List Char × List Char}
    {t : List Char} (h : Extractable (p :: P) t) : Extractable P t where
  uq := fun x hx => h.uq x (List.mem_cons_of_mem _ hx)
  rq := fun x hx => h.rq x (List.mem_cons_of_mem _ hx)
  ru := fun x hx y hy => h.ru x (List.mem_cons_of_mem _ hx) y (List.mem_cons_of_mem _ hy)
  nodup := by
    have h1 := h.nodup
    rw [List.map_cons, List.nodup_cons] at h1
    exact h1.2
  overlap := fun x hx => h.overlap x (List.mem_cons_of_mem _ hx)

theorem extractable_perm {P M : List (List Char × List Char)} {t : List Char}
    (h : Extractable P t) (hperm : M.Perm P) : Extractable M t where
  uq := fun x hx => h.uq x (hperm.mem_iff.1 hx)
  rq := fun x hx => h.rq x (hperm.mem_iff.1 hx)
  ru := fun x hx y hy => h.ru x (hperm.mem_iff.1 hx) y (hperm.mem_iff.1 hy)
  nodup := (List.Perm.nodup_iff (hperm.map _)).2 h.nodup
  overlap := fun x hx => h.overlap x (hperm.mem_iff.1 hx)

theorem hygienic_tail {P : List (List Char × List Char)} {p : List Char × List Char}
    {t : List Char} (h : Hygienic (p :: P) t) : Hygienic P t where
  ext := extractable_tail h.ext
  rne := fun x hx => h.rne x (List.mem_cons_of_mem _ hx)
  fresh := fun x hx => h.fresh x (List.mem_cons_of_mem _ hx)
  apart := fun x hx y hy => h.apart x (List.mem_cons_of_mem _ hx) y (List.mem_cons_of_mem _ hy)

theorem hygienic_perm {P M : List (List Char × List Char)} {t : List Char}
    (h : Hygienic P t) (hperm : M.Perm P) : Hygienic M t where
  ext := extractable_perm h.ext hperm
  rne := fun x hx => h.rne x (hperm.mem_iff.1 hx)
  fresh := fun x hx => h.fresh x (hperm.mem_iff.1 hx)
  apart := fun x hx y hy => h.apart x (hperm.mem_iff.1 hx) y (hperm.mem_iff.1 hy)

/-- The text after the extraction loop: every segment closed by a quote that is an
identifier of the pairs has become its placeholder. -/
theorem extractChars_segments (s0 : List Char) (inner : List (List Char))
    (hs0 : '"' ∉ s0) (hin : ∀ s, s ∈ inner → '"' ∉ s) :
    ∀ (P : List (List Char × List Char)), Extractable P (s0 ++ led inner) →
    extractChars P (s0 ++ led inner) = s0 ++ led (mapInit (subst P) inner) := by
  intro P
  induction P using List.reverseRecOn with
  | nil =>
    intro _
    have h1 : mapInit (subst []) inner = inner := by
      rw [mapInit_congr (subst []) (fun s => s) inner (fun s _ => rfl)]
      exact mapInit_id inner
    rw [h1]
    rfl
  | append_singleton P p ih =>
    intro hyg
    obtain ⟨u, r⟩ := p
    have hp : (u, r) ∈ P ++ [(u, r)] := List.mem_append_right _ (List.mem_singleton.2 rfl)
    have hu : '"' ∉ u := hyg.uq _ hp
    have hq : ∀ s, s ∈ mapInit (subst P) inner → '"' ∉ s := by
      intro s hs
      rcases mem_mapInit _ _ _ hs with h1 | ⟨x, hx, hsx⟩
      · exact hin s h1
      · rw [hsx]
        exact subst_quote_free P x (fun q hq => (extractable_init hyg).rq q hq) (hin x hx)
    have hov : OverlapFree u (mapInit (subst P) inner) := by
      apply overlapFree_mapInit u (subst P)
      · intro s hs
        exact subst_eq_uid P u s
          (fun q hq => hyg.ru q (List.mem_append_left _ hq) (u, r) hp) hs
      · apply overlapFree_of_absent
        intro hi
        exact hyg.overlap _ hp (hi.trans (List.suffix_append _ _).isInfix)
    have hstep : extractChars (P ++ [(u, r)]) (s0 ++ led inner) =
        replaceScan ('"' :: (u ++ ['"'])) ('"' :: (r ++ ['"'])) 0
          (extractChars P (s0 ++ led inner)) := by
      simp [extractChars, List.foldl_append]
    rw [hstep, ih (extractable_init hyg), replaceScan_skip_free '"' _ _ s0 _ hs0,
      replaceScan_led u r hu _ hq, passSegs_of_overlapFree u r _ hov, mapInit_mapInit]
    congr 2
    apply mapInit_congr
    intro s _
    rw [subst_concat]
    by_cases hmem : s ∈ P.map Prod.fst
    · rw [if_pos hmem]
      obtain ⟨q, hq1, hq2⟩ := List.mem_map.1 hmem
      have hsq : subst P s = q.2 := by
        rw [← hq2]
        exact subst_of_mem P q (extractable_init hyg).nodup hq1
      have hne : subst P s ≠ u := by
        rw [hsq]
        exact hyg.ru q (List.mem_append_left _ hq1) (u, r) hp
      rw [if_neg hne]
    · rw [if_neg hmem, subst_of_not_mem P s hmem]

/-! ### the resolution loop on segments -/

/-- One resolution pass on a substituted segment. -/
theorem replaceScan_subst (u r : List Char) (M : List (List Char × List Char)) (t s : List Char)
    (hyg : Hygienic ((u, r) :: M) t) (hs : ¬ r <:+: s) :
    replaceScan r u 0 (subst ((u, r) :: M) s) = subst M s := by
  have hp : (u, r) ∈ (u, r) :: M := List.mem_cons_self _ _
  have hn := hyg.ext.nodup
  rw [List.map_cons, List.nodup_cons] at hn
  rw [subst]
  by_cases hsu : s = u
  · rw [if_pos hsu, replaceScan_self r u (hyg.rne _ hp), hsu, subst_of_not_mem M u hn.1]
  · rw [if_neg hsu]
    rcases subst_cases M s with h1 | ⟨p, hpM, hp1, hp2⟩
    · rw [h1]
      exact replaceScan_of_absent r u s hs
    · rw [hp2]
      apply replaceScan_of_absent
      apply hyg.apart (u, r) hp p (List.mem_cons_of_mem _ hpM)
      intro h
      exact hsu (hp1.symm.trans h.symm)

theorem map_replaceScan_mapInit (u r : List Char) (M : List (List Char × List Char))
    (t : List Char) (hyg : Hygienic ((u, r) :: M) t) : ∀ (inner : List (List Char)),
    (∀ s, s ∈ inner → ¬ r <:+: s) →
    (mapInit (subst ((u, r) :: M)) inner).map (replaceScan r u 0) = mapInit (subst M) inner
  | [], _ => rfl
  | [s], h => by
    rw [mapInit, mapInit, List.map_cons, List.map_nil,
      replaceScan_of_absent r u s (h s (List.mem_singleton.2 rfl))]
  | s :: s1 :: rest, h => by
    rw [mapInit, mapInit, List.map_cons,
      map_replaceScan_mapInit u r M t hyg (s1 :: rest)
        (fun x hx => h x (List.mem_cons_of_mem _ hx)),
      replaceScan_subst u r M t s hyg (h s (List.mem_cons_self _ _))]

/-- The resolution loop undoes the substitution of its own pairs. -/
theorem resolveChars_segments (s0 : List Char) (inner : List (List Char)) :
    ∀ (M : List (List Char × List Char)), Hygienic M (s0 ++ led inner) →
    resolveChars M (s0 ++ led (mapInit (subst M) inner)) = s0 ++ led inner
  | [], _ => by
    have h1 : mapInit (subst []) inner = inner := by
      rw [mapInit_congr (subst []) (fun s => s) inner (fun s _ => rfl)]
      exact mapInit_id inner
    rw [h1]
    rfl
  | (u, r) :: M, hyg => by
    have hp : (u, r) ∈ (u, r) :: M := List.mem_cons_self _ _
    have hfresh : ¬ r <:+: s0 ++ led inner := hyg.fresh _ hp
    have hs0 : ¬ r <:+: s0 := fun h => hfresh (h.trans (first_occurs s0 inner))
    have hin : ∀ s, s ∈ inner → ¬ r <:+: s :=
      fun s hs h => hfresh (h.trans (segment_occurs s0 inner s hs))
    have hstep : resolveChars ((u, r) :: M) (s0 ++ led (mapInit (subst ((u, r) :: M)) inner)) =
        resolveChars M
          (replaceScan r u 0 (s0 ++ led (mapInit (subst ((u, r) :: M)) inner))) := rfl
    rw [hstep, replaceScan_segments r u (hyg.ext.rq _ hp) (hyg.rne _ hp),
      replaceScan_of_absent r u s0 hs0, map_replaceScan_mapInit u r M _ hyg inner hin]
    exact resolveChars_segments s0 inner M (hygienic_tail hyg)

/-! ### the round trip on characters -/

/-- Extraction followed by resolution, in any two orders of the pairs, gives the text
back, and the text in between has no quoted identifier. -/
theorem roundtrip_chars (t : List Char) (P M : List (List Char × List Char))
    (hyg : Hygienic P t) (hperm : M.Perm P) :
    resolveChars M (extractChars P t) = t ∧
      ∀ p, p ∈ P → ¬ ('"' :: (p.1 ++ ['"'])) <:+: extractChars P t := by
  obtain ⟨s0, inner, ht, hs0, hin⟩ := exists_segments t
  subst ht
  rw [extractChars_segments s0 inner hs0 hin P hyg.ext]
  constructor
  · have hsub : mapInit (subst P) inner = mapInit (subst M) inner :=
      mapInit_congr _ _ inner (fun s _ => (subst_perm P M hyg.ext.nodup hperm s).symm)
    rw [hsub]
    exact resolveChars_segments s0 inner M (hygienic_perm hyg hperm)
  · intro p hp hi
    have hq : ∀ s, s ∈ mapInit (subst P) inner → '"' ∉ s := by
      intro s hs
      rcases mem_mapInit _ _ _ hs with h1 | ⟨x, hx, hsx⟩
      · exact hin s h1
      · rw [hsx]
        exact subst_quote_free P x hyg.ext.rq (hin x hx)
    obtain ⟨pre, x, post, hdec⟩ :=
      quoted_infix_segment p.1 (hyg.ext.uq p hp) _ s0 hs0 hq hi
    obtain ⟨a, _, ha⟩ := mapInit_eq_append _ _ _ _ _ _ hdec
    have hau : a = p.1 := subst_eq_uid P p.1 a (fun q hq => hyg.ext.ru q hq p hp) ha.symm
    rw [hau, subst_of_mem P p hyg.ext.nodup hp] at ha
    exact hyg.ext.ru p hp p hp ha.symm

/-! ## Substitution on strings -/

theorem quoted_data (s : String) : (quoted s).data = '"' :: (s.data ++ ['"']) := by
  simp [quoted, String.data_append]

theorem placeholder_data (n : String) :
    (placeholder n).data = '$' :: '\x7b' :: (n.data ++ ['\x7d']) := by
  simp [placeholder, String.data_append]

theorem replaceAll_quoted (text u r : String) :
    (replaceAll text (quoted u) (quoted r)).data =
      replaceScan ('"' :: (u.data ++ ['"'])) ('"' :: (r.data ++ ['"'])) 0 text.data := by
  simp only [replaceAll, quoted_data, replaceAllChars]

theorem replaceAll_placeholder (text n u : String) :
    (replaceAll text (placeholder n) u).data =
      replaceScan (placeholder n).data u.data 0 text.data := by
  simp only [replaceAll, placeholder_data, replaceAllChars]

theorem resolvedPairs_concat (allDS : List DataSource) (xs : List String) (uid : String) :
    resolvedPairs upper allDS (xs ++ [uid]) =
      resolvedPairs upper allDS xs ++
        (match mapGet uid (dsMap allDS) with
         | some ds => [(uid, varName upper ds.Name)]
         | none => []) := by
  unfold resolvedPairs
  rw [List.filterMap_append]
  congr 1
  cases h : mapGet uid (dsMap allDS) <;> simp [List.filterMap, h]

/-- The text after the export loop is the extraction on characters. -/
theorem exportLoop_jsonStr_data (raw : String) (allDS : List DataSource) (order : List String) :
    (exportLoop upper raw allDS order).jsonStr.data =
      extractChars (charPairs (resolvedPairs upper allDS order)) raw.data := by
  induction order using List.reverseRecOn with
  | nil => rfl
  | append_singleton xs uid ih =>
    rw [exportLoop_concat, resolvedPairs_concat]
    unfold exportStep
    cases h : mapGet uid (dsMap allDS) with
    | none =>
      simp only [List.append_nil]
      exact ih
    | some ds =>
      simp only [replaceAll_quoted, ih, charPairs, extractChars, List.map_append,
        List.map_cons, List.map_nil, List.foldl_append, List.foldl_cons, List.foldl_nil]

/-- The substitution loop of `dash create` is the resolution on characters. -/
theorem substituteMappings_data : ∀ (mappings : List (String × String)) (data : String),
    (substituteMappings data mappings).data =
      resolveChars (mappings.map (fun m => (m.2.data, (placeholder m.1).data))) data.data
  | [], _ => rfl
  | m :: rest, data => by
    have h := substituteMappings_data rest (replaceAll data (placeholder m.1) m.2)
    rw [replaceAll_placeholder] at h
    exact h

theorem resolvedPairs_fst_sublist (allDS : List DataSource) : ∀ (order : List String),
    ((resolvedPairs upper allDS order).map Prod.fst).Sublist order
  | [] => List.Sublist.slnil
  | uid :: rest => by
    unfold resolvedPairs
    rw [List.filterMap_cons]
    cases h : mapGet uid (dsMap allDS) with
    | none =>
      simp only [Option.map_none']
      exact List.Sublist.cons _ (resolvedPairs_fst_sublist allDS rest)
    | some ds =>
      simp only [Option.map_some', List.map_cons]
      exact List.Sublist.cons₂ _ (resolvedPairs_fst_sublist allDS rest)

theorem mem_resolvedPairs (allDS : List DataSource) (order : List String) (uid : String)
    (ds : DataSource) (hu : uid ∈ order) (hds : mapGet uid (dsMap allDS) = some ds) :
    (uid, varName upper ds.Name) ∈ resolvedPairs upper allDS order := by
  unfold resolvedPairs
  rw [List.mem_filterMap]
  exact ⟨uid, hu, by rw [hds]; rfl⟩

theorem mapSet_of_not_mem {α : Type} (k : String) (v : α) : ∀ (m : List (String × α)),
    k ∉ mapKeys m → mapSet k v m = m ++ [(k, v)]
  | [], _ => rfl
  | (k1, v1) :: rest, h => by
    simp only [mapKeys, List.map_cons, List.mem_cons, not_or] at h
    have h1 : ¬ k1 = k := fun e => h.1 e.symm
    rw [mapSet, if_neg h1, mapSet_of_not_mem k v rest h.2]
    rfl

theorem foldl_mapSet_of_nodup {α : Type} : ∀ (l acc : List (String × α)),
    (mapKeys (acc ++ l)).Nodup → l.foldl (fun m p => mapSet p.1 p.2 m) acc = acc ++ l
  | [], acc, _ => by simp
  | (k, v) :: rest, acc, h => by
    have hk : k ∉ mapKeys acc := by
      intro hmem
      simp only [mapKeys, List.map_append, List.map_cons] at h hmem
      have h1 := (List.nodup_append.1 h).2.2
      exact h1 hmem (List.mem_cons_self _ _) 
    rw [List.foldl_cons, mapSet_of_not_mem k v acc hk,
      foldl_mapSet_of_nodup rest (acc ++ [(k, v)]) (by simpa using h)]
    simp

theorem usedUIDs_concrete (raw s : String) (h : s ∈ usedUIDs raw) : Concrete s := by
  unfold usedUIDs at h
  split at h
  · rcases discover_sound_aux s _ [] h with h1 | h1
    · cases h1
    · exact h1.2
  · cases h

theorem placeholder_ne_concrete (n s : String) (hs : Concrete s) :
    (placeholder n).data ≠ s.data := by
  intro h
  have h1 := hs.2.2
  unfold hasPrefix at h1
  rw [← h, placeholder_data] at h1
  simp [List.isPrefixOf] at h1

theorem mappingsBack_eq (allDS : List DataSource) (order : List String)
    (h : ((resolvedPairs upper allDS order).map Prod.snd).Nodup) :
    mappingsBack upper allDS order = (resolvedPairs upper allDS order).map (fun p => (p.2, p.1)) := by
  unfold mappingsBack
  have h1 := foldl_mapSet_of_nodup ((resolvedPairs upper allDS order).map (fun p => (p.2, p.1))) []
    (by simpa [mapKeys, List.map_map, Function.comp] using h)
  rw [List.foldl_map, List.nil_append] at h1
  exact h1

/-- The conditions of the extraction, on strings, give the conditions on characters. -/
theorem extractable_of_strings (raw : String) (allDS : List DataSource) (order : List String)
    (horder : IterationOrder raw order)
    (hquote : ∀ p, p ∈ resolvedPairs upper allDS order → '"' ∉ p.1.data ∧ '"' ∉ p.2.data)
    (hoverlap : ∀ p, p ∈ resolvedPairs upper allDS order →
      ¬ contains raw (quoted p.1 ++ p.1 ++ "\"")) :
    Extractable (charPairs (resolvedPairs upper allDS order)) raw.data := by
  have hsub := @resolvedPairs_fst_sublist upper allDS order
  have hmem : ∀ p, p ∈ resolvedPairs upper allDS order → p.1 ∈ usedUIDs raw := by
    intro p hp
    exact (List.Perm.mem_iff horder).1 (hsub.subset (List.mem_map_of_mem _ hp))
  constructor
  · intro q hq
    obtain ⟨p, hp, hpq⟩ := List.mem_map.1 hq
    rw [← hpq]
    exact (hquote p hp).1
  · intro q hq
    obtain ⟨p, hp, hpq⟩ := List.mem_map.1 hq
    rw [← hpq]
    simp only [placeholder_data, List.mem_cons, List.mem_append, List.mem_singleton, not_or]
    exact ⟨by decide, by decide, (hquote p hp).2, by decide⟩
  · intro q hq q1 hq1
    obtain ⟨p, hp, hpq⟩ := List.mem_map.1 hq
    obtain ⟨p1, hp1, hpq1⟩ := List.mem_map.1 hq1
    rw [← hpq, ← hpq1]
    exact placeholder_ne_concrete p.2 p1.1 (usedUIDs_concrete raw p1.1 (hmem p1 hp1))
  · have h1 : (charPairs (resolvedPairs upper allDS order)).map Prod.fst =
        ((resolvedPairs upper allDS order).map Prod.fst).map String.data := by
      simp [charPairs, List.map_map, Function.comp]
    rw [h1]
    apply List.Nodup.map
    · intro a b hab
      exact String.ext hab
    · exact List.Nodup.sublist hsub horder.nodup
  · intro q hq
    obtain ⟨p, hp, hpq⟩ := List.mem_map.1 hq
    rw [← hpq]
    have h1 := hoverlap p hp
    unfold contains at h1
    simpa [String.data_append, quoted_data] using h1

/-- The conditions of the round trip, on strings, give the conditions on characters. -/
theorem hygienic_of_strings (raw : String) (allDS : List DataSource) (order : List String)
    (horder : IterationOrder raw order)
    (hquote : ∀ p, p ∈ resolvedPairs upper allDS order → '"' ∉ p.1.data ∧ '"' ∉ p.2.data)
    (hfresh : ∀ p, p ∈ resolvedPairs upper allDS order → ¬ contains raw (placeholder p.2))
    (hoverlap : ∀ p, p ∈ resolvedPairs upper allDS order →
      ¬ contains raw (quoted p.1 ++ p.1 ++ "\""))
    (hnames : ∀ p, p ∈ resolvedPairs upper allDS order → ∀ p1, p1 ∈ resolvedPairs upper allDS order →
      p.1 ≠ p1.1 → ¬ contains (placeholder p1.2) (placeholder p.2)) :
    Hygienic (charPairs (resolvedPairs upper allDS order)) raw.data := by
  refine ⟨extractable_of_strings raw allDS order horder hquote hoverlap, ?_, ?_, ?_⟩
  · intro q hq
    obtain ⟨p, hp, hpq⟩ := List.mem_map.1 hq
    rw [← hpq]
    simp [placeholder_data]
  · intro q hq
    obtain ⟨p, hp, hpq⟩ := List.mem_map.1 hq
    rw [← hpq]
    exact hfresh p hp
  · intro q hq q1 hq1 hne
    obtain ⟨p, hp, hpq⟩ := List.mem_map.1 hq
    obtain ⟨p1, hp1, hpq1⟩ := List.mem_map.1 hq1
    rw [← hpq, ← hpq1] at hne ⊢
    exact hnames p hp p1 hp1 (fun h => hne (by rw [h]))

/-! ## The decoder on a text without backslashes -/

theorem skipWs_suffix : ∀ (l : List Char), skipWs l <:+ l
  | [] => List.suffix_refl _
  | c :: cs => by
    rw [skipWs]
    split
    · exact (skipWs_suffix cs).trans (List.suffix_cons _ _)
    · exact List.suffix_refl _

theorem scanDigits_suffix : ∀ (l acc ds rest : List Char),
    scanDigits acc l = (ds, rest) → rest <:+ l
  | [], acc, ds, rest, h => by
    rw [scanDigits, Prod.mk.injEq] at h
    rw [← h.2]
  | c :: cs, acc, ds, rest, h => by
    rw [scanDigits] at h
    split at h
    · exact (scanDigits_suffix cs _ ds rest h).trans (List.suffix_cons _ _)
    · rw [Prod.mk.injEq] at h
      rw [← h.2]

theorem scanSign_suffix (l : List Char) : (scanSign l).2 <:+ l := by
  cases l with
  | nil => exact List.suffix_refl _
  | cons c cs =>
    rw [scanSign]
    split
    · exact List.suffix_cons _ _
    · exact List.suffix_refl _

theorem scanInt_suffix (l ip rest : List Char) (h : scanInt l = some (ip, rest)) :
    rest <:+ l := by
  cases l with
  | nil => rw [scanInt] at h; cases h
  | cons c cs =>
    rw [scanInt] at h
    split at h
    · simp only [Option.some.injEq, Prod.mk.injEq] at h
      rw [← h.2]
      exact List.suffix_cons _ _
    · split at h
      · cases h
      · rename_i ds r _ heq
        simp only [Option.some.injEq, Prod.mk.injEq] at h
        rw [← h.2]
        exact scanDigits_suffix _ _ _ _ heq

theorem scanFrac_suffix (l fp rest : List Char) (h : scanFrac l = some (fp, rest)) :
    rest <:+ l := by
  cases l with
  | nil =>
    rw [scanFrac] at h
    simp only [Option.some.injEq, Prod.mk.injEq] at h
    rw [← h.2]
  | cons c cs =>
    rw [scanFrac] at h
    split at h
    · split at h
      · cases h
      · rename_i ds r _ heq
        simp only [Option.some.injEq, Prod.mk.injEq] at h
        rw [← h.2]
        exact (scanDigits_suffix _ _ _ _ heq).trans (List.suffix_cons _ _)
    · simp only [Option.some.injEq, Prod.mk.injEq] at h
      rw [← h.2]

theorem scanExp_suffix (l ep rest : List Char) (h : scanExp l = some (ep, rest)) :
    rest <:+ l := by
  cases l with
  | nil =>
    rw [scanExp] at h
    simp only [Option.some.injEq, Prod.mk.injEq] at h
    rw [← h.2]
  | cons c cs =>
    rw [scanExp] at h
    split at h
    · split at h
      · cases h
      · rename_i ds r _ heq
        simp only [Option.some.injEq, Prod.mk.injEq] at h
        rw [← h.2]
        exact ((scanDigits_suffix _ _ _ _ heq).trans (scanSign_suffix cs)).trans
          (List.suffix_cons _ _)
    · simp only [Option.some.injEq, Prod.mk.injEq] at h
      rw [← h.2]

theorem scanMinus_suffix (l : List Char) : (scanMinus l).2 <:+ l := by
  cases l with
  | nil => exact List.suffix_refl _
  | cons c cs =>
    rw [scanMinus]
    split
    · exact List.suffix_cons _ _
    · exact List.suffix_refl _

theorem scanNumber_suffix (l lit rest : List Char) (h : scanNumber l = some (lit, rest)) :
    rest <:+ l := by
  unfold scanNumber at h
  split at h
  · cases h
  · rename_i ip r1 h1
    split at h
    · cases h
    · rename_i fp r2 h2
      split at h
      · cases h
      · rename_i ep r3 h3
        simp only [Option.some.injEq, Prod.mk.injEq] at h
        rw [← h.2]
        exact (((scanExp_suffix _ _ _ h3).trans (scanFrac_suffix _ _ _ h2)).trans
          (scanInt_suffix _ _ _ h1)).trans (scanMinus_suffix l)

theorem scanWord_suffix (w l rest : List Char) (h : scanWord w l = some rest) :
    rest <:+ l := by
  unfold scanWord at h
  split at h
  · simp only [Option.some.injEq] at h
    rw [← h]
    exact List.drop_suffix _ _
  · cases h

/-- Without a backslash in the text, a string literal is decoded to the characters up to
the next quote. -/
theorem scanString_plain : ∀ (input : List Char) (pending : Option Nat)
    (acc res rest : List Char), '\\' ∉ input →
    scanString pending acc input = some (res, rest) →
    ∃ s, '"' ∉ s ∧ input = s ++ '"' :: rest ∧ res = (flushSurrogate pending acc).reverse ++ s
  | [], pending, acc, res, rest, _, h => by
    rw [scanString.eq_def] at h
    dsimp only at h
    cases h
  | c :: cs, pending, acc, res, rest, hb, h => by
    rw [List.mem_cons, not_or] at hb
    rw [scanString.eq_def] at h
    dsimp only at h
    by_cases hc : c = '"'
    · rw [if_pos hc] at h
      simp only [Option.some.injEq, Prod.mk.injEq] at h
      exact ⟨[], by simp, by rw [hc, h.2]; rfl, by rw [← h.1]; simp⟩
    · have hb1 : ¬ c = '\\' := fun e => hb.1 e.symm
      rw [if_neg hc, if_neg hb1] at h
      by_cases hctl : c.toNat < 32
      · rw [if_pos hctl] at h
        cases h
      · rw [if_neg hctl] at h
        obtain ⟨s, hq, hs, hres⟩ := scanString_plain cs none _ res rest hb.2 h
        refine ⟨c :: s, ?_, by rw [hs]; rfl, ?_⟩
        · rw [List.mem_cons, not_or]
          exact ⟨fun e => hc e.symm, hq⟩
        · rw [hres]
          simp [flushSurrogate]

/-- The string literal at the head of a text without backslashes is its first segment. -/
theorem scanString_segment (s x res rest : List Char) (hs : '"' ∉ s)
    (hb : '\\' ∉ s ++ '"' :: x) (h : scanString none [] (s ++ '"' :: x) = some (res, rest)) :
    res = s ∧ rest = x := by
  obtain ⟨s1, hq, hs1, hres⟩ := scanString_plain _ none [] res rest hb h
  simp only [flushSurrogate, List.reverse_nil, List.nil_append] at hres
  obtain ⟨h1, h2⟩ := first_quote_unique s s1 x rest hs hq hs1
  exact ⟨by rw [hres, h1], h2.symm⟩

theorem mem_nodesElems (n : JSON) : ∀ (xs : List JSON),
    n ∈ nodesElems xs ↔ ∃ x, x ∈ xs ∧ n ∈ nodes x
  | [] => by simp [nodesElems]
  | v :: rest => by
    rw [nodesElems, List.mem_append, mem_nodesElems n rest]
    constructor
    · rintro (h | ⟨x, hx, hn⟩)
      · exact ⟨v, List.mem_cons_self _ _, h⟩
      · exact ⟨x, List.mem_cons_of_mem _ hx, hn⟩
    · rintro ⟨x, hx, hn⟩
      rw [List.mem_cons] at hx
      rcases hx with hx | hx
      · subst hx; exact Or.inl hn
      · exact Or.inr ⟨x, hx, hn⟩

theorem mem_nodesFields (n : JSON) : ∀ (kvs : List (String × JSON)),
    n ∈ nodesFields kvs ↔ ∃ kv, kv ∈ kvs ∧ n ∈ nodes kv.2
  | [] => by simp [nodesFields]
  | (k, v) :: rest => by
    rw [nodesFields, List.mem_append, mem_nodesFields n rest]
    constructor
    · rintro (h | ⟨x, hx, hn⟩)
      · exact ⟨(k, v), List.mem_cons_self _ _, h⟩
      · exact ⟨x, List.mem_cons_of_mem _ hx, hn⟩
    · rintro ⟨x, hx, hn⟩
      rw [List.mem_cons] at hx
      rcases hx with hx | hx
      · subst hx; exact Or.inl hn
      · exact Or.inr ⟨x, hx, hn⟩

theorem mem_mapSet {α : Type} (k : String) (v : α) : ∀ (m : List (String × α))
    (kv : String × α), kv ∈ mapSet k v m → kv = (k, v) ∨ kv ∈ m
  | [], kv, h => by
    rw [mapSet, List.mem_singleton] at h
    exact Or.inl h
  | (k1, v1) :: rest, kv, h => by
    rw [mapSet] at h
    split at h
    · rw [List.mem_cons] at h
      rcases h with h | h
      · exact Or.inl h
      · exact Or.inr (List.mem_cons_of_mem _ h)
    · rw [List.mem_cons] at h
      rcases h with h | h
      · exact Or.inr (by rw [h]; exact List.mem_cons_self _ _)
      · rcases mem_mapSet k v rest kv h with h1 | h1
        · exact Or.inl h1
        · exact Or.inr (List.mem_cons_of_mem _ h1)

theorem good_arr (W : List Char) (xs : List JSON) (h : ∀ x, x ∈ xs → Good W x) :
    Good W (.arr xs) := by
  intro s hs
  rw [nodes, List.mem_cons] at hs
  rcases hs with hs | hs
  · cases hs
  · obtain ⟨x, hx, hn⟩ := (mem_nodesElems _ xs).1 hs
    exact h x hx s hn

theorem good_obj (W : List Char) (kvs : List (String × JSON))
    (h : ∀ kv, kv ∈ kvs → Good W kv.2) : Good W (.obj kvs) := by
  intro s hs
  rw [nodes, List.mem_cons] at hs
  rcases hs with hs | hs
  · cases hs
  · obtain ⟨x, hx, hn⟩ := (mem_nodesFields _ kvs).1 hs
    exact h x hx s hn

theorem good_mapSet (W : List Char) (k : String) (v : JSON) (acc : List (String × JSON))
    (hv : Good W v) (hacc : ∀ kv, kv ∈ acc → Good W kv.2) :
    ∀ kv, kv ∈ mapSet k v acc → Good W kv.2 := by
  intro kv hkv
  rcases mem_mapSet k v acc kv hkv with h | h
  · rw [h]; exact hv
  · exact hacc kv h

mutual
/-- In a text without backslashes, every string of a decoded value stands quoted in the
text. -/
theorem decodeValue_good {md : Bool} (W : List Char) (hW : '\\' ∉ W) : ∀ (dp fuel : Nat)
    (input : List Char)
    (v : JSON) (rest : List Char), input <:+ W →
    decodeValue md dp fuel input = some (v, rest) → rest <:+ W ∧ Good W v
  | dp, 0, input, v, rest, _, h => by
    rw [decodeValue] at h
    cases h
  | dp, fuel + 1, input, v, rest, hin, h => by
    rw [decodeValue] at h
    have hsk := (skipWs_suffix input).trans hin
    cases hsw : skipWs input with
    | nil =>
      rw [hsw] at h
      cases h
    | cons c r0 =>
      rw [hsw] at h hsk
      dsimp only at h
      have hr0 : r0 <:+ W := (List.suffix_cons c r0).trans hsk
      by_cases hq : c = '"'
      · rw [if_pos hq] at h
        cases hss : scanString none [] r0 with
        | none =>
          rw [hss] at h
          cases h
        | some p =>
          obtain ⟨s, r⟩ := p
          rw [hss] at h
          simp only [Option.some.injEq, Prod.mk.injEq] at h
          have hb : '\\' ∉ r0 := fun hm => hW (hr0.subset hm)
          obtain ⟨s1, _, hs1, hres⟩ := scanString_plain r0 none [] s r hb hss
          simp only [flushSurrogate, List.reverse_nil, List.nil_append] at hres
          subst hres
          rw [← h.1, ← h.2]
          constructor
          · have hr : r <:+ r0 := ⟨s ++ ['"'], by rw [hs1]; simp⟩
            exact hr.trans hr0
          · intro t ht
            rw [nodes, List.mem_singleton] at ht
            cases ht
            have hpre : ('"' :: (s ++ ['"'])) <+: c :: r0 := by
              rw [hq, hs1]
              exact ⟨r, by simp⟩
            exact hpre.isInfix.trans hsk.isInfix
      · rw [if_neg hq] at h
        by_cases hbr : c = '['
        · rw [if_pos hbr] at h
          have hsk1 := (skipWs_suffix r0).trans hr0
          by_cases hdp : dp < maxNestingDepth
          · rw [if_pos hdp] at h
            cases hsw1 : skipWs r0 with
            | nil =>
              rw [hsw1] at h
              cases h
            | cons c1 r =>
              rw [hsw1] at h hsk1
              dsimp only at h
              by_cases hc1 : c1 = ']'
              · rw [if_pos hc1] at h
                simp only [Option.some.injEq, Prod.mk.injEq] at h
                rw [← h.1, ← h.2]
                exact ⟨(List.suffix_cons _ _).trans hsk1, good_arr W [] (by simp)⟩
              · rw [if_neg hc1] at h
                exact decodeElems_good W hW (dp + 1) fuel [] (c1 :: r) v rest hsk1 (by simp) h
          · rw [if_neg hdp] at h
            cases h
        · rw [if_neg hbr] at h
          by_cases hbc : c = '\x7b'
          · rw [if_pos hbc] at h
            have hsk1 := (skipWs_suffix r0).trans hr0
            by_cases hdp : dp < maxNestingDepth
            · rw [if_pos hdp] at h
              cases hsw1 : skipWs r0 with
              | nil =>
                rw [hsw1] at h
                cases h
              | cons c1 r =>
                rw [hsw1] at h hsk1
                dsimp only at h
                by_cases hc1 : c1 = '\x7d'
                · rw [if_pos hc1] at h
                  simp only [Option.some.injEq, Prod.mk.injEq] at h
                  rw [← h.1, ← h.2]
                  exact ⟨(List.suffix_cons _ _).trans hsk1, good_obj W [] (by simp)⟩
                · rw [if_neg hc1] at h
                  exact decodeMembers_good W hW (dp + 1) fuel [] (c1 :: r) v rest hsk1
                    (by simp) h
            · rw [if_neg hdp] at h
              cases h
          · rw [if_neg hbc] at h
            by_cases ht : c = 't'
            · rw [if_pos ht] at h
              cases hw : scanWord ['r', 'u', 'e'] r0 with
              | none => rw [hw] at h; cases h
              | some r =>
                rw [hw] at h
                simp only [Option.some.injEq, Prod.mk.injEq] at h
                rw [← h.1, ← h.2]
                refine ⟨(scanWord_suffix _ _ _ hw).trans hr0, ?_⟩
                intro t ht1
                rw [nodes, List.mem_singleton] at ht1
                cases ht1
            · rw [if_neg ht] at h
              by_cases hf : c = 'f'
              · rw [if_pos hf] at h
                cases hw : scanWord ['a', 'l', 's', 'e'] r0 with
                | none => rw [hw] at h; cases h
                | some r =>
                  rw [hw] at h
                  simp only [Option.some.injEq, Prod.mk.injEq] at h
                  rw [← h.1, ← h.2]
                  refine ⟨(scanWord_suffix _ _ _ hw).trans hr0, ?_⟩
                  intro t ht1
                  rw [nodes, List.mem_singleton] at ht1
                  cases ht1
              · rw [if_neg hf] at h
                by_cases hn : c = 'n'
                · rw [if_pos hn] at h
                  cases hw : scanWord ['u', 'l', 'l'] r0 with
                  | none => rw [hw] at h; cases h
                  | some r =>
                    rw [hw] at h
                    simp only [Option.some.injEq, Prod.mk.injEq] at h
                    rw [← h.1, ← h.2]
                    refine ⟨(scanWord_suffix _ _ _ hw).trans hr0, ?_⟩
                    intro t ht1
                    rw [nodes, List.mem_singleton] at ht1
                    cases ht1
                · rw [if_neg hn] at h
                  cases hnum : scanNumber (c :: r0) with
                  | none => rw [hnum] at h; cases h
                  | some p =>
                    obtain ⟨lit, r⟩ := p
                    rw [hnum] at h
                    dsimp only at h
                    cases hnv : numberValue md lit with
                    | none => rw [hnv] at h; cases h
                    | some x =>
                      rw [hnv] at h
                      simp only [Option.some.injEq, Prod.mk.injEq] at h
                      rw [← h.1, ← h.2]
                      refine ⟨(scanNumber_suffix _ _ _ hnum).trans hsk, ?_⟩
                      intro t ht1
                      rcases numberValue_cases md lit x hnv with hx | hx
                      · rw [hx, nodes, List.mem_singleton] at ht1
                        cases ht1
                      · rw [hx, nodes, List.mem_singleton] at ht1
                        cases ht1
theorem decodeElems_good {md : Bool} (W : List Char) (hW : '\\' ∉ W) : ∀ (dp fuel : Nat)
    (acc : List JSON)
    (input : List Char) (v : JSON) (rest : List Char), input <:+ W →
    (∀ x, x ∈ acc → Good W x) →
    decodeElems md dp fuel acc input = some (v, rest) → rest <:+ W ∧ Good W v
  | dp, 0, acc, input, v, rest, _, _, h => by
    rw [decodeElems] at h
    cases h
  | dp, fuel + 1, acc, input, v, rest, hin, hacc, h => by
    rw [decodeElems] at h
    cases hv : decodeValue md dp fuel input with
    | none => rw [hv] at h; cases h
    | some p =>
      obtain ⟨x, r⟩ := p
      rw [hv] at h
      dsimp only at h
      obtain ⟨hr, hx⟩ := decodeValue_good W hW dp fuel input x r hin hv
      have hsk := (skipWs_suffix r).trans hr
      have hacc1 : ∀ y, y ∈ x :: acc → Good W y := by
        intro y hy
        rw [List.mem_cons] at hy
        rcases hy with hy | hy
        · rw [hy]; exact hx
        · exact hacc y hy
      cases hsw : skipWs r with
      | nil => rw [hsw] at h; cases h
      | cons c r1 =>
        rw [hsw] at h hsk
        dsimp only at h
        have hr1 : r1 <:+ W := (List.suffix_cons c r1).trans hsk
        by_cases hc : c = ','
        · rw [if_pos hc] at h
          exact decodeElems_good W hW dp fuel (x :: acc) r1 v rest hr1 hacc1 h
        · rw [if_neg hc] at h
          by_cases hc2 : c = ']'
          · rw [if_pos hc2] at h
            simp only [Option.some.injEq, Prod.mk.injEq] at h
            rw [← h.1, ← h.2]
            refine ⟨hr1, good_arr W _ ?_⟩
            intro y hy
            exact hacc1 y (List.mem_reverse.1 hy)
          · rw [if_neg hc2] at h
            cases h
theorem decodeMembers_good {md : Bool} (W : List Char) (hW : '\\' ∉ W) : ∀ (dp fuel : Nat)
    (acc : List (String × JSON)) (input : List Char) (v : JSON) (rest : List Char),
    input <:+ W → (∀ kv, kv ∈ acc → Good W kv.2) →
    decodeMembers md dp fuel acc input = some (v, rest) → rest <:+ W ∧ Good W v
  | dp, 0, acc, input, v, rest, _, _, h => by
    rw [decodeMembers] at h
    cases h
  | dp, fuel + 1, acc, input, v, rest, hin, hacc, h => by
    rw [decodeMembers] at h
    have hsk := (skipWs_suffix input).trans hin
    cases hsw : skipWs input with
    | nil => rw [hsw] at h; cases h
    | cons q r0 =>
      rw [hsw] at h hsk
      dsimp only at h
      have hr0 : r0 <:+ W := (List.suffix_cons q r0).trans hsk
      by_cases hq : q = '"'
      · rw [if_pos hq] at h
        cases hss : scanString none [] r0 with
        | none => rw [hss] at h; cases h
        | some p =>
          obtain ⟨k, r1⟩ := p
          rw [hss] at h
          dsimp only at h
          have hb : '\\' ∉ r0 := fun hm => hW (hr0.subset hm)
          obtain ⟨s1, _, hs1, _⟩ := scanString_plain r0 none [] k r1 hb hss
          have hr1 : r1 <:+ W :=
            (show r1 <:+ r0 from ⟨s1 ++ ['"'], by rw [hs1]; simp⟩).trans hr0
          have hsk1 := (skipWs_suffix r1).trans hr1
          cases hsw1 : skipWs r1 with
          | nil => rw [hsw1] at h; cases h
          | cons c r2 =>
            rw [hsw1] at h hsk1
            dsimp only at h
            have hr2 : r2 <:+ W := (List.suffix_cons c r2).trans hsk1
            by_cases hc : c = ':'
            · rw [if_pos hc] at h
              cases hv : decodeValue md dp fuel r2 with
              | none => rw [hv] at h; cases h
              | some p2 =>
                obtain ⟨x, r3⟩ := p2
                rw [hv] at h
                dsimp only at h
                obtain ⟨hr3, hx⟩ := decodeValue_good W hW dp fuel r2 x r3 hr2 hv
                have hsk3 := (skipWs_suffix r3).trans hr3
                cases hsw3 : skipWs r3 with
                | nil => rw [hsw3] at h; cases h
                | cons c1 r4 =>
                  rw [hsw3] at h hsk3
                  dsimp only at h
                  have hr4 : r4 <:+ W := (List.suffix_cons c1 r4).trans hsk3
                  by_cases hc1 : c1 = ','
                  · rw [if_pos hc1] at h
                    exact decodeMembers_good W hW dp fuel _ r4 v rest hr4
                      (good_mapSet W _ x acc hx hacc) h
                  · rw [if_neg hc1] at h
                    by_cases hc2 : c1 = '\x7d'
                    · rw [if_pos hc2] at h
                      simp only [Option.some.injEq, Prod.mk.injEq] at h
                      rw [← h.1, ← h.2]
                      exact ⟨hr4, good_obj W _ (good_mapSet W _ x acc hx hacc)⟩
                    · rw [if_neg hc2] at h
                      cases h
            · rw [if_neg hc] at h
              cases h
      · rw [if_neg hq] at h
        cases h
end

/-! ## The decoder on two related texts -/

theorem tails_led (f : List Char → List Char) (l : List (List Char)) :
    Tails (led l) (led (mapInit f l)) := by
  cases l with
  | nil => exact Or.inl ⟨rfl, rfl⟩
  | cons s rest =>
    cases rest with
    | nil => exact Or.inr ⟨_, _, rfl, rfl⟩
    | cons s1 rest1 => exact Or.inr ⟨_, _, rfl, rfl⟩

/-! ### the scanners of numbers and words stop before a quote -/

theorem scanDigits_tails (ta tb : List Char) (ht : Tails ta tb) : ∀ (pre acc : List Char),
    '"' ∉ pre → ∃ ds pre1, '"' ∉ pre1 ∧
      scanDigits acc (pre ++ ta) = (ds, pre1 ++ ta) ∧
      scanDigits acc (pre ++ tb) = (ds, pre1 ++ tb)
  | [], acc, _ => by
    rcases ht with ⟨h1, h2⟩ | ⟨x, y, h1, h2⟩
    · subst h1; subst h2
      exact ⟨acc.reverse, [], by simp, rfl, rfl⟩
    · subst h1; subst h2
      refine ⟨acc.reverse, [], by simp, ?_, ?_⟩
      · rw [List.nil_append, scanDigits, if_neg (by decide)]
      · rw [List.nil_append, scanDigits, if_neg (by decide)]
  | c :: pre, acc, hp => by
    rw [List.mem_cons, not_or] at hp
    by_cases hd : isDigit c = true
    · obtain ⟨ds, pre1, hq, h1, h2⟩ := scanDigits_tails ta tb ht pre (c :: acc) hp.2
      refine ⟨ds, pre1, hq, ?_, ?_⟩
      · rw [List.cons_append, scanDigits, if_pos hd, h1]
      · rw [List.cons_append, scanDigits, if_pos hd, h2]
    · refine ⟨acc.reverse, c :: pre, ?_, ?_, ?_⟩
      · rw [List.mem_cons, not_or]; exact hp
      · rw [List.cons_append, scanDigits, if_neg hd]
      · rw [List.cons_append, scanDigits, if_neg hd]

theorem scanSign_tails (ta tb : List Char) (ht : Tails ta tb) (pre : List Char)
    (hp : '"' ∉ pre) : ∃ sg pre1, '"' ∉ pre1 ∧
      scanSign (pre ++ ta) = (sg, pre1 ++ ta) ∧ scanSign (pre ++ tb) = (sg, pre1 ++ tb) := by
  cases pre with
  | nil =>
    rcases ht with ⟨h1, h2⟩ | ⟨x, y, h1, h2⟩
    · subst h1; subst h2
      exact ⟨[], [], by simp, rfl, rfl⟩
    · subst h1; subst h2
      refine ⟨[], [], by simp, ?_, ?_⟩
      · rw [List.nil_append, scanSign, if_neg (by decide)]
      · rw [List.nil_append, scanSign, if_neg (by decide)]
  | cons c pre =>
    rw [List.mem_cons, not_or] at hp
    by_cases hs : c = '+' ∨ c = '-'
    · refine ⟨[c], pre, hp.2, ?_, ?_⟩
      · rw [List.cons_append, scanSign, if_pos hs]
      · rw [List.cons_append, scanSign, if_pos hs]
    · refine ⟨[], c :: pre, ?_, ?_, ?_⟩
      · rw [List.mem_cons, not_or]; exact hp
      · rw [List.cons_append, scanSign, if_neg hs]
      · rw [List.cons_append, scanSign, if_neg hs]

theorem scanInt_tails (ta tb : List Char) (ht : Tails ta tb) (pre : List Char)
    (hp : '"' ∉ pre) : SameScan ta tb (scanInt (pre ++ ta)) (scanInt (pre ++ tb)) := by
  cases pre with
  | nil =>
    rcases ht with ⟨h1, h2⟩ | ⟨x, y, h1, h2⟩
    · subst h1; subst h2
      exact Or.inl ⟨rfl, rfl⟩
    · subst h1; subst h2
      left
      constructor
      · rw [List.nil_append, scanInt, if_neg (by decide), scanDigits, if_neg (by decide)]; rfl
      · rw [List.nil_append, scanInt, if_neg (by decide), scanDigits, if_neg (by decide)]; rfl
  | cons c pre =>
    have hp0 := hp
    rw [List.mem_cons, not_or] at hp
    by_cases hz : c = '0'
    · right
      refine ⟨['0'], pre, hp.2, ?_, ?_⟩
      · rw [List.cons_append, scanInt, if_pos hz]
      · rw [List.cons_append, scanInt, if_pos hz]
    · obtain ⟨ds, pre1, hq, h1, h2⟩ := scanDigits_tails ta tb ht (c :: pre) [] hp0
      rw [List.cons_append] at h1 h2
      cases ds with
      | nil =>
        left
        constructor
        · rw [List.cons_append, scanInt, if_neg hz, h1]
        · rw [List.cons_append, scanInt, if_neg hz, h2]
      | cons d ds =>
        right
        refine ⟨d :: ds, pre1, hq, ?_, ?_⟩
        · rw [List.cons_append, scanInt, if_neg hz, h1]
        · rw [List.cons_append, scanInt, if_neg hz, h2]

theorem scanFrac_tails (ta tb : List Char) (ht : Tails ta tb) (pre : List Char)
    (hp : '"' ∉ pre) : SameScan ta tb (scanFrac (pre ++ ta)) (scanFrac (pre ++ tb)) := by
  cases pre with
  | nil =>
    right
    rcases ht with ⟨h1, h2⟩ | ⟨x, y, h1, h2⟩
    · subst h1; subst h2
      exact ⟨[], [], by simp, rfl, rfl⟩
    · subst h1; subst h2
      refine ⟨[], [], by simp, ?_, ?_⟩
      · rw [List.nil_append, scanFrac, if_neg (by decide)]
      · rw [List.nil_append, scanFrac, if_neg (by decide)]
  | cons c pre =>
    have hp0 := hp
    rw [List.mem_cons, not_or] at hp
    by_cases hdot : c = '.'
    · obtain ⟨ds, pre1, hq, h1, h2⟩ := scanDigits_tails ta tb ht pre [] hp.2
      cases ds with
      | nil =>
        left
        constructor
        · rw [List.cons_append, scanFrac, if_pos hdot, h1]
        · rw [List.cons_append, scanFrac, if_pos hdot, h2]
      | cons d ds =>
        right
        refine ⟨'.' :: d :: ds, pre1, hq, ?_, ?_⟩
        · rw [List.cons_append, scanFrac, if_pos hdot, h1]
        · rw [List.cons_append, scanFrac, if_pos hdot, h2]
    · right
      refine ⟨[], c :: pre, hp0, ?_, ?_⟩
      · rw [List.cons_append, scanFrac, if_neg hdot]
      · rw [List.cons_append, scanFrac, if_neg hdot]

theorem scanExp_tails (ta tb : List Char) (ht : Tails ta tb) (pre : List Char)
    (hp : '"' ∉ pre) : SameScan ta tb (scanExp (pre ++ ta)) (scanExp (pre ++ tb)) := by
  cases pre with
  | nil =>
    right
    rcases ht with ⟨h1, h2⟩ | ⟨x, y, h1, h2⟩
    · subst h1; subst h2
      exact ⟨[], [], by simp, rfl, rfl⟩
    · subst h1; subst h2
      refine ⟨[], [], by simp, ?_, ?_⟩
      · rw [List.nil_append, scanExp, if_neg (by decide)]
      · rw [List.nil_append, scanExp, if_neg (by decide)]
  | cons c pre =>
    have hp0 := hp
    rw [List.mem_cons, not_or] at hp
    by_cases he : c = 'e' ∨ c = 'E'
    · obtain ⟨sg, pre1, hq1, hs1, hs2⟩ := scanSign_tails ta tb ht pre hp.2
      obtain ⟨ds, pre2, hq2, h1, h2⟩ := scanDigits_tails ta tb ht pre1 [] hq1
      cases ds with
      | nil =>
        left
        constructor
        · rw [List.cons_append, scanExp, if_pos he, hs1, h1]
        · rw [List.cons_append, scanExp, if_pos he, hs2, h2]
      | cons d ds =>
        right
        refine ⟨c :: (sg ++ d :: ds), pre2, hq2, ?_, ?_⟩
        · rw [List.cons_append, scanExp, if_pos he, hs1, h1]
        · rw [List.cons_append, scanExp, if_pos he, hs2, h2]
    · right
      refine ⟨[], c :: pre, hp0, ?_, ?_⟩
      · rw [List.cons_append, scanExp, if_neg he]
      · rw [List.cons_append, scanExp, if_neg he]

theorem scanMinus_tails (ta tb : List Char) (ht : Tails ta tb) (pre : List Char)
    (hp : '"' ∉ pre) : ∃ sg pre1, '"' ∉ pre1 ∧
      scanMinus (pre ++ ta) = (sg, pre1 ++ ta) ∧ scanMinus (pre ++ tb) = (sg, pre1 ++ tb) := by
  cases pre with
  | nil =>
    rcases ht with ⟨h1, h2⟩ | ⟨x, y, h1, h2⟩
    · subst h1; subst h2
      exact ⟨[], [], by simp, rfl, rfl⟩
    · subst h1; subst h2
      exact ⟨[], [], by simp, rfl, rfl⟩
  | cons c pre =>
    rw [List.mem_cons, not_or] at hp
    by_cases hm : c = '-'
    · refine ⟨['-'], pre, hp.2, ?_, ?_⟩
      · rw [List.cons_append, scanMinus, if_pos hm]
      · rw [List.cons_append, scanMinus, if_pos hm]
    · refine ⟨[], c :: pre, by rw [List.mem_cons, not_or]; exact hp, ?_, ?_⟩
      · rw [List.cons_append, scanMinus, if_neg hm]
      · rw [List.cons_append, scanMinus, if_neg hm]

theorem scanNumber_tails (ta tb : List Char) (ht : Tails ta tb) (pre : List Char)
    (hp : '"' ∉ pre) : SameScan ta tb (scanNumber (pre ++ ta)) (scanNumber (pre ++ tb)) := by
  obtain ⟨sg, pre0, hq0, hs1, hs2⟩ := scanMinus_tails ta tb ht pre hp
  unfold scanNumber
  rw [hs1, hs2]
  dsimp only
  rcases scanInt_tails ta tb ht pre0 hq0 with ⟨h1, h2⟩ | ⟨ip, pre1, hq1, h1, h2⟩
  · rw [h1, h2]
    exact Or.inl ⟨rfl, rfl⟩
  · rw [h1, h2]
    dsimp only
    rcases scanFrac_tails ta tb ht pre1 hq1 with ⟨h3, h4⟩ | ⟨fp, pre2, hq2, h3, h4⟩
    · rw [h3, h4]
      exact Or.inl ⟨rfl, rfl⟩
    · rw [h3, h4]
      dsimp only
      rcases scanExp_tails ta tb ht pre2 hq2 with ⟨h5, h6⟩ | ⟨ep, pre3, hq3, h5, h6⟩
      · rw [h5, h6]
        exact Or.inl ⟨rfl, rfl⟩
      · rw [h5, h6]
        exact Or.inr ⟨_, pre3, hq3, rfl, rfl⟩

theorem prefix_append_tail (w pre ta : List Char) (hw : '"' ∉ w)
    (ht : ta = [] ∨ ∃ x, ta = '"' :: x) : w <+: pre ++ ta ↔ w <+: pre := by
  constructor
  · intro h
    rcases ht with ht | ⟨x, ht⟩
    · rw [ht, List.append_nil] at h
      exact h
    · rw [ht] at h
      exact prefix_of_prefix_append_quote w pre x hw h
  · intro h
    exact h.trans (List.prefix_append _ _)

theorem scanWord_tails (w ta tb : List Char) (hw : '"' ∉ w) (ht : Tails ta tb)
    (pre : List Char) (hp : '"' ∉ pre) :
    (scanWord w (pre ++ ta) = none ∧ scanWord w (pre ++ tb) = none) ∨
      ∃ pre1, '"' ∉ pre1 ∧ scanWord w (pre ++ ta) = some (pre1 ++ ta) ∧
        scanWord w (pre ++ tb) = some (pre1 ++ tb) := by
  have hta : ta = [] ∨ ∃ x, ta = '"' :: x := by
    rcases ht with ⟨h1, _⟩ | ⟨x, _, h1, _⟩
    · exact Or.inl h1
    · exact Or.inr ⟨x, h1⟩
  have htb : tb = [] ∨ ∃ x, tb = '"' :: x := by
    rcases ht with ⟨_, h1⟩ | ⟨_, y, _, h1⟩
    · exact Or.inl h1
    · exact Or.inr ⟨y, h1⟩
  unfold scanWord
  by_cases h : w <+: pre
  · right
    have h1 : w.isPrefixOf (pre ++ ta) = true :=
      List.isPrefixOf_iff_prefix.2 ((prefix_append_tail w pre ta hw hta).2 h)
    have h2 : w.isPrefixOf (pre ++ tb) = true :=
      List.isPrefixOf_iff_prefix.2 ((prefix_append_tail w pre tb hw htb).2 h)
    obtain ⟨t, ht1⟩ := h
    refine ⟨t, ?_, ?_, ?_⟩
    · intro hm
      exact hp (by rw [← ht1]; exact List.mem_append_right _ hm)
    · rw [if_pos h1, ← ht1, List.append_assoc, List.drop_left]
    · rw [if_pos h2, ← ht1, List.append_assoc, List.drop_left]
  · left
    have h1 : ¬ w.isPrefixOf (pre ++ ta) = true := fun e =>
      h ((prefix_append_tail w pre ta hw hta).1 (List.isPrefixOf_iff_prefix.1 e))
    have h2 : ¬ w.isPrefixOf (pre ++ tb) = true := fun e =>
      h ((prefix_append_tail w pre tb hw htb).1 (List.isPrefixOf_iff_prefix.1 e))
    exact ⟨by rw [if_neg h1], by rw [if_neg h2]⟩

/-! ### related positions of the two texts -/

theorem rel_refl_nil (P : List (List Char × List Char)) : Rel P [] [] :=
  ⟨[], [], by simp, by simp, rfl, rfl⟩

theorem rel_of_pre (P : List (List Char × List Char)) (pre : List Char)
    (l : List (List Char)) (hp : '"' ∉ pre) (hl : ∀ s, s ∈ l → '"' ∉ s) :
    Rel P (pre ++ led l) (pre ++ led (mapInit (subst P) l)) :=
  ⟨pre, l, hp, hl, rfl, rfl⟩

/-- The three shapes of two related texts: both empty, both with the same first character
outside a string, or both at the opening quote of a string. -/
theorem rel_view (P : List (List Char × List Char)) (a b : List Char) (h : Rel P a b) :
    (a = [] ∧ b = []) ∨
    (∃ c a1 b1, c ≠ '"' ∧ a = c :: a1 ∧ b = c :: b1 ∧ Rel P a1 b1) ∨
    (∃ s l, '"' ∉ s ∧ (∀ x, x ∈ l → '"' ∉ x) ∧
      a = led (s :: l) ∧ b = led (mapInit (subst P) (s :: l))) := by
  obtain ⟨pre, l, hp, hl, ha, hb⟩ := h
  cases pre with
  | nil =>
    cases l with
    | nil => exact Or.inl ⟨ha, hb⟩
    | cons s l =>
      refine Or.inr (Or.inr ⟨s, l, hl s (List.mem_cons_self _ _),
        fun x hx => hl x (List.mem_cons_of_mem _ hx), ha, hb⟩)
  | cons c pre =>
    rw [List.mem_cons, not_or] at hp
    exact Or.inr (Or.inl ⟨c, _, _, fun e => hp.1 e.symm, ha, hb, pre, l, hp.2, hl, rfl, rfl⟩)

theorem rel_skipWs (P : List (List Char × List Char)) : ∀ (n : Nat) (a b : List Char),
    a.length ≤ n → Rel P a b → Rel P (skipWs a) (skipWs b)
  | 0, a, b, hn, h => by
    have ha : a = [] := List.length_eq_zero.1 (Nat.le_zero.1 hn)
    rcases rel_view P a b h with ⟨_, hb⟩ | ⟨c, a1, b1, _, ha1, _, _⟩ | ⟨s, l, _, _, ha1, _⟩
    · rw [ha, hb]
      exact rel_refl_nil P
    · rw [ha] at ha1; cases ha1
    · rw [ha] at ha1; cases ha1
  | n + 1, a, b, hn, h => by
    rcases rel_view P a b h with ⟨ha, hb⟩ | ⟨c, a1, b1, hc, ha1, hb1, hr⟩ | ⟨s, l, hs, hl, ha1, hb1⟩
    · rw [ha, hb]
      exact rel_refl_nil P
    · rw [ha1, hb1, skipWs, skipWs]
      by_cases hsp : isSpace c = true
      · rw [if_pos hsp, if_pos hsp]
        apply rel_skipWs P n a1 b1 _ hr
        rw [ha1, List.length_cons] at hn
        omega
      · rw [if_neg hsp, if_neg hsp, ← ha1, ← hb1]
        exact h
    · have e1 : skipWs a = a := by
        rw [ha1, led, skipWs, if_neg (by decide)]
      have e2 : skipWs b = b := by
        rw [hb1]
        cases l with
        | nil => rw [mapInit, led, skipWs, if_neg (by decide)]
        | cons x l => rw [mapInit, led, skipWs, if_neg (by decide)]
      rw [e1, e2]
      exact h

/-! ### what discovery finds, by the shape of the value -/

theorem found_arr (xs : List JSON) (x : String) :
    Found (.arr xs) x ↔ ∃ e, e ∈ xs ∧ Found e x := by
  unfold Found
  constructor
  · rintro ⟨⟨n, hn, hr⟩, hc⟩
    rw [nodes, List.mem_cons] at hn
    rcases hn with hn | hn
    · obtain ⟨val, hval, _⟩ := hr
      rw [hn] at hval
      cases hval
    · obtain ⟨e, he, hne⟩ := (mem_nodesElems n xs).1 hn
      exact ⟨e, he, ⟨n, hne, hr⟩, hc⟩
  · rintro ⟨e, he, ⟨n, hn, hr⟩, hc⟩
    refine ⟨⟨n, ?_, hr⟩, hc⟩
    rw [nodes]
    exact List.mem_cons_of_mem _ ((mem_nodesElems n xs).2 ⟨e, he, hn⟩)

theorem found_obj (kvs : List (String × JSON)) (x : String) :
    Found (.obj kvs) x ↔
      (RefersTo (.obj kvs) x ∧ Concrete x) ∨ ∃ kv, kv ∈ kvs ∧ Found kv.2 x := by
  unfold Found
  constructor
  · rintro ⟨⟨n, hn, hr⟩, hc⟩
    rw [nodes, List.mem_cons] at hn
    rcases hn with hn | hn
    · rw [hn] at hr
      exact Or.inl ⟨hr, hc⟩
    · obtain ⟨kv, hkv, hne⟩ := (mem_nodesFields n kvs).1 hn
      exact Or.inr ⟨kv, hkv, ⟨n, hne, hr⟩, hc⟩
  · rintro (⟨hr, hc⟩ | ⟨kv, hkv, ⟨n, hn, hr⟩, hc⟩)
    · refine ⟨⟨_, ?_, hr⟩, hc⟩
      rw [nodes]
      exact List.mem_cons_self _ _
    · refine ⟨⟨n, ?_, hr⟩, hc⟩
      rw [nodes]
      exact List.mem_cons_of_mem _ ((mem_nodesFields n kvs).2 ⟨kv, hkv, hn⟩)

theorem not_found_of_leaf (v : JSON) (x : String) (hn : nodes v = [v])
    (hv : ∀ kvs, v ≠ .obj kvs) : ¬ Found v x := by
  rintro ⟨⟨n, hmem, val, hval, _⟩, _⟩
  rw [hn, List.mem_singleton] at hmem
  rw [hmem] at hval
  exact hv val hval

/-! ### Go maps: membership -/

theorem mapGet_some_mem {α : Type} (k : String) (v : α) : ∀ (m : List (String × α)),
    mapGet k m = some v → (k, v) ∈ m
  | [], h => by rw [mapGet] at h; cases h
  | (k1, v1) :: rest, h => by
    rw [mapGet] at h
    split at h
    · rename_i hk
      simp only [Option.some.injEq] at h
      rw [← hk, ← h]
      exact List.mem_cons_self _ _
    · exact List.mem_cons_of_mem _ (mapGet_some_mem k v rest h)

theorem mapGet_of_mem {α : Type} (k : String) (v : α) : ∀ (m : List (String × α)),
    (mapKeys m).Nodup → (k, v) ∈ m → mapGet k m = some v
  | (k1, v1) :: rest, hn, h => by
    simp only [mapKeys, List.map_cons, List.nodup_cons] at hn
    rw [List.mem_cons] at h
    rw [mapGet]
    rcases h with h | h
    · simp only [Prod.mk.injEq] at h
      rw [if_pos h.1.symm, h.2]
    · have hne : ¬ k1 = k := by
        intro e
        apply hn.1
        rw [e]
        exact List.mem_map_of_mem Prod.fst h
      rw [if_neg hne]
      exact mapGet_of_mem k v rest hn.2 h

theorem mem_mapSet_self {α : Type} (k : String) (v : α) : ∀ (m : List (String × α)),
    (k, v) ∈ mapSet k v m
  | [] => by rw [mapSet]; exact List.mem_singleton.2 rfl
  | (k1, v1) :: rest => by
    rw [mapSet]
    split
    · exact List.mem_cons_self _ _
    · exact List.mem_cons_of_mem _ (mem_mapSet_self k v rest)

theorem mem_mapSet_of_ne {α : Type} (k : String) (v : α) : ∀ (m : List (String × α))
    (kv : String × α), kv ∈ m → kv.1 ≠ k → kv ∈ mapSet k v m
  | (k1, v1) :: rest, kv, h, hne => by
    rw [List.mem_cons] at h
    rw [mapSet]
    split
    · rename_i hk
      rcases h with h | h
      · exact absurd (by rw [h]; exact hk) hne
      · exact List.mem_cons_of_mem _ h
    · rcases h with h | h
      · rw [h]; exact List.mem_cons_self _ _
      · exact List.mem_cons_of_mem _ (mem_mapSet_of_ne k v rest kv h hne)

theorem mem_mapSet_nodup {α : Type} (k : String) (v : α) : ∀ (m : List (String × α))
    (kv : String × α), (mapKeys m).Nodup → kv ∈ mapSet k v m →
    kv = (k, v) ∨ (kv ∈ m ∧ kv.1 ≠ k)
  | [], kv, _, h => by
    rw [mapSet, List.mem_singleton] at h
    exact Or.inl h
  | (k1, v1) :: rest, kv, hn, h => by
    simp only [mapKeys, List.map_cons, List.nodup_cons] at hn
    rw [mapSet] at h
    split at h
    · rename_i hk
      rw [List.mem_cons] at h
      rcases h with h | h
      · exact Or.inl h
      · refine Or.inr ⟨List.mem_cons_of_mem _ h, ?_⟩
        intro e
        apply hn.1
        rw [hk, ← e]
        exact List.mem_map_of_mem Prod.fst h
    · rename_i hk
      rw [List.mem_cons] at h
      rcases h with h | h
      · refine Or.inr ⟨by rw [h]; exact List.mem_cons_self _ _, ?_⟩
        rw [h]
        exact hk
      · rcases mem_mapSet_nodup k v rest kv hn.2 h with h1 | ⟨h1, h2⟩
        · exact Or.inl h1
        · exact Or.inr ⟨List.mem_cons_of_mem _ h1, h2⟩

/-! ### similar values -/

theorem substS_eq_plain (P : List (List Char × List Char)) (hP : Placeholders P)
    (a t : String) (ht : hasPrefix t "$" = false) (h : substS P a = t) : a = t := by
  have h1 : subst P a.data = t.data := by rw [← h]; rfl
  rcases subst_cases P a.data with h2 | ⟨p, hp, _, hp2⟩
  · exact String.ext (h2.symm.trans h1)
  · exfalso
    obtain ⟨_, t0, ht0⟩ := hP p hp
    rw [hp2, ht0] at h1
    unfold hasPrefix at ht
    rw [← h1] at ht
    simp [List.isPrefixOf] at ht

theorem sim_leaf (P : List (List Char × List Char)) (v w : JSON) (hn : nodes w = [w])
    (ho : ∀ kvs, w ≠ .obj kvs) (hs : ∀ s, w ≠ .str s) : Sim P v w :=
  ⟨fun x hf => absurd hf (not_found_of_leaf w x hn ho),
    fun x hx => absurd hx (hs x), fun m1 _ hm _ => absurd hm (ho m1)⟩

theorem sim_str (P : List (List Char × List Char)) (s : List Char) :
    Sim P (.str ⟨s⟩) (.str ⟨subst P s⟩) := by
  unfold Sim
  refine ⟨fun x hf => absurd hf (not_found_of_leaf _ x rfl (fun _ h => by cases h)), ?_, ?_⟩
  · intro x hx
    cases hx
    exact ⟨⟨s⟩, rfl, rfl⟩
  · intro m1 x hm
    cases hm

theorem sim_arr (P : List (List Char × List Char)) (xs ys : List JSON)
    (h : ElemSim P xs ys) : Sim P (.arr xs) (.arr ys) := by
  unfold Sim
  refine ⟨?_, ?_, ?_⟩
  · intro x hf
    obtain ⟨e1, he1, hfe⟩ := (found_arr ys x).1 hf
    obtain ⟨e, he, hsim⟩ := h e1 he1
    obtain ⟨h1, h2⟩ := hsim.1 x hfe
    exact ⟨(found_arr xs x).2 ⟨e, he, h1⟩, h2⟩
  · intro x hx
    cases hx
  · intro m1 x hm
    cases hm

theorem sim_obj (P : List (List Char × List Char)) (hP : Placeholders P)
    (kvs kvs1 : List (String × JSON)) (h : EntSim P kvs kvs1) (hn : (mapKeys kvs).Nodup) :
    Sim P (.obj kvs) (.obj kvs1) := by
  -- a member of the template under a key that is no placeholder
  have hkey : ∀ (k : String) (y1 : JSON), hasPrefix k "$" = false → mapGet k kvs1 = some y1 →
      ∃ y, mapGet k kvs = some y ∧ Sim P y y1 := by
    intro k y1 hk hget
    obtain ⟨kv, hkv, hkey, hsim⟩ := h (k, y1) (mapGet_some_mem k y1 kvs1 hget)
    have hk1 : kv.1 = k := substS_eq_plain P hP kv.1 k hk hkey
    refine ⟨kv.2, mapGet_of_mem k kv.2 kvs hn ?_, hsim⟩
    rw [← hk1]
    exact hkv
  unfold Sim
  refine ⟨?_, ?_, ?_⟩
  · intro x hf
    rcases (found_obj kvs1 x).1 hf with ⟨⟨val, hval, href⟩, hc⟩ | ⟨kv1, hkv1, hfe⟩
    · cases hval
      rcases href with hd | ⟨dsv, hd, hu⟩
      · obtain ⟨y, hy, hsim⟩ := hkey "datasource" _ (by decide) hd
        obtain ⟨a, ha, hax⟩ := hsim.2.1 x rfl
        have hax1 : a = x := substS_eq_plain P hP a x hc.2.2 hax
        subst hax1
        subst ha
        exact ⟨(found_obj kvs a).2 (Or.inl ⟨⟨kvs, rfl, Or.inl hy⟩, hc⟩), hax⟩
      · obtain ⟨y, hy, hsim⟩ := hkey "datasource" _ (by decide) hd
        obtain ⟨m, a, hm, hma, hax⟩ := hsim.2.2 dsv x rfl hu
        have hax1 : a = x := substS_eq_plain P hP a x hc.2.2 hax
        subst hax1
        subst hm
        exact ⟨(found_obj kvs a).2 (Or.inl ⟨⟨kvs, rfl, Or.inr ⟨m, hy, hma⟩⟩, hc⟩), hax⟩
    · obtain ⟨kv, hkv, _, hsim⟩ := h kv1 hkv1
      obtain ⟨h1, h2⟩ := hsim.1 x hfe
      exact ⟨(found_obj kvs x).2 (Or.inr ⟨kv, hkv, h1⟩), h2⟩
  · intro x hx
    cases hx
  · intro m1 x hm hu
    cases hm
    obtain ⟨y, hy, hsim⟩ := hkey "uid" _ (by decide) hu
    obtain ⟨a, ha, hax⟩ := hsim.2.1 x rfl
    subst ha
    exact ⟨kvs, a, rfl, hy, hax⟩

theorem entSim_mapSet (P : List (List Char × List Char)) (acc acc1 : List (String × JSON))
    (k k1 : String) (v v1 : JSON) (h : EntSim P acc acc1) (hn1 : (mapKeys acc1).Nodup)
    (hk : substS P k = k1) (hv : Sim P v v1) :
    EntSim P (mapSet k v acc) (mapSet k1 v1 acc1) := by
  intro kv1 hkv1
  rcases mem_mapSet_nodup k1 v1 acc1 kv1 hn1 hkv1 with h1 | ⟨h1, h2⟩
  · rw [h1]
    exact ⟨(k, v), mem_mapSet_self k v acc, hk, hv⟩
  · obtain ⟨kv, hkv, hkey, hsim⟩ := h kv1 h1
    refine ⟨kv, mem_mapSet_of_ne k v acc kv hkv ?_, hkey, hsim⟩
    intro e
    apply h2
    rw [← hkey, e, hk]

/-! ## The decoder, step by step -/

/-! ### one step of the decoder, read backwards -/

theorem numberValue_same (md md1 : Bool) (lit : List Char) (v v1 : JSON)
    (h : numberValue md lit = some v) (h1 : numberValue md1 lit = some v1) : v = v1 := by
  unfold numberValue at h h1
  by_cases ho : overflowsFloat64 lit = true
  · rw [if_pos ho] at h h1
    split at h
    · split at h1
      · simp only [Option.some.injEq] at h h1
        rw [← h, ← h1]
      · cases h1
    · cases h
  · rw [if_neg ho] at h h1
    simp only [Option.some.injEq] at h h1
    rw [← h, ← h1]

theorem decodeValue_inv {md : Bool} {dp : Nat} (f : Nat) (a : List Char) (v : JSON)
    (ra : List Char) (h : decodeValue md dp (f + 1) a = some (v, ra)) :
    ∃ c r0, skipWs a = c :: r0 ∧
      (c = '"' → ∃ s, scanString none [] r0 = some (s, ra) ∧ v = .str ⟨s⟩) ∧
      (c = '[' → ∃ c1 r, skipWs r0 = c1 :: r ∧
        (c1 = ']' → v = .arr [] ∧ ra = r) ∧
        (c1 ≠ ']' → decodeElems md (dp + 1) f [] (c1 :: r) = some (v, ra))) ∧
      (c = '\x7b' → ∃ c1 r, skipWs r0 = c1 :: r ∧
        (c1 = '\x7d' → v = .obj [] ∧ ra = r) ∧
        (c1 ≠ '\x7d' → decodeMembers md (dp + 1) f [] (c1 :: r) = some (v, ra))) ∧
      (c = 't' → scanWord ['r', 'u', 'e'] r0 = some ra ∧ v = .bool true) ∧
      (c = 'f' → scanWord ['a', 'l', 's', 'e'] r0 = some ra ∧ v = .bool false) ∧
      (c = 'n' → scanWord ['u', 'l', 'l'] r0 = some ra ∧ v = .null) ∧
      (c ≠ '"' → c ≠ '[' → c ≠ '\x7b' → c ≠ 't' → c ≠ 'f' → c ≠ 'n' →
        ∃ lit, scanNumber (c :: r0) = some (lit, ra) ∧ numberValue md lit = some v) := by
  rw [decodeValue] at h
  cases hsw : skipWs a with
  | nil => rw [hsw] at h; cases h
  | cons c r0 =>
    rw [hsw] at h
    dsimp only at h
    refine ⟨c, r0, rfl, ?_, ?_, ?_, ?_, ?_, ?_, ?_⟩
    · intro hq
      rw [if_pos hq] at h
      cases hss : scanString none [] r0 with
      | none => rw [hss] at h; cases h
      | some p =>
        obtain ⟨s, r⟩ := p
        rw [hss] at h
        simp only [Option.some.injEq, Prod.mk.injEq] at h
        exact ⟨s, by rw [h.2], h.1.symm⟩
    · intro hc
      rw [if_neg (by rw [hc]; decide), if_pos hc] at h
      split at h
      swap
      · cases h
      cases hsw1 : skipWs r0 with
      | nil => rw [hsw1] at h; cases h
      | cons c1 r =>
        rw [hsw1] at h
        dsimp only at h
        refine ⟨c1, r, rfl, ?_, ?_⟩
        · intro hc1
          rw [if_pos hc1] at h
          simp only [Option.some.injEq, Prod.mk.injEq] at h
          exact ⟨h.1.symm, h.2.symm⟩
        · intro hc1
          rw [if_neg hc1] at h
          exact h
    · intro hc
      rw [if_neg (by rw [hc]; decide), if_neg (by rw [hc]; decide), if_pos hc] at h
      split at h
      swap
      · cases h
      cases hsw1 : skipWs r0 with
      | nil => rw [hsw1] at h; cases h
      | cons c1 r =>
        rw [hsw1] at h
        dsimp only at h
        refine ⟨c1, r, rfl, ?_, ?_⟩
        · intro hc1
          rw [if_pos hc1] at h
          simp only [Option.some.injEq, Prod.mk.injEq] at h
          exact ⟨h.1.symm, h.2.symm⟩
        · intro hc1
          rw [if_neg hc1] at h
          exact h
    · intro hc
      rw [if_neg (by rw [hc]; decide), if_neg (by rw [hc]; decide),
        if_neg (by rw [hc]; decide), if_pos hc] at h
      cases hw : scanWord ['r', 'u', 'e'] r0 with
      | none => rw [hw] at h; cases h
      | some r =>
        rw [hw] at h
        simp only [Option.some.injEq, Prod.mk.injEq] at h
        exact ⟨by rw [h.2], h.1.symm⟩
    · intro hc
      rw [if_neg (by rw [hc]; decide), if_neg (by rw [hc]; decide),
        if_neg (by rw [hc]; decide), if_neg (by rw [hc]; decide), if_pos hc] at h
      cases hw : scanWord ['a', 'l', 's', 'e'] r0 with
      | none => rw [hw] at h; cases h
      | some r =>
        rw [hw] at h
        simp only [Option.some.injEq, Prod.mk.injEq] at h
        exact ⟨by rw [h.2], h.1.symm⟩
    · intro hc
      rw [if_neg (by rw [hc]; decide), if_neg (by rw [hc]; decide),
        if_neg (by rw [hc]; decide), if_neg (by rw [hc]; decide),
        if_neg (by rw [hc]; decide), if_pos hc] at h
      cases hw : scanWord ['u', 'l', 'l'] r0 with
      | none => rw [hw] at h; cases h
      | some r =>
        rw [hw] at h
        simp only [Option.some.injEq, Prod.mk.injEq] at h
        exact ⟨by rw [h.2], h.1.symm⟩
    · intro h1 h2 h3 h4 h5 h6
      rw [if_neg h1, if_neg h2, if_neg h3, if_neg h4, if_neg h5, if_neg h6] at h
      cases hnum : scanNumber (c :: r0) with
      | none => rw [hnum] at h; cases h
      | some p =>
        obtain ⟨lit, r⟩ := p
        rw [hnum] at h
        dsimp only at h
        cases hnv : numberValue md lit with
        | none => rw [hnv] at h; cases h
        | some x =>
          rw [hnv] at h
          simp only [Option.some.injEq, Prod.mk.injEq] at h
          exact ⟨lit, by rw [h.2], hnv.trans (by rw [h.1])⟩

theorem decodeElems_inv {md : Bool} {dp : Nat} (f : Nat) (acc : List JSON) (a : List Char)
    (v : JSON)
    (ra : List Char) (h : decodeElems md dp (f + 1) acc a = some (v, ra)) :
    ∃ x r c r1, decodeValue md dp f a = some (x, r) ∧ skipWs r = c :: r1 ∧
      ((c = ',' ∧ decodeElems md dp f (x :: acc) r1 = some (v, ra)) ∨
        (c = ']' ∧ v = .arr (x :: acc).reverse ∧ ra = r1)) := by
  rw [decodeElems] at h
  cases hv : decodeValue md dp f a with
  | none => rw [hv] at h; cases h
  | some p =>
    obtain ⟨x, r⟩ := p
    rw [hv] at h
    dsimp only at h
    cases hsw : skipWs r with
    | nil => rw [hsw] at h; cases h
    | cons c r1 =>
      rw [hsw] at h
      dsimp only at h
      refine ⟨x, r, c, r1, rfl, hsw, ?_⟩
      by_cases hc : c = ','
      · rw [if_pos hc] at h
        exact Or.inl ⟨hc, h⟩
      · rw [if_neg hc] at h
        by_cases hc2 : c = ']'
        · rw [if_pos hc2] at h
          simp only [Option.some.injEq, Prod.mk.injEq] at h
          exact Or.inr ⟨hc2, h.1.symm, h.2.symm⟩
        · rw [if_neg hc2] at h
          cases h

theorem decodeMembers_inv {md : Bool} {dp : Nat} (f : Nat) (acc : List (String × JSON))
    (a : List Char) (v : JSON)
    (ra : List Char) (h : decodeMembers md dp (f + 1) acc a = some (v, ra)) :
    ∃ r0 k r1 r2 x r3 c1 r4, skipWs a = '"' :: r0 ∧
      scanString none [] r0 = some (k, r1) ∧ skipWs r1 = ':' :: r2 ∧
      decodeValue md dp f r2 = some (x, r3) ∧ skipWs r3 = c1 :: r4 ∧
      ((c1 = ',' ∧ decodeMembers md dp f (mapSet ⟨k⟩ x acc) r4 = some (v, ra)) ∨
        (c1 = '\x7d' ∧ v = .obj (mapSet ⟨k⟩ x acc) ∧ ra = r4)) := by
  rw [decodeMembers] at h
  cases hsw : skipWs a with
  | nil => rw [hsw] at h; cases h
  | cons q r0 =>
    rw [hsw] at h
    dsimp only at h
    by_cases hq : q = '"'
    · rw [if_pos hq] at h
      cases hss : scanString none [] r0 with
      | none => rw [hss] at h; cases h
      | some p =>
        obtain ⟨k, r1⟩ := p
        rw [hss] at h
        dsimp only at h
        cases hsw1 : skipWs r1 with
        | nil => rw [hsw1] at h; cases h
        | cons c r2 =>
          rw [hsw1] at h
          dsimp only at h
          by_cases hc : c = ':'
          · rw [if_pos hc] at h
            cases hv : decodeValue md dp f r2 with
            | none => rw [hv] at h; cases h
            | some p2 =>
              obtain ⟨x, r3⟩ := p2
              rw [hv] at h
              dsimp only at h
              cases hsw3 : skipWs r3 with
              | nil => rw [hsw3] at h; cases h
              | cons c1 r4 =>
                rw [hsw3] at h
                dsimp only at h
                refine ⟨r0, k, r1, r2, x, r3, c1, r4, by rw [hq], hss, by rw [hsw1, hc],
                  hv, hsw3, ?_⟩
                by_cases hc1 : c1 = ','
                · rw [if_pos hc1] at h
                  exact Or.inl ⟨hc1, h⟩
                · rw [if_neg hc1] at h
                  by_cases hc2 : c1 = '\x7d'
                  · rw [if_pos hc2] at h
                    simp only [Option.some.injEq, Prod.mk.injEq] at h
                    exact Or.inr ⟨hc2, h.1.symm, h.2.symm⟩
                  · rw [if_neg hc2] at h
                    cases h
          · rw [if_neg hc] at h
            cases h
    · rw [if_neg hq] at h
      cases h

/-! ### related texts: the next character and the next string -/

theorem rel_of_next (P : List (List Char × List Char)) (ra rb : List Char) (c : Char)
    (r : List Char) (h : Rel P ra rb ∨ Dollar rb) (hs : skipWs rb = c :: r) (hc : c ≠ '$') :
    Rel P ra rb := by
  rcases h with h | ⟨t, ht⟩
  · exact h
  · exfalso
    rw [ht, skipWs, if_neg (by decide)] at hs
    simp only [List.cons.injEq] at hs
    exact hc hs.1.symm

theorem rel_next (P : List (List Char × List Char)) (a b : List Char) (c c1 : Char)
    (a1 b1 : List Char) (h : Rel P a b) (ha : skipWs a = c :: a1) (hb : skipWs b = c1 :: b1) :
    c = c1 ∧ Rel P (c :: a1) (c1 :: b1) ∧ (c ≠ '"' → Rel P a1 b1) := by
  have hr := rel_skipWs P a.length a b (Nat.le_refl _) h
  rw [ha, hb] at hr
  refine ⟨?_, hr, ?_⟩
  · rcases rel_view P _ _ hr with ⟨h1, _⟩ | ⟨d, x, y, _, h1, h2, _⟩ | ⟨s, l, _, _, h1, h2⟩
    · cases h1
    · simp only [List.cons.injEq] at h1 h2
      rw [h1.1, h2.1]
    · cases l with
      | nil =>
        rw [led] at h1
        rw [mapInit, led] at h2
        simp only [List.cons.injEq] at h1 h2
        rw [h1.1, h2.1]
      | cons x l =>
        rw [led] at h1
        rw [mapInit, led] at h2
        simp only [List.cons.injEq] at h1 h2
        rw [h1.1, h2.1]
  · intro hc
    rcases rel_view P _ _ hr with ⟨h1, _⟩ | ⟨d, x, y, _, h1, h2, h3⟩ | ⟨s, l, _, _, h1, _⟩
    · cases h1
    · simp only [List.cons.injEq] at h1 h2
      rw [h1.2, h2.2]
      exact h3
    · rw [led] at h1
      simp only [List.cons.injEq] at h1
      exact absurd h1.1 hc

theorem rel_nil (P : List (List Char × List Char)) (a b : List Char) (h : Rel P a b)
    (hb : skipWs b = []) : skipWs a = [] := by
  have hr := rel_skipWs P a.length a b (Nat.le_refl _) h
  rw [hb] at hr
  rcases rel_view P _ _ hr with ⟨h1, _⟩ | ⟨d, x, y, _, _, h2, _⟩ | ⟨s, l, _, _, _, h2⟩
  · exact h1
  · cases h2
  · cases l with
    | nil => rw [mapInit, led] at h2; cases h2
    | cons x l => rw [mapInit, led] at h2; cases h2

/-- The string literals at two related positions: the template has the substituted string
of the body, and the texts after the closing quotes are related again unless the template
goes on with a placeholder. -/
theorem rel_string (P : List (List Char × List Char)) (hP : Placeholders P)
    (a b a1 b1 k k1 ra rb : List Char) (h : Rel P a b)
    (ha : a = '"' :: a1) (hb : b = '"' :: b1) (hba : '\\' ∉ a1) (hbb : '\\' ∉ b1)
    (hka : scanString none [] a1 = some (k, ra))
    (hkb : scanString none [] b1 = some (k1, rb)) :
    k1 = subst P k ∧ (Rel P ra rb ∨ Dollar rb) := by
  have hq : ∀ s, '"' ∉ s → '"' ∉ subst P s := fun s hs =>
    subst_quote_free P s (fun p hp => (hP p hp).1) hs
  rcases rel_view P a b h with ⟨h1, _⟩ | ⟨d, x, y, hd, h1, _, _⟩ | ⟨s, l, hs, hl, h1, h2⟩
  · rw [ha] at h1; cases h1
  · rw [ha] at h1
    simp only [List.cons.injEq] at h1
    exact absurd h1.1.symm hd
  · cases l with
    | nil =>
      exfalso
      rw [ha, led, led, List.append_nil] at h1
      simp only [List.cons.injEq, true_and] at h1
      obtain ⟨s0, _, hs0, _⟩ := scanString_plain a1 none [] k ra hba hka
      apply hs
      rw [← h1, hs0]
      simp
    | cons s2 l2 =>
      rw [ha, led, led] at h1
      simp only [List.cons.injEq, true_and] at h1
      rw [h1] at hka hba
      obtain ⟨hk, hra⟩ := scanString_segment s (s2 ++ led l2) k ra hs hba hka
      have hs2 : '"' ∉ s2 := hl s2 (List.mem_cons_self _ _)
      cases l2 with
      | nil =>
        rw [hb, mapInit, mapInit, led, led, led, List.append_nil] at h2
        simp only [List.cons.injEq, true_and] at h2
        rw [h2] at hkb hbb
        obtain ⟨hk1, hrb⟩ := scanString_segment (subst P s) s2 k1 rb (hq s hs) hbb hkb
        refine ⟨by rw [hk1, hk], Or.inl ?_⟩
        rw [hra, hrb, led, List.append_nil]
        exact ⟨s2, [], hs2, by simp, by simp [led], by simp [mapInit, led]⟩
      | cons x l3 =>
        rw [hb, mapInit, mapInit, led, led] at h2
        simp only [List.cons.injEq, true_and] at h2
        rw [h2] at hkb hbb
        obtain ⟨hk1, hrb⟩ := scanString_segment (subst P s) _ k1 rb (hq s hs) hbb hkb
        refine ⟨by rw [hk1, hk], ?_⟩
        rw [hra, hrb]
        rcases subst_cases P s2 with h3 | ⟨p, hp, _, hp2⟩
        · left
          rw [h3]
          exact rel_of_pre P s2 (x :: l3) hs2 (fun y hy => hl y (List.mem_cons_of_mem _ hy))
        · right
          obtain ⟨_, t, ht⟩ := hP p hp
          rw [hp2, ht]
          exact ⟨_, rfl⟩

/-! ## The decoder on the body and on the template -/

theorem rel_scanWord (P : List (List Char × List Char)) (w x y ra rb : List Char)
    (hw : '"' ∉ w) (h : Rel P x y) (hx : scanWord w x = some ra)
    (hy : scanWord w y = some rb) : Rel P ra rb := by
  obtain ⟨pre, l, hp, hl, e1, e2⟩ := h
  rcases scanWord_tails w _ _ hw (tails_led (subst P) l) pre hp with
    ⟨h1, _⟩ | ⟨pre1, hq, h1, h2⟩
  · rw [← e1, hx] at h1
    cases h1
  · rw [← e1, hx] at h1
    rw [← e2, hy] at h2
    simp only [Option.some.injEq] at h1 h2
    rw [h1, h2]
    exact rel_of_pre P pre1 l hq hl

theorem rel_scanNumber (P : List (List Char × List Char)) (x y lit lit1 ra rb : List Char)
    (h : Rel P x y) (hx : scanNumber x = some (lit, ra))
    (hy : scanNumber y = some (lit1, rb)) : Rel P ra rb := by
  obtain ⟨pre, l, hp, hl, e1, e2⟩ := h
  rcases scanNumber_tails _ _ (tails_led (subst P) l) pre hp with
    ⟨h1, _⟩ | ⟨lit2, pre1, hq, h1, h2⟩
  · rw [← e1, hx] at h1
    cases h1
  · rw [← e1, hx] at h1
    rw [← e2, hy] at h2
    simp only [Option.some.injEq, Prod.mk.injEq] at h1 h2
    rw [h1.2, h2.2]
    exact rel_of_pre P pre1 l hq hl

theorem suffix_of_skipWs (a W : List Char) (c : Char) (r : List Char) (ha : a <:+ W)
    (hs : skipWs a = c :: r) : (c :: r) <:+ W ∧ r <:+ W := by
  have h1 : (c :: r) <:+ W := by
    rw [← hs]
    exact (skipWs_suffix a).trans ha
  exact ⟨h1, (List.suffix_cons c r).trans h1⟩

mutual
/-- The decoder on the body and on the template, from related positions: the values are
similar, and the positions after them are related again unless the template goes on with
a placeholder. -/
theorem decodeValue_sim (P : List (List Char × List Char)) (hP : Placeholders P)
    (W W1 : List Char) (hW : '\\' ∉ W) (hW1 : '\\' ∉ W1) :
    ∀ (md md1 : Bool) (dp dp1 f f1 : Nat) (a b : List Char) (v v1 : JSON) (ra rb : List Char),
    a <:+ W → b <:+ W1 → Rel P a b →
    decodeValue md dp f a = some (v, ra) → decodeValue md1 dp1 f1 b = some (v1, rb) →
    Sim P v v1 ∧ (Rel P ra rb ∨ Dollar rb)
  | md, md1, dp, dp1, 0, _, a, b, v, v1, ra, rb, _, _, _, ha, _ => by
    rw [decodeValue] at ha
    cases ha
  | md, md1, dp, dp1, _ + 1, 0, a, b, v, v1, ra, rb, _, _, _, _, hb => by
    rw [decodeValue] at hb
    cases hb
  | md, md1, dp, dp1, f + 1, f1 + 1, a, b, v, v1, ra, rb, hsa, hsb, hrel, ha, hb => by
    obtain ⟨c, r0, hwa, i1, i2, i3, i4, i5, i6, i7⟩ := decodeValue_inv f a v ra ha
    obtain ⟨c1, r1, hwb, j1, j2, j3, j4, j5, j6, j7⟩ := decodeValue_inv f1 b v1 rb hb
    obtain ⟨hcc, hrel0, hrel1⟩ := rel_next P a b c c1 r0 r1 hrel hwa hwb
    subst hcc
    obtain ⟨hs0, hsr0⟩ := suffix_of_skipWs a W c r0 hsa hwa
    obtain ⟨hs1, hsr1⟩ := suffix_of_skipWs b W1 c r1 hsb hwb
    by_cases hq : c = '"'
    · obtain ⟨s, hs, hv⟩ := i1 hq
      obtain ⟨s1, hss1, hv1⟩ := j1 hq
      have hba : '\\' ∉ r0 := fun hm => hW (hsr0.subset hm)
      have hbb : '\\' ∉ r1 := fun hm => hW1 (hsr1.subset hm)
      obtain ⟨hk, htail⟩ := rel_string P hP (c :: r0) (c :: r1) r0 r1 s s1 ra rb hrel0
        (by rw [hq]) (by rw [hq]) hba hbb hs hss1
      rw [hv, hv1, hk]
      exact ⟨sim_str P s, htail⟩
    · have hr := hrel1 hq
      by_cases hbr : c = '['
      · obtain ⟨c2, r, hw2, k1, k2⟩ := i2 hbr
        obtain ⟨c3, r2, hw3, m1, m2⟩ := j2 hbr
        obtain ⟨hcc2, hrel2, hrel3⟩ := rel_next P r0 r1 c2 c3 r r2 hr hw2 hw3
        subst hcc2
        by_cases hc2 : c2 = ']'
        · obtain ⟨e1, e2⟩ := k1 hc2
          obtain ⟨e3, e4⟩ := m1 hc2
          rw [e1, e2, e3, e4]
          exact ⟨sim_arr P [] [] (fun e he => by cases he),
            Or.inl (hrel3 (by rw [hc2]; decide))⟩
        · exact decodeElems_sim P hP W W1 hW hW1 md md1 (dp + 1) (dp1 + 1) f f1 [] [] (c2 :: r) (c2 :: r2) v v1 ra rb
            (suffix_of_skipWs r0 W c2 r hsr0 hw2).1 (suffix_of_skipWs r1 W1 c2 r2 hsr1 hw3).1
            hrel2 (fun e he => by cases he) (k2 hc2) (m2 hc2)
      · by_cases hbc : c = '\x7b'
        · obtain ⟨c2, r, hw2, k1, k2⟩ := i3 hbc
          obtain ⟨c3, r2, hw3, m1, m2⟩ := j3 hbc
          obtain ⟨hcc2, hrel2, hrel3⟩ := rel_next P r0 r1 c2 c3 r r2 hr hw2 hw3
          subst hcc2
          by_cases hc2 : c2 = '\x7d'
          · obtain ⟨e1, e2⟩ := k1 hc2
            obtain ⟨e3, e4⟩ := m1 hc2
            rw [e1, e2, e3, e4]
            exact ⟨sim_obj P hP [] [] (fun e he => by cases he) (by simp [mapKeys]),
              Or.inl (hrel3 (by rw [hc2]; decide))⟩
          · exact decodeMembers_sim P hP W W1 hW hW1 md md1 (dp + 1) (dp1 + 1) f f1 [] [] (c2 :: r) (c2 :: r2) v v1 ra rb
              (suffix_of_skipWs r0 W c2 r hsr0 hw2).1 (suffix_of_skipWs r1 W1 c2 r2 hsr1 hw3).1
              hrel2 (fun e he => by cases he) (by simp [mapKeys]) (by simp [mapKeys])
              (k2 hc2) (m2 hc2)
        · by_cases ht : c = 't'
          · obtain ⟨hx, hv⟩ := i4 ht
            obtain ⟨hy, hv1⟩ := j4 ht
            rw [hv, hv1]
            exact ⟨sim_leaf P _ _ rfl (fun _ h => by cases h) (fun _ h => by cases h),
              Or.inl (rel_scanWord P _ r0 r1 ra rb (by decide) hr hx hy)⟩
          · by_cases hf : c = 'f'
            · obtain ⟨hx, hv⟩ := i5 hf
              obtain ⟨hy, hv1⟩ := j5 hf
              rw [hv, hv1]
              exact ⟨sim_leaf P _ _ rfl (fun _ h => by cases h) (fun _ h => by cases h),
                Or.inl (rel_scanWord P _ r0 r1 ra rb (by decide) hr hx hy)⟩
            · by_cases hn : c = 'n'
              · obtain ⟨hx, hv⟩ := i6 hn
                obtain ⟨hy, hv1⟩ := j6 hn
                rw [hv, hv1]
                exact ⟨sim_leaf P _ _ rfl (fun _ h => by cases h) (fun _ h => by cases h),
                  Or.inl (rel_scanWord P _ r0 r1 ra rb (by decide) hr hx hy)⟩
              · obtain ⟨lit, hx, hv⟩ := i7 hq hbr hbc ht hf hn
                obtain ⟨lit1, hy, hv1⟩ := j7 hq hbr hbc ht hf hn
                refine ⟨?_, Or.inl (rel_scanNumber P _ _ lit lit1 ra rb hrel0 hx hy)⟩
                rcases numberValue_cases _ _ _ hv1 with h1 | h1
                · rw [h1]
                  exact sim_leaf P _ _ rfl (fun _ h => by cases h) (fun _ h => by cases h)
                · rw [h1]
                  exact sim_leaf P _ _ rfl (fun _ h => by cases h) (fun _ h => by cases h)
theorem decodeElems_sim (P : List (List Char × List Char)) (hP : Placeholders P)
    (W W1 : List Char) (hW : '\\' ∉ W) (hW1 : '\\' ∉ W1) :
    ∀ (md md1 : Bool) (dp dp1 f f1 : Nat) (acc acc1 : List JSON) (a b : List Char) (v v1 : JSON) (ra rb : List Char),
    a <:+ W → b <:+ W1 → Rel P a b → ElemSim P acc acc1 →
    decodeElems md dp f acc a = some (v, ra) → decodeElems md1 dp1 f1 acc1 b = some (v1, rb) →
    Sim P v v1 ∧ (Rel P ra rb ∨ Dollar rb)
  | md, md1, dp, dp1, 0, _, acc, acc1, a, b, v, v1, ra, rb, _, _, _, _, ha, _ => by
    rw [decodeElems] at ha
    cases ha
  | md, md1, dp, dp1, _ + 1, 0, acc, acc1, a, b, v, v1, ra, rb, _, _, _, _, _, hb => by
    rw [decodeElems] at hb
    cases hb
  | md, md1, dp, dp1, f + 1, f1 + 1, acc, acc1, a, b, v, v1, ra, rb, hsa, hsb, hrel, hacc, ha, hb => by
    obtain ⟨x, r, c, r1, hva, hwa, hda⟩ := decodeElems_inv f acc a v ra ha
    obtain ⟨y, s, d, s1, hvb, hwb, hdb⟩ := decodeElems_inv f1 acc1 b v1 rb hb
    obtain ⟨hsim, htail⟩ := decodeValue_sim P hP W W1 hW hW1 md md1 dp dp1 f f1 a b x y r s hsa hsb hrel hva hvb
    have hd : d ≠ '$' := by
      rcases hdb with ⟨h1, _⟩ | ⟨h1, _⟩ <;> rw [h1] <;> decide
    have hrs : Rel P r s := rel_of_next P r s d s1 htail hwb hd
    obtain ⟨hcd, _, hrel1⟩ := rel_next P r s c d r1 s1 hrs hwa hwb
    subst hcd
    have hsr := (decodeValue_good W hW _ f a x r hsa hva).1
    have hss := (decodeValue_good W1 hW1 _ f1 b y s hsb hvb).1
    have hacc1 : ElemSim P (x :: acc) (y :: acc1) := by
      intro e1 he1
      rw [List.mem_cons] at he1
      rcases he1 with he1 | he1
      · rw [he1]
        exact ⟨x, List.mem_cons_self _ _, hsim⟩
      · obtain ⟨e, he, hse⟩ := hacc e1 he1
        exact ⟨e, List.mem_cons_of_mem _ he, hse⟩
    rcases hda with ⟨hc, hreca⟩ | ⟨hc, hv, hra⟩
    · rcases hdb with ⟨_, hrecb⟩ | ⟨hc1, _, _⟩
      · exact decodeElems_sim P hP W W1 hW hW1 md md1 dp dp1 f f1 (x :: acc) (y :: acc1) r1 s1 v v1 ra rb
          (suffix_of_skipWs r W c r1 hsr hwa).2 (suffix_of_skipWs s W1 c s1 hss hwb).2
          (hrel1 (by rw [hc]; decide)) hacc1 hreca hrecb
      · rw [hc] at hc1
        exact absurd hc1 (by decide)
    · rcases hdb with ⟨hc1, _⟩ | ⟨_, hv1, hrb⟩
      · rw [hc] at hc1
        exact absurd hc1 (by decide)
      · rw [hv, hv1, hra, hrb]
        refine ⟨sim_arr P _ _ ?_, Or.inl (hrel1 (by rw [hc]; decide))⟩
        intro e1 he1
        obtain ⟨e, he, hse⟩ := hacc1 e1 (List.mem_reverse.1 he1)
        exact ⟨e, List.mem_reverse.2 he, hse⟩
theorem decodeMembers_sim (P : List (List Char × List Char)) (hP : Placeholders P)
    (W W1 : List Char) (hW : '\\' ∉ W) (hW1 : '\\' ∉ W1) :
    ∀ (md md1 : Bool) (dp dp1 f f1 : Nat) (acc acc1 : List (String × JSON)) (a b : List Char) (v v1 : JSON)
      (ra rb : List Char),
    a <:+ W → b <:+ W1 → Rel P a b → EntSim P acc acc1 →
    (mapKeys acc).Nodup → (mapKeys acc1).Nodup →
    decodeMembers md dp f acc a = some (v, ra) → decodeMembers md1 dp1 f1 acc1 b = some (v1, rb) →
    Sim P v v1 ∧ (Rel P ra rb ∨ Dollar rb)
  | md, md1, dp, dp1, 0, _, acc, acc1, a, b, v, v1, ra, rb, _, _, _, _, _, _, ha, _ => by
    rw [decodeMembers] at ha
    cases ha
  | md, md1, dp, dp1, _ + 1, 0, acc, acc1, a, b, v, v1, ra, rb, _, _, _, _, _, _, _, hb => by
    rw [decodeMembers] at hb
    cases hb
  | md, md1, dp, dp1, f + 1, f1 + 1, acc, acc1, a, b, v, v1, ra, rb, hsa, hsb, hrel, hacc, hna, hnb, ha, hb => by
    obtain ⟨a0, k, a1, a2, x, a3, c, a4, hwa, hka, hwa1, hva, hwa3, hda⟩ :=
      decodeMembers_inv f acc a v ra ha
    obtain ⟨b0, k1, b1, b2, y, b3, d, b4, hwb, hkb, hwb1, hvb, hwb3, hdb⟩ :=
      decodeMembers_inv f1 acc1 b v1 rb hb
    obtain ⟨_, hrel0, _⟩ := rel_next P a b _ _ a0 b0 hrel hwa hwb
    obtain ⟨_, hsa0⟩ := suffix_of_skipWs a W _ a0 hsa hwa
    obtain ⟨_, hsb0⟩ := suffix_of_skipWs b W1 _ b0 hsb hwb
    have hba : '\\' ∉ a0 := fun hm => hW (hsa0.subset hm)
    have hbb : '\\' ∉ b0 := fun hm => hW1 (hsb0.subset hm)
    obtain ⟨hk, htail⟩ := rel_string P hP _ _ a0 b0 k k1 a1 b1 hrel0 rfl rfl hba hbb hka hkb
    have hsa1 : a1 <:+ W := by
      obtain ⟨s0, _, hs0, _⟩ := scanString_plain a0 none [] k a1 hba hka
      exact (show a1 <:+ a0 from ⟨s0 ++ ['"'], by rw [hs0]; simp⟩).trans hsa0
    have hsb1 : b1 <:+ W1 := by
      obtain ⟨s0, _, hs0, _⟩ := scanString_plain b0 none [] k1 b1 hbb hkb
      exact (show b1 <:+ b0 from ⟨s0 ++ ['"'], by rw [hs0]; simp⟩).trans hsb0
    have hrel1 : Rel P a1 b1 := rel_of_next P a1 b1 ':' b2 htail hwb1 (by decide)
    obtain ⟨_, _, hrel2⟩ := rel_next P a1 b1 _ _ a2 b2 hrel1 hwa1 hwb1
    obtain ⟨_, hsa2⟩ := suffix_of_skipWs a1 W _ a2 hsa1 hwa1
    obtain ⟨_, hsb2⟩ := suffix_of_skipWs b1 W1 _ b2 hsb1 hwb1
    obtain ⟨hsim, htail3⟩ := decodeValue_sim P hP W W1 hW hW1 md md1 dp dp1 f f1 a2 b2 x y a3 b3 hsa2 hsb2
      (hrel2 (by decide)) hva hvb
    have hd : d ≠ '$' := by
      rcases hdb with ⟨h1, _⟩ | ⟨h1, _⟩ <;> rw [h1] <;> decide
    have hrel3 : Rel P a3 b3 := rel_of_next P a3 b3 d b4 htail3 hwb3 hd
    obtain ⟨hcd, _, hrel4⟩ := rel_next P a3 b3 c d a4 b4 hrel3 hwa3 hwb3
    subst hcd
    have hsa3 := (decodeValue_good W hW _ f a2 x a3 hsa2 hva).1
    have hsb3 := (decodeValue_good W1 hW1 _ f1 b2 y b3 hsb2 hvb).1
    have hkS : substS P ⟨k⟩ = ⟨k1⟩ := by rw [hk]; rfl
    have hent : EntSim P (mapSet ⟨k⟩ x acc) (mapSet ⟨k1⟩ y acc1) :=
      entSim_mapSet P acc acc1 ⟨k⟩ ⟨k1⟩ x y hacc hnb hkS hsim
    rcases hda with ⟨hc, hreca⟩ | ⟨hc, hv, hra⟩
    · rcases hdb with ⟨_, hrecb⟩ | ⟨hc1, _, _⟩
      · exact decodeMembers_sim P hP W W1 hW hW1 md md1 dp dp1 f f1 _ _ a4 b4 v v1 ra rb
          (suffix_of_skipWs a3 W c a4 hsa3 hwa3).2 (suffix_of_skipWs b3 W1 c b4 hsb3 hwb3).2
          (hrel4 (by rw [hc]; decide)) hent (nodup_mapSet _ _ _ hna) (nodup_mapSet _ _ _ hnb)
          hreca hrecb
      · rw [hc] at hc1
        exact absurd hc1 (by decide)
    · rcases hdb with ⟨hc1, _⟩ | ⟨_, hv1, hrb⟩
      · rw [hc] at hc1
        exact absurd hc1 (by decide)
      · rw [hv, hv1, hra, hrb]
        exact ⟨sim_obj P hP _ _ hent (nodup_mapSet _ _ _ hna),
          Or.inl (hrel4 (by rw [hc]; decide))⟩
end

/-! ## The template against the dashboard -/

theorem found_iff_discover (v : JSON) (x : String) :
    x ∈ discoverDatasourceUIDs v [] ↔ Found v x := by
  constructor
  · intro h
    rcases discover_sound_aux x v [] h with h1 | h1
    · cases h1
    · exact h1
  · rintro ⟨⟨n, hn, hr⟩, hc⟩
    exact discover_complete_aux n x hr hc v [] hn

theorem mem_led : ∀ (l : List (List Char)) (c : Char),
    c ∈ led l → c = '"' ∨ ∃ s, s ∈ l ∧ c ∈ s
  | [], c, h => by simp [led] at h
  | s :: rest, c, h => by
    rw [led, List.mem_cons, List.mem_append] at h
    rcases h with h | h | h
    · exact Or.inl h
    · exact Or.inr ⟨s, List.mem_cons_self _ _, h⟩
    · rcases mem_led rest c h with h1 | ⟨x, hx, hc⟩
      · exact Or.inl h1
      · exact Or.inr ⟨x, List.mem_cons_of_mem _ hx, hc⟩

theorem mem_of_mem_led (s0 : List Char) (l : List (List Char)) (s : List Char) (c : Char)
    (hs : s ∈ l) (hc : c ∈ s) : c ∈ s0 ++ led l :=
  (segment_occurs s0 l s hs).subset hc

/-- The extraction brings no backslash into a text that has none, when no placeholder
has one. -/
theorem extract_plain (P : List (List Char × List Char)) (s0 : List Char)
    (l : List (List Char)) (hW : '\\' ∉ s0 ++ led l)
    (hP : ∀ p, p ∈ P → '\\' ∉ p.2) : '\\' ∉ s0 ++ led (mapInit (subst P) l) := by
  intro h
  rw [List.mem_append] at h
  rcases h with h | h
  · exact hW (List.mem_append_left _ h)
  · rcases mem_led _ _ h with h1 | ⟨s, hs, hc⟩
    · exact absurd h1 (by decide)
    · rcases mem_mapInit _ _ _ hs with h2 | ⟨t, ht, hst⟩
      · exact hW (mem_of_mem_led s0 l s _ h2 hc)
      · rcases subst_cases P t with h3 | ⟨p, hp, _, h3⟩
        · rw [hst, h3] at hc
          exact hW (mem_of_mem_led s0 l t _ ht hc)
        · rw [hst, h3] at hc
          exact hP p hp hc

theorem mem_foldl_mapSet {α : Type} : ∀ (l base : List (String × α)) (kv : String × α),
    kv ∈ l.foldl (fun out e => mapSet e.1 e.2 out) base → kv ∈ base ∨ kv ∈ l
  | [], base, kv, h => Or.inl h
  | e :: rest, base, kv, h => by
    rw [List.foldl_cons] at h
    rcases mem_foldl_mapSet rest _ kv h with h1 | h1
    · rcases mem_mapSet e.1 e.2 base kv h1 with h2 | h2
      · exact Or.inr (by rw [h2]; exact List.mem_cons_self _ _)
      · exact Or.inl h2
    · exact Or.inr (List.mem_cons_of_mem _ h1)

theorem not_found_str (s x : String) : ¬ Found (.str s) x :=
  not_found_of_leaf _ x (by rw [nodes]) (fun _ h => by cases h)

theorem not_found_null (x : String) : ¬ Found .null x :=
  not_found_of_leaf _ x (by rw [nodes]) (fun _ h => by cases h)

theorem not_found_inputEntry (ds : DataSource) (x : String) : ¬ Found (inputEntry upper ds) x := by
  unfold inputEntry
  rw [found_obj]
  rintro (⟨⟨val, hval, hr⟩, _⟩ | ⟨kv, hkv, hf⟩)
  · cases hval
    simp [mapGet] at hr
  · simp only [List.mem_cons, List.mem_singleton, List.not_mem_nil, or_false] at hkv
    rcases hkv with h | h | h | h <;> (rw [h] at hf; exact not_found_str _ _ hf)

theorem not_found_requireEntry (t x : String) : ¬ Found (requireEntry t) x := by
  unfold requireEntry
  rw [found_obj]
  rintro (⟨⟨val, hval, hr⟩, _⟩ | ⟨kv, hkv, hf⟩)
  · cases hval
    simp [mapGet] at hr
  · simp only [List.mem_cons, List.mem_singleton, List.not_mem_nil, or_false] at hkv
    rcases hkv with h | h | h | h <;> (rw [h] at hf; exact not_found_str _ _ hf)

theorem not_found_grafanaRequirement (x : String) : ¬ Found grafanaRequirement x := by
  unfold grafanaRequirement
  rw [found_obj]
  rintro (⟨⟨val, hval, hr⟩, _⟩ | ⟨kv, hkv, hf⟩)
  · cases hval
    simp [mapGet] at hr
  · simp only [List.mem_cons, List.mem_singleton, List.not_mem_nil, or_false] at hkv
    rcases hkv with h | h | h | h <;> (rw [h] at hf; exact not_found_str _ _ hf)

theorem not_found_sliceJSON (xs : List JSON) (x : String)
    (h : ∀ e, e ∈ xs → ¬ Found e x) : ¬ Found (sliceJSON xs) x := by
  cases xs with
  | nil => exact not_found_null x
  | cons a rest =>
    unfold sliceJSON
    rw [found_arr]
    rintro ⟨e, he, hf⟩
    exact h e he hf

/-- The metadata of the template binds no data source. -/
theorem not_found_metadata (raw : String) (allDS : List DataSource) (order : List String)
    (kv : String × JSON) (x : String)
    (hkv : kv ∈ [("__inputs", sliceJSON (exportLoop upper raw allDS order).inputs),
      ("__requires", sliceJSON (exportLoop upper raw allDS order).requires)]) : ¬ Found kv.2 x := by
  simp only [List.mem_cons, List.mem_singleton, List.not_mem_nil, or_false] at hkv
  rcases hkv with h | h
  · rw [h, exportLoop_inputs]
    show ¬ Found (sliceJSON _) x
    apply not_found_sliceJSON
    intro e he
    obtain ⟨ds, _, hds⟩ := List.mem_map.1 he
    rw [← hds]
    exact not_found_inputEntry ds x
  · rw [h, exportLoop_requires]
    refine not_found_sliceJSON
      (grafanaRequirement :: List.map requireEntry (exportLoop upper raw allDS order).pluginMap) x ?_
    intro e he
    rw [List.mem_cons] at he
    rcases he with he | he
    · rw [he]
      exact not_found_grafanaRequirement x
    · obtain ⟨t, _, ht⟩ := List.mem_map.1 he
      rw [← ht]
      exact not_found_requireEntry t x

theorem mem_mapDelete {α : Type} (k : String) (m : List (String × α)) (kv : String × α)
    (h : kv ∈ mapDelete k m) : kv ∈ m := by
  unfold mapDelete at h
  exact (List.mem_filter.1 h).1

/-- Every data source found in the template is found in what the rewritten text decodes
to. -/
theorem found_exportOutput (raw : String) (allDS : List DataSource) (order : List String)
    (x : String) (h : Found (.obj (exportOutput (exportLoop upper raw allDS order))) x) :
    Found (.obj (unmarshalIgnored (exportLoop upper raw allDS order).jsonStr)) x := by
  rw [found_obj] at h ⊢
  rcases h with ⟨⟨val, hval, hr⟩, hc⟩ | ⟨kv, hkv, hf⟩
  · cases hval
    have hfield := field_exportOutput (exportLoop upper raw allDS order) "datasource"
    have hfield1 : mapGet "datasource" (exportOutput (exportLoop upper raw allDS order)) =
        match mapGet "datasource" (finalDash (exportLoop upper raw allDS order).jsonStr) with
        | some v => some v
        | none =>
          mapGet "datasource"
            [("__inputs", sliceJSON (exportLoop upper raw allDS order).inputs),
              ("__requires", sliceJSON (exportLoop upper raw allDS order).requires)] := hfield
    have hget : mapGet "datasource" (exportOutput (exportLoop upper raw allDS order)) =
        mapGet "datasource" (unmarshalIgnored (exportLoop upper raw allDS order).jsonStr) := by
      rw [hfield1, mapGet_finalDash]
      simp only [if_neg (show ¬ ("datasource" = "version" ∨ "datasource" = "uid" ∨
        "datasource" = "id") by decide)]
      cases hh : mapGet "datasource" (unmarshalIgnored (exportLoop upper raw allDS order).jsonStr)
      · simp [mapGet]
      · rfl
    rw [hget] at hr
    exact Or.inl ⟨⟨_, rfl, hr⟩, hc⟩
  · unfold exportOutput at hkv
    rcases mem_foldl_mapSet _ _ kv hkv with h1 | h1
    · exact absurd hf (not_found_metadata raw allDS order kv x h1)
    · unfold finalDash at h1
      exact Or.inr ⟨kv, mem_mapDelete _ _ _ (mem_mapDelete _ _ _ (mem_mapDelete _ _ _ h1)), hf⟩

theorem decodeWith_some (md : Bool) (text : String) (v : JSON)
    (h : decodeWith md text = some v) :
    ∃ r, decodeValue md 0 (2 * text.data.length + 2) text.data = some (v, r) := by
  unfold decodeWith at h
  split at h
  · rename_i v1 r hv
    split at h
    · simp only [Option.some.injEq] at h
      subst h
      exact ⟨r, hv⟩
    · cases h
  · cases h

theorem decode_some (text : String) (v : JSON) (h : decode text = some v) :
    ∃ r, decodeValue false 0 (2 * text.data.length + 2) text.data = some (v, r) :=
  decodeWith_some false text v h

/-- The map that an ignored error leaves is the map of the object that the lenient decoder
reads, or empty. -/
theorem unmarshalIgnored_cases (text : String) :
    decodeWith true text = some (.obj (unmarshalIgnored text)) ∨ unmarshalIgnored text = [] := by
  unfold unmarshalIgnored
  split
  · rename_i kvs hd
    exact Or.inl hd
  · exact Or.inr rfl

theorem unmarshalObject_some (text : String) (kvs : List (String × JSON))
    (h : unmarshalObject text = some kvs) :
    decode text = some (.obj kvs) ∨ (decode text = some .null ∧ kvs = []) := by
  unfold unmarshalObject at h
  split at h
  · rename_i kvs1 hd
    simp only [Option.some.injEq] at h
    subst h
    exact Or.inl hd
  · rename_i hd
    simp only [Option.some.injEq] at h
    exact Or.inr ⟨hd, h.symm⟩
  · cases h

theorem not_found_obj_nil (x : String) : ¬ Found (.obj []) x := by
  rw [found_obj]
  rintro (⟨⟨val, hval, hr⟩, _⟩ | ⟨kv, hkv, _⟩)
  · cases hval
    simp [mapGet] at hr
  · cases hkv

theorem placeholders_charPairs (pairs : List (String × String))
    (h : ∀ p, p ∈ pairs → '"' ∉ p.2.data) : Placeholders (charPairs pairs) := by
  intro q hq
  obtain ⟨p, hp, hpq⟩ := List.mem_map.1 hq
  rw [← hpq]
  constructor
  · simp only [placeholder_data, List.mem_cons, List.mem_append, List.mem_singleton, not_or]
    exact ⟨by decide, by decide, h p hp, by decide⟩
  · exact ⟨_, placeholder_data p.2⟩

/-- A data source found in the template is a data source of the dashboard that the
catalog does not resolve, when the text of the dashboard has no backslash and the
extraction is hygienic. -/
theorem found_template (raw : String) (allDS : List DataSource) (order : List String)
    (dashObj : List (String × JSON)) (x : String)
    (horder : IterationOrder raw order)
    (hplain : '\\' ∉ raw.data)
    (hnames : ∀ p, p ∈ resolvedPairs upper allDS order →
      '"' ∉ p.1.data ∧ '"' ∉ p.2.data ∧ '\\' ∉ p.2.data)
    (hoverlap : ∀ p, p ∈ resolvedPairs upper allDS order →
      ¬ contains raw (quoted p.1 ++ p.1 ++ "\""))
    (hu : unmarshalObject raw = some dashObj)
    (h : Found (.obj (exportOutput (exportLoop upper raw allDS order))) x) :
    x ∈ usedUIDs raw ∧ mapGet x (dsMap allDS) = none := by
  have hquote : ∀ p, p ∈ resolvedPairs upper allDS order → '"' ∉ p.1.data ∧ '"' ∉ p.2.data :=
    fun p hp => ⟨(hnames p hp).1, (hnames p hp).2.1⟩
  have hext := extractable_of_strings raw allDS order horder hquote hoverlap
  have hP := placeholders_charPairs (resolvedPairs upper allDS order) (fun p hp => (hquote p hp).2)
  have hPb : ∀ q, q ∈ charPairs (resolvedPairs upper allDS order) → '\\' ∉ q.2 := by
    intro q hq
    obtain ⟨p, hp, hpq⟩ := List.mem_map.1 hq
    rw [← hpq]
    simp only [placeholder_data, List.mem_cons, List.mem_append, List.mem_singleton, not_or]
    exact ⟨by decide, by decide, (hnames p hp).2.2, by decide⟩
  obtain ⟨s0, inner, ht, hs0, hin⟩ := exists_segments raw.data
  have hT : (exportLoop upper raw allDS order).jsonStr.data =
      s0 ++ led (mapInit (subst (charPairs (resolvedPairs upper allDS order))) inner) := by
    rw [exportLoop_jsonStr_data, ht]
    exact extractChars_segments s0 inner hs0 hin _ (ht ▸ hext)
  have hrel : Rel (charPairs (resolvedPairs upper allDS order)) raw.data
      (exportLoop upper raw allDS order).jsonStr.data := by
    rw [hT]
    nth_rewrite 1 [ht]
    exact rel_of_pre _ s0 inner hs0 hin
  have hW1 : '\\' ∉ (exportLoop upper raw allDS order).jsonStr.data := by
    rw [hT]
    exact extract_plain _ s0 inner (ht ▸ hplain) hPb
  have h1 := found_exportOutput raw allDS order x h
  rcases unmarshalIgnored_cases (exportLoop upper raw allDS order).jsonStr with hd1 | hnil
  · obtain ⟨r1, hv1⟩ := decodeWith_some _ _ _ hd1
    have hx : Found (.obj dashObj) x ∧
        substS (charPairs (resolvedPairs upper allDS order)) x = x := by
      rcases unmarshalObject_some _ _ hu with hd | ⟨hd, _⟩
      · obtain ⟨r, hv⟩ := decode_some _ _ hd
        exact (decodeValue_sim _ hP raw.data _ hplain hW1 _ _ _ _ _ _ raw.data _ _ _ r r1
          (List.suffix_refl _) (List.suffix_refl _) hrel hv hv1).1.1 x h1
      · obtain ⟨r, hv⟩ := decode_some _ _ hd
        exact absurd ((decodeValue_sim _ hP raw.data _ hplain hW1 _ _ _ _ _ _ raw.data _ _ _ r r1
          (List.suffix_refl _) (List.suffix_refl _) hrel hv hv1).1.1 x h1).1
          (not_found_null x)
    have hmem : x ∈ usedUIDs raw := by
      unfold usedUIDs
      rw [hu]
      exact (found_iff_discover _ x).2 hx.1
    refine ⟨hmem, ?_⟩
    cases hget : mapGet x (dsMap allDS) with
    | none => rfl
    | some ds =>
      exfalso
      have hp := @mem_resolvedPairs upper allDS order x ds ((List.Perm.mem_iff horder).2 hmem) hget
      have hq : (x.data, (placeholder (varName upper ds.Name)).data) ∈
          charPairs (resolvedPairs upper allDS order) := List.mem_map.2 ⟨_, hp, rfl⟩
      have hs := subst_of_mem _ _ hext.nodup hq
      have hfix : subst (charPairs (resolvedPairs upper allDS order)) x.data = x.data :=
        congrArg String.data hx.2
      exact placeholder_ne_concrete _ x (usedUIDs_concrete raw x hmem) (hs.symm.trans hfix)
  · rw [hnil] at h1
    exact absurd h1 (not_found_obj_nil x)

/-! ## The candidates of an input -/

theorem foldl_filter_append (pluginID : String) : ∀ (l : List (Nat × DataSource)) (acc : List Nat),
    l.foldl (fun filtered p => if p.2.Typ = pluginID then filtered ++ [p.1] else filtered) acc =
      acc ++ (l.filter (fun p => decide (p.2.Typ = pluginID))).map Prod.fst
  | [], acc => by simp
  | p :: rest, acc => by
    rw [List.foldl_cons, foldl_filter_append pluginID rest]
    by_cases h : p.2.Typ = pluginID
    · simp [h, List.filter_cons]
    · simp [h, List.filter_cons]

theorem filterByType_eq (availableDS : List DataSource) (pluginID : String) :
    filterByType availableDS pluginID =
      (availableDS.enum.filter (fun p => decide (p.2.Typ = pluginID))).map Prod.fst := by
  unfold filterByType
  rw [foldl_filter_append, List.nil_append]

theorem candidates_eq (availableDS : List DataSource) (pluginID : String) :
    availableDS.filter (fun ds => decide (ds.Typ = pluginID)) =
      (availableDS.enum.filter (fun p => decide (p.2.Typ = pluginID))).map Prod.snd := by
  have h : availableDS.enum.map Prod.snd = availableDS := List.enum_map_snd availableDS
  conv_lhs => rw [← h]
  rw [List.filter_map]
  rfl

/-- As many positions are kept as the catalog has data sources of the type. -/
theorem length_filterByType (availableDS : List DataSource) (pluginID : String) :
    (filterByType availableDS pluginID).length =
      (availableDS.filter (fun ds => decide (ds.Typ = pluginID))).length := by
  rw [filterByType_eq, candidates_eq, List.length_map, List.length_map]

/-- The indexing of line 541 is in bounds and gives the candidate of that number. -/
theorem selectedUID_eq (availableDS : List DataSource) (pluginID : String) (idx : Int)
    (c : DataSource)
    (h : (availableDS.filter (fun ds => decide (ds.Typ = pluginID)))[(idx - 1).toNat]? = some c) :
    selectedUID availableDS (filterByType availableDS pluginID) idx = some c.UID := by
  rw [candidates_eq, List.getElem?_map] at h
  unfold selectedUID
  rw [filterByType_eq, List.getElem?_map]
  cases he : (availableDS.enum.filter (fun p => decide (p.2.Typ = pluginID)))[(idx - 1).toNat]? with
  | none => rw [he] at h; cases h
  | some q =>
    rw [he] at h
    simp only [Option.map_some', Option.some.injEq] at h
    have hmem : q ∈ availableDS.enum := (List.mem_filter.1 (List.getElem?_mem he)).1
    obtain ⟨i, d⟩ := q
    have hget : availableDS[i]? = some d := List.mk_mem_enum_iff_getElem?.1 hmem
    simp only [Option.map_some']
    rw [hget]
    simp only at h
    rw [h]

/-! ## The selection loop -/

theorem selectLoop_accept (availableDS : List DataSource) (pluginID inputStr : String)
    (rest : List String) (k : Int) (c : DataSource)
    (hk : atoi (trimSpace inputStr) = some k) (h1 : 1 ≤ k)
    (h2 : k ≤ ((availableDS.filter (fun ds => decide (ds.Typ = pluginID))).length : Int))
    (hc : (availableDS.filter (fun ds => decide (ds.Typ = pluginID)))[(k - 1).toNat]? = some c) :
    selectLoop availableDS (filterByType availableDS pluginID) (inputStr :: rest) =
      (.ok c.UID, rest) := by
  rw [selectLoop, hk]
  dsimp only
  rw [length_filterByType, if_pos ⟨by omega, h2⟩, selectedUID_eq availableDS pluginID k c hc]

theorem selectLoop_reject (availableDS : List DataSource) (pluginID inputStr : String)
    (rest : List String)
    (h : ∀ k : Int, atoi (trimSpace inputStr) = some k →
      ¬ (1 ≤ k ∧ k ≤ ((availableDS.filter (fun ds => decide (ds.Typ = pluginID))).length : Int))) :
    selectLoop availableDS (filterByType availableDS pluginID) (inputStr :: rest) =
      selectLoop availableDS (filterByType availableDS pluginID) rest := by
  rw [selectLoop]
  cases hk : atoi (trimSpace inputStr) with
  | none => rfl
  | some k =>
    dsimp only
    rw [length_filterByType, if_neg (fun hh => h k hk ⟨by omega, hh.2⟩)]

theorem candidate_exists (availableDS : List DataSource) (pluginID : String) (k : Int)
    (h1 : 1 ≤ k)
    (h2 : k ≤ ((availableDS.filter (fun ds => decide (ds.Typ = pluginID))).length : Int)) :
    ∃ c, (availableDS.filter (fun ds => decide (ds.Typ = pluginID)))[(k - 1).toNat]? = some c := by
  have hlt : (k - 1).toNat < (availableDS.filter (fun ds => decide (ds.Typ = pluginID))).length := by
    omega
  exact ⟨_, List.getElem?_eq_getElem hlt⟩

theorem resolveInputs_datasource (availableDS : List DataSource) (im : List (String × JSON))
    (more : List JSON) (answers : List String) (mappings : List (String × String))
    (htype : asString (mapGet "type" im) = "datasource")
    (hcand : availableDS.filter
      (fun ds => decide (ds.Typ = asString (mapGet "pluginId" im))) ≠ []) :
    resolveInputs availableDS (.obj im :: more) answers mappings =
      match selectLoop availableDS
          (filterByType availableDS (asString (mapGet "pluginId" im))) answers with
      | (.ok uid, answers1) =>
        resolveInputs availableDS more answers1
          (mapSet (asString (mapGet "name" im)) uid mappings)
      | (.failed err, answers1) => (.failed err, answers1)
      | (.panicked, answers1) => (.panicked, answers1)
      | (.waiting, answers1) => (.waiting, answers1) := by
  have hne : ¬ (filterByType availableDS (asString (mapGet "pluginId" im))).length = 0 := by
    rw [length_filterByType]
    intro h
    exact hcand (List.length_eq_zero.1 h)
  rw [resolveInputs, if_pos htype, if_neg hne]

/-! ## The loop over the declared inputs -/

theorem selectLoop_ok (availableDS : List DataSource) (filtered : List Nat) :
    ∀ (answers answers1 : List String) (uid : String),
    selectLoop availableDS filtered answers = (.ok uid, answers1) →
    ∃ ds, ds ∈ availableDS ∧ uid = ds.UID
  | [], answers1, uid, h => by
    rw [selectLoop] at h
    cases h
  | inputStr :: rest, answers1, uid, h => by
    rw [selectLoop] at h
    cases hk : atoi (trimSpace inputStr) with
    | none =>
      rw [hk] at h
      exact selectLoop_ok availableDS filtered rest answers1 uid h
    | some k =>
      rw [hk] at h
      dsimp only at h
      by_cases hr : 0 < k ∧ k ≤ (filtered.length : Int)
      · rw [if_pos hr] at h
        cases hs : selectedUID availableDS filtered k with
        | none => rw [hs] at h; cases h
        | some u =>
          rw [hs] at h
          cases h
          unfold selectedUID at hs
          cases hf : filtered[(k - 1).toNat]? with
          | none => rw [hf] at hs; cases hs
          | some i =>
            rw [hf] at hs
            dsimp only at hs
            cases hd : availableDS[i]? with
            | none => rw [hd] at hs; cases hs
            | some ds =>
              rw [hd] at hs
              cases hs
              exact ⟨ds, List.getElem?_mem hd, rfl⟩
      · rw [if_neg hr] at h
        exact selectLoop_ok availableDS filtered rest answers1 uid h

/-- One step of the loop over the inputs, read backwards from a run that ended well. -/
theorem resolveInputs_cons_ok (availableDS : List DataSource) (input : JSON)
    (rest : List JSON) (answers answers1 : List String) (m m1 : List (String × String))
    (h : resolveInputs availableDS (input :: rest) answers m = (.ok m1, answers1)) :
    ∃ im, input = .obj im ∧
      ((asString (mapGet "type" im) ≠ "datasource" ∧
          resolveInputs availableDS rest answers m = (.ok m1, answers1)) ∨
        (asString (mapGet "type" im) = "datasource" ∧
          ∃ ds a, ds ∈ availableDS ∧
            resolveInputs availableDS rest a
              (mapSet (asString (mapGet "name" im)) ds.UID m) = (.ok m1, answers1))) := by
  cases input with
  | obj im =>
    refine ⟨im, rfl, ?_⟩
    rw [resolveInputs] at h
    by_cases ht : asString (mapGet "type" im) = "datasource"
    · rw [if_pos ht] at h
      right
      refine ⟨ht, ?_⟩
      by_cases hl : (filterByType availableDS (asString (mapGet "pluginId" im))).length = 0
      · rw [if_pos hl] at h
        cases h
      · rw [if_neg hl] at h
        generalize hs : selectLoop availableDS
          (filterByType availableDS (asString (mapGet "pluginId" im))) answers = r at h
        obtain ⟨o, a⟩ := r
        cases o with
        | ok uid =>
          obtain ⟨ds, hds, hu⟩ := selectLoop_ok availableDS _ answers a uid hs
          subst hu
          exact ⟨ds, a, hds, h⟩
        | failed err => cases h
        | panicked => cases h
        | waiting => cases h
    · rw [if_neg ht] at h
      exact Or.inl ⟨ht, h⟩
  | null => rw [resolveInputs] at h; cases h
  | bool b => rw [resolveInputs] at h; cases h
  | num n => rw [resolveInputs] at h; cases h
  | str s => rw [resolveInputs] at h; cases h
  | arr xs => rw [resolveInputs] at h; cases h

theorem mapGet_mapSet_isSome {α : Type} (k k1 : String) (v : α) (m : List (String × α))
    (h : mapGet k m ≠ none) : mapGet k (mapSet k1 v m) ≠ none := by
  rw [mapGet_mapSet]
  by_cases hk : k1 = k
  · rw [if_pos hk]
    exact fun hh => by cases hh
  · rw [if_neg hk]
    exact h

/-- A run of the loop that ended well: the entries of the mapping are kept or replaced,
every input is an object, and the name of every input of type `datasource` is mapped to
the identifier of a data source of the catalog. -/
theorem resolveInputs_ok (availableDS : List DataSource) :
    ∀ (inputs : List JSON) (answers answers1 : List String) (m m1 : List (String × String)),
    resolveInputs availableDS inputs answers m = (.ok m1, answers1) →
    (∀ k, mapGet k m ≠ none → mapGet k m1 ≠ none) ∧
    (∀ p, p ∈ m1 → p ∈ m ∨ ∃ im ds, JSON.obj im ∈ inputs ∧ ds ∈ availableDS ∧
      asString (mapGet "type" im) = "datasource" ∧
      p = (asString (mapGet "name" im), ds.UID)) ∧
    (∀ input, input ∈ inputs → ∃ im, input = .obj im ∧
      (asString (mapGet "type" im) = "datasource" →
        mapGet (asString (mapGet "name" im)) m1 ≠ none))
  | [], answers, answers1, m, m1, h => by
    rw [resolveInputs] at h
    cases h
    exact ⟨fun _ hk => hk, fun p hp => Or.inl hp, fun _ hi => by cases hi⟩
  | input :: rest, answers, answers1, m, m1, h => by
    obtain ⟨im, him, hcase⟩ := resolveInputs_cons_ok availableDS input rest answers answers1 m m1 h
    rcases hcase with ⟨ht, hrest⟩ | ⟨ht, ds, a, hds, hrest⟩
    · obtain ⟨h1, h2, h3⟩ := resolveInputs_ok availableDS rest answers answers1 m m1 hrest
      refine ⟨h1, ?_, ?_⟩
      · intro p hp
        rcases h2 p hp with hm | ⟨im1, ds1, hmem, hds1, ht1, hp1⟩
        · exact Or.inl hm
        · exact Or.inr ⟨im1, ds1, List.mem_cons_of_mem _ hmem, hds1, ht1, hp1⟩
      · intro i hi
        rw [List.mem_cons] at hi
        rcases hi with hi | hi
        · exact ⟨im, hi.trans him, fun hd => absurd hd ht⟩
        · exact h3 i hi
    · obtain ⟨h1, h2, h3⟩ := resolveInputs_ok availableDS rest a answers1 _ m1 hrest
      refine ⟨?_, ?_, ?_⟩
      · intro k hk
        exact h1 k (mapGet_mapSet_isSome k _ _ m hk)
      · intro p hp
        rcases h2 p hp with hm | ⟨im1, ds1, hmem, hds1, ht1, hp1⟩
        · rcases mem_mapSet _ _ m p hm with hnew | hold
          · exact Or.inr ⟨im, ds, by rw [him]; exact List.mem_cons_self _ _, hds, ht, hnew⟩
          · exact Or.inl hold
        · exact Or.inr ⟨im1, ds1, List.mem_cons_of_mem _ hmem, hds1, ht1, hp1⟩
      · intro i hi
        rw [List.mem_cons] at hi
        rcases hi with hi | hi
        · refine ⟨im, hi.trans him, fun _ => h1 _ ?_⟩
          rw [mapGet_mapSet]
          simp
        · exact h3 i hi

/-- The loop over a list of inputs of which the first part ends well goes on with the
rest. -/
theorem resolveInputs_append (availableDS : List DataSource) :
    ∀ (pre rest : List JSON) (answers answers1 : List String) (m m1 : List (String × String)),
    resolveInputs availableDS pre answers m = (.ok m1, answers1) →
    resolveInputs availableDS (pre ++ rest) answers m = resolveInputs availableDS rest answers1 m1
  | [], rest, answers, answers1, m, m1, h => by
    rw [resolveInputs] at h
    cases h
    rfl
  | input :: pre, rest, answers, answers1, m, m1, h => by
    cases input with
    | obj im =>
      rw [resolveInputs] at h
      rw [List.cons_append, resolveInputs]
      by_cases ht : asString (mapGet "type" im) = "datasource"
      · rw [if_pos ht] at h ⊢
        by_cases hl : (filterByType availableDS (asString (mapGet "pluginId" im))).length = 0
        · rw [if_pos hl] at h
          cases h
        · rw [if_neg hl] at h ⊢
          generalize selectLoop availableDS
            (filterByType availableDS (asString (mapGet "pluginId" im))) answers = r at h ⊢
          obtain ⟨o, a⟩ := r
          cases o with
          | ok uid => exact resolveInputs_append availableDS pre rest a answers1 _ m1 h
          | failed err => cases h
          | panicked => cases h
          | waiting => cases h
      · rw [if_neg ht] at h ⊢
        exact resolveInputs_append availableDS pre rest answers answers1 m m1 h
    | null => rw [resolveInputs] at h; cases h
    | bool b => rw [resolveInputs] at h; cases h
    | num n => rw [resolveInputs] at h; cases h
    | str s => rw [resolveInputs] at h; cases h
    | arr xs => rw [resolveInputs] at h; cases h

/-- An input of type `datasource` without a candidate ends the loop with an error, and no
answer is read for it. -/
theorem resolveInputs_no_candidate (availableDS : List DataSource)
    (im : List (String × JSON)) (rest : List JSON) (answers : List String)
    (m : List (String × String))
    (htype : asString (mapGet "type" im) = "datasource")
    (hnone : ∀ ds, ds ∈ availableDS → ds.Typ ≠ asString (mapGet "pluginId" im)) :
    resolveInputs availableDS (.obj im :: rest) answers m =
      (.failed ("no datasources found for type " ++ asString (mapGet "pluginId" im)),
        answers) := by
  have hl : (filterByType availableDS (asString (mapGet "pluginId" im))).length = 0 := by
    rw [length_filterByType, List.length_eq_zero, List.filter_eq_nil_iff]
    intro ds hds
    simpa using hnone ds hds
  rw [resolveInputs, if_pos htype, if_pos hl]

/-! ## The command `dash create` -/

theorem declaredInputs_cons (data : String) (input : JSON) (inputs : List JSON)
    (h : declaredInputs data = input :: inputs) :
    ∃ dashRaw, decode data = some (.obj dashRaw) ∧
      mapGet "__inputs" dashRaw = some (.arr (input :: inputs)) := by
  unfold declaredInputs at h
  split at h
  · rename_i dashRaw hd
    split at h
    · rename_i xs hx
      subst h
      exact ⟨dashRaw, hd, hx⟩
    · cases h
  · cases h

theorem declaredInputs_of (data : String) (dashRaw : List (String × JSON)) (inputs : List JSON)
    (hd : decode data = some (.obj dashRaw))
    (hi : mapGet "__inputs" dashRaw = some (.arr inputs)) : declaredInputs data = inputs := by
  unfold declaredInputs
  rw [hd]
  dsimp only
  rw [hi]

/-- A run that left the loop over the inputs with an error, a panic or an endless prompt
ends so, before the substitution. -/
theorem dashCreate_of_not_ok (jsonError : String → String)
    (rangeOrder : List (String × String) → List (String × String))
    (data : String) (availableDS : List DataSource) (answers answers2 : List String)
    (hne : declaredInputs data ≠ [])
    (hr : ∀ m, (resolveInputs availableDS (declaredInputs data) answers []).1 ≠ .ok m) :
    (dashCreate jsonError rangeOrder data availableDS answers answers2).substituted = none ∧
    (∀ p, (dashCreate jsonError rangeOrder data availableDS answers answers2).result ≠ .ok p) ∧
    (dashCreate jsonError rangeOrder data availableDS answers answers2).unread =
      (resolveInputs availableDS (declaredInputs data) answers []).2 ∧
    ∀ err, (resolveInputs availableDS (declaredInputs data) answers []).1 = .failed err →
      (dashCreate jsonError rangeOrder data availableDS answers answers2).result = .failed err := by
  cases hdi : declaredInputs data with
  | nil => exact absurd hdi hne
  | cons input inputs =>
    obtain ⟨dashRaw, hd, hi⟩ := declaredInputs_cons data input inputs hdi
    rw [hdi] at hr
    unfold dashCreate
    rw [hd]
    dsimp only
    rw [hi]
    dsimp only
    generalize resolveInputs availableDS (input :: inputs) answers [] = r at hr ⊢
    obtain ⟨o, a⟩ := r
    cases o with
    | ok m => exact absurd rfl (hr m)
    | failed err =>
      refine ⟨rfl, ?_, rfl, ?_⟩
      · intro p hp
        cases hp
      · intro e he
        cases he
        rfl
    | panicked =>
      refine ⟨rfl, ?_, rfl, ?_⟩
      · intro p hp
        cases hp
      · intro e he
        cases he
    | waiting =>
      refine ⟨rfl, ?_, rfl, ?_⟩
      · intro p hp
        cases hp
      · intro e he
        cases he

/-- A run that reached the substitution left the loop over the inputs with a mapping, and
the text after the substitution is the file with the placeholders of the mapping
replaced. -/
theorem dashCreate_substituted (jsonError : String → String)
    (rangeOrder : List (String × String) → List (String × String))
    (data : String) (availableDS : List DataSource) (answers answers2 : List String)
    (t : String)
    (h : (dashCreate jsonError rangeOrder data availableDS answers answers2).substituted =
      some t) :
    ∃ mappings unread,
      resolveInputs availableDS (declaredInputs data) answers [] = (.ok mappings, unread) ∧
      t = substituteMappings data (rangeOrder mappings) := by
  unfold dashCreate at h
  split at h
  · rename_i dashRaw hd
    split at h
    · rename_i input inputs hi
      rw [declaredInputs_of data dashRaw _ hd hi]
      split at h
      · rename_i mappings unread hr
        refine ⟨mappings, unread, hr, ?_⟩
        split at h
        · exact (Option.some.inj h).symm
        · exact (Option.some.inj h).symm
        · exact (Option.some.inj h).symm
      · cases h
      · cases h
      · cases h
    · cases h
  · cases h
  · cases h

/-! ## The override prompts -/

theorem promptOverride_ok (key : String) (dashRaw dashRaw1 : GoMap)
    (answers answers1 : List String)
    (h : promptOverride key dashRaw answers = (.ok dashRaw1, answers1)) :
    ∀ k, k ≠ key → field k (goMapJSON dashRaw1) = field k (goMapJSON dashRaw) := by
  intro k hk
  unfold promptOverride at h
  split at h
  · cases dashRaw with
    | none =>
      rw [goMapSet] at h
      cases h
    | some kvs =>
      rw [goMapSet] at h
      cases h
      show mapGet k (mapSet key _ kvs) = mapGet k kvs
      rw [mapGet_mapSet, if_neg (fun hh => hk hh.symm)]
  · cases h
    rfl

/-- The payload of the creation call holds the document after the overrides, which change
the fields `title` and `uid` only. -/
theorem createPayload_ok (dashRaw : GoMap) (answers : List String) (payload : JSON)
    (h : createPayload dashRaw answers = .ok payload) :
    ∃ d, field "dashboard" payload = some d ∧
      ∀ k, k ≠ "title" → k ≠ "uid" → field k d = field k (goMapJSON dashRaw) := by
  unfold createPayload at h
  generalize h1 : promptOverride "title" dashRaw answers = r1 at h
  obtain ⟨o1, a1⟩ := r1
  cases o1 with
  | ok m1 =>
    dsimp only at h
    generalize h2 : promptOverride "uid" m1 a1 = r2 at h
    obtain ⟨o2, a2⟩ := r2
    cases o2 with
    | ok m2 =>
      dsimp only at h
      cases h
      refine ⟨goMapJSON m2, rfl, ?_⟩
      intro k hk1 hk2
      rw [promptOverride_ok "uid" m1 m2 a1 a2 h2 k hk2,
        promptOverride_ok "title" dashRaw m1 answers a1 h1 k hk1]
    | failed err => cases h
    | panicked => cases h
    | waiting => cases h
  | failed err => cases h
  | panicked => cases h
  | waiting => cases h

/-! ## Placeholders after the substitution -/

theorem closesBefore_split : ∀ (b : List Char), closesBefore b = true →
    ∃ x y, b = x ++ '\x7d' :: y ∧ '$' ∉ x ∧ '\x7d' ∉ x
  | [], h => by rw [closesBefore] at h; cases h
  | c :: cs, h => by
    rw [closesBefore] at h
    by_cases h1 : c = '\x7d'
    · exact ⟨[], cs, by rw [h1]; rfl, by simp, by simp⟩
    · rw [if_neg h1] at h
      by_cases h2 : c = '$'
      · rw [if_pos h2] at h
        cases h
      · rw [if_neg h2] at h
        obtain ⟨x, y, hb, hx1, hx2⟩ := closesBefore_split cs h
        refine ⟨c :: x, y, by rw [hb]; rfl, ?_, ?_⟩
        · rw [List.mem_cons, not_or]
          exact ⟨fun hh => h2 hh.symm, hx1⟩
        · rw [List.mem_cons, not_or]
          exact ⟨fun hh => h1 hh.symm, hx2⟩

theorem closed_of_placeholdersClosed : ∀ (t : List Char), placeholdersClosed t = true →
    Closed t
  | [], _ => by
    intro a b h
    cases a <;> cases h
  | [c], _ => by
    intro a b h
    cases a with
    | nil => cases h
    | cons e a1 =>
      simp only [List.cons_append, List.cons.injEq] at h
      cases a1 <;> cases h.2
  | c :: d :: cs, h => by
    rw [placeholdersClosed, Bool.and_eq_true] at h
    intro a b hab
    cases a with
    | nil =>
      simp only [List.nil_append, List.cons.injEq] at hab
      obtain ⟨hc, hd, hcs⟩ := hab
      have h1 := h.1
      rw [if_pos ⟨hc, hd⟩, hcs] at h1
      exact closesBefore_split b h1
    | cons e a1 =>
      simp only [List.cons_append, List.cons.injEq] at hab
      exact closed_of_placeholdersClosed (d :: cs) h.2 a1 b hab.2

theorem closed_of_append (s t : List Char) (h : Closed (s ++ t)) : Closed t := by
  intro a b hab
  exact h (s ++ a) b (by rw [hab, List.append_assoc])

theorem first_char_unique (c : Char) : ∀ (a b x y : List Char), c ∉ a → c ∉ b →
    a ++ c :: x = b ++ c :: y → a = b ∧ x = y
  | [], [], x, y, _, _, h => by
    simp only [List.nil_append, List.cons.injEq, true_and] at h
    exact ⟨rfl, h⟩
  | [], d :: b, x, y, _, hb, h => by
    simp only [List.nil_append, List.cons_append, List.cons.injEq] at h
    exact absurd (List.mem_cons.2 (Or.inl h.1)) hb
  | d :: a, [], x, y, ha, _, h => by
    simp only [List.nil_append, List.cons_append, List.cons.injEq] at h
    exact absurd (List.mem_cons.2 (Or.inl h.1.symm)) ha
  | d :: a, e :: b, x, y, ha, hb, h => by
    simp only [List.cons_append, List.cons.injEq] at h
    rw [List.mem_cons, not_or] at ha hb
    obtain ⟨h1, h2⟩ := first_char_unique c a b x y ha.2 hb.2 h.2
    exact ⟨by rw [h.1, h1], h2⟩

/-- A text that starts with a stretch free of `c` meets `c` only after the stretch. -/
theorem split_after_free (c : Char) : ∀ (u z a w : List Char), c ∉ u →
    u ++ z = a ++ c :: w → ∃ a1, a = u ++ a1 ∧ z = a1 ++ c :: w
  | [], z, a, w, _, h => ⟨a, rfl, h⟩
  | d :: u, z, [], w, hu, h => by
    simp only [List.cons_append, List.nil_append, List.cons.injEq] at h
    exact absurd (List.mem_cons.2 (Or.inl h.1.symm)) hu
  | d :: u, z, e :: a, w, hu, h => by
    simp only [List.cons_append, List.cons.injEq] at h
    rw [List.mem_cons, not_or] at hu
    obtain ⟨a1, ha, hz⟩ := split_after_free c u z a w hu.2 h.2
    exact ⟨a1, by rw [h.1, ha]; rfl, hz⟩

/-- Replacing the placeholder of `n` by `u` in a text with closed placeholders: every
`$\x7b` of the result opens a stretch, other than `n`, that the text had at a `$\x7b` of
its own, and the replacement goes on behind its closing brace. -/
theorem replaceScan_opening (n u : List Char) (hn : '$' ∉ n) (hu : u ≠ [])
    (hu1 : '$' ∉ u) (hu2 : '\x7b' ∉ u) :
    ∀ (k : Nat) (t : List Char), t.length ≤ k → Closed t →
    ∀ a1 b1, replaceScan ('$' :: '\x7b' :: (n ++ ['\x7d'])) u 0 t = a1 ++ '$' :: '\x7b' :: b1 →
    ∃ a x y, t = a ++ '$' :: '\x7b' :: (x ++ '\x7d' :: y) ∧ '$' ∉ x ∧ '\x7d' ∉ x ∧ x ≠ n ∧
      b1 = x ++ '\x7d' :: replaceScan ('$' :: '\x7b' :: (n ++ ['\x7d'])) u 0 y
  | _, [], _, _, a1, b1, h => by
    rw [replaceScan] at h
    cases a1 <;> cases h
  | 0, c :: cs, hk, _, _, _, _ => by
    simp at hk
  | k + 1, c :: cs, hk, hcl, a1, b1, h => by
    have hlen : cs.length ≤ k := by
      rw [List.length_cons] at hk
      omega
    by_cases hp : ('$' :: '\x7b' :: (n ++ ['\x7d'])) <+: c :: cs
    · obtain ⟨rest, hrest⟩ := hp
      rw [← hrest, replaceScan_match _ _ _ (by simp)] at h
      obtain ⟨a2, ha2, hz⟩ := split_after_free '$' u _ a1 _ hu1 h
      have hrl : rest.length ≤ k := by
        have h1 : (c :: cs).length = ('$' :: '\x7b' :: (n ++ ['\x7d'])).length + rest.length := by
          rw [← hrest, List.length_append]
        rw [List.length_cons] at h1
        rw [List.length_cons] at hk
        simp only [List.length_cons] at h1
        omega
      have hcl1 : Closed rest := closed_of_append _ rest (by rw [hrest]; exact hcl)
      obtain ⟨a, x, y, ht, hx1, hx2, hxn, hb⟩ :=
        replaceScan_opening n u hn hu hu1 hu2 k rest hrl hcl1 a2 b1 hz
      refine ⟨('$' :: '\x7b' :: (n ++ ['\x7d'])) ++ a, x, y, ?_, hx1, hx2, hxn, hb⟩
      rw [← hrest, ht, List.append_assoc]
    · rw [replaceScan_nomatch _ _ c cs hp] at h
      cases a1 with
      | nil =>
        simp only [List.nil_append, List.cons.injEq] at h
        obtain ⟨hc, hR⟩ := h
        cases cs with
        | nil => rw [replaceScan] at hR; cases hR
        | cons d ds =>
          by_cases hp2 : ('$' :: '\x7b' :: (n ++ ['\x7d'])) <+: d :: ds
          · exfalso
            obtain ⟨rest2, hrest2⟩ := hp2
            rw [← hrest2, replaceScan_match _ _ _ (by simp)] at hR
            cases u with
            | nil => exact hu rfl
            | cons u0 u1 =>
              simp only [List.cons_append, List.cons.injEq] at hR
              exact hu2 (by rw [hR.1]; exact List.mem_cons_self _ _)
          · rw [replaceScan_nomatch _ _ d ds hp2] at hR
            simp only [List.cons.injEq] at hR
            obtain ⟨hd, hb⟩ := hR
            obtain ⟨x, y, hds, hx1, hx2⟩ := hcl [] ds (by rw [hc, hd]; rfl)
            have hxn : x ≠ n := by
              intro hxn
              apply hp
              refine ⟨y, ?_⟩
              rw [hc, hd, hds, hxn]
              simp
            refine ⟨[], x, y, by rw [hc, hd, hds]; rfl, hx1, hx2, hxn, ?_⟩
            rw [← hb, hds]
            have h1 : '$' ∉ x ++ ['\x7d'] := by
              rw [List.mem_append, not_or]
              exact ⟨hx1, by decide⟩
            have h2 := replaceScan_skip_free '$' ('\x7b' :: (n ++ ['\x7d'])) u
              (x ++ ['\x7d']) y h1
            simp only [List.append_assoc, List.singleton_append] at h2
            exact h2
      | cons e a2 =>
        simp only [List.cons_append, List.cons.injEq] at h
        have hcl1 : Closed cs := closed_of_append [c] cs hcl
        obtain ⟨a, x, y, ht, hx1, hx2, hxn, hb⟩ :=
          replaceScan_opening n u hn hu hu1 hu2 k cs hlen hcl1 a2 b1 h.2
        exact ⟨c :: a, x, y, by rw [ht]; rfl, hx1, hx2, hxn, hb⟩

/-- The replacement keeps the placeholders closed. -/
theorem closed_replaceScan (n u : List Char) (hn : '$' ∉ n) (hu : u ≠ [])
    (hu1 : '$' ∉ u) (hu2 : '\x7b' ∉ u) (t : List Char) (hcl : Closed t) :
    Closed (replaceScan ('$' :: '\x7b' :: (n ++ ['\x7d'])) u 0 t) := by
  intro a1 b1 h
  obtain ⟨a, x, y, _, hx1, hx2, _, hb⟩ :=
    replaceScan_opening n u hn hu hu1 hu2 t.length t (Nat.le_refl _) hcl a1 b1 h
  exact ⟨x, _, hb, hx1, hx2⟩

/-- A placeholder in the result of the replacement was in the text, and is not the one
replaced. -/
theorem placeholder_of_replaceScan (n u : List Char) (hn : '$' ∉ n) (hu : u ≠ [])
    (hu1 : '$' ∉ u) (hu2 : '\x7b' ∉ u) (t : List Char) (hcl : Closed t)
    (m : List Char) (hm : '\x7d' ∉ m)
    (h : ('$' :: '\x7b' :: (m ++ ['\x7d'])) <:+:
      replaceScan ('$' :: '\x7b' :: (n ++ ['\x7d'])) u 0 t) :
    ('$' :: '\x7b' :: (m ++ ['\x7d'])) <:+: t ∧ m ≠ n := by
  obtain ⟨a1, c1, h1⟩ := h
  obtain ⟨a, x, y, ht, _, hx2, hxn, hb⟩ :=
    replaceScan_opening n u hn hu hu1 hu2 t.length t (Nat.le_refl _) hcl a1 (m ++ '\x7d' :: c1)
      (by rw [← h1]; simp)
  obtain ⟨hmx, _⟩ := first_char_unique '\x7d' m x _ _ hm hx2 hb
  subst hmx
  exact ⟨⟨a, y, by rw [ht]; simp⟩, hxn⟩

/-- The substitution loop on characters, for pairs of a name and the identifier it is
mapped to: the placeholders stay closed, and a placeholder in the result was in the text
and is the placeholder of no pair. -/
theorem foldl_replaceScan_placeholder :
    ∀ (N : List (List Char × List Char)) (t : List Char),
    (∀ q, q ∈ N → '$' ∉ q.1 ∧ q.2 ≠ [] ∧ '$' ∉ q.2 ∧ '\x7b' ∉ q.2) → Closed t →
    Closed (N.foldl (fun t q => replaceScan ('$' :: '\x7b' :: (q.1 ++ ['\x7d'])) q.2 0 t) t) ∧
    ∀ m, '\x7d' ∉ m → ('$' :: '\x7b' :: (m ++ ['\x7d'])) <:+:
        N.foldl (fun t q => replaceScan ('$' :: '\x7b' :: (q.1 ++ ['\x7d'])) q.2 0 t) t →
      ('$' :: '\x7b' :: (m ++ ['\x7d'])) <:+: t ∧ ∀ q, q ∈ N → m ≠ q.1
  | [], t, _, hcl => ⟨hcl, fun m _ h => ⟨h, fun q hq => by cases hq⟩⟩
  | q :: rest, t, hN, hcl => by
    obtain ⟨hq1, hq2, hq3, hq4⟩ := hN q (List.mem_cons_self _ _)
    have hcl1 := closed_replaceScan q.1 q.2 hq1 hq2 hq3 hq4 t hcl
    obtain ⟨h1, h2⟩ := foldl_replaceScan_placeholder rest _
      (fun p hp => hN p (List.mem_cons_of_mem _ hp)) hcl1
    rw [List.foldl_cons]
    refine ⟨h1, ?_⟩
    intro m hm h
    obtain ⟨h3, h4⟩ := h2 m hm h
    obtain ⟨h5, h6⟩ := placeholder_of_replaceScan q.1 q.2 hq1 hq2 hq3 hq4 t hcl m hm h3
    refine ⟨h5, ?_⟩
    intro p hp
    rw [List.mem_cons] at hp
    rcases hp with hp | hp
    · rw [hp]
      exact h6
    · exact h4 p hp

theorem substituteMappings_foldl (mappings : List (String × String)) (data : String) :
    (substituteMappings data mappings).data =
      (mappings.map (fun m => (m.1.data, m.2.data))).foldl
        (fun t q => replaceScan ('$' :: '\x7b' :: (q.1 ++ ['\x7d'])) q.2 0 t) data.data := by
  rw [substituteMappings_data]
  unfold resolveChars
  rw [List.foldl_map, List.foldl_map]
  simp only [placeholder_data]

/-! ## Lines of a text -/

theorem splitLines_ne_nil : ∀ (t : List Char), splitLines t ≠ []
  | [] => by simp [splitLines]
  | c :: cs => by
    rw [splitLines]
    split
    · simp
    · split <;> simp

theorem splitLines_cons (c : Char) (cs : List Char) (hc : c ≠ '\n') :
    ∃ line lines, splitLines cs = line :: lines ∧
      splitLines (c :: cs) = (c :: line) :: lines := by
  cases h : splitLines cs with
  | nil => exact absurd h (splitLines_ne_nil cs)
  | cons line lines =>
    refine ⟨line, lines, rfl, ?_⟩
    rw [splitLines, if_neg hc, h]

theorem splitLines_append : ∀ (a b : List Char), '\n' ∉ a →
    splitLines (a ++ '\n' :: b) = a :: splitLines b
  | [], b, _ => by
    rw [List.nil_append, splitLines, if_pos rfl]
  | c :: a, b, h => by
    rw [List.mem_cons, not_or] at h
    obtain ⟨line, lines, h1, h2⟩ := splitLines_cons c (a ++ '\n' :: b) (fun hh => h.1 hh.symm)
    rw [List.cons_append, h2]
    rw [splitLines_append a b h.2] at h1
    cases h1
    rfl

theorem splitLines_of_no_newline : ∀ (a : List Char), '\n' ∉ a → splitLines a = [a]
  | [], _ => rfl
  | c :: a, h => by
    rw [List.mem_cons, not_or] at h
    obtain ⟨line, lines, h1, h2⟩ := splitLines_cons c a (fun hh => h.1 hh.symm)
    rw [splitLines_of_no_newline a h.2] at h1
    cases h1
    exact h2

theorem mem_splitLines : ∀ (t line : List Char), line ∈ splitLines t → '\n' ∉ line
  | [], line, h => by
    rw [splitLines, List.mem_singleton] at h
    rw [h]
    simp
  | c :: cs, line, h => by
    by_cases hc : c = '\n'
    · rw [splitLines, if_pos hc, List.mem_cons] at h
      rcases h with h | h
      · rw [h]
        simp
      · exact mem_splitLines cs line h
    · obtain ⟨l, ls, h1, h2⟩ := splitLines_cons c cs hc
      rw [h2, List.mem_cons] at h
      rcases h with h | h
      · rw [h, List.mem_cons, not_or]
        exact ⟨fun hh => hc hh.symm,
          mem_splitLines cs l (by rw [h1]; exact List.mem_cons_self _ _)⟩
      · exact mem_splitLines cs line (by rw [h1]; exact List.mem_cons_of_mem _ h)

theorem joinLines_cons_char (c : Char) (line : List Char) (lines : List (List Char)) :
    joinLines ((c :: line) :: lines) = c :: joinLines (line :: lines) := by
  cases lines <;> rfl

theorem joinLines_cons (line : List Char) (lines : List (List Char)) (h : lines ≠ []) :
    joinLines (line :: lines) = line ++ '\n' :: joinLines lines := by
  cases lines with
  | nil => exact absurd rfl h
  | cons l ls => rfl

/-- Joining the lines of a text gives the text. -/
theorem joinLines_splitLines : ∀ (t : List Char), joinLines (splitLines t) = t
  | [] => rfl
  | c :: cs => by
    by_cases hc : c = '\n'
    · rw [splitLines, if_pos hc, joinLines_cons _ _ (splitLines_ne_nil cs),
        joinLines_splitLines cs, hc]
      rfl
    · obtain ⟨l, ls, h1, h2⟩ := splitLines_cons c cs hc
      rw [h2, joinLines_cons_char, ← h1, joinLines_splitLines cs]

/-- The lines of a joined text are the lines joined. -/
theorem splitLines_joinLines : ∀ (lines : List (List Char)), lines ≠ [] →
    (∀ l, l ∈ lines → '\n' ∉ l) → splitLines (joinLines lines) = lines
  | [], h, _ => absurd rfl h
  | [line], _, h => splitLines_of_no_newline line (h line (List.mem_singleton.2 rfl))
  | line :: line1 :: rest, _, h => by
    rw [joinLines, splitLines_append line _ (h line (List.mem_cons_self _ _)),
      splitLines_joinLines (line1 :: rest) (by simp)
        (fun l hl => h l (List.mem_cons_of_mem _ hl))]

/-! ## Trimming and comment lines -/

theorem dropWhile_append_cons (p : Char → Bool) (b : Char) (ys : List Char) (hb : p b = false) :
    ∀ (xs : List Char), (xs ++ b :: ys).dropWhile p = xs.dropWhile p ++ b :: ys
  | [] => by
    rw [List.nil_append, List.dropWhile_cons, hb]
    rfl
  | x :: xs => by
    rw [List.cons_append, List.dropWhile_cons, List.dropWhile_cons]
    cases hx : p x
    · rfl
    · simp only [if_true]
      exact dropWhile_append_cons p b ys hb xs

/-- A text that starts with two characters that are no white space keeps them when
trimmed. -/
theorem trimSpaceChars_cons_cons (a b : Char) (rest : List Char)
    (ha : unicodeIsSpace a = false) (hb : unicodeIsSpace b = false) :
    ∃ r, trimSpaceChars (a :: b :: rest) = a :: b :: r := by
  unfold trimSpaceChars
  rw [List.dropWhile_cons, ha]
  simp only [Bool.false_eq_true, if_false, List.reverse_cons, List.append_assoc,
    List.singleton_append]
  rw [dropWhile_append_cons unicodeIsSpace b [a] hb]
  exact ⟨(rest.reverse.dropWhile unicodeIsSpace).reverse, by simp⟩

theorem trimSpaceChars_cons (a : Char) (rest : List Char) (ha : unicodeIsSpace a = false) :
    ∃ r, trimSpaceChars (a :: rest) = a :: r := by
  unfold trimSpaceChars
  rw [List.dropWhile_cons, ha]
  simp only [Bool.false_eq_true, if_false, List.reverse_cons]
  rw [dropWhile_append_cons unicodeIsSpace a [] ha]
  exact ⟨(rest.reverse.dropWhile unicodeIsSpace).reverse, by simp⟩

theorem trimSpaceChars_of_blank (s : List Char) (h : s.all unicodeIsSpace = true) :
    trimSpaceChars s = [] := by
  unfold trimSpaceChars
  have h1 : s.dropWhile unicodeIsSpace = [] := by
    rw [List.dropWhile_eq_nil_iff]
    intro x hx
    exact List.all_eq_true.1 h x hx
  rw [h1]
  rfl

/-- A line that starts with `//` is a comment line. -/
theorem isCommentLine_slashes (rest : List Char) : isCommentLine ('/' :: '/' :: rest) = true := by
  obtain ⟨r, hr⟩ := trimSpaceChars_cons_cons '/' '/' rest (by decide) (by decide)
  unfold isCommentLine
  rw [hr]
  simp [List.isPrefixOf]

/-- A line of white space is no comment line. -/
theorem isCommentLine_of_blank (s : List Char) (h : s.all unicodeIsSpace = true) :
    isCommentLine s = false := by
  unfold isCommentLine
  rw [trimSpaceChars_of_blank s h]
  rfl

/-! ## The cleaned text -/

theorem foldl_clean : ∀ (lines acc : List (List Char)),
    lines.foldl
      (fun cleanLines line => if isCommentLine line then cleanLines else cleanLines ++ [line]) acc =
      acc ++ lines.filter (fun line => !isCommentLine line)
  | [], acc => by simp
  | line :: rest, acc => by
    rw [List.foldl_cons, foldl_clean rest, List.filter_cons]
    cases h : isCommentLine line
    · simp
    · simp

/-- The loop keeps the lines that are no comment lines, in their order. -/
theorem cleanLines_eq (updated : List Char) :
    cleanLines updated = (splitLines updated).filter (fun line => !isCommentLine line) := by
  unfold cleanLines
  rw [foldl_clean, List.nil_append]

theorem mem_cleanLines (updated line : List Char) (h : line ∈ cleanLines updated) :
    line ∈ splitLines updated ∧ isCommentLine line = false := by
  rw [cleanLines_eq, List.mem_filter] at h
  exact ⟨h.1, by simpa using h.2⟩

/-- No line of the cleaned text is a comment line. -/
theorem splitLines_cleanJSON (updated : String) (line : List Char)
    (h : line ∈ splitLines (cleanJSON updated).data) : isCommentLine line = false := by
  unfold cleanJSON at h
  cases hl : cleanLines updated.data with
  | nil =>
    rw [hl] at h
    have h1 : line = [] := by simpa [joinLines, splitLines] using h
    rw [h1]
    rfl
  | cons l ls =>
    rw [hl] at h
    have h2 : splitLines (joinLines (l :: ls)) = l :: ls := by
      apply splitLines_joinLines _ (by simp)
      intro x hx
      rw [← hl] at hx
      exact mem_splitLines _ x (mem_cleanLines _ x hx).1
    have h3 : line ∈ l :: ls := by rw [← h2]; exact h
    rw [← hl] at h3
    exact (mem_cleanLines _ line h3).2

/-! ## The file of a retry round -/

theorem tmpFileText_data (e c : String) (he : e ≠ "") :
    (tmpFileText e c).data =
      ("// ERROR: " ++ e).data ++ '\n' ::
        ("// Fix the error below and save to retry.".data ++ '\n' :: ([] ++ '\n' :: c.data)) := by
  have h : "// Fix the error below and save to retry.\n\n".data =
      "// Fix the error below and save to retry.".data ++ ['\n', '\n'] := by decide
  have h1 : "\n".data = ['\n'] := rfl
  unfold tmpFileText
  rw [if_pos he]
  simp only [String.data_append, h, h1, List.append_assoc, List.singleton_append,
    List.cons_append, List.nil_append]

theorem error_line_no_newline (e : String) (hnl : '\n' ∉ e.data) :
    '\n' ∉ ("// ERROR: " ++ e).data := by
  rw [String.data_append, List.mem_append, not_or]
  exact ⟨by decide, hnl⟩

/-- The lines of the file of a retry round whose error message has no line break: the two
lines of the annotation, an empty line, and the lines of the content. -/
theorem splitLines_tmpFileText (e c : String) (he : e ≠ "") (hnl : '\n' ∉ e.data) :
    splitLines (tmpFileText e c).data =
      ("// ERROR: " ++ e).data :: "// Fix the error below and save to retry.".data :: [] ::
        splitLines c.data := by
  rw [tmpFileText_data e c he, splitLines_append _ _ (error_line_no_newline e hnl),
    splitLines_append _ _ (by decide), splitLines_append [] _ (by simp)]

theorem isCommentLine_error_line (e : String) :
    isCommentLine ("// ERROR: " ++ e).data = true := by
  rw [String.data_append]
  exact isCommentLine_slashes _

/-- The cleaned lines of the file of a retry round: an empty line, and the cleaned lines of
the content. -/
theorem cleanLines_tmpFileText (e c : String) (he : e ≠ "") (hnl : '\n' ∉ e.data) :
    cleanLines (tmpFileText e c).data = [] :: cleanLines c.data := by
  rw [cleanLines_eq, cleanLines_eq, splitLines_tmpFileText e c he hnl, List.filter_cons,
    isCommentLine_error_line, List.filter_cons]
  have h2 : isCommentLine "// Fix the error below and save to retry.".data = true :=
    isCommentLine_slashes _
  rw [h2, List.filter_cons]
  have h3 : isCommentLine [] = false := rfl
  rw [h3]
  rfl

theorem cleanLines_of_no_comment (c : List Char)
    (hc : ∀ l, l ∈ splitLines c → isCommentLine l = false) : cleanLines c = splitLines c := by
  rw [cleanLines_eq, List.filter_eq_self]
  intro l hl
  rw [hc l hl]
  rfl

/-- The cleaned text of the file of a retry round that the editor left as it was. -/
theorem cleanJSON_tmpFileText (e c : String) (he : e ≠ "") (hnl : '\n' ∉ e.data)
    (hc : ∀ l, l ∈ splitLines c.data → isCommentLine l = false) :
    cleanJSON (tmpFileText e c) = "\n" ++ c := by
  apply String.ext
  unfold cleanJSON
  rw [cleanLines_tmpFileText e c he hnl, cleanLines_of_no_comment c.data hc,
    joinLines_cons _ _ (splitLines_ne_nil _), joinLines_splitLines, String.data_append]
  rfl

/-! ## One round of the edit session -/

theorem editRound_saved (jsonError : String → String) (folderUID : String) (env : RoundEnv)
    (lastError content updated : String)
    (hed : env.editor (tmpFileText lastError content) = .saved updated) :
    editRound jsonError folderUID env lastError content =
      validateAndSubmit jsonError folderUID env.server updated := by
  unfold editRound
  rw [hed]

/-- A reply of the server gives a round that made the call. -/
theorem submit_call (folderUID : String) (server : JSON → Reply) (updated : String)
    (dashObj : GoMap) :
    ∃ next, (match server (updatePayload dashObj folderUID) with
      | .unreachable err => (⟨some (updatePayload dashObj folderUID), .error err⟩ : Round)
      | .response statusCode status body =>
        if statusCode ≠ 200 then
          ⟨some (updatePayload dashObj folderUID),
            .again (status ++ ": " ++ body) (cleanJSON updated)⟩
        else ⟨some (updatePayload dashObj folderUID), .done⟩) =
      ⟨some (updatePayload dashObj folderUID), next⟩ ∧
      ∀ e c, next = .again e c → c = cleanJSON updated := by
  cases server (updatePayload dashObj folderUID) with
  | unreachable err => exact ⟨_, rfl, fun e c h => by cases h⟩
  | response statusCode status body =>
    by_cases hs : statusCode ≠ 200
    · refine ⟨.again (status ++ ": " ++ body) (cleanJSON updated), ?_, ?_⟩
      · simp only [if_pos hs]
      · intro e c h
        cases h
        rfl
    · refine ⟨.done, ?_, ?_⟩
      · simp only [if_neg hs]
      · intro e c h
        cases h

/-- What a round does with the text read back, by the cases of the validation: a blank
text ends the session without a call; a text the decoder rejects gives a retry without a
call; any other text is submitted. -/
theorem validateAndSubmit_cases (jsonError : String → String) (folderUID : String)
    (server : JSON → Reply) (updated : String) :
    (trimSpace (cleanJSON updated) = "" →
      validateAndSubmit jsonError folderUID server updated = ⟨none, .done⟩) ∧
    (trimSpace (cleanJSON updated) ≠ "" → unmarshalNew (cleanJSON updated) = none →
      validateAndSubmit jsonError folderUID server updated =
        ⟨none, .again (jsonError (cleanJSON updated)) (cleanJSON updated)⟩) ∧
    (∀ dashObj, trimSpace (cleanJSON updated) ≠ "" →
      unmarshalNew (cleanJSON updated) = some dashObj →
      ∃ next, validateAndSubmit jsonError folderUID server updated =
          ⟨some (updatePayload dashObj folderUID), next⟩ ∧
        ∀ e c, next = .again e c → c = cleanJSON updated) := by
  refine ⟨?_, ?_, ?_⟩
  · intro h
    unfold validateAndSubmit
    rw [if_pos h]
  · intro h hu
    unfold validateAndSubmit
    rw [if_neg h, hu]
  · intro dashObj h hu
    obtain ⟨next, hn, hc⟩ := submit_call folderUID server updated dashObj
    refine ⟨next, ?_, hc⟩
    unfold validateAndSubmit
    rw [if_neg h, hu]
    exact hn

/-- A round either keeps the cleaned text as the next content or ends the session. -/
theorem editRound_again (jsonError : String → String) (folderUID : String) (env : RoundEnv)
    (lastError content updated lastError1 content1 : String)
    (hed : env.editor (tmpFileText lastError content) = .saved updated)
    (h : (editRound jsonError folderUID env lastError content).next =
      .again lastError1 content1) : content1 = cleanJSON updated := by
  rw [editRound_saved jsonError folderUID env lastError content updated hed] at h
  obtain ⟨h1, h2, h3⟩ := validateAndSubmit_cases jsonError folderUID env.server updated
  by_cases hb : trimSpace (cleanJSON updated) = ""
  · rw [h1 hb] at h
    cases h
  · cases hu : unmarshalNew (cleanJSON updated) with
    | none =>
      rw [h2 hb hu] at h
      cases h
      rfl
    | some dashObj =>
      obtain ⟨next, hn, hc⟩ := h3 dashObj hb hu
      rw [hn] at h
      exact hc _ _ h

theorem blank_joinLines : ∀ (lines : List (List Char)),
    (∀ l, l ∈ lines → l.all unicodeIsSpace = true) →
    (joinLines lines).all unicodeIsSpace = true
  | [], _ => rfl
  | [line], h => h line (List.mem_singleton.2 rfl)
  | line :: line1 :: rest, h => by
    rw [joinLines, List.all_append, List.all_cons, h line (List.mem_cons_self _ _),
      blank_joinLines (line1 :: rest) (fun l hl => h l (List.mem_cons_of_mem _ hl))]
    rfl

/-- When every line is a comment line or white space, the cleaned text trims to the empty
text. -/
theorem trimSpace_cleanJSON_of_blank (updated : String)
    (h : ∀ l, l ∈ splitLines updated.data →
      isCommentLine l = true ∨ l.all unicodeIsSpace = true) :
    trimSpace (cleanJSON updated) = "" := by
  apply String.ext
  unfold trimSpace cleanJSON
  apply trimSpaceChars_of_blank
  apply blank_joinLines
  intro l hl
  obtain ⟨h1, h2⟩ := mem_cleanLines _ l hl
  rcases h l h1 with h3 | h3
  · rw [h2] at h3
    cases h3
  · exact h3

theorem unmarshalNew_eq_none (text : String) :
    unmarshalNew text = none ↔
      (∀ kvs, decode text ≠ some (.obj kvs)) ∧ decode text ≠ some .null := by
  unfold unmarshalNew
  constructor
  · intro h
    split at h
    · cases h
    · cases h
    · rename_i h1 h2
      exact ⟨fun kvs hk => h1 kvs hk, h2⟩
  · rintro ⟨h1, h2⟩
    split
    · rename_i kvs hk
      exact absurd hk (h1 kvs)
    · rename_i hk
      exact absurd hk h2
    · rfl

/-! ## Name resolution: lemmas -/

theorem matches_iff (ds : datasource.DataSource) (s : String) :
    datasource.matches ds s = true ↔ (decimal ds.ID = s ∨ ds.Name = s) := by
  unfold datasource.matches
  simp

theorem resolveID_of_first (s : String) (e : datasource.DataSource) :
    ∀ (pre post : List datasource.DataSource),
    (∀ d, d ∈ pre → datasource.matches d s = false) → datasource.matches e s = true →
    datasource.ResolveID (pre ++ e :: post) s = .ok e.ID
  | [], post, _, he => by
    rw [List.nil_append, datasource.ResolveID, if_pos he]
  | d :: pre, post, hpre, he => by
    rw [List.cons_append, datasource.ResolveID, hpre d (List.mem_cons_self _ _)]
    exact resolveID_of_first s e pre post (fun x hx => hpre x (List.mem_cons_of_mem _ hx)) he

theorem resolveID_cases (s : String) : ∀ (dss : List datasource.DataSource),
    (datasource.ResolveID dss s = .error ("datasource " ++ s ++ " not found") ∧
      ∀ d, d ∈ dss → datasource.matches d s = false) ∨
    ∃ pre e post, dss = pre ++ e :: post ∧ (∀ d, d ∈ pre → datasource.matches d s = false) ∧
      datasource.matches e s = true ∧ datasource.ResolveID dss s = .ok e.ID
  | [] => Or.inl ⟨rfl, fun d hd => by cases hd⟩
  | ds :: dss => by
    cases hm : datasource.matches ds s with
    | true =>
      exact Or.inr ⟨[], ds, dss, rfl, (fun d hd => by cases hd), hm,
        (by rw [datasource.ResolveID, if_pos hm])⟩
    | false =>
      have hstep : datasource.ResolveID (ds :: dss) s = datasource.ResolveID dss s := by
        rw [datasource.ResolveID, hm]
        rfl
      rcases resolveID_cases s dss with ⟨herr, hall⟩ | ⟨pre, e, post, hd, hpre, he, hok⟩
      · refine Or.inl ⟨by rw [hstep, herr], ?_⟩
        intro d hd
        rw [List.mem_cons] at hd
        rcases hd with hd | hd
        · rw [hd]; exact hm
        · exact hall d hd
      · refine Or.inr ⟨ds :: pre, e, post, by rw [hd]; rfl, ?_, he, by rw [hstep, hok]⟩
        intro d hd1
        rw [List.mem_cons] at hd1
        rcases hd1 with hd1 | hd1
        · rw [hd1]; exact hm
        · exact hpre d hd1

/-! ## The transitions of a round -/

theorem validateAndSubmit_response (jsonError : String → String) (folderUID : String)
    (server : JSON → Reply) (updated : String) (dashObj : GoMap) (statusCode : Nat)
    (status body : String)
    (hnb : trimSpace (cleanJSON updated) ≠ "")
    (hu : unmarshalNew (cleanJSON updated) = some dashObj)
    (hs : server (updatePayload dashObj folderUID) = .response statusCode status body) :
    validateAndSubmit jsonError folderUID server updated =
      if statusCode ≠ 200 then
        ⟨some (updatePayload dashObj folderUID),
          .again (status ++ ": " ++ body) (cleanJSON updated)⟩
      else ⟨some (updatePayload dashObj folderUID), .done⟩ := by
  unfold validateAndSubmit
  rw [if_neg hnb, hu]
  dsimp only
  rw [hs]

theorem validateAndSubmit_unreachable (jsonError : String → String) (folderUID : String)
    (server : JSON → Reply) (updated : String) (dashObj : GoMap) (err : String)
    (hnb : trimSpace (cleanJSON updated) ≠ "")
    (hu : unmarshalNew (cleanJSON updated) = some dashObj)
    (hs : server (updatePayload dashObj folderUID) = .unreachable err) :
    validateAndSubmit jsonError folderUID server updated =
      ⟨some (updatePayload dashObj folderUID), .error err⟩ := by
  unfold validateAndSubmit
  rw [if_neg hnb, hu]
  dsimp only
  rw [hs]

theorem status_message_ne_empty (status body : String) : status ++ ": " ++ body ≠ "" := by
  intro h
  have h1 := congrArg String.data h
  simp [String.data_append] at h1

/-- After the extraction of a text that the pairs can be extracted from, no quoted
identifier of a pair is left. -/
theorem extract_no_quoted (t : List Char) (P : List (List Char × List Char))
    (hext : Extractable P t) :
    ∀ p, p ∈ P → ¬ ('"' :: (p.1 ++ ['"'])) <:+: extractChars P t := by
  obtain ⟨s0, inner, ht, hs0, hin⟩ := exists_segments t
  subst ht
  rw [extractChars_segments s0 inner hs0 hin P hext]
  intro p hp hi
  have hq : ∀ s, s ∈ mapInit (subst P) inner → '"' ∉ s := by
    intro s hs
    rcases mem_mapInit _ _ _ hs with h1 | ⟨x, hx, hsx⟩
    · exact hin s h1
    · rw [hsx]
      exact subst_quote_free P x hext.rq (hin x hx)
  obtain ⟨pre, x, post, hdec⟩ :=
    quoted_infix_segment p.1 (hext.uq p hp) _ s0 hs0 hq hi
  obtain ⟨a, _, ha⟩ := mapInit_eq_append _ _ _ _ _ _ hdec
  have hau : a = p.1 := subst_eq_uid P p.1 a (fun q hq => hext.ru q hq p hp) ha.symm
  rw [hau, subst_of_mem P p hext.nodup hp] at ha
  exact hext.ru p hp p hp ha.symm

/-- The substitution of the resolved pairs leaves a stretch that is no resolved identifier
as it is. -/
theorem subst_resolved_other (allDS : List DataSource) (order : List String) (s : List Char)
    (hs : ∀ uid ds, uid ∈ order → mapGet uid (dsMap allDS) = some ds → uid.data ≠ s) :
    subst (charPairs (resolvedPairs upper allDS order)) s = s := by
  apply subst_of_not_mem
  intro hmem
  obtain ⟨q, hq, hqs⟩ := List.mem_map.1 hmem
  unfold charPairs at hq
  obtain ⟨p, hp, hpq⟩ := List.mem_map.1 hq
  unfold resolvedPairs at hp
  obtain ⟨uid, hu, hopt⟩ := List.mem_filterMap.1 hp
  cases hds : mapGet uid (dsMap allDS) with
  | none =>
    rw [hds] at hopt
    cases hopt
  | some ds =>
    rw [hds] at hopt
    simp only [Option.map_some', Option.some.injEq] at hopt
    apply hs uid ds hu hds
    rw [← hqs, ← hpq, ← hopt]

theorem length_mapInit (f : List Char → List Char) : ∀ (l : List (List Char)),
    (mapInit f l).length = l.length
  | [] => rfl
  | [_] => rfl
  | s :: s1 :: rest => by
    rw [mapInit, List.length_cons, length_mapInit f (s1 :: rest), List.length_cons,
      List.length_cons, List.length_cons]

/-- A stretch that the function leaves as it is stands at the same place afterwards. -/
theorem getElem?_mapInit (f : List Char → List Char) (x : List Char) (hx : f x = x) :
    ∀ (l : List (List Char)) (i : Nat), l[i]? = some x → (mapInit f l)[i]? = some x
  | [], _, h => by simp at h
  | [s], i, h => by
    rw [mapInit]
    exact h
  | s :: s1 :: rest, 0, h => by
    rw [mapInit]
    simp only [List.getElem?_cons_zero, Option.some.injEq] at h ⊢
    rw [h, hx]
  | s :: s1 :: rest, i + 1, h => by
    rw [mapInit]
    rw [List.getElem?_cons_succ] at h ⊢
    exact getElem?_mapInit f x hx (s1 :: rest) i h

/-- The visit of an identifier that the catalog does not resolve changes nothing, so the
loop is the loop over the other identifiers. -/
theorem foldl_exportStep_filter (m : List (String × DataSource)) (uid : String)
    (hnone : mapGet uid m = none) : ∀ (order : List String) (st : ExportState),
    order.foldl (exportStep upper m) st =
      (order.filter (fun x => decide (x ≠ uid))).foldl (exportStep upper m) st
  | [], _ => rfl
  | x :: rest, st => by
    rw [List.foldl_cons]
    by_cases hx : x = uid
    · have hf : (x :: rest).filter (fun x => decide (x ≠ uid)) =
          rest.filter (fun x => decide (x ≠ uid)) := by
        rw [List.filter_cons_of_neg]
        simp [hx]
      have hst : exportStep upper m st x = st := by
        unfold exportStep
        rw [hx, hnone]
      rw [hf, hst]
      exact foldl_exportStep_filter m uid hnone rest st
    · have hf : (x :: rest).filter (fun x => decide (x ≠ uid)) =
          x :: rest.filter (fun x => decide (x ≠ uid)) := by
        rw [List.filter_cons_of_pos]
        simp [hx]
      rw [hf, List.foldl_cons]
      exact foldl_exportStep_filter m uid hnone rest _

/-! ### the dashboard against the template: the shapes of a value -/

theorem keysFixed_member (P : List (List Char × List Char)) (kvs : List (String × JSON))
    (kv : String × JSON) (h : KeysFixed P (.obj kvs)) (hkv : kv ∈ kvs) : KeysFixed P kv.2 := by
  intro n hn
  apply h n
  rw [nodes]
  exact List.mem_cons_of_mem _ ((mem_nodesFields n kvs).2 ⟨kv, hkv, hn⟩)

theorem keysFixed_elem (P : List (List Char × List Char)) (xs : List JSON) (e : JSON)
    (h : KeysFixed P (.arr xs)) (he : e ∈ xs) : KeysFixed P e := by
  intro n hn
  apply h n
  rw [nodes]
  exact List.mem_cons_of_mem _ ((mem_nodesElems n xs).2 ⟨e, he, hn⟩)

theorem keysFixed_keys (P : List (List Char × List Char)) (kvs : List (String × JSON))
    (h : KeysFixed P (.obj kvs)) : ∀ k, k ∈ mapKeys kvs → substS P k = k := by
  intro k hk
  apply h (.obj kvs) _ k hk
  rw [nodes]
  exact List.mem_cons_self _ _

theorem fwd_leaf (P : List (List Char × List Char)) (v : JSON)
    (ho : ∀ kvs, v ≠ .obj kvs) (hs : ∀ s, v ≠ .str s) : Fwd P v v :=
  fun _ => ⟨⟨fun _ hf _ => hf, fun a ha => absurd ha (hs a), fun m _ hm _ => absurd hm (ho m)⟩,
    fun m hm => absurd hm (ho m)⟩

theorem fwd_str (P : List (List Char × List Char)) (s : List Char) :
    Fwd P (.str ⟨s⟩) (.str ⟨subst P s⟩) := by
  intro _
  refine ⟨⟨fun x hf _ => absurd hf (not_found_str _ x), ?_, ?_⟩, ?_⟩
  · intro a ha
    cases ha
    rfl
  · intro m a hm
    cases hm
  · intro m hm
    cases hm

theorem fwd_arr (P : List (List Char × List Char)) (xs ys : List JSON)
    (h : ElemFwd P xs ys) : Fwd P (.arr xs) (.arr ys) := by
  intro hkf
  refine ⟨⟨?_, ?_, ?_⟩, ?_⟩
  · intro x hf hx
    obtain ⟨e, he, hfe⟩ := (found_arr xs x).1 hf
    obtain ⟨e1, he1, hfwd⟩ := h e he
    exact (found_arr ys x).2 ⟨e1, he1, (hfwd (keysFixed_elem P xs e hkf he)).1.1 x hfe hx⟩
  · intro a ha
    cases ha
  · intro m a hm
    cases hm
  · intro m hm
    cases hm

/-- An object of the template that has, under the key of every member of an object of the
body, the value of that member. -/
theorem fwd1_of_members (P : List (List Char × List Char)) (kvs kvs1 : List (String × JSON))
    (h : ∀ kv, kv ∈ kvs → ∃ y1, mapGet kv.1 kvs1 = some y1 ∧ Fwd1 P kv.2 y1) :
    Fwd1 P (.obj kvs) (.obj kvs1) := by
  refine ⟨?_, ?_, ?_⟩
  · intro x hf hx
    rcases (found_obj kvs x).1 hf with ⟨⟨val, hval, href⟩, hc⟩ | ⟨kv, hkv, hfe⟩
    · cases hval
      rcases href with hd | ⟨dsv, hd, hu⟩
      · obtain ⟨y1, hy1, hfw⟩ := h _ (mapGet_some_mem _ _ _ hd)
        have hy : y1 = .str (substS P x) := hfw.2.1 x rfl
        rw [hx] at hy
        rw [hy] at hy1
        exact (found_obj kvs1 x).2 (Or.inl ⟨⟨kvs1, rfl, Or.inl hy1⟩, hc⟩)
      · obtain ⟨y1, hy1, hfw⟩ := h _ (mapGet_some_mem _ _ _ hd)
        obtain ⟨m1, hm1, hu1⟩ := hfw.2.2 dsv x rfl hu
        rw [hx] at hu1
        rw [hm1] at hy1
        exact (found_obj kvs1 x).2 (Or.inl ⟨⟨kvs1, rfl, Or.inr ⟨m1, hy1, hu1⟩⟩, hc⟩)
    · obtain ⟨y1, hy1, hfw⟩ := h kv hkv
      exact (found_obj kvs1 x).2
        (Or.inr ⟨(kv.1, y1), mapGet_some_mem _ _ _ hy1, hfw.1 x hfe hx⟩)
  · intro a ha
    cases ha
  · intro m a hm hu
    cases hm
    obtain ⟨y1, hy1, hfw⟩ := h _ (mapGet_some_mem _ _ _ hu)
    have hy : y1 = .str (substS P a) := hfw.2.1 a rfl
    rw [hy] at hy1
    exact ⟨kvs1, rfl, hy1⟩

theorem fwd_obj (P : List (List Char × List Char)) (kvs kvs1 : List (String × JSON))
    (h : EntFwd P kvs kvs1) : Fwd P (.obj kvs) (.obj kvs1) := by
  intro hkf
  have hm : ∀ kv, kv ∈ kvs → ∃ y1, mapGet kv.1 kvs1 = some y1 ∧ Fwd1 P kv.2 y1 := by
    intro kv hkv
    obtain ⟨y1, hy1, hfw⟩ := h (keysFixed_keys P kvs hkf) kv hkv
    exact ⟨y1, hy1, (hfw (keysFixed_member P kvs kv hkf hkv)).1⟩
  refine ⟨fwd1_of_members P kvs kvs1 hm, ?_⟩
  intro m hmm
  cases hmm
  exact ⟨kvs1, rfl, hm⟩

theorem entFwd_mapSet (P : List (List Char × List Char)) (acc acc1 : List (String × JSON))
    (k k1 : String) (v v1 : JSON) (h : EntFwd P acc acc1) (hn : (mapKeys acc).Nodup)
    (hk : substS P k = k1) (hv : Fwd P v v1) :
    EntFwd P (mapSet k v acc) (mapSet k1 v1 acc1) := by
  intro hkeys kv hkv
  have hkk : k1 = k := by
    rw [← hk]
    exact hkeys k ((mapKeys_mapSet k v acc k).2 (Or.inl rfl))
  have hacc : ∀ t, t ∈ mapKeys acc → substS P t = t :=
    fun t ht => hkeys t ((mapKeys_mapSet k v acc t).2 (Or.inr ht))
  rw [hkk]
  rcases mem_mapSet_nodup k v acc kv hn hkv with h1 | ⟨h1, h2⟩
  · rw [h1]
    exact ⟨v1, by rw [mapGet_mapSet, if_pos rfl], hv⟩
  · obtain ⟨y1, hy1, hfw⟩ := h hacc kv h1
    refine ⟨y1, ?_, hfw⟩
    rw [mapGet_mapSet, if_neg (fun e => h2 e.symm)]
    exact hy1

theorem rel_scanNumber_lit (P : List (List Char × List Char)) (x y lit lit1 ra rb : List Char)
    (h : Rel P x y) (hx : scanNumber x = some (lit, ra))
    (hy : scanNumber y = some (lit1, rb)) : lit = lit1 := by
  obtain ⟨pre, l, hp, hl, e1, e2⟩ := h
  rcases scanNumber_tails _ _ (tails_led (subst P) l) pre hp with
    ⟨h1, _⟩ | ⟨lit2, pre1, hq, h1, h2⟩
  · rw [← e1, hx] at h1
    cases h1
  · rw [← e1, hx] at h1
    rw [← e2, hy] at h2
    simp only [Option.some.injEq, Prod.mk.injEq] at h1 h2
    rw [h1.1, h2.1]

mutual
/-- The decoder on the body and on the template, from related positions, read from the
body: the value of the template follows the value of the body, and the positions after them
are related again unless the template goes on with a placeholder. -/
theorem decodeValue_fwd (P : List (List Char × List Char)) (hP : Placeholders P)
    (W W1 : List Char) (hW : '\\' ∉ W) (hW1 : '\\' ∉ W1) :
    ∀ (md md1 : Bool) (dp dp1 f f1 : Nat) (a b : List Char) (v v1 : JSON) (ra rb : List Char),
    a <:+ W → b <:+ W1 → Rel P a b →
    decodeValue md dp f a = some (v, ra) → decodeValue md1 dp1 f1 b = some (v1, rb) →
    Fwd P v v1 ∧ (Rel P ra rb ∨ Dollar rb)
  | md, md1, dp, dp1, 0, _, a, b, v, v1, ra, rb, _, _, _, ha, _ => by
    rw [decodeValue] at ha
    cases ha
  | md, md1, dp, dp1, _ + 1, 0, a, b, v, v1, ra, rb, _, _, _, _, hb => by
    rw [decodeValue] at hb
    cases hb
  | md, md1, dp, dp1, f + 1, f1 + 1, a, b, v, v1, ra, rb, hsa, hsb, hrel, ha, hb => by
    obtain ⟨c, r0, hwa, i1, i2, i3, i4, i5, i6, i7⟩ := decodeValue_inv f a v ra ha
    obtain ⟨c1, r1, hwb, j1, j2, j3, j4, j5, j6, j7⟩ := decodeValue_inv f1 b v1 rb hb
    obtain ⟨hcc, hrel0, hrel1⟩ := rel_next P a b c c1 r0 r1 hrel hwa hwb
    subst hcc
    obtain ⟨hs0, hsr0⟩ := suffix_of_skipWs a W c r0 hsa hwa
    obtain ⟨hs1, hsr1⟩ := suffix_of_skipWs b W1 c r1 hsb hwb
    by_cases hq : c = '"'
    · obtain ⟨s, hs, hv⟩ := i1 hq
      obtain ⟨s1, hss1, hv1⟩ := j1 hq
      have hba : '\\' ∉ r0 := fun hm => hW (hsr0.subset hm)
      have hbb : '\\' ∉ r1 := fun hm => hW1 (hsr1.subset hm)
      obtain ⟨hk, htail⟩ := rel_string P hP (c :: r0) (c :: r1) r0 r1 s s1 ra rb hrel0
        (by rw [hq]) (by rw [hq]) hba hbb hs hss1
      rw [hv, hv1, hk]
      exact ⟨fwd_str P s, htail⟩
    · have hr := hrel1 hq
      by_cases hbr : c = '['
      · obtain ⟨c2, r, hw2, k1, k2⟩ := i2 hbr
        obtain ⟨c3, r2, hw3, m1, m2⟩ := j2 hbr
        obtain ⟨hcc2, hrel2, hrel3⟩ := rel_next P r0 r1 c2 c3 r r2 hr hw2 hw3
        subst hcc2
        by_cases hc2 : c2 = ']'
        · obtain ⟨e1, e2⟩ := k1 hc2
          obtain ⟨e3, e4⟩ := m1 hc2
          rw [e1, e2, e3, e4]
          exact ⟨fwd_arr P [] [] (fun e he => by cases he),
            Or.inl (hrel3 (by rw [hc2]; decide))⟩
        · exact decodeElems_fwd P hP W W1 hW hW1 md md1 (dp + 1) (dp1 + 1) f f1 [] [] (c2 :: r) (c2 :: r2) v v1 ra rb
            (suffix_of_skipWs r0 W c2 r hsr0 hw2).1 (suffix_of_skipWs r1 W1 c2 r2 hsr1 hw3).1
            hrel2 (fun e he => by cases he) (k2 hc2) (m2 hc2)
      · by_cases hbc : c = '\x7b'
        · obtain ⟨c2, r, hw2, k1, k2⟩ := i3 hbc
          obtain ⟨c3, r2, hw3, m1, m2⟩ := j3 hbc
          obtain ⟨hcc2, hrel2, hrel3⟩ := rel_next P r0 r1 c2 c3 r r2 hr hw2 hw3
          subst hcc2
          by_cases hc2 : c2 = '\x7d'
          · obtain ⟨e1, e2⟩ := k1 hc2
            obtain ⟨e3, e4⟩ := m1 hc2
            rw [e1, e2, e3, e4]
            exact ⟨fwd_obj P [] [] (fun _ e he => by cases he),
              Or.inl (hrel3 (by rw [hc2]; decide))⟩
          · exact decodeMembers_fwd P hP W W1 hW hW1 md md1 (dp + 1) (dp1 + 1) f f1 [] [] (c2 :: r) (c2 :: r2) v v1 ra rb
              (suffix_of_skipWs r0 W c2 r hsr0 hw2).1 (suffix_of_skipWs r1 W1 c2 r2 hsr1 hw3).1
              hrel2 (fun _ e he => by cases he) (by simp [mapKeys]) (by simp [mapKeys])
              (k2 hc2) (m2 hc2)
        · by_cases ht : c = 't'
          · obtain ⟨hx, hv⟩ := i4 ht
            obtain ⟨hy, hv1⟩ := j4 ht
            rw [hv, hv1]
            exact ⟨fwd_leaf P _ (fun _ h => by cases h) (fun _ h => by cases h),
              Or.inl (rel_scanWord P _ r0 r1 ra rb (by decide) hr hx hy)⟩
          · by_cases hf : c = 'f'
            · obtain ⟨hx, hv⟩ := i5 hf
              obtain ⟨hy, hv1⟩ := j5 hf
              rw [hv, hv1]
              exact ⟨fwd_leaf P _ (fun _ h => by cases h) (fun _ h => by cases h),
                Or.inl (rel_scanWord P _ r0 r1 ra rb (by decide) hr hx hy)⟩
            · by_cases hn : c = 'n'
              · obtain ⟨hx, hv⟩ := i6 hn
                obtain ⟨hy, hv1⟩ := j6 hn
                rw [hv, hv1]
                exact ⟨fwd_leaf P _ (fun _ h => by cases h) (fun _ h => by cases h),
                  Or.inl (rel_scanWord P _ r0 r1 ra rb (by decide) hr hx hy)⟩
              · obtain ⟨lit, hx, hv⟩ := i7 hq hbr hbc ht hf hn
                obtain ⟨lit1, hy, hv1⟩ := j7 hq hbr hbc ht hf hn
                refine ⟨?_, Or.inl (rel_scanNumber P _ _ lit lit1 ra rb hrel0 hx hy)⟩
                rw [← rel_scanNumber_lit P _ _ lit lit1 ra rb hrel0 hx hy] at hv1
                rw [← numberValue_same _ _ lit v v1 hv hv1]
                rcases numberValue_cases _ _ _ hv with h1 | h1
                · rw [h1]
                  exact fwd_leaf P _ (fun _ h => by cases h) (fun _ h => by cases h)
                · rw [h1]
                  exact fwd_leaf P _ (fun _ h => by cases h) (fun _ h => by cases h)
theorem decodeElems_fwd (P : List (List Char × List Char)) (hP : Placeholders P)
    (W W1 : List Char) (hW : '\\' ∉ W) (hW1 : '\\' ∉ W1) :
    ∀ (md md1 : Bool) (dp dp1 f f1 : Nat) (acc acc1 : List JSON) (a b : List Char) (v v1 : JSON) (ra rb : List Char),
    a <:+ W → b <:+ W1 → Rel P a b → ElemFwd P acc acc1 →
    decodeElems md dp f acc a = some (v, ra) → decodeElems md1 dp1 f1 acc1 b = some (v1, rb) →
    Fwd P v v1 ∧ (Rel P ra rb ∨ Dollar rb)
  | md, md1, dp, dp1, 0, _, acc, acc1, a, b, v, v1, ra, rb, _, _, _, _, ha, _ => by
    rw [decodeElems] at ha
    cases ha
  | md, md1, dp, dp1, _ + 1, 0, acc, acc1, a, b, v, v1, ra, rb, _, _, _, _, _, hb => by
    rw [decodeElems] at hb
    cases hb
  | md, md1, dp, dp1, f + 1, f1 + 1, acc, acc1, a, b, v, v1, ra, rb, hsa, hsb, hrel, hacc, ha, hb => by
    obtain ⟨x, r, c, r1, hva, hwa, hda⟩ := decodeElems_inv f acc a v ra ha
    obtain ⟨y, s, d, s1, hvb, hwb, hdb⟩ := decodeElems_inv f1 acc1 b v1 rb hb
    obtain ⟨hsim, htail⟩ := decodeValue_fwd P hP W W1 hW hW1 md md1 dp dp1 f f1 a b x y r s hsa hsb hrel hva hvb
    have hd : d ≠ '$' := by
      rcases hdb with ⟨h1, _⟩ | ⟨h1, _⟩ <;> rw [h1] <;> decide
    have hrs : Rel P r s := rel_of_next P r s d s1 htail hwb hd
    obtain ⟨hcd, _, hrel1⟩ := rel_next P r s c d r1 s1 hrs hwa hwb
    subst hcd
    have hsr := (decodeValue_good W hW _ f a x r hsa hva).1
    have hss := (decodeValue_good W1 hW1 _ f1 b y s hsb hvb).1
    have hacc1 : ElemFwd P (x :: acc) (y :: acc1) := by
      intro e he
      rw [List.mem_cons] at he
      rcases he with he | he
      · rw [he]
        exact ⟨y, List.mem_cons_self _ _, hsim⟩
      · obtain ⟨e1, he1, hse⟩ := hacc e he
        exact ⟨e1, List.mem_cons_of_mem _ he1, hse⟩
    rcases hda with ⟨hc, hreca⟩ | ⟨hc, hv, hra⟩
    · rcases hdb with ⟨_, hrecb⟩ | ⟨hc1, _, _⟩
      · exact decodeElems_fwd P hP W W1 hW hW1 md md1 dp dp1 f f1 (x :: acc) (y :: acc1) r1 s1 v v1 ra rb
          (suffix_of_skipWs r W c r1 hsr hwa).2 (suffix_of_skipWs s W1 c s1 hss hwb).2
          (hrel1 (by rw [hc]; decide)) hacc1 hreca hrecb
      · rw [hc] at hc1
        exact absurd hc1 (by decide)
    · rcases hdb with ⟨hc1, _⟩ | ⟨_, hv1, hrb⟩
      · rw [hc] at hc1
        exact absurd hc1 (by decide)
      · rw [hv, hv1, hra, hrb]
        refine ⟨fwd_arr P _ _ ?_, Or.inl (hrel1 (by rw [hc]; decide))⟩
        intro e he
        obtain ⟨e1, he1, hse⟩ := hacc1 e (List.mem_reverse.1 he)
        exact ⟨e1, List.mem_reverse.2 he1, hse⟩
theorem decodeMembers_fwd (P : List (List Char × List Char)) (hP : Placeholders P)
    (W W1 : List Char) (hW : '\\' ∉ W) (hW1 : '\\' ∉ W1) :
    ∀ (md md1 : Bool) (dp dp1 f f1 : Nat) (acc acc1 : List (String × JSON)) (a b : List Char) (v v1 : JSON)
      (ra rb : List Char),
    a <:+ W → b <:+ W1 → Rel P a b → EntFwd P acc acc1 →
    (mapKeys acc).Nodup → (mapKeys acc1).Nodup →
    decodeMembers md dp f acc a = some (v, ra) → decodeMembers md1 dp1 f1 acc1 b = some (v1, rb) →
    Fwd P v v1 ∧ (Rel P ra rb ∨ Dollar rb)
  | md, md1, dp, dp1, 0, _, acc, acc1, a, b, v, v1, ra, rb, _, _, _, _, _, _, ha, _ => by
    rw [decodeMembers] at ha
    cases ha
  | md, md1, dp, dp1, _ + 1, 0, acc, acc1, a, b, v, v1, ra, rb, _, _, _, _, _, _, _, hb => by
    rw [decodeMembers] at hb
    cases hb
  | md, md1, dp, dp1, f + 1, f1 + 1, acc, acc1, a, b, v, v1, ra, rb, hsa, hsb, hrel, hacc, hna, hnb, ha, hb => by
    obtain ⟨a0, k, a1, a2, x, a3, c, a4, hwa, hka, hwa1, hva, hwa3, hda⟩ :=
      decodeMembers_inv f acc a v ra ha
    obtain ⟨b0, k1, b1, b2, y, b3, d, b4, hwb, hkb, hwb1, hvb, hwb3, hdb⟩ :=
      decodeMembers_inv f1 acc1 b v1 rb hb
    obtain ⟨_, hrel0, _⟩ := rel_next P a b _ _ a0 b0 hrel hwa hwb
    obtain ⟨_, hsa0⟩ := suffix_of_skipWs a W _ a0 hsa hwa
    obtain ⟨_, hsb0⟩ := suffix_of_skipWs b W1 _ b0 hsb hwb
    have hba : '\\' ∉ a0 := fun hm => hW (hsa0.subset hm)
    have hbb : '\\' ∉ b0 := fun hm => hW1 (hsb0.subset hm)
    obtain ⟨hk, htail⟩ := rel_string P hP _ _ a0 b0 k k1 a1 b1 hrel0 rfl rfl hba hbb hka hkb
    have hsa1 : a1 <:+ W := by
      obtain ⟨s0, _, hs0, _⟩ := scanString_plain a0 none [] k a1 hba hka
      exact (show a1 <:+ a0 from ⟨s0 ++ ['"'], by rw [hs0]; simp⟩).trans hsa0
    have hsb1 : b1 <:+ W1 := by
      obtain ⟨s0, _, hs0, _⟩ := scanString_plain b0 none [] k1 b1 hbb hkb
      exact (show b1 <:+ b0 from ⟨s0 ++ ['"'], by rw [hs0]; simp⟩).trans hsb0
    have hrel1 : Rel P a1 b1 := rel_of_next P a1 b1 ':' b2 htail hwb1 (by decide)
    obtain ⟨_, _, hrel2⟩ := rel_next P a1 b1 _ _ a2 b2 hrel1 hwa1 hwb1
    obtain ⟨_, hsa2⟩ := suffix_of_skipWs a1 W _ a2 hsa1 hwa1
    obtain ⟨_, hsb2⟩ := suffix_of_skipWs b1 W1 _ b2 hsb1 hwb1
    obtain ⟨hsim, htail3⟩ := decodeValue_fwd P hP W W1 hW hW1 md md1 dp dp1 f f1 a2 b2 x y a3 b3 hsa2 hsb2
      (hrel2 (by decide)) hva hvb
    have hd : d ≠ '$' := by
      rcases hdb with ⟨h1, _⟩ | ⟨h1, _⟩ <;> rw [h1] <;> decide
    have hrel3 : Rel P a3 b3 := rel_of_next P a3 b3 d b4 htail3 hwb3 hd
    obtain ⟨hcd, _, hrel4⟩ := rel_next P a3 b3 c d a4 b4 hrel3 hwa3 hwb3
    subst hcd
    have hsa3 := (decodeValue_good W hW _ f a2 x a3 hsa2 hva).1
    have hsb3 := (decodeValue_good W1 hW1 _ f1 b2 y b3 hsb2 hvb).1
    have hkS : substS P ⟨k⟩ = ⟨k1⟩ := by rw [hk]; rfl
    have hent : EntFwd P (mapSet ⟨k⟩ x acc) (mapSet ⟨k1⟩ y acc1) :=
      entFwd_mapSet P acc acc1 ⟨k⟩ ⟨k1⟩ x y hacc hna hkS hsim
    rcases hda with ⟨hc, hreca⟩ | ⟨hc, hv, hra⟩
    · rcases hdb with ⟨_, hrecb⟩ | ⟨hc1, _, _⟩
      · exact decodeMembers_fwd P hP W W1 hW hW1 md md1 dp dp1 f f1 _ _ a4 b4 v v1 ra rb
          (suffix_of_skipWs a3 W c a4 hsa3 hwa3).2 (suffix_of_skipWs b3 W1 c b4 hsb3 hwb3).2
          (hrel4 (by rw [hc]; decide)) hent (nodup_mapSet _ _ _ hna) (nodup_mapSet _ _ _ hnb)
          hreca hrecb
      · rw [hc] at hc1
        exact absurd hc1 (by decide)
    · rcases hdb with ⟨hc1, _⟩ | ⟨_, hv1, hrb⟩
      · rw [hc] at hc1
        exact absurd hc1 (by decide)
      · rw [hv, hv1, hra, hrb]
        exact ⟨fwd_obj P _ _ hent,
          Or.inl (hrel4 (by rw [hc]; decide))⟩
end

/-! ### the dashboard against the template: the assembly -/

theorem ne_of_mem_mapDelete {α : Type} (k : String) (m : List (String × α)) (kv : String × α)
    (h : kv ∈ mapDelete k m) : kv.1 ≠ k := by
  unfold mapDelete at h
  have h1 := (List.mem_filter.1 h).2
  intro e
  simp [e] at h1

theorem fwd1_same (v : JSON) : Fwd1 [] v v :=
  ⟨fun _ hf _ => hf, fun _ ha => ha, fun m _ hm hu => ⟨m, hm, hu⟩⟩

/-- A data source found in the rewritten body without the instance fields is found in the
template. -/
theorem found_of_finalDash (st : ExportState) (x : String)
    (h : Found (.obj (finalDash st.jsonStr)) x) : Found (.obj (exportOutput st)) x := by
  have hm : ∀ kv, kv ∈ finalDash st.jsonStr →
      ∃ y1, mapGet kv.1 (exportOutput st) = some y1 ∧ Fwd1 [] kv.2 y1 := by
    intro kv hkv
    refine ⟨kv.2, ?_, fwd1_same kv.2⟩
    have hf := field_exportOutput st kv.1
    rw [mapGet_of_mem kv.1 kv.2 _ (finalDash_nodup _) hkv] at hf
    exact hf
  exact (fwd1_of_members [] _ _ hm).1 x h rfl

/-- A data source of the dashboard that the catalog does not resolve, bound outside the
instance fields, is found in the template, when the text of the dashboard has no backslash,
the extraction is hygienic, the rewritten text is still a JSON object, and the
substitution leaves the object keys alone. -/
theorem found_body_template (raw : String) (allDS : List DataSource) (order : List String)
    (dashObj : List (String × JSON)) (x : String)
    (horder : IterationOrder raw order)
    (hplain : '\\' ∉ raw.data)
    (hnames : ∀ p, p ∈ resolvedPairs upper allDS order →
      '"' ∉ p.1.data ∧ '"' ∉ p.2.data ∧ '\\' ∉ p.2.data)
    (hoverlap : ∀ p, p ∈ resolvedPairs upper allDS order →
      ¬ contains raw (quoted p.1 ++ p.1 ++ "\""))
    (hu : unmarshalObject raw = some dashObj)
    (hre : unmarshalObject (exportLoop upper raw allDS order).jsonStr ≠ none)
    (hkeys : KeysFixed (charPairs (resolvedPairs upper allDS order)) (.obj dashObj))
    (hx : substS (charPairs (resolvedPairs upper allDS order)) x = x)
    (h : Found (.obj (mapDelete "version" (mapDelete "uid" (mapDelete "id" dashObj)))) x) :
    Found (.obj (exportOutput (exportLoop upper raw allDS order))) x := by
  have hquote : ∀ p, p ∈ resolvedPairs upper allDS order → '"' ∉ p.1.data ∧ '"' ∉ p.2.data :=
    fun p hp => ⟨(hnames p hp).1, (hnames p hp).2.1⟩
  have hext := extractable_of_strings raw allDS order horder hquote hoverlap
  have hP := placeholders_charPairs (resolvedPairs upper allDS order) (fun p hp => (hquote p hp).2)
  have hPb : ∀ q, q ∈ charPairs (resolvedPairs upper allDS order) → '\\' ∉ q.2 := by
    intro q hq
    obtain ⟨p, hp, hpq⟩ := List.mem_map.1 hq
    rw [← hpq]
    simp only [placeholder_data, List.mem_cons, List.mem_append, List.mem_singleton, not_or]
    exact ⟨by decide, by decide, (hnames p hp).2.2, by decide⟩
  obtain ⟨s0, inner, ht, hs0, hin⟩ := exists_segments raw.data
  have hT : (exportLoop upper raw allDS order).jsonStr.data =
      s0 ++ led (mapInit (subst (charPairs (resolvedPairs upper allDS order))) inner) := by
    rw [exportLoop_jsonStr_data, ht]
    exact extractChars_segments s0 inner hs0 hin _ (ht ▸ hext)
  have hrel : Rel (charPairs (resolvedPairs upper allDS order)) raw.data
      (exportLoop upper raw allDS order).jsonStr.data := by
    rw [hT]
    nth_rewrite 1 [ht]
    exact rel_of_pre _ s0 inner hs0 hin
  have hW1 : '\\' ∉ (exportLoop upper raw allDS order).jsonStr.data := by
    rw [hT]
    exact extract_plain _ s0 inner (ht ▸ hplain) hPb
  apply found_of_finalDash
  cases hu1 : unmarshalObject (exportLoop upper raw allDS order).jsonStr with
  | none => exact absurd hu1 hre
  | some kvs1 =>
    rcases unmarshalObject_some _ _ hu with hd | ⟨_, hnil⟩
    · obtain ⟨r, hv⟩ := decode_some _ _ hd
      have hw : ∃ w r1,
          decodeValue false 0 (2 * (exportLoop upper raw allDS order).jsonStr.data.length + 2)
            (exportLoop upper raw allDS order).jsonStr.data = some (w, r1) ∧
          (w = .obj kvs1 ∨ w = .null) := by
        rcases unmarshalObject_some _ _ hu1 with hd1 | ⟨hd1, _⟩
        · obtain ⟨r1, hv1⟩ := decode_some _ _ hd1
          exact ⟨_, r1, hv1, Or.inl rfl⟩
        · obtain ⟨r1, hv1⟩ := decode_some _ _ hd1
          exact ⟨_, r1, hv1, Or.inr rfl⟩
      obtain ⟨w, r1, hv1, hshape⟩ := hw
      have hfwd := (decodeValue_fwd _ hP raw.data _ hplain hW1 _ _ _ _ _ _ raw.data _ _ _ r r1
        (List.suffix_refl _) (List.suffix_refl _) hrel hv hv1).1 hkeys
      obtain ⟨m1, hm1, hmem⟩ := hfwd.2 dashObj rfl
      have hkv : m1 = kvs1 := by
        rcases hshape with hs | hs
        · rw [hs] at hm1
          cases hm1
          rfl
        · rw [hs] at hm1
          cases hm1
      subst hkv
      have hm : ∀ kv, kv ∈ mapDelete "version" (mapDelete "uid" (mapDelete "id" dashObj)) →
          ∃ y1, mapGet kv.1 (finalDash (exportLoop upper raw allDS order).jsonStr) = some y1 ∧
            Fwd1 (charPairs (resolvedPairs upper allDS order)) kv.2 y1 := by
        intro kv hkv
        have h1 := ne_of_mem_mapDelete _ _ _ hkv
        have h2 := ne_of_mem_mapDelete _ _ _ (mem_mapDelete _ _ _ hkv)
        have h3 := ne_of_mem_mapDelete _ _ _ (mem_mapDelete _ _ _ (mem_mapDelete _ _ _ hkv))
        obtain ⟨y1, hy1, hfw⟩ := hmem kv
          (mem_mapDelete _ _ _ (mem_mapDelete _ _ _ (mem_mapDelete _ _ _ hkv)))
        refine ⟨y1, ?_, hfw⟩
        rw [mapGet_finalDash, if_neg (by
          rintro (e | e | e)
          · exact h1 e
          · exact h2 e
          · exact h3 e), unmarshalIgnored_of_unmarshalObject _ _ hu1]
        exact hy1
      exact (fwd1_of_members _ _ _ hm).1 x h hx
    · exfalso
      rw [hnil] at h
      exact not_found_obj_nil x h

theorem unmarshalError_ne_empty (e : UnmarshalError) : e.Error ≠ "" := by
  intro h
  have h1 := congrArg String.data h
  cases e <;> simp [UnmarshalError.Error, String.data_append] at h1

/-- A round that goes back to editing hands its message and its content to the next
round. -/
theorem editLoop_again (jsonError : String → String) (folderUID : String) (env : RoundEnv)
    (rest : List RoundEnv) (lastError content : String) (calls : List JSON)
    (call : Option JSON) (e c : String)
    (h : editRound jsonError folderUID env lastError content = ⟨call, .again e c⟩) :
    editLoop jsonError folderUID (env :: rest) lastError content calls =
      editLoop jsonError folderUID rest e c (calls ++ call.toList) := by
  rw [editLoop, h]

/-! ## The decoder on the body and on the template: the strings of the values -/

theorem strEq_leaf (P : List (List Char × List Char)) (v : JSON)
    (h : mapStrings (substS P) v = v) : StrEq P v v :=
  fun _ => h.symm

theorem strEq_str (P : List (List Char × List Char)) (s : List Char) :
    StrEq P (.str ⟨s⟩) (.str ⟨subst P s⟩) :=
  fun _ => rfl

theorem strEq_arr (P : List (List Char × List Char)) (xs ys : List JSON)
    (h : List.Forall₂ (StrEq P) xs ys) : StrEq P (.arr xs) (.arr ys) := by
  intro hkf
  rw [mapStrings]
  congr 1
  have hk : ∀ e, e ∈ xs → KeysFixed P e := fun e he => keysFixed_elem P xs e hkf he
  clear hkf
  induction h with
  | nil => rfl
  | cons hab _ ih =>
    rw [mapStringsElems, hab (hk _ (List.mem_cons_self _ _)),
      ih (fun e he => hk e (List.mem_cons_of_mem _ he))]

theorem strEq_obj (P : List (List Char × List Char)) (kvs kvs1 : List (String × JSON))
    (h : EntEq P kvs kvs1) : StrEq P (.obj kvs) (.obj kvs1) := by
  intro hkf
  rw [mapStrings]
  congr 1
  have hk : ∀ kv, kv ∈ kvs → KeysFixed P kv.2 := fun kv hkv => keysFixed_member P kvs kv hkf hkv
  have hf := h (keysFixed_keys P kvs hkf)
  clear hkf h
  induction hf with
  | nil => rfl
  | @cons a b l l1 hab _ ih =>
    obtain ⟨k, v⟩ := a
    obtain ⟨k1, v1⟩ := b
    simp only at hab
    rw [mapStringsFields, hab.1, hab.2 (hk (k, v) (List.mem_cons_self _ _)),
      ih (fun e he => hk e (List.mem_cons_of_mem _ he))]

theorem forall₂_mapSet {R : JSON → JSON → Prop} (k : String) (x y : JSON) (hxy : R x y) :
    ∀ (acc acc1 : List (String × JSON)),
    List.Forall₂ (fun kv kv1 => kv1.1 = kv.1 ∧ R kv.2 kv1.2) acc acc1 →
    List.Forall₂ (fun kv kv1 => kv1.1 = kv.1 ∧ R kv.2 kv1.2) (mapSet k x acc) (mapSet k y acc1)
  | [], [], _ => List.Forall₂.cons ⟨rfl, hxy⟩ List.Forall₂.nil
  | (k0, v0) :: rest, (k1, v1) :: rest1, h => by
    cases h with
    | cons hab htl =>
      simp only at hab
      rw [mapSet, mapSet, hab.1]
      by_cases hk : k0 = k
      · rw [if_pos hk, if_pos hk]
        exact List.Forall₂.cons ⟨rfl, hxy⟩ htl
      · rw [if_neg hk, if_neg hk]
        exact List.Forall₂.cons ⟨rfl, hab.2⟩ (forall₂_mapSet k x y hxy rest rest1 htl)

theorem entEq_mapSet (P : List (List Char × List Char)) (acc acc1 : List (String × JSON))
    (k k1 : String) (v v1 : JSON) (h : EntEq P acc acc1)
    (hk : substS P k = k1) (hv : StrEq P v v1) :
    EntEq P (mapSet k v acc) (mapSet k1 v1 acc1) := by
  intro hkeys
  have hkk : k1 = k := by
    rw [← hk]
    exact hkeys k ((mapKeys_mapSet k v acc k).2 (Or.inl rfl))
  have hacc : ∀ t, t ∈ mapKeys acc → substS P t = t :=
    fun t ht => hkeys t ((mapKeys_mapSet k v acc t).2 (Or.inr ht))
  rw [hkk]
  exact forall₂_mapSet k v v1 hv acc acc1 (h hacc)

mutual
/-- The decoder on the body and on the template, from related positions: the value of the
template is the value of the body with the substitution applied to its strings, and the
positions after them are related again unless the template goes on with a placeholder. -/
theorem decodeValue_strEq (P : List (List Char × List Char)) (hP : Placeholders P)
    (W W1 : List Char) (hW : '\\' ∉ W) (hW1 : '\\' ∉ W1) :
    ∀ (md md1 : Bool) (dp dp1 f f1 : Nat) (a b : List Char) (v v1 : JSON) (ra rb : List Char),
    a <:+ W → b <:+ W1 → Rel P a b →
    decodeValue md dp f a = some (v, ra) → decodeValue md1 dp1 f1 b = some (v1, rb) →
    StrEq P v v1 ∧ (Rel P ra rb ∨ Dollar rb)
  | md, md1, dp, dp1, 0, _, a, b, v, v1, ra, rb, _, _, _, ha, _ => by
    rw [decodeValue] at ha
    cases ha
  | md, md1, dp, dp1, _ + 1, 0, a, b, v, v1, ra, rb, _, _, _, _, hb => by
    rw [decodeValue] at hb
    cases hb
  | md, md1, dp, dp1, f + 1, f1 + 1, a, b, v, v1, ra, rb, hsa, hsb, hrel, ha, hb => by
    obtain ⟨c, r0, hwa, i1, i2, i3, i4, i5, i6, i7⟩ := decodeValue_inv f a v ra ha
    obtain ⟨c1, r1, hwb, j1, j2, j3, j4, j5, j6, j7⟩ := decodeValue_inv f1 b v1 rb hb
    obtain ⟨hcc, hrel0, hrel1⟩ := rel_next P a b c c1 r0 r1 hrel hwa hwb
    subst hcc
    obtain ⟨hs0, hsr0⟩ := suffix_of_skipWs a W c r0 hsa hwa
    obtain ⟨hs1, hsr1⟩ := suffix_of_skipWs b W1 c r1 hsb hwb
    by_cases hq : c = '"'
    · obtain ⟨s, hs, hv⟩ := i1 hq
      obtain ⟨s1, hss1, hv1⟩ := j1 hq
      have hba : '\\' ∉ r0 := fun hm => hW (hsr0.subset hm)
      have hbb : '\\' ∉ r1 := fun hm => hW1 (hsr1.subset hm)
      obtain ⟨hk, htail⟩ := rel_string P hP (c :: r0) (c :: r1) r0 r1 s s1 ra rb hrel0
        (by rw [hq]) (by rw [hq]) hba hbb hs hss1
      rw [hv, hv1, hk]
      exact ⟨strEq_str P s, htail⟩
    · have hr := hrel1 hq
      by_cases hbr : c = '['
      · obtain ⟨c2, r, hw2, k1, k2⟩ := i2 hbr
        obtain ⟨c3, r2, hw3, m1, m2⟩ := j2 hbr
        obtain ⟨hcc2, hrel2, hrel3⟩ := rel_next P r0 r1 c2 c3 r r2 hr hw2 hw3
        subst hcc2
        by_cases hc2 : c2 = ']'
        · obtain ⟨e1, e2⟩ := k1 hc2
          obtain ⟨e3, e4⟩ := m1 hc2
          rw [e1, e2, e3, e4]
          exact ⟨strEq_arr P [] [] List.Forall₂.nil,
            Or.inl (hrel3 (by rw [hc2]; decide))⟩
        · exact decodeElems_strEq P hP W W1 hW hW1 md md1 (dp + 1) (dp1 + 1) f f1 [] [] (c2 :: r) (c2 :: r2) v v1 ra rb
            (suffix_of_skipWs r0 W c2 r hsr0 hw2).1 (suffix_of_skipWs r1 W1 c2 r2 hsr1 hw3).1
            hrel2 List.Forall₂.nil (k2 hc2) (m2 hc2)
      · by_cases hbc : c = '\x7b'
        · obtain ⟨c2, r, hw2, k1, k2⟩ := i3 hbc
          obtain ⟨c3, r2, hw3, m1, m2⟩ := j3 hbc
          obtain ⟨hcc2, hrel2, hrel3⟩ := rel_next P r0 r1 c2 c3 r r2 hr hw2 hw3
          subst hcc2
          by_cases hc2 : c2 = '\x7d'
          · obtain ⟨e1, e2⟩ := k1 hc2
            obtain ⟨e3, e4⟩ := m1 hc2
            rw [e1, e2, e3, e4]
            exact ⟨strEq_obj P [] [] (fun _ => List.Forall₂.nil),
              Or.inl (hrel3 (by rw [hc2]; decide))⟩
          · exact decodeMembers_strEq P hP W W1 hW hW1 md md1 (dp + 1) (dp1 + 1) f f1 [] [] (c2 :: r) (c2 :: r2) v v1 ra rb
              (suffix_of_skipWs r0 W c2 r hsr0 hw2).1 (suffix_of_skipWs r1 W1 c2 r2 hsr1 hw3).1
              hrel2 (fun _ => List.Forall₂.nil) (by simp [mapKeys]) (by simp [mapKeys])
              (k2 hc2) (m2 hc2)
        · by_cases ht : c = 't'
          · obtain ⟨hx, hv⟩ := i4 ht
            obtain ⟨hy, hv1⟩ := j4 ht
            rw [hv, hv1]
            exact ⟨strEq_leaf P _ rfl,
              Or.inl (rel_scanWord P _ r0 r1 ra rb (by decide) hr hx hy)⟩
          · by_cases hf : c = 'f'
            · obtain ⟨hx, hv⟩ := i5 hf
              obtain ⟨hy, hv1⟩ := j5 hf
              rw [hv, hv1]
              exact ⟨strEq_leaf P _ rfl,
                Or.inl (rel_scanWord P _ r0 r1 ra rb (by decide) hr hx hy)⟩
            · by_cases hn : c = 'n'
              · obtain ⟨hx, hv⟩ := i6 hn
                obtain ⟨hy, hv1⟩ := j6 hn
                rw [hv, hv1]
                exact ⟨strEq_leaf P _ rfl,
                  Or.inl (rel_scanWord P _ r0 r1 ra rb (by decide) hr hx hy)⟩
              · obtain ⟨lit, hx, hv⟩ := i7 hq hbr hbc ht hf hn
                obtain ⟨lit1, hy, hv1⟩ := j7 hq hbr hbc ht hf hn
                refine ⟨?_, Or.inl (rel_scanNumber P _ _ lit lit1 ra rb hrel0 hx hy)⟩
                rw [← rel_scanNumber_lit P _ _ lit lit1 ra rb hrel0 hx hy] at hv1
                rw [← numberValue_same _ _ lit v v1 hv hv1]
                rcases numberValue_cases _ _ _ hv with h1 | h1
                · rw [h1]
                  exact strEq_leaf P _ rfl
                · rw [h1]
                  exact strEq_leaf P _ rfl
theorem decodeElems_strEq (P : List (List Char × List Char)) (hP : Placeholders P)
    (W W1 : List Char) (hW : '\\' ∉ W) (hW1 : '\\' ∉ W1) :
    ∀ (md md1 : Bool) (dp dp1 f f1 : Nat) (acc acc1 : List JSON) (a b : List Char) (v v1 : JSON) (ra rb : List Char),
    a <:+ W → b <:+ W1 → Rel P a b → List.Forall₂ (StrEq P) acc acc1 →
    decodeElems md dp f acc a = some (v, ra) → decodeElems md1 dp1 f1 acc1 b = some (v1, rb) →
    StrEq P v v1 ∧ (Rel P ra rb ∨ Dollar rb)
  | md, md1, dp, dp1, 0, _, acc, acc1, a, b, v, v1, ra, rb, _, _, _, _, ha, _ => by
    rw [decodeElems] at ha
    cases ha
  | md, md1, dp, dp1, _ + 1, 0, acc, acc1, a, b, v, v1, ra, rb, _, _, _, _, _, hb => by
    rw [decodeElems] at hb
    cases hb
  | md, md1, dp, dp1, f + 1, f1 + 1, acc, acc1, a, b, v, v1, ra, rb, hsa, hsb, hrel, hacc, ha, hb => by
    obtain ⟨x, r, c, r1, hva, hwa, hda⟩ := decodeElems_inv f acc a v ra ha
    obtain ⟨y, s, d, s1, hvb, hwb, hdb⟩ := decodeElems_inv f1 acc1 b v1 rb hb
    obtain ⟨hsim, htail⟩ := decodeValue_strEq P hP W W1 hW hW1 md md1 dp dp1 f f1 a b x y r s hsa hsb hrel hva hvb
    have hd : d ≠ '$' := by
      rcases hdb with ⟨h1, _⟩ | ⟨h1, _⟩ <;> rw [h1] <;> decide
    have hrs : Rel P r s := rel_of_next P r s d s1 htail hwb hd
    obtain ⟨hcd, _, hrel1⟩ := rel_next P r s c d r1 s1 hrs hwa hwb
    subst hcd
    have hsr := (decodeValue_good W hW _ f a x r hsa hva).1
    have hss := (decodeValue_good W1 hW1 _ f1 b y s hsb hvb).1
    have hacc1 : List.Forall₂ (StrEq P) (x :: acc) (y :: acc1) := List.Forall₂.cons hsim hacc
    rcases hda with ⟨hc, hreca⟩ | ⟨hc, hv, hra⟩
    · rcases hdb with ⟨_, hrecb⟩ | ⟨hc1, _, _⟩
      · exact decodeElems_strEq P hP W W1 hW hW1 md md1 dp dp1 f f1 (x :: acc) (y :: acc1) r1 s1 v v1 ra rb
          (suffix_of_skipWs r W c r1 hsr hwa).2 (suffix_of_skipWs s W1 c s1 hss hwb).2
          (hrel1 (by rw [hc]; decide)) hacc1 hreca hrecb
      · rw [hc] at hc1
        exact absurd hc1 (by decide)
    · rcases hdb with ⟨hc1, _⟩ | ⟨_, hv1, hrb⟩
      · rw [hc] at hc1
        exact absurd hc1 (by decide)
      · rw [hv, hv1, hra, hrb]
        exact ⟨strEq_arr P _ _ (List.forall₂_reverse_iff.2 hacc1),
          Or.inl (hrel1 (by rw [hc]; decide))⟩
theorem decodeMembers_strEq (P : List (List Char × List Char)) (hP : Placeholders P)
    (W W1 : List Char) (hW : '\\' ∉ W) (hW1 : '\\' ∉ W1) :
    ∀ (md md1 : Bool) (dp dp1 f f1 : Nat) (acc acc1 : List (String × JSON)) (a b : List Char) (v v1 : JSON)
      (ra rb : List Char),
    a <:+ W → b <:+ W1 → Rel P a b → EntEq P acc acc1 →
    (mapKeys acc).Nodup → (mapKeys acc1).Nodup →
    decodeMembers md dp f acc a = some (v, ra) → decodeMembers md1 dp1 f1 acc1 b = some (v1, rb) →
    StrEq P v v1 ∧ (Rel P ra rb ∨ Dollar rb)
  | md, md1, dp, dp1, 0, _, acc, acc1, a, b, v, v1, ra, rb, _, _, _, _, _, _, ha, _ => by
    rw [decodeMembers] at ha
    cases ha
  | md, md1, dp, dp1, _ + 1, 0, acc, acc1, a, b, v, v1, ra, rb, _, _, _, _, _, _, _, hb => by
    rw [decodeMembers] at hb
    cases hb
  | md, md1, dp, dp1, f + 1, f1 + 1, acc, acc1, a, b, v, v1, ra, rb, hsa, hsb, hrel, hacc, hna, hnb, ha, hb => by
    obtain ⟨a0, k, a1, a2, x, a3, c, a4, hwa, hka, hwa1, hva, hwa3, hda⟩ :=
      decodeMembers_inv f acc a v ra ha
    obtain ⟨b0, k1, b1, b2, y, b3, d, b4, hwb, hkb, hwb1, hvb, hwb3, hdb⟩ :=
      decodeMembers_inv f1 acc1 b v1 rb hb
    obtain ⟨_, hrel0, _⟩ := rel_next P a b _ _ a0 b0 hrel hwa hwb
    obtain ⟨_, hsa0⟩ := suffix_of_skipWs a W _ a0 hsa hwa
    obtain ⟨_, hsb0⟩ := suffix_of_skipWs b W1 _ b0 hsb hwb
    have hba : '\\' ∉ a0 := fun hm => hW (hsa0.subset hm)
    have hbb : '\\' ∉ b0 := fun hm => hW1 (hsb0.subset hm)
    obtain ⟨hk, htail⟩ := rel_string P hP _ _ a0 b0 k k1 a1 b1 hrel0 rfl rfl hba hbb hka hkb
    have hsa1 : a1 <:+ W := by
      obtain ⟨s0, _, hs0, _⟩ := scanString_plain a0 none [] k a1 hba hka
      exact (show a1 <:+ a0 from ⟨s0 ++ ['"'], by rw [hs0]; simp⟩).trans hsa0
    have hsb1 : b1 <:+ W1 := by
      obtain ⟨s0, _, hs0, _⟩ := scanString_plain b0 none [] k1 b1 hbb hkb
      exact (show b1 <:+ b0 from ⟨s0 ++ ['"'], by rw [hs0]; simp⟩).trans hsb0
    have hrel1 : Rel P a1 b1 := rel_of_next P a1 b1 ':' b2 htail hwb1 (by decide)
    obtain ⟨_, _, hrel2⟩ := rel_next P a1 b1 _ _ a2 b2 hrel1 hwa1 hwb1
    obtain ⟨_, hsa2⟩ := suffix_of_skipWs a1 W _ a2 hsa1 hwa1
    obtain ⟨_, hsb2⟩ := suffix_of_skipWs b1 W1 _ b2 hsb1 hwb1
    obtain ⟨hsim, htail3⟩ := decodeValue_strEq P hP W W1 hW hW1 md md1 dp dp1 f f1 a2 b2 x y a3 b3 hsa2 hsb2
      (hrel2 (by decide)) hva hvb
    have hd : d ≠ '$' := by
      rcases hdb with ⟨h1, _⟩ | ⟨h1, _⟩ <;> rw [h1] <;> decide
    have hrel3 : Rel P a3 b3 := rel_of_next P a3 b3 d b4 htail3 hwb3 hd
    obtain ⟨hcd, _, hrel4⟩ := rel_next P a3 b3 c d a4 b4 hrel3 hwa3 hwb3
    subst hcd
    have hsa3 := (decodeValue_good W hW _ f a2 x a3 hsa2 hva).1
    have hsb3 := (decodeValue_good W1 hW1 _ f1 b2 y b3 hsb2 hvb).1
    have hkS : substS P ⟨k⟩ = ⟨k1⟩ := by rw [hk]; rfl
    have hent : EntEq P (mapSet ⟨k⟩ x acc) (mapSet ⟨k1⟩ y acc1) :=
      entEq_mapSet P acc acc1 ⟨k⟩ ⟨k1⟩ x y hacc hkS hsim
    rcases hda with ⟨hc, hreca⟩ | ⟨hc, hv, hra⟩
    · rcases hdb with ⟨_, hrecb⟩ | ⟨hc1, _, _⟩
      · exact decodeMembers_strEq P hP W W1 hW hW1 md md1 dp dp1 f f1 _ _ a4 b4 v v1 ra rb
          (suffix_of_skipWs a3 W c a4 hsa3 hwa3).2 (suffix_of_skipWs b3 W1 c b4 hsb3 hwb3).2
          (hrel4 (by rw [hc]; decide)) hent (nodup_mapSet _ _ _ hna) (nodup_mapSet _ _ _ hnb)
          hreca hrecb
      · rw [hc] at hc1
        exact absurd hc1 (by decide)
    · rcases hdb with ⟨hc1, _⟩ | ⟨_, hv1, hrb⟩
      · rw [hc] at hc1
        exact absurd hc1 (by decide)
      · rw [hv, hv1, hra, hrb]
        exact ⟨strEq_obj P _ _ hent,
          Or.inl (hrel4 (by rw [hc]; decide))⟩
end

/-! ## The text of a template under the resolution -/

theorem dollar_not_mem_newlineIndent (d : Nat) : '$' ∉ newlineIndent d := by
  unfold newlineIndent
  intro h
  rw [List.mem_cons] at h
  rcases h with h | h
  · exact absurd h (by decide)
  · exact absurd (List.eq_of_mem_replicate h) (by decide)

theorem replaceScan_cons_ne (a : Char) (old1 new : List Char) (c : Char) (t : List Char)
    (hc : a ≠ c) :
    replaceScan (a :: old1) new 0 (c :: t) = c :: replaceScan (a :: old1) new 0 t :=
  replaceScan_skip_free a old1 new [c] t (by simp [hc])

theorem replaceScan_newlineIndent (old1 new : List Char) (d : Nat) (t : List Char) :
    replaceScan ('$' :: old1) new 0 (newlineIndent d ++ t) =
      newlineIndent d ++ replaceScan ('$' :: old1) new 0 t :=
  replaceScan_skip_free '$' old1 new _ t (dollar_not_mem_newlineIndent d)

theorem replaceScan_body (old1 new : List Char) (hq : '"' ∉ old1) (s t : List Char) :
    replaceScan ('$' :: old1) new 0 (s ++ '"' :: t) =
      replaceScan ('$' :: old1) new 0 s ++ '"' :: replaceScan ('$' :: old1) new 0 t :=
  replaceScan_append_quote ('$' :: old1) new
    (by rw [List.mem_cons, not_or]; exact ⟨by decide, hq⟩) (by simp) s.length s t (Nat.le_refl _)

mutual
/-- One replacement of a placeholder on the text of a value: it works on the text between
the quotes of each key and of each string, and on nothing else. -/
theorem replaceScan_render (old1 new : List Char) (hq : '"' ∉ old1)
    (key str num : String → List Char) (hnum : ∀ lit, '$' ∉ num lit) :
    ∀ (v : JSON) (d : Nat) (rest : List Char),
    replaceScan ('$' :: old1) new 0 (render key str num d v ++ rest) =
      render (fun k => replaceScan ('$' :: old1) new 0 (key k))
        (fun s => replaceScan ('$' :: old1) new 0 (str s)) num d v ++
        replaceScan ('$' :: old1) new 0 rest
  | .null, d, rest => by
    rw [render, render]
    exact replaceScan_skip_free '$' old1 new _ rest (by decide)
  | .bool true, d, rest => by
    rw [render, render]
    exact replaceScan_skip_free '$' old1 new _ rest (by decide)
  | .bool false, d, rest => by
    rw [render, render]
    exact replaceScan_skip_free '$' old1 new _ rest (by decide)
  | .num lit, d, rest => by
    rw [render, render]
    exact replaceScan_skip_free '$' old1 new _ rest (hnum lit)
  | .str s, d, rest => by
    rw [render, render]
    simp only [List.cons_append, List.append_assoc, List.nil_append]
    rw [replaceScan_cons_ne _ _ _ _ _ (by decide), replaceScan_body old1 new hq]
  | .arr [], d, rest => by
    rw [render, render]
    exact replaceScan_skip_free '$' old1 new _ rest (by decide)
  | .arr (x :: xs), d, rest => by
    rw [render, render]
    simp only [List.cons_append, List.append_assoc, List.nil_append]
    rw [replaceScan_cons_ne _ _ _ _ _ (by decide), replaceScan_newlineIndent,
      replaceScan_renderElems old1 new hq key str num hnum (x :: xs) (d + 1),
      replaceScan_newlineIndent, replaceScan_cons_ne _ _ _ _ _ (by decide)]
  | .obj [], d, rest => by
    rw [render, render]
    exact replaceScan_skip_free '$' old1 new _ rest (by decide)
  | .obj (kv :: kvs), d, rest => by
    rw [render, render]
    simp only [List.cons_append, List.append_assoc, List.nil_append]
    rw [replaceScan_cons_ne _ _ _ _ _ (by decide), replaceScan_newlineIndent,
      replaceScan_renderFields old1 new hq key str num hnum (kv :: kvs) (d + 1),
      replaceScan_newlineIndent, replaceScan_cons_ne _ _ _ _ _ (by decide)]
theorem replaceScan_renderElems (old1 new : List Char) (hq : '"' ∉ old1)
    (key str num : String → List Char) (hnum : ∀ lit, '$' ∉ num lit) :
    ∀ (xs : List JSON) (d : Nat) (rest : List Char),
    replaceScan ('$' :: old1) new 0 (renderElems key str num d xs ++ rest) =
      renderElems (fun k => replaceScan ('$' :: old1) new 0 (key k))
        (fun s => replaceScan ('$' :: old1) new 0 (str s)) num d xs ++
        replaceScan ('$' :: old1) new 0 rest
  | [], d, rest => by
    rw [renderElems, renderElems]
    rfl
  | [x], d, rest => by
    rw [renderElems, renderElems]
    exact replaceScan_render old1 new hq key str num hnum x d rest
  | x :: y :: xs, d, rest => by
    rw [renderElems, renderElems]
    simp only [List.cons_append, List.append_assoc, List.nil_append]
    rw [replaceScan_render old1 new hq key str num hnum x d,
      replaceScan_cons_ne _ _ _ _ _ (by decide), replaceScan_newlineIndent,
      replaceScan_renderElems old1 new hq key str num hnum (y :: xs) d]
theorem replaceScan_renderFields (old1 new : List Char) (hq : '"' ∉ old1)
    (key str num : String → List Char) (hnum : ∀ lit, '$' ∉ num lit) :
    ∀ (kvs : List (String × JSON)) (d : Nat) (rest : List Char),
    replaceScan ('$' :: old1) new 0 (renderFields key str num d kvs ++ rest) =
      renderFields (fun k => replaceScan ('$' :: old1) new 0 (key k))
        (fun s => replaceScan ('$' :: old1) new 0 (str s)) num d kvs ++
        replaceScan ('$' :: old1) new 0 rest
  | [], d, rest => by
    rw [renderFields, renderFields]
    rfl
  | [(k, v)], d, rest => by
    rw [renderFields, renderFields]
    simp only [List.cons_append, List.append_assoc, List.nil_append]
    rw [replaceScan_cons_ne _ _ _ _ _ (by decide), replaceScan_body old1 new hq,
      replaceScan_cons_ne _ _ _ _ _ (by decide), replaceScan_cons_ne _ _ _ _ _ (by decide),
      replaceScan_render old1 new hq key str num hnum v d]
  | (k, v) :: kv :: kvs, d, rest => by
    rw [renderFields, renderFields]
    simp only [List.cons_append, List.append_assoc, List.nil_append]
    rw [replaceScan_cons_ne _ _ _ _ _ (by decide), replaceScan_body old1 new hq,
      replaceScan_cons_ne _ _ _ _ _ (by decide), replaceScan_cons_ne _ _ _ _ _ (by decide),
      replaceScan_render old1 new hq key str num hnum v d,
      replaceScan_cons_ne _ _ _ _ _ (by decide), replaceScan_newlineIndent,
      replaceScan_renderFields old1 new hq key str num hnum (kv :: kvs) d]
end

theorem resolveChars_cons (m : List Char × List Char) (M : List (List Char × List Char))
    (t : List Char) : resolveChars (m :: M) t = resolveChars M (replaceScan m.2 m.1 0 t) := rfl

/-- The resolution loop on the text of a value: it works on the text between the quotes of
each key and of each string, and on nothing else. -/
theorem resolveChars_render (num : String → List Char) (hnum : ∀ lit, '$' ∉ num lit) :
    ∀ (M : List (List Char × List Char)), (∀ m, m ∈ M → ∃ n, m.2 = '$' :: n ∧ '"' ∉ n) →
    ∀ (key str : String → List Char) (v : JSON) (d : Nat) (rest : List Char),
    resolveChars M (render key str num d v ++ rest) =
      render (fun k => resolveChars M (key k)) (fun s => resolveChars M (str s)) num d v ++
        resolveChars M rest
  | [], _, _, _, _, _, _ => rfl
  | m :: M, hM, key, str, v, d, rest => by
    obtain ⟨n, hn, hq⟩ := hM m (List.mem_cons_self _ _)
    obtain ⟨u, r⟩ := m
    simp only at hn
    subst hn
    rw [resolveChars_cons, replaceScan_render n u hq key str num hnum v d rest,
      resolveChars_render num hnum M (fun x hx => hM x (List.mem_cons_of_mem _ hx))]
    rfl

/-- A text without any placeholder of the mapping is left as it is. -/
theorem resolveChars_of_absent : ∀ (M : List (List Char × List Char)) (t : List Char),
    (∀ m, m ∈ M → ¬ m.2 <:+: t) → resolveChars M t = t
  | [], _, _ => rfl
  | m :: M, t, h => by
    rw [resolveChars_cons, replaceScan_of_absent m.2 m.1 t (h m (List.mem_cons_self _ _))]
    exact resolveChars_of_absent M t (fun x hx => h x (List.mem_cons_of_mem _ hx))

/-- The resolution loop gives back the string that the substitution of its own pairs has
replaced, when no placeholder occurs in the string or inside another placeholder. -/
theorem resolveChars_subst : ∀ (M : List (List Char × List Char)) (s : List Char),
    (M.map Prod.fst).Nodup → (∀ m, m ∈ M → m.2 ≠ []) →
    (∀ m, m ∈ M → ∀ m1, m1 ∈ M → m.1 ≠ m1.1 → ¬ m.2 <:+: m1.2) →
    (∀ m, m ∈ M → ¬ m.2 <:+: s) → resolveChars M (subst M s) = s
  | [], _, _, _, _, _ => rfl
  | (u, r) :: M, s, hn, hne, hap, hs => by
    have hp : (u, r) ∈ (u, r) :: M := List.mem_cons_self _ _
    rw [List.map_cons, List.nodup_cons] at hn
    have hstep : replaceScan r u 0 (subst ((u, r) :: M) s) = subst M s := by
      rw [subst]
      by_cases hsu : s = u
      · rw [if_pos hsu, replaceScan_self r u (hne _ hp), hsu, subst_of_not_mem M u hn.1]
      · rw [if_neg hsu]
        rcases subst_cases M s with h1 | ⟨p, hpM, hp1, hp2⟩
        · rw [h1]
          exact replaceScan_of_absent r u s (hs _ hp)
        · rw [hp2]
          apply replaceScan_of_absent
          apply hap (u, r) hp p (List.mem_cons_of_mem _ hpM)
          intro h
          exact hsu (hp1.symm.trans h.symm)
    rw [resolveChars_cons]
    show resolveChars M (replaceScan r u 0 (subst ((u, r) :: M) s)) = s
    rw [hstep]
    exact resolveChars_subst M s hn.2 (fun m hm => hne m (List.mem_cons_of_mem _ hm))
      (fun m hm m1 hm1 => hap m (List.mem_cons_of_mem _ hm) m1 (List.mem_cons_of_mem _ hm1))
      (fun m hm => hs m (List.mem_cons_of_mem _ hm))

/-! ## The text of two values with the same shape -/

theorem forall₂_insertField {T : String × JSON → String × JSON → Prop}
    (hT : ∀ a b, T a b → b.1 = a.1) (a b : String × JSON) (hab : T a b) :
    ∀ (l l1 : List (String × JSON)), List.Forall₂ T l l1 →
    List.Forall₂ T (insertField a l) (insertField b l1)
  | [], [], _ => List.Forall₂.cons hab List.Forall₂.nil
  | x :: rest, y :: rest1, h => by
    cases h with
    | cons hxy htl =>
      rw [insertField, insertField, hT a b hab, hT x y hxy]
      by_cases hlt : lessChars a.1.data x.1.data = true
      · rw [if_pos hlt, if_pos hlt]
        exact List.Forall₂.cons hab (List.Forall₂.cons hxy htl)
      · rw [if_neg hlt, if_neg hlt]
        exact List.Forall₂.cons hxy (forall₂_insertField hT a b hab rest rest1 htl)

theorem forall₂_sortFields {T : String × JSON → String × JSON → Prop}
    (hT : ∀ a b, T a b → b.1 = a.1) (l l1 : List (String × JSON)) (h : List.Forall₂ T l l1) :
    List.Forall₂ T (sortFields l) (sortFields l1) := by
  unfold sortFields
  induction h with
  | nil => exact List.Forall₂.nil
  | cons hab _ ih =>
    rw [List.foldr_cons, List.foldr_cons]
    exact forall₂_insertField hT _ _ hab _ _ ih

theorem renderFields_congr (K S K1 S1 num : String → List Char) :
    ∀ (l l1 : List (String × JSON)), List.Forall₂ (SameText K S K1 S1 num) l l1 →
    ∀ d, renderFields K1 S1 num d l1 = renderFields K S num d l
  | [], [], _, d => by rw [renderFields, renderFields]
  | [(k, v)], [(k1, v1)], h, d => by
    cases h with
    | cons hab _ =>
      rw [renderFields, renderFields, hab.2.1, hab.2.2 d]
  | (k, v) :: x :: rest, (k1, v1) :: y :: rest1, h, d => by
    cases h with
    | cons hab htl =>
      rw [renderFields, renderFields, hab.2.1, hab.2.2 d,
        renderFields_congr K S K1 S1 num (x :: rest) (y :: rest1) htl d]
  | [_], _ :: _ :: _, h, _ => by
    cases h with
    | cons _ htl => cases htl
  | _ :: _ :: _, [_], h, _ => by
    cases h with
    | cons _ htl => cases htl

theorem renderElems_congr (K S K1 S1 num : String → List Char) :
    ∀ (l l1 : List JSON),
    List.Forall₂ (fun a b => ∀ d, render K1 S1 num d b = render K S num d a) l l1 →
    ∀ d, renderElems K1 S1 num d l1 = renderElems K S num d l
  | [], [], _, d => by rw [renderElems, renderElems]
  | [v], [v1], h, d => by
    cases h with
    | cons hab _ =>
      rw [renderElems, renderElems, hab d]
  | v :: x :: rest, v1 :: y :: rest1, h, d => by
    cases h with
    | cons hab htl =>
      rw [renderElems, renderElems, hab d,
        renderElems_congr K S K1 S1 num (x :: rest) (y :: rest1) htl d]
  | [_], _ :: _ :: _, h, _ => by
    cases h with
    | cons _ htl => cases htl
  | _ :: _ :: _, [_], h, _ => by
    cases h with
    | cons _ htl => cases htl

theorem render_obj_congr (K S K1 S1 num : String → List Char)
    (l l1 : List (String × JSON)) (h : List.Forall₂ (SameText K S K1 S1 num) l l1) (d : Nat) :
    render K1 S1 num d (.obj l1) = render K S num d (.obj l) := by
  cases h with
  | nil => rw [render, render]
  | cons hab htl =>
    rw [render, render,
      renderFields_congr K S K1 S1 num _ _ (List.Forall₂.cons hab htl) (d + 1)]

theorem render_arr_congr (K S K1 S1 num : String → List Char)
    (l l1 : List JSON)
    (h : List.Forall₂ (fun a b => ∀ d, render K1 S1 num d b = render K S num d a) l l1)
    (d : Nat) :
    render K1 S1 num d (.arr l1) = render K S num d (.arr l) := by
  cases h with
  | nil => rw [render, render]
  | cons hab htl =>
    rw [render, render,
      renderElems_congr K S K1 S1 num _ _ (List.Forall₂.cons hab htl) (d + 1)]

theorem sameText_fst (K S K1 S1 num : String → List Char) (a b : String × JSON)
    (h : SameText K S K1 S1 num a b) : b.1 = a.1 := h.1

mutual
/-- The text of a value whose strings have been mapped by `g`, written with `K1` and `S1`,
is the text of the value itself written with `K` and `S`, when `K1` and `K` agree on its
keys and `S1` after `g` agrees with `S` on its strings. -/
theorem render_mapStrings (K S K1 S1 num : String → List Char) (g : String → String) :
    ∀ (v : JSON), (∀ n, n ∈ nodes v → ∀ k, k ∈ keysOf n → K1 k = K k) →
    (∀ s, JSON.str s ∈ nodes v → S1 (g s) = S s) →
    ∀ d, render K1 S1 num d (sortKeys (mapStrings g v)) = render K S num d (sortKeys v)
  | .null, _, _, d => by rw [mapStrings, sortKeys, render, render]
  | .bool b, _, _, d => by
    rw [mapStrings, sortKeys]
    cases b <;> rw [render, render]
  | .num n, _, _, d => by rw [mapStrings, sortKeys, render, render]
  | .str s, _, hS, d => by
    rw [mapStrings, sortKeys, sortKeys, render, render,
      hS s (by rw [nodes]; exact List.mem_singleton.2 rfl)]
  | .arr xs, hK, hS, d => by
    rw [mapStrings, sortKeys, sortKeys]
    apply render_arr_congr
    exact renderElems_mapStrings K S K1 S1 num g xs
      (fun n hn => hK n (by rw [nodes]; exact List.mem_cons_of_mem _ hn))
      (fun s hs => hS s (by rw [nodes]; exact List.mem_cons_of_mem _ hs))
  | .obj kvs, hK, hS, d => by
    rw [mapStrings, sortKeys, sortKeys]
    apply render_obj_congr
    apply forall₂_sortFields (sameText_fst K S K1 S1 num)
    exact renderFields_mapStrings K S K1 S1 num g kvs
      (fun k hk => hK (.obj kvs) (by rw [nodes]; exact List.mem_cons_self _ _) k hk)
      (fun n hn => hK n (by rw [nodes]; exact List.mem_cons_of_mem _ hn))
      (fun s hs => hS s (by rw [nodes]; exact List.mem_cons_of_mem _ hs))
theorem renderElems_mapStrings (K S K1 S1 num : String → List Char) (g : String → String) :
    ∀ (xs : List JSON), (∀ n, n ∈ nodesElems xs → ∀ k, k ∈ keysOf n → K1 k = K k) →
    (∀ s, JSON.str s ∈ nodesElems xs → S1 (g s) = S s) →
    List.Forall₂ (fun a b => ∀ d, render K1 S1 num d b = render K S num d a)
      (sortKeysElems xs) (sortKeysElems (mapStringsElems g xs))
  | [], _, _ => by
    rw [mapStringsElems, sortKeysElems]
    exact List.Forall₂.nil
  | x :: rest, hK, hS => by
    rw [mapStringsElems, sortKeysElems, sortKeysElems]
    refine List.Forall₂.cons ?_ ?_
    · exact render_mapStrings K S K1 S1 num g x
        (fun n hn => hK n (by rw [nodesElems]; exact List.mem_append_left _ hn))
        (fun s hs => hS s (by rw [nodesElems]; exact List.mem_append_left _ hs))
    · exact renderElems_mapStrings K S K1 S1 num g rest
        (fun n hn => hK n (by rw [nodesElems]; exact List.mem_append_right _ hn))
        (fun s hs => hS s (by rw [nodesElems]; exact List.mem_append_right _ hs))
theorem renderFields_mapStrings (K S K1 S1 num : String → List Char) (g : String → String) :
    ∀ (kvs : List (String × JSON)), (∀ k, k ∈ mapKeys kvs → K1 k = K k) →
    (∀ n, n ∈ nodesFields kvs → ∀ k, k ∈ keysOf n → K1 k = K k) →
    (∀ s, JSON.str s ∈ nodesFields kvs → S1 (g s) = S s) →
    List.Forall₂ (SameText K S K1 S1 num)
      (sortKeysFields kvs) (sortKeysFields (mapStringsFields g kvs))
  | [], _, _, _ => by
    rw [mapStringsFields, sortKeysFields]
    exact List.Forall₂.nil
  | (k, v) :: rest, hk, hK, hS => by
    rw [mapStringsFields, sortKeysFields, sortKeysFields]
    refine List.Forall₂.cons ⟨rfl, hk k (by simp [mapKeys]), ?_⟩ ?_
    · exact render_mapStrings K S K1 S1 num g v
        (fun n hn => hK n (by rw [nodesFields]; exact List.mem_append_left _ hn))
        (fun s hs => hS s (by rw [nodesFields]; exact List.mem_append_left _ hs))
    · exact renderFields_mapStrings K S K1 S1 num g rest
        (fun t ht => hk t (by
          unfold mapKeys at ht ⊢
          exact List.mem_cons_of_mem _ ht))
        (fun n hn => hK n (by rw [nodesFields]; exact List.mem_append_right _ hn))
        (fun s hs => hS s (by rw [nodesFields]; exact List.mem_append_right _ hs))
end

mutual
theorem mapStrings_id : ∀ (v : JSON), mapStrings (fun s => s) v = v
  | .null => by rw [mapStrings]
  | .bool _ => by rw [mapStrings]
  | .num _ => by rw [mapStrings]
  | .str _ => by rw [mapStrings]
  | .arr xs => by rw [mapStrings, mapStringsElems_id xs]
  | .obj kvs => by rw [mapStrings, mapStringsFields_id kvs]
theorem mapStringsElems_id : ∀ (xs : List JSON), mapStringsElems (fun s => s) xs = xs
  | [] => by rw [mapStringsElems]
  | x :: rest => by rw [mapStringsElems, mapStrings_id x, mapStringsElems_id rest]
theorem mapStringsFields_id :
    ∀ (kvs : List (String × JSON)), mapStringsFields (fun s => s) kvs = kvs
  | [] => by rw [mapStringsFields]
  | (k, v) :: rest => by rw [mapStringsFields, mapStrings_id v, mapStringsFields_id rest]
end

/-! ## The strings and keys of a value in its text -/

theorem mem_insertField (a x : String × JSON) : ∀ (l : List (String × JSON)),
    x ∈ insertField a l ↔ x = a ∨ x ∈ l
  | [] => by rw [insertField]; simp
  | y :: rest => by
    rw [insertField]
    split
    · simp
    · rw [List.mem_cons, mem_insertField a x rest, List.mem_cons]
      tauto

theorem mem_sortFields (x : String × JSON) : ∀ (l : List (String × JSON)),
    x ∈ sortFields l ↔ x ∈ l
  | [] => by simp [sortFields]
  | y :: rest => by
    have ih := mem_sortFields x rest
    unfold sortFields at ih ⊢
    rw [List.foldr_cons, mem_insertField, ih, List.mem_cons]

theorem mapKeys_sortFields (k : String) (l : List (String × JSON)) :
    k ∈ mapKeys (sortFields l) ↔ k ∈ mapKeys l := by
  unfold mapKeys
  constructor
  · intro h
    obtain ⟨x, hx, hk⟩ := List.mem_map.1 h
    exact List.mem_map.2 ⟨x, (mem_sortFields x l).1 hx, hk⟩
  · intro h
    obtain ⟨x, hx, hk⟩ := List.mem_map.1 h
    exact List.mem_map.2 ⟨x, (mem_sortFields x l).2 hx, hk⟩

theorem mapKeys_sortKeysFields : ∀ (l : List (String × JSON)),
    mapKeys (sortKeysFields l) = mapKeys l
  | [] => by rw [sortKeysFields]
  | (k, v) :: rest => by
    have ih := mapKeys_sortKeysFields rest
    unfold mapKeys at ih ⊢
    rw [sortKeysFields, List.map_cons, List.map_cons, ih]

mutual
theorem str_mem_sortKeys (s : String) : ∀ (v : JSON),
    JSON.str s ∈ nodes v → JSON.str s ∈ nodes (sortKeys v)
  | .null, h => by rw [sortKeys]; exact h
  | .bool _, h => by rw [sortKeys]; exact h
  | .num _, h => by rw [sortKeys]; exact h
  | .str _, h => by rw [sortKeys]; exact h
  | .arr xs, h => by
    rw [nodes, List.mem_cons] at h
    rw [sortKeys, nodes]
    rcases h with h | h
    · cases h
    · exact List.mem_cons_of_mem _ (str_mem_sortKeysElems s xs h)
  | .obj kvs, h => by
    rw [nodes, List.mem_cons] at h
    rw [sortKeys, nodes]
    rcases h with h | h
    · cases h
    · obtain ⟨kv, hkv, hn⟩ := str_mem_sortKeysFields s kvs h
      exact List.mem_cons_of_mem _
        ((mem_nodesFields _ _).2 ⟨kv, (mem_sortFields kv _).2 hkv, hn⟩)
theorem str_mem_sortKeysElems (s : String) : ∀ (xs : List JSON),
    JSON.str s ∈ nodesElems xs → JSON.str s ∈ nodesElems (sortKeysElems xs)
  | [], h => by rw [sortKeysElems]; exact h
  | x :: rest, h => by
    rw [nodesElems, List.mem_append] at h
    rw [sortKeysElems, nodesElems, List.mem_append]
    rcases h with h | h
    · exact Or.inl (str_mem_sortKeys s x h)
    · exact Or.inr (str_mem_sortKeysElems s rest h)
theorem str_mem_sortKeysFields (s : String) : ∀ (kvs : List (String × JSON)),
    JSON.str s ∈ nodesFields kvs → ∃ kv, kv ∈ sortKeysFields kvs ∧ JSON.str s ∈ nodes kv.2
  | [], h => by rw [nodesFields] at h; cases h
  | (k, v) :: rest, h => by
    rw [nodesFields, List.mem_append] at h
    rw [sortKeysFields]
    rcases h with h | h
    · exact ⟨(k, sortKeys v), List.mem_cons_self _ _, str_mem_sortKeys s v h⟩
    · obtain ⟨kv, hkv, hn⟩ := str_mem_sortKeysFields s rest h
      exact ⟨kv, List.mem_cons_of_mem _ hkv, hn⟩
end

mutual
theorem key_mem_sortKeys (k : String) : ∀ (v : JSON) (n : JSON),
    n ∈ nodes v → k ∈ keysOf n → KeyIn k (sortKeys v)
  | .null, n, h, hk => by
    rw [nodes, List.mem_singleton] at h
    rw [h] at hk
    cases hk
  | .bool _, n, h, hk => by
    rw [nodes, List.mem_singleton] at h
    rw [h] at hk
    cases hk
  | .num _, n, h, hk => by
    rw [nodes, List.mem_singleton] at h
    rw [h] at hk
    cases hk
  | .str _, n, h, hk => by
    rw [nodes, List.mem_singleton] at h
    rw [h] at hk
    cases hk
  | .arr xs, n, h, hk => by
    rw [nodes, List.mem_cons] at h
    rcases h with h | h
    · rw [h] at hk
      cases hk
    · obtain ⟨n1, hn1, hk1⟩ := key_mem_sortKeysElems k xs n h hk
      rw [sortKeys]
      exact ⟨n1, by rw [nodes]; exact List.mem_cons_of_mem _ hn1, hk1⟩
  | .obj kvs, n, h, hk => by
    rw [nodes, List.mem_cons] at h
    rw [sortKeys]
    rcases h with h | h
    · rw [h] at hk
      refine ⟨_, by rw [nodes]; exact List.mem_cons_self _ _, ?_⟩
      unfold keysOf at hk ⊢
      rw [mapKeys_sortFields, mapKeys_sortKeysFields]
      exact hk
    · obtain ⟨kv, hkv, n1, hn1, hk1⟩ := key_mem_sortKeysFields k kvs n h hk
      refine ⟨n1, ?_, hk1⟩
      rw [nodes]
      exact List.mem_cons_of_mem _
        ((mem_nodesFields _ _).2 ⟨kv, (mem_sortFields kv _).2 hkv, hn1⟩)
theorem key_mem_sortKeysElems (k : String) : ∀ (xs : List JSON) (n : JSON),
    n ∈ nodesElems xs → k ∈ keysOf n → ∃ n1, n1 ∈ nodesElems (sortKeysElems xs) ∧ k ∈ keysOf n1
  | [], n, h, _ => by rw [nodesElems] at h; cases h
  | x :: rest, n, h, hk => by
    rw [nodesElems, List.mem_append] at h
    rw [sortKeysElems, nodesElems]
    rcases h with h | h
    · obtain ⟨n1, hn1, hk1⟩ := key_mem_sortKeys k x n h hk
      exact ⟨n1, List.mem_append_left _ hn1, hk1⟩
    · obtain ⟨n1, hn1, hk1⟩ := key_mem_sortKeysElems k rest n h hk
      exact ⟨n1, List.mem_append_right _ hn1, hk1⟩
theorem key_mem_sortKeysFields (k : String) : ∀ (kvs : List (String × JSON)) (n : JSON),
    n ∈ nodesFields kvs → k ∈ keysOf n →
    ∃ kv, kv ∈ sortKeysFields kvs ∧ KeyIn k kv.2
  | [], n, h, _ => by rw [nodesFields] at h; cases h
  | (k0, v) :: rest, n, h, hk => by
    rw [nodesFields, List.mem_append] at h
    rw [sortKeysFields]
    rcases h with h | h
    · exact ⟨(k0, sortKeys v), List.mem_cons_self _ _, key_mem_sortKeys k v n h hk⟩
    · obtain ⟨kv, hkv, hn⟩ := key_mem_sortKeysFields k rest n h hk
      exact ⟨kv, List.mem_cons_of_mem _ hkv, hn⟩
end

theorem infix_cons_of {α : Type} (a : α) {s t : List α} (h : s <:+: t) : s <:+: a :: t :=
  List.infix_cons h

theorem infix_append_left_of {α : Type} (u : List α) {s t : List α} (h : s <:+: t) :
    s <:+: t ++ u := h.trans (List.infix_append' [] t u |>.trans (by simp))

theorem infix_append_right_of {α : Type} (u : List α) {s t : List α} (h : s <:+: t) :
    s <:+: u ++ t := h.trans (List.suffix_append u t).isInfix

mutual
theorem render_str_occurs (K S num : String → List Char) (s : String) :
    ∀ (w : JSON) (d : Nat), JSON.str s ∈ nodes w → S s <:+: render K S num d w
  | .null, d, h => by rw [nodes, List.mem_singleton] at h; cases h
  | .bool _, d, h => by rw [nodes, List.mem_singleton] at h; cases h
  | .num _, d, h => by rw [nodes, List.mem_singleton] at h; cases h
  | .str t, d, h => by
    rw [nodes, List.mem_singleton] at h
    cases h
    rw [render]
    exact ⟨['"'], ['"'], by simp⟩
  | .arr [], d, h => by
    rw [nodes, List.mem_cons, nodesElems] at h
    rcases h with h | h <;> cases h
  | .arr (x :: xs), d, h => by
    rw [nodes, List.mem_cons] at h
    rcases h with h | h
    · cases h
    · rw [render]
      exact infix_cons_of _ (infix_append_right_of _ (infix_append_left_of _
        (renderElems_str_occurs K S num s (x :: xs) (d + 1) h)))
  | .obj [], d, h => by
    rw [nodes, List.mem_cons, nodesFields] at h
    rcases h with h | h <;> cases h
  | .obj (kv :: kvs), d, h => by
    rw [nodes, List.mem_cons] at h
    rcases h with h | h
    · cases h
    · rw [render]
      exact infix_cons_of _ (infix_append_right_of _ (infix_append_left_of _
        (renderFields_str_occurs K S num s (kv :: kvs) (d + 1) h)))
theorem renderElems_str_occurs (K S num : String → List Char) (s : String) :
    ∀ (xs : List JSON) (d : Nat), JSON.str s ∈ nodesElems xs →
    S s <:+: renderElems K S num d xs
  | [], d, h => by rw [nodesElems] at h; cases h
  | [x], d, h => by
    rw [nodesElems, nodesElems, List.append_nil] at h
    rw [renderElems]
    exact render_str_occurs K S num s x d h
  | x :: y :: rest, d, h => by
    rw [nodesElems, List.mem_append] at h
    rw [renderElems]
    rcases h with h | h
    · exact infix_append_left_of _ (render_str_occurs K S num s x d h)
    · exact infix_append_right_of _ (infix_cons_of _ (infix_append_right_of _
        (renderElems_str_occurs K S num s (y :: rest) d h)))
theorem renderFields_str_occurs (K S num : String → List Char) (s : String) :
    ∀ (kvs : List (String × JSON)) (d : Nat), JSON.str s ∈ nodesFields kvs →
    S s <:+: renderFields K S num d kvs
  | [], d, h => by rw [nodesFields] at h; cases h
  | [(k, v)], d, h => by
    rw [nodesFields, nodesFields, List.append_nil] at h
    rw [renderFields]
    exact infix_cons_of _ (infix_append_right_of _ (infix_cons_of _ (infix_cons_of _
      (infix_cons_of _ (render_str_occurs K S num s v d h)))))
  | (k, v) :: kv :: rest, d, h => by
    rw [nodesFields, List.mem_append] at h
    rw [renderFields]
    rcases h with h | h
    · exact infix_cons_of _ (infix_append_right_of _ (infix_cons_of _ (infix_cons_of _
        (infix_cons_of _ (infix_append_left_of _ (render_str_occurs K S num s v d h))))))
    · exact infix_cons_of _ (infix_append_right_of _ (infix_cons_of _ (infix_cons_of _
        (infix_cons_of _ (infix_append_right_of _ (infix_cons_of _ (infix_append_right_of _
          (renderFields_str_occurs K S num s (kv :: rest) d h))))))))
end

theorem renderFields_head_key (K S num : String → List Char) (k : String) (v : JSON)
    (rest : List (String × JSON)) (d : Nat) :
    K k <:+: renderFields K S num d ((k, v) :: rest) := by
  cases rest with
  | nil =>
    rw [renderFields]
    exact ⟨['"'], '"' :: ':' :: ' ' :: render K S num d v, by simp⟩
  | cons kv rest =>
    rw [renderFields]
    exact ⟨['"'], '"' :: ':' :: ' ' :: (render K S num d v ++
      ',' :: (newlineIndent d ++ renderFields K S num d (kv :: rest))), by simp⟩

theorem renderFields_tail (K S num : String → List Char) (k : String) (v : JSON)
    (kv : String × JSON) (rest : List (String × JSON)) (d : Nat) {x : List Char}
    (h : x <:+: renderFields K S num d (kv :: rest)) :
    x <:+: renderFields K S num d ((k, v) :: kv :: rest) := by
  rw [renderFields]
  exact infix_cons_of _ (infix_append_right_of _ (infix_cons_of _ (infix_cons_of _
    (infix_cons_of _ (infix_append_right_of _ (infix_cons_of _ (infix_append_right_of _
      h)))))))

theorem renderFields_head_value (K S num : String → List Char) (k : String) (v : JSON)
    (rest : List (String × JSON)) (d : Nat) {x : List Char}
    (h : x <:+: render K S num d v) :
    x <:+: renderFields K S num d ((k, v) :: rest) := by
  cases rest with
  | nil =>
    rw [renderFields]
    exact infix_cons_of _ (infix_append_right_of _ (infix_cons_of _ (infix_cons_of _
      (infix_cons_of _ h))))
  | cons kv rest =>
    rw [renderFields]
    exact infix_cons_of _ (infix_append_right_of _ (infix_cons_of _ (infix_cons_of _
      (infix_cons_of _ (infix_append_left_of _ h)))))

theorem renderFields_key_mem (K S num : String → List Char) (k : String) :
    ∀ (kvs : List (String × JSON)) (d : Nat), k ∈ mapKeys kvs →
    K k <:+: renderFields K S num d kvs
  | [], d, h => by simp [mapKeys] at h
  | [(k0, v)], d, h => by
    have hk : k = k0 := by simpa [mapKeys] using h
    rw [hk]
    exact renderFields_head_key K S num k0 v [] d
  | (k0, v) :: kv :: rest, d, h => by
    have hk : k = k0 ∨ k ∈ mapKeys (kv :: rest) := by
      unfold mapKeys at h ⊢
      rw [List.map_cons, List.mem_cons] at h
      exact h
    rcases hk with hk | hk
    · rw [hk]
      exact renderFields_head_key K S num k0 v _ d
    · exact renderFields_tail K S num k0 v kv rest d
        (renderFields_key_mem K S num k (kv :: rest) d hk)

mutual
theorem render_key_occurs (K S num : String → List Char) (k : String) :
    ∀ (w : JSON) (d : Nat) (n : JSON), n ∈ nodes w → k ∈ keysOf n →
    K k <:+: render K S num d w
  | .null, d, n, h, hk => by
    rw [nodes, List.mem_singleton] at h
    rw [h] at hk
    cases hk
  | .bool _, d, n, h, hk => by
    rw [nodes, List.mem_singleton] at h
    rw [h] at hk
    cases hk
  | .num _, d, n, h, hk => by
    rw [nodes, List.mem_singleton] at h
    rw [h] at hk
    cases hk
  | .str _, d, n, h, hk => by
    rw [nodes, List.mem_singleton] at h
    rw [h] at hk
    cases hk
  | .arr [], d, n, h, hk => by
    rw [nodes, List.mem_cons, nodesElems] at h
    rcases h with h | h
    · rw [h] at hk
      cases hk
    · cases h
  | .arr (x :: xs), d, n, h, hk => by
    rw [nodes, List.mem_cons] at h
    rcases h with h | h
    · rw [h] at hk
      cases hk
    · rw [render]
      exact infix_cons_of _ (infix_append_right_of _ (infix_append_left_of _
        (renderElems_key_occurs K S num k (x :: xs) (d + 1) n h hk)))
  | .obj [], d, n, h, hk => by
    rw [nodes, List.mem_cons, nodesFields] at h
    rcases h with h | h
    · rw [h] at hk
      simp [keysOf, mapKeys] at hk
    · cases h
  | .obj (kv :: kvs), d, n, h, hk => by
    rw [nodes, List.mem_cons] at h
    rw [render]
    rcases h with h | h
    · rw [h] at hk
      exact infix_cons_of _ (infix_append_right_of _ (infix_append_left_of _
        (renderFields_key_mem K S num k (kv :: kvs) (d + 1) hk)))
    · exact infix_cons_of _ (infix_append_right_of _ (infix_append_left_of _
        (renderFields_key_occurs K S num k (kv :: kvs) (d + 1) n h hk)))
theorem renderElems_key_occurs (K S num : String → List Char) (k : String) :
    ∀ (xs : List JSON) (d : Nat) (n : JSON), n ∈ nodesElems xs → k ∈ keysOf n →
    K k <:+: renderElems K S num d xs
  | [], d, n, h, _ => by rw [nodesElems] at h; cases h
  | [x], d, n, h, hk => by
    rw [nodesElems, nodesElems, List.append_nil] at h
    rw [renderElems]
    exact render_key_occurs K S num k x d n h hk
  | x :: y :: rest, d, n, h, hk => by
    rw [nodesElems, List.mem_append] at h
    rw [renderElems]
    rcases h with h | h
    · exact infix_append_left_of _ (render_key_occurs K S num k x d n h hk)
    · exact infix_append_right_of _ (infix_cons_of _ (infix_append_right_of _
        (renderElems_key_occurs K S num k (y :: rest) d n h hk)))
theorem renderFields_key_occurs (K S num : String → List Char) (k : String) :
    ∀ (kvs : List (String × JSON)) (d : Nat) (n : JSON), n ∈ nodesFields kvs → k ∈ keysOf n →
    K k <:+: renderFields K S num d kvs
  | [], d, n, h, _ => by rw [nodesFields] at h; cases h
  | [(k0, v)], d, n, h, hk => by
    rw [nodesFields, nodesFields, List.append_nil] at h
    exact renderFields_head_value K S num k0 v [] d (render_key_occurs K S num k v d n h hk)
  | (k0, v) :: kv :: rest, d, n, h, hk => by
    rw [nodesFields, List.mem_append] at h
    rcases h with h | h
    · exact renderFields_head_value K S num k0 v _ d (render_key_occurs K S num k v d n h hk)
    · exact renderFields_tail K S num k0 v kv rest d
        (renderFields_key_occurs K S num k (kv :: rest) d n h hk)
end

/-- The text between the quotes of every string of a value stands in the text of the
value. -/
theorem marshal_str_occurs (K S num : String → List Char) (s : String) (v : JSON) (d : Nat)
    (h : JSON.str s ∈ nodes v) : S s <:+: render K S num d (sortKeys v) :=
  render_str_occurs K S num s _ d (str_mem_sortKeys s v h)

/-- The text between the quotes of every key of a value stands in the text of the value. -/
theorem marshal_key_occurs (K S num : String → List Char) (k : String) (v : JSON) (d : Nat)
    (n : JSON) (h : n ∈ nodes v) (hk : k ∈ keysOf n) :
    K k <:+: render K S num d (sortKeys v) := by
  obtain ⟨n1, hn1, hk1⟩ := key_mem_sortKeys k v n h hk
  exact render_key_occurs K S num k _ d n1 hn1 hk1

/-! ## The template file against the dashboard -/

theorem keysFixed_null (P : List (List Char × List Char)) : KeysFixed P .null := by
  intro n hn k hk
  rw [nodes, List.mem_singleton] at hn
  rw [hn] at hk
  cases hk

/-- The body decoded from the rewritten text is the body of the dashboard with the
substitution applied to its strings, when the text of the dashboard has no backslash, the
rewritten text is still a JSON object and the substitution leaves the object keys alone. -/
theorem unmarshalIgnored_template (raw : String) (allDS : List DataSource)
    (order : List String) (dashObj : List (String × JSON))
    (horder : IterationOrder raw order)
    (hplain : '\\' ∉ raw.data)
    (hnames : ∀ p, p ∈ resolvedPairs upper allDS order →
      '"' ∉ p.1.data ∧ '"' ∉ p.2.data ∧ '\\' ∉ p.2.data)
    (hoverlap : ∀ p, p ∈ resolvedPairs upper allDS order →
      ¬ contains raw (quoted p.1 ++ p.1 ++ "\""))
    (hu : unmarshalObject raw = some dashObj)
    (hre : unmarshalObject (exportLoop upper raw allDS order).jsonStr ≠ none)
    (hkeys : KeysFixed (charPairs (resolvedPairs upper allDS order)) (.obj dashObj)) :
    unmarshalIgnored (exportLoop upper raw allDS order).jsonStr =
      mapStringsFields (substS (charPairs (resolvedPairs upper allDS order))) dashObj := by
  have hquote : ∀ p, p ∈ resolvedPairs upper allDS order → '"' ∉ p.1.data ∧ '"' ∉ p.2.data :=
    fun p hp => ⟨(hnames p hp).1, (hnames p hp).2.1⟩
  have hext := extractable_of_strings raw allDS order horder hquote hoverlap
  have hP := placeholders_charPairs (resolvedPairs upper allDS order) (fun p hp => (hquote p hp).2)
  have hPb : ∀ q, q ∈ charPairs (resolvedPairs upper allDS order) → '\\' ∉ q.2 := by
    intro q hq
    obtain ⟨p, hp, hpq⟩ := List.mem_map.1 hq
    rw [← hpq]
    simp only [placeholder_data, List.mem_cons, List.mem_append, List.mem_singleton, not_or]
    exact ⟨by decide, by decide, (hnames p hp).2.2, by decide⟩
  obtain ⟨s0, inner, ht, hs0, hin⟩ := exists_segments raw.data
  have hT : (exportLoop upper raw allDS order).jsonStr.data =
      s0 ++ led (mapInit (subst (charPairs (resolvedPairs upper allDS order))) inner) := by
    rw [exportLoop_jsonStr_data, ht]
    exact extractChars_segments s0 inner hs0 hin _ (ht ▸ hext)
  have hrel : Rel (charPairs (resolvedPairs upper allDS order)) raw.data
      (exportLoop upper raw allDS order).jsonStr.data := by
    rw [hT]
    nth_rewrite 1 [ht]
    exact rel_of_pre _ s0 inner hs0 hin
  have hW1 : '\\' ∉ (exportLoop upper raw allDS order).jsonStr.data := by
    rw [hT]
    exact extract_plain _ s0 inner (ht ▸ hplain) hPb
  cases hu1 : unmarshalObject (exportLoop upper raw allDS order).jsonStr with
  | none => exact absurd hu1 hre
  | some kvs1 =>
    rw [unmarshalIgnored_of_unmarshalObject _ _ hu1]
    have hw : ∃ w r1,
        decodeValue false 0 (2 * (exportLoop upper raw allDS order).jsonStr.data.length + 2)
          (exportLoop upper raw allDS order).jsonStr.data = some (w, r1) ∧
        (w = .obj kvs1 ∨ (w = .null ∧ kvs1 = [])) := by
      rcases unmarshalObject_some _ _ hu1 with hd1 | ⟨hd1, hk1⟩
      · obtain ⟨r1, hv1⟩ := decode_some _ _ hd1
        exact ⟨_, r1, hv1, Or.inl rfl⟩
      · obtain ⟨r1, hv1⟩ := decode_some _ _ hd1
        exact ⟨_, r1, hv1, Or.inr ⟨rfl, hk1⟩⟩
    obtain ⟨w, r1, hv1, hshape⟩ := hw
    rcases unmarshalObject_some _ _ hu with hd | ⟨hd, hnil⟩
    · obtain ⟨r, hv⟩ := decode_some _ _ hd
      have hst := (decodeValue_strEq _ hP raw.data _ hplain hW1 _ _ _ _ _ _ raw.data _ _ _ r r1
        (List.suffix_refl _) (List.suffix_refl _) hrel hv hv1).1 hkeys
      rw [mapStrings] at hst
      rcases hshape with hs | ⟨hs, _⟩
      · rw [hs] at hst
        cases hst
        rfl
      · rw [hs] at hst
        cases hst
    · obtain ⟨r, hv⟩ := decode_some _ _ hd
      have hst := (decodeValue_strEq _ hP raw.data _ hplain hW1 _ _ _ _ _ _ raw.data _ _ _ r r1
        (List.suffix_refl _) (List.suffix_refl _) hrel hv hv1).1 (keysFixed_null _)
      rw [mapStrings] at hst
      rcases hshape with hs | ⟨_, hk1⟩
      · rw [hs] at hst
        cases hst
      · rw [hk1, hnil, mapStringsFields]

theorem mapDelete_mapStringsFields (g : String → String) (k : String) :
    ∀ (l : List (String × JSON)),
    mapDelete k (mapStringsFields g l) = mapStringsFields g (mapDelete k l)
  | [] => by rw [mapStringsFields]; rfl
  | (k0, v) :: rest => by
    have ih := mapDelete_mapStringsFields g k rest
    unfold mapDelete at ih ⊢
    rw [mapStringsFields, List.filter_cons, List.filter_cons]
    by_cases hk : k0 = k
    · simp only [hk, ne_eq, not_true_eq_false, decide_False, Bool.false_eq_true, ↓reduceIte]
      exact ih
    · simp only [ne_eq, hk, not_false_eq_true, decide_True, ↓reduceIte]
      rw [mapStringsFields, ih]

/-- The body of the template is the body of the unreplaced export with the substitution
applied to its strings. -/
theorem finalDash_template (raw : String) (allDS : List DataSource)
    (order : List String) (dashObj : List (String × JSON))
    (horder : IterationOrder raw order)
    (hplain : '\\' ∉ raw.data)
    (hnames : ∀ p, p ∈ resolvedPairs upper allDS order →
      '"' ∉ p.1.data ∧ '"' ∉ p.2.data ∧ '\\' ∉ p.2.data)
    (hoverlap : ∀ p, p ∈ resolvedPairs upper allDS order →
      ¬ contains raw (quoted p.1 ++ p.1 ++ "\""))
    (hu : unmarshalObject raw = some dashObj)
    (hre : unmarshalObject (exportLoop upper raw allDS order).jsonStr ≠ none)
    (hkeys : KeysFixed (charPairs (resolvedPairs upper allDS order)) (.obj dashObj)) :
    finalDash (exportLoop upper raw allDS order).jsonStr =
      mapStringsFields (substS (charPairs (resolvedPairs upper allDS order)))
        (finalDash raw) := by
  unfold finalDash
  rw [unmarshalIgnored_template raw allDS order dashObj horder hplain hnames hoverlap hu hre
    hkeys, unmarshalIgnored_of_unmarshalObject raw dashObj hu, mapDelete_mapStringsFields,
    mapDelete_mapStringsFields, mapDelete_mapStringsFields]

theorem forall₂_foldl_mapSet (g : String → String) :
    ∀ (fd acc0 acc1 : List (String × JSON)),
    List.Forall₂ (fun kv kv1 => kv1.1 = kv.1 ∧ (kv1.2 = mapStrings g kv.2 ∨ kv1.2 = kv.2))
      acc0 acc1 →
    List.Forall₂ (fun kv kv1 => kv1.1 = kv.1 ∧ (kv1.2 = mapStrings g kv.2 ∨ kv1.2 = kv.2))
      (fd.foldl (fun out kv => mapSet kv.1 kv.2 out) acc0)
      ((mapStringsFields g fd).foldl (fun out kv => mapSet kv.1 kv.2 out) acc1)
  | [], _, _, h => by rw [mapStringsFields]; exact h
  | (k, v) :: rest, acc0, acc1, h => by
    rw [mapStringsFields, List.foldl_cons, List.foldl_cons]
    exact forall₂_foldl_mapSet g rest _ _
      (@forall₂_mapSet (fun x y => y = mapStrings g x ∨ y = x) k v (mapStrings g v)
        (Or.inl rfl) acc0 acc1 h)

/-- The members of the template and of the unreplaced export, one for one: the same key,
and the value of the template is the value of the unreplaced export, with the substitution
applied to its strings or as it is. -/
theorem exportOutput_template (raw : String) (allDS : List DataSource)
    (order : List String) (dashObj : List (String × JSON))
    (horder : IterationOrder raw order)
    (hplain : '\\' ∉ raw.data)
    (hnames : ∀ p, p ∈ resolvedPairs upper allDS order →
      '"' ∉ p.1.data ∧ '"' ∉ p.2.data ∧ '\\' ∉ p.2.data)
    (hoverlap : ∀ p, p ∈ resolvedPairs upper allDS order →
      ¬ contains raw (quoted p.1 ++ p.1 ++ "\""))
    (hu : unmarshalObject raw = some dashObj)
    (hre : unmarshalObject (exportLoop upper raw allDS order).jsonStr ≠ none)
    (hkeys : KeysFixed (charPairs (resolvedPairs upper allDS order)) (.obj dashObj)) :
    List.Forall₂
      (fun kv kv1 => kv1.1 = kv.1 ∧
        (kv1.2 = mapStrings (substS (charPairs (resolvedPairs upper allDS order))) kv.2 ∨
          kv1.2 = kv.2))
      (exportOutput (unreplaced (exportLoop upper raw allDS order) raw))
      (exportOutput (exportLoop upper raw allDS order)) := by
  unfold exportOutput
  rw [finalDash_template raw allDS order dashObj horder hplain hnames hoverlap hu hre hkeys]
  apply forall₂_foldl_mapSet
  exact List.forall₂_same.2 (fun x _ => ⟨rfl, Or.inr rfl⟩)

theorem sameText_of_related (K S K1 S1 num : String → List Char) (g : String → String) :
    ∀ (l l1 : List (String × JSON)),
    List.Forall₂ (fun kv kv1 => kv1.1 = kv.1 ∧ (kv1.2 = mapStrings g kv.2 ∨ kv1.2 = kv.2))
      l l1 →
    (∀ a, a ∈ l → K1 a.1 = K a.1) →
    (∀ a, a ∈ l → ∀ n, n ∈ nodes a.2 → ∀ k, k ∈ keysOf n → K1 k = K k) →
    (∀ a, a ∈ l → ∀ s, JSON.str s ∈ nodes a.2 → S1 (g s) = S s ∧ S1 s = S s) →
    List.Forall₂ (SameText K S K1 S1 num) (sortKeysFields l) (sortKeysFields l1)
  | [], [], _, _, _, _ => by
    rw [sortKeysFields]
    exact List.Forall₂.nil
  | (k, v) :: rest, (k1, v1) :: rest1, h, hk, hK, hS => by
    cases h with
    | cons hab htl =>
      simp only at hab
      rw [sortKeysFields, sortKeysFields]
      refine List.Forall₂.cons ⟨hab.1, ?_, ?_⟩ ?_
      · show K1 k1 = K k
        rw [hab.1]
        exact hk (k, v) (List.mem_cons_self _ _)
      · intro d
        show render K1 S1 num d (sortKeys v1) = render K S num d (sortKeys v)
        rcases hab.2 with h1 | h1
        · rw [h1]
          exact render_mapStrings K S K1 S1 num g v
            (hK (k, v) (List.mem_cons_self _ _))
            (fun s hs => (hS (k, v) (List.mem_cons_self _ _) s hs).1) d
        · rw [h1]
          have h2 := render_mapStrings K S K1 S1 num (fun s => s) v
            (hK (k, v) (List.mem_cons_self _ _))
            (fun s hs => (hS (k, v) (List.mem_cons_self _ _) s hs).2) d
          rw [mapStrings_id] at h2
          exact h2
      · exact sameText_of_related K S K1 S1 num g rest rest1 htl
          (fun a ha => hk a (List.mem_cons_of_mem _ ha))
          (fun a ha => hK a (List.mem_cons_of_mem _ ha))
          (fun a ha => hS a (List.mem_cons_of_mem _ ha))

/-! ## The round trip through the template file -/

theorem escapeString_unescaped (b : Bool) (s : String) (h : Unescaped b s) :
    escapeString b s = s.data := by
  unfold escapeString
  unfold Unescaped at h
  generalize s.data = l at h
  induction l with
  | nil => rfl
  | cons c cs ih =>
    rw [List.flatMap_cons, h c (List.mem_cons_self _ _),
      ih (fun x hx => h x (List.mem_cons_of_mem _ hx))]
    rfl

theorem unescaped_quote (b : Bool) (s : String) (h : Unescaped b s) :
    '"' ∉ s.data ∧ '\\' ∉ s.data := by
  constructor
  · intro hm
    have h1 := h _ hm
    revert h1
    cases b <;> decide
  · intro hm
    have h1 := h _ hm
    revert h1
    cases b <;> decide

theorem unescaped_placeholder (b : Bool) (n : String) (h : Unescaped b n) :
    Unescaped b (placeholder n) := by
  intro c hc
  rw [placeholder_data] at hc
  simp only [List.mem_cons, List.mem_append, List.mem_singleton, List.not_mem_nil,
    or_false] at hc
  rcases hc with hc | hc | hc | hc
  · rw [hc]; cases b <;> decide
  · rw [hc]; cases b <;> decide
  · exact h c hc
  · rw [hc]; cases b <;> decide

theorem templateText_data (enc : Encoding) (v : JSON) :
    (templateText enc v).data =
      render (escapeString enc.shortEscapes) (escapeString enc.shortEscapes)
        (fun lit => (enc.floatText lit).data) 0 (sortKeys v) ++ ['\n'] := by
  unfold templateText marshalIndent
  rw [String.data_append]

/-- The resolution of the text of the template, on characters: with the pairs `P` of the
extraction and a mapping `M` that holds the same pairs, the template written for the
members `l1` resolves to the text written for the members `l`, when each member of `l1` is
the member of `l` with the substitution applied to its strings or as it is, no placeholder
occurs in the text written for `l` or inside another placeholder, and the identifiers and
placeholders are written as they are. -/
theorem resolveChars_templateText (enc : Encoding) (P M : List (List Char × List Char))
    (l l1 : List (String × JSON))
    (hrel : List.Forall₂
      (fun kv kv1 => kv1.1 = kv.1 ∧ (kv1.2 = mapStrings (substS P) kv.2 ∨ kv1.2 = kv.2)) l l1)
    (hperm : M.Perm P)
    (hnd : (P.map Prod.fst).Nodup)
    (hdollar : ∀ p, p ∈ P → ∃ n, p.2 = '$' :: n ∧ '"' ∉ n)
    (hesc1 : ∀ p, p ∈ P → Unescaped enc.shortEscapes ⟨p.1⟩)
    (hesc2 : ∀ p, p ∈ P → Unescaped enc.shortEscapes ⟨p.2⟩)
    (hapart : ∀ p, p ∈ P → ∀ p1, p1 ∈ P → p.1 ≠ p1.1 → ¬ p.2 <:+: p1.2)
    (hfresh : ∀ p, p ∈ P → ¬ p.2 <:+: (templateText enc (.obj l)).data)
    (hnum : ∀ lit, '$' ∉ (enc.floatText lit).data) :
    resolveChars M (templateText enc (.obj l1)).data = (templateText enc (.obj l)).data := by
  have hMP : ∀ m, m ∈ M ↔ m ∈ P := fun m => hperm.mem_iff
  have hndM : (M.map Prod.fst).Nodup := (List.Perm.nodup_iff (hperm.map _)).2 hnd
  have habsent : ∀ t : List Char, t <:+: (templateText enc (.obj l)).data →
      resolveChars M t = t := by
    intro t ht
    apply resolveChars_of_absent
    intro m hm hi
    exact hfresh m ((hMP m).1 hm) (hi.trans ht)
  have hkey : ∀ n, n ∈ nodes (.obj l) → ∀ k, k ∈ keysOf n →
      resolveChars M (escapeString enc.shortEscapes k) = escapeString enc.shortEscapes k := by
    intro n hn k hk
    apply habsent
    rw [templateText_data]
    exact infix_append_left_of _ (marshal_key_occurs _ _ _ k (.obj l) 0 n hn hk)
  have hstr : ∀ s, JSON.str s ∈ nodes (.obj l) →
      resolveChars M (escapeString enc.shortEscapes s) = escapeString enc.shortEscapes s := by
    intro s hs
    apply habsent
    rw [templateText_data]
    exact infix_append_left_of _ (marshal_str_occurs _ _ _ s (.obj l) 0 hs)
  have hsub : ∀ s, JSON.str s ∈ nodes (.obj l) →
      resolveChars M (escapeString enc.shortEscapes (substS P s)) =
        escapeString enc.shortEscapes s := by
    intro s hs
    rcases subst_cases P s.data with h1 | ⟨p, hp, hp1, hp2⟩
    · have h2 : substS P s = s := String.ext h1
      rw [h2]
      exact hstr s hs
    · have h2 : substS P s = ⟨p.2⟩ := String.ext hp2
      have h3 : s = ⟨p.1⟩ := String.ext hp1.symm
      have h4 : escapeString enc.shortEscapes s = s.data := by
        rw [h3]
        exact escapeString_unescaped _ _ (hesc1 p hp)
      rw [h2, escapeString_unescaped _ _ (hesc2 p hp), h4]
      show resolveChars M p.2 = s.data
      rw [← hp2, ← subst_perm P M hnd hperm s.data]
      apply resolveChars_subst M s.data hndM
      · intro m hm
        obtain ⟨n, hn, _⟩ := hdollar m ((hMP m).1 hm)
        rw [hn]
        exact List.cons_ne_nil _ _
      · intro m hm m1 hm1
        exact hapart m ((hMP m).1 hm) m1 ((hMP m1).1 hm1)
      · intro m hm hi
        have h5 := hstr s hs
        rw [h4] at h5
        apply hfresh m ((hMP m).1 hm)
        apply hi.trans
        rw [templateText_data]
        have h6 := marshal_str_occurs (escapeString enc.shortEscapes)
          (escapeString enc.shortEscapes) (fun lit => (enc.floatText lit).data) s (.obj l) 0 hs
        rw [h4] at h6
        exact infix_append_left_of _ h6
  have hmem : ∀ a, a ∈ l → ∀ n, n ∈ nodes a.2 → n ∈ nodes (.obj l) := by
    intro a ha n hn
    rw [nodes]
    exact List.mem_cons_of_mem _ ((mem_nodesFields n l).2 ⟨a, ha, hn⟩)
  have hsame := sameText_of_related (escapeString enc.shortEscapes)
    (escapeString enc.shortEscapes)
    (fun k => resolveChars M (escapeString enc.shortEscapes k))
    (fun s => resolveChars M (escapeString enc.shortEscapes s))
    (fun lit => (enc.floatText lit).data) (substS P) l l1 hrel
    (fun a ha => hkey (.obj l) (by rw [nodes]; exact List.mem_cons_self _ _) a.1
      (by
        unfold keysOf mapKeys
        exact List.mem_map_of_mem _ ha))
    (fun a ha n hn k hk => hkey n (hmem a ha n hn) k hk)
    (fun a ha s hs => ⟨hsub s (hmem a ha _ hs), hstr s (hmem a ha _ hs)⟩)
  rw [templateText_data, templateText_data,
    resolveChars_render _ hnum M (fun m hm => hdollar m ((hMP m).1 hm))]
  have hnl : resolveChars M ['\n'] = ['\n'] := by
    apply habsent
    rw [templateText_data]
    exact (List.suffix_append _ _).isInfix
  rw [hnl, sortKeys, sortKeys]
  congr 1
  exact render_obj_congr _ _ _ _ _ _ _
    (forall₂_sortFields (sameText_fst _ _ _ _ _) _ _ hsame) 0

/-- The template written when nothing is replaced binds the data sources of the dashboard
outside its top-level `id`, `uid` and `version`, and no other. -/
theorem found_unreplaced (raw : String) (allDS : List DataSource) (order : List String)
    (x : String) :
    Found (.obj (exportOutput (unreplaced (exportLoop upper raw allDS order) raw))) x ↔
      Found (.obj (finalDash raw)) x := by
  constructor
  · intro h
    rw [found_obj] at h ⊢
    rcases h with ⟨⟨val, hval, hr⟩, hc⟩ | ⟨kv, hkv, hf⟩
    · cases hval
      have hfield := field_exportOutput (unreplaced (exportLoop upper raw allDS order) raw)
        "datasource"
      have hget : mapGet "datasource"
          (exportOutput (unreplaced (exportLoop upper raw allDS order) raw)) =
          mapGet "datasource" (finalDash raw) := by
        show field "datasource" (.obj _) = _
        rw [hfield]
        show (match mapGet "datasource" (finalDash raw) with
          | some v => some v
          | none => mapGet "datasource" _) = _
        cases hh : mapGet "datasource" (finalDash raw)
        · simp [mapGet]
        · rfl
      rw [hget] at hr
      exact Or.inl ⟨⟨_, rfl, hr⟩, hc⟩
    · unfold exportOutput at hkv
      rcases mem_foldl_mapSet _ _ kv hkv with h1 | h1
      · exact absurd hf (not_found_metadata raw allDS order kv x h1)
      · exact Or.inr ⟨kv, h1, hf⟩
  · intro h
    exact found_of_finalDash (unreplaced (exportLoop upper raw allDS order) raw) x h

/-! ## Export: the claims -/

/-- C3 (end-to-end extraction example): for the document
`{"title":"T","panels":[{"datasource":"uid-123"}]}` and every catalog that maps `uid-123`
to the name `Prom` and the type `prometheus`, the export step succeeds, `__inputs` is the
single entry `{name: DS_PROM, label: Prom, type: datasource, pluginId: prometheus}`,
`__requires` holds the grafana entry and a prometheus entry, and the `datasource` field of
the panel is the placeholder of `DS_PROM`. -/
theorem export_example (upper : Char → Char) (allDS : List DataSource) (ds : DataSource)
    (order : List String)
    (hcat : mapGet "uid-123" (dsMap allDS) = some ds)
    (hname : ds.Name = "Prom") (htype : ds.Typ = "prometheus")
    (horder : IterationOrder
      "\x7b\"title\":\"T\",\"panels\":[\x7b\"datasource\":\"uid-123\"\x7d]\x7d" order) :
    ∃ out, exportExternal upper
        "\x7b\"title\":\"T\",\"panels\":[\x7b\"datasource\":\"uid-123\"\x7d]\x7d" allDS order
        = .ok out ∧
      field "__inputs" out = some (.arr [.obj [("name", .str "DS_PROM"),
        ("label", .str "Prom"), ("type", .str "datasource"),
        ("pluginId", .str "prometheus")]]) ∧
      field "__requires" out = some (.arr [
        .obj [("type", .str "grafana"), ("id", .str "grafana"), ("name", .str "Grafana"),
          ("version", .str "1.0.0")],
        .obj [("type", .str "datasource"), ("id", .str "prometheus"),
          ("name", .str "prometheus"), ("version", .str "1.0.0")]]) ∧
      field "panels" out =
        some (.arr [.obj [("datasource", .str "$\x7bDS_PROM\x7d")]]) ∧
      field "title" out = some (.str "T") := by
  have hused : usedUIDs
      "\x7b\"title\":\"T\",\"panels\":[\x7b\"datasource\":\"uid-123\"\x7d]\x7d" = ["uid-123"] := by
    decide
  have ho : order = ["uid-123"] := by
    have h := horder
    unfold IterationOrder at h
    rw [hused] at h
    exact List.perm_singleton.1 h
  subst ho
  obtain ⟨uid, name, typ⟩ := ds
  simp only at hname htype
  subst hname htype
  have hloop : exportLoop upper
      "\x7b\"title\":\"T\",\"panels\":[\x7b\"datasource\":\"uid-123\"\x7d]\x7d" allDS ["uid-123"] =
      { inputs := [inputEntry latin1Upper ⟨"uid-123", "Prom", "prometheus"⟩]
        requires := [grafanaRequirement, requireEntry "prometheus"]
        pluginMap := ["prometheus"]
        jsonStr :=
          "\x7b\"title\":\"T\",\"panels\":[\x7b\"datasource\":\"$\x7bDS_PROM\x7d\"\x7d]\x7d" } := by
    show exportStep upper (dsMap allDS) (exportInit _) "uid-123" = _
    unfold exportStep
    rw [hcat]
    rfl
  have hp : unmarshalObject
      "\x7b\"title\":\"T\",\"panels\":[\x7b\"datasource\":\"uid-123\"\x7d]\x7d" =
      some [("title", .str "T"), ("panels", .arr [.obj [("datasource", .str "uid-123")]])] := by
    decide
  have hexp : exportExternal upper
      "\x7b\"title\":\"T\",\"panels\":[\x7b\"datasource\":\"uid-123\"\x7d]\x7d" allDS ["uid-123"] =
      .ok (.obj (exportOutput
        { inputs := [inputEntry latin1Upper ⟨"uid-123", "Prom", "prometheus"⟩]
          requires := [grafanaRequirement, requireEntry "prometheus"]
          pluginMap := ["prometheus"]
          jsonStr :=
            "\x7b\"title\":\"T\",\"panels\":[\x7b\"datasource\":\"$\x7bDS_PROM\x7d\"\x7d]\x7d" })) := by
    unfold exportExternal
    rw [hp, hloop]
  exact ⟨_, hexp, by decide, by decide, by decide, by decide⟩

theorem export_example_witness :
    ∃ out, exportExternal latin1Upper
        "\x7b\"title\":\"T\",\"panels\":[\x7b\"datasource\":\"uid-123\"\x7d]\x7d"
        [⟨"uid-123", "Prom", "prometheus"⟩] ["uid-123"] = .ok out ∧
      field "__inputs" out = some (.arr [.obj [("name", .str "DS_PROM"),
        ("label", .str "Prom"), ("type", .str "datasource"),
        ("pluginId", .str "prometheus")]]) ∧
      field "__requires" out = some (.arr [
        .obj [("type", .str "grafana"), ("id", .str "grafana"), ("name", .str "Grafana"),
          ("version", .str "1.0.0")],
        .obj [("type", .str "datasource"), ("id", .str "prometheus"),
          ("name", .str "prometheus"), ("version", .str "1.0.0")]]) ∧
      field "panels" out =
        some (.arr [.obj [("datasource", .str "$\x7bDS_PROM\x7d")]]) ∧
      field "title" out = some (.str "T") :=
  export_example latin1Upper [⟨"uid-123", "Prom", "prometheus"⟩] ⟨"uid-123", "Prom", "prometheus"⟩
    ["uid-123"] (by decide) rfl rfl (by unfold IterationOrder; decide)

theorem templateInputNames_exportOutput (st : ExportState) (ds : List DataSource)
    (hin : st.inputs = ds.map (inputEntry upper))
    (hbody : mapGet "__inputs" (finalDash st.jsonStr) = none) :
    templateInputNames (.obj (exportOutput st)) = ds.map (fun d => varName upper d.Name) := by
  unfold templateInputNames
  rw [field_exportOutput, hbody, hin]
  cases ds with
  | nil => rfl
  | cons d rest =>
    have hget : (mapGet "__inputs"
        [("__inputs", sliceJSON (List.map (inputEntry upper) (d :: rest))),
          ("__requires", sliceJSON st.requires)]) =
        some (.arr (List.map (inputEntry upper) (d :: rest))) := rfl
    rw [hget]
    dsimp only
    generalize d :: rest = l
    induction l with
    | nil => rfl
    | cons e l ih =>
      rw [List.map_cons, List.map_cons, List.filterMap_cons, ih]
      rfl

theorem resolvedPairs_snd (allDS : List DataSource) (order : List String) :
    (resolvedPairs upper allDS order).map Prod.snd =
      (resolved allDS order).map (fun ds => varName upper ds.Name) := by
  unfold resolvedPairs resolved
  rw [List.map_filterMap, List.map_filterMap]
  congr 1
  funext uid
  cases mapGet uid (dsMap allDS) <;> rfl

/-- C5 as the code has it (round trip through the template file): for every dashboard body
whose text has no backslash and every catalog, where the identifiers that the catalog
resolves and the input names derived for them hold no character that `MarshalIndent`
escapes, no quoted occurrence of such an identifier in the body shares its closing quote
with the next one, the rewritten body is still a JSON object, no object key of the
dashboard is such an identifier, the placeholder of a derived name occurs neither inside
the placeholder of another reference nor in the template text that the export writes when
it replaces nothing, and no number is written with a `$`: the text that the export writes,
with each placeholder replaced by the identifier that its input is mapped back to, in any
order of the mapping, is character for character the text that the export writes when it
replaces nothing; that text is the text of a template which binds exactly the data sources
that the dashboard binds outside its top-level `id`, `uid` and `version`; the exported
template binds no identifier that the catalog resolves; and the names that the mapping
maps are the names of the inputs that the template declares, when the rewritten body has no
`__inputs` of its own. -/
theorem extract_resolve_roundtrip (upper : Char → Char) (enc : Encoding) (raw : String)
    (allDS : List DataSource) (order : List String) (morder : List (String × String))
    (dashObj : List (String × JSON))
    (horder : IterationOrder raw order)
    (hu : unmarshalObject raw = some dashObj)
    (hre : unmarshalObject (exportLoop upper raw allDS order).jsonStr ≠ none)
    (hplain : '\\' ∉ raw.data)
    (hesc : ∀ p, p ∈ resolvedPairs upper allDS order →
      Unescaped enc.shortEscapes p.1 ∧ Unescaped enc.shortEscapes p.2)
    (hoverlap : ∀ p, p ∈ resolvedPairs upper allDS order →
      ¬ contains raw (quoted p.1 ++ p.1 ++ "\""))
    (hkeys : ∀ n, n ∈ nodes (.obj dashObj) → ∀ k, k ∈ keysOf n →
      ∀ p, p ∈ resolvedPairs upper allDS order → p.1 ≠ k)
    (hnames : ∀ p, p ∈ resolvedPairs upper allDS order →
      ∀ p1, p1 ∈ resolvedPairs upper allDS order →
      p.1 ≠ p1.1 → ¬ contains (placeholder p1.2) (placeholder p.2))
    (hfresh : ∀ p, p ∈ resolvedPairs upper allDS order →
      ¬ contains
        (templateText enc
          (.obj (exportOutput (unreplaced (exportLoop upper raw allDS order) raw))))
        (placeholder p.2))
    (hnum : ∀ lit, '$' ∉ (enc.floatText lit).data)
    (hm : morder.Perm (mappingsBack upper allDS order)) :
    substituteMappings
        (templateText enc (.obj (exportOutput (exportLoop upper raw allDS order)))) morder =
      templateText enc
        (.obj (exportOutput (unreplaced (exportLoop upper raw allDS order) raw))) ∧
    (∀ x, Found (.obj (exportOutput (unreplaced (exportLoop upper raw allDS order) raw))) x ↔
      Found (.obj (mapDelete "version" (mapDelete "uid" (mapDelete "id" dashObj)))) x) ∧
    (∀ uid, mapGet uid (dsMap allDS) ≠ none →
      ¬ Found (.obj (exportOutput (exportLoop upper raw allDS order))) uid) ∧
    (mapGet "__inputs" (finalDash (exportLoop upper raw allDS order).jsonStr) = none →
      (morder.map Prod.fst).Perm
        (templateInputNames (.obj (exportOutput (exportLoop upper raw allDS order))))) := by
  have hq : ∀ p, p ∈ resolvedPairs upper allDS order →
      '"' ∉ p.1.data ∧ '"' ∉ p.2.data ∧ '\\' ∉ p.2.data :=
    fun p hp => ⟨(unescaped_quote _ _ (hesc p hp).1).1, (unescaped_quote _ _ (hesc p hp).2).1,
      (unescaped_quote _ _ (hesc p hp).2).2⟩
  have hquote : ∀ p, p ∈ resolvedPairs upper allDS order → '"' ∉ p.1.data ∧ '"' ∉ p.2.data :=
    fun p hp => ⟨(hq p hp).1, (hq p hp).2.1⟩
  have hkf : KeysFixed (charPairs (resolvedPairs upper allDS order)) (.obj dashObj) := by
    intro n hn k hk
    have hsub : subst (charPairs (resolvedPairs upper allDS order)) k.data = k.data := by
      apply subst_of_not_mem
      intro hmem
      obtain ⟨q, hq1, hqk⟩ := List.mem_map.1 hmem
      obtain ⟨p, hp, hpq⟩ := List.mem_map.1 hq1
      apply hkeys n hn k hk p hp
      apply String.ext
      rw [← hqk, ← hpq]
    exact String.ext hsub
  have hext := extractable_of_strings raw allDS order horder hquote hoverlap
  have hnd : ((resolvedPairs upper allDS order).map Prod.snd).Nodup := by
    have h1 : (resolvedPairs upper allDS order).Pairwise (fun a b => a.1 ≠ b.1) := by
      have h2 := List.Nodup.sublist (@resolvedPairs_fst_sublist upper allDS order) horder.nodup
      exact List.pairwise_map.1 h2
    have h3 : (resolvedPairs upper allDS order).Pairwise (fun a b => a.2 ≠ b.2) := by
      apply List.Pairwise.imp_of_mem _ h1
      intro a b ha hb hab heq
      apply hnames a ha b hb hab
      unfold contains
      rw [heq]
    exact List.pairwise_map.2 h3
  have hperm : (morder.map (fun m => (m.2.data, (placeholder m.1).data))).Perm
      (charPairs (resolvedPairs upper allDS order)) := by
    rw [mappingsBack_eq allDS order hnd] at hm
    have h1 := hm.map (fun m : String × String => (m.2.data, (placeholder m.1).data))
    rw [List.map_map] at h1
    exact h1
  refine ⟨?_, ?_, ?_, ?_⟩
  · apply String.ext
    rw [substituteMappings_data]
    apply resolveChars_templateText enc (charPairs (resolvedPairs upper allDS order)) _ _ _
      (exportOutput_template raw allDS order dashObj horder hplain hq hoverlap hu hre hkf)
      hperm hext.nodup
    · intro q hq1
      obtain ⟨p, hp, hpq⟩ := List.mem_map.1 hq1
      rw [← hpq]
      refine ⟨'\x7b' :: (p.2.data ++ ['\x7d']), placeholder_data p.2, ?_⟩
      simp only [List.mem_cons, List.mem_append, List.mem_singleton, List.not_mem_nil,
        or_false, not_or]
      exact ⟨by decide, (hquote p hp).2, by decide⟩
    · intro q hq1
      obtain ⟨p, hp, hpq⟩ := List.mem_map.1 hq1
      rw [← hpq]
      exact (hesc p hp).1
    · intro q hq1
      obtain ⟨p, hp, hpq⟩ := List.mem_map.1 hq1
      rw [← hpq]
      exact unescaped_placeholder _ _ (hesc p hp).2
    · intro q hq1 q1 hq2 hne
      obtain ⟨p, hp, hpq⟩ := List.mem_map.1 hq1
      obtain ⟨p1, hp1, hpq1⟩ := List.mem_map.1 hq2
      rw [← hpq, ← hpq1] at hne ⊢
      exact hnames p hp p1 hp1 (fun e => hne (by rw [e]))
    · intro q hq1
      obtain ⟨p, hp, hpq⟩ := List.mem_map.1 hq1
      rw [← hpq]
      exact hfresh p hp
    · exact hnum
  · intro x
    rw [found_unreplaced]
    unfold finalDash
    rw [unmarshalIgnored_of_unmarshalObject raw dashObj hu]
  · intro uid hres hf
    exact hres (found_template raw allDS order dashObj uid horder hplain hq hoverlap hu hf).2
  · intro hbody
    rw [templateInputNames_exportOutput _ _ (exportLoop_inputs raw allDS order) hbody,
      ← resolvedPairs_snd]
    rw [mappingsBack_eq allDS order hnd] at hm
    have h1 := hm.map Prod.fst
    rw [List.map_map] at h1
    exact h1

set_option maxRecDepth 100000 in
/-- The round trip of C5 on a dashboard with two references, a number and a top-level
`uid`, the export visiting `u2` first and the mapping listing `DS_A` first. -/
theorem extract_resolve_roundtrip_witness :
    substituteMappings
        (templateText ⟨true, fun _ => "0"⟩ (.obj (exportOutput (exportLoop latin1Upper
          "\x7b\"a\":\x7b\"datasource\":\"u1\"\x7d,\"b\":\x7b\"datasource\":\"u2\"\x7d,\"n\":0,\"uid\":\"abc\"\x7d"
          [⟨"u1", "A", "mysql"⟩, ⟨"u2", "B", "loki"⟩] ["u2", "u1"]))))
        [("DS_A", "u1"), ("DS_B", "u2")] =
      templateText ⟨true, fun _ => "0"⟩ (.obj (exportOutput (unreplaced (exportLoop latin1Upper
        "\x7b\"a\":\x7b\"datasource\":\"u1\"\x7d,\"b\":\x7b\"datasource\":\"u2\"\x7d,\"n\":0,\"uid\":\"abc\"\x7d"
        [⟨"u1", "A", "mysql"⟩, ⟨"u2", "B", "loki"⟩] ["u2", "u1"])
        "\x7b\"a\":\x7b\"datasource\":\"u1\"\x7d,\"b\":\x7b\"datasource\":\"u2\"\x7d,\"n\":0,\"uid\":\"abc\"\x7d"))) ∧
    (∀ x, Found (.obj (exportOutput (unreplaced (exportLoop latin1Upper
        "\x7b\"a\":\x7b\"datasource\":\"u1\"\x7d,\"b\":\x7b\"datasource\":\"u2\"\x7d,\"n\":0,\"uid\":\"abc\"\x7d"
        [⟨"u1", "A", "mysql"⟩, ⟨"u2", "B", "loki"⟩] ["u2", "u1"])
        "\x7b\"a\":\x7b\"datasource\":\"u1\"\x7d,\"b\":\x7b\"datasource\":\"u2\"\x7d,\"n\":0,\"uid\":\"abc\"\x7d"))) x ↔
      Found (.obj (mapDelete "version" (mapDelete "uid" (mapDelete "id"
        [("a", .obj [("datasource", .str "u1")]), ("b", .obj [("datasource", .str "u2")]),
          ("n", .num "0"), ("uid", .str "abc")])))) x) ∧
    (∀ uid, mapGet uid (dsMap [⟨"u1", "A", "mysql"⟩, ⟨"u2", "B", "loki"⟩]) ≠ none →
      ¬ Found (.obj (exportOutput (exportLoop latin1Upper
        "\x7b\"a\":\x7b\"datasource\":\"u1\"\x7d,\"b\":\x7b\"datasource\":\"u2\"\x7d,\"n\":0,\"uid\":\"abc\"\x7d"
        [⟨"u1", "A", "mysql"⟩, ⟨"u2", "B", "loki"⟩] ["u2", "u1"]))) uid) ∧
    (mapGet "__inputs" (finalDash (exportLoop latin1Upper
        "\x7b\"a\":\x7b\"datasource\":\"u1\"\x7d,\"b\":\x7b\"datasource\":\"u2\"\x7d,\"n\":0,\"uid\":\"abc\"\x7d"
        [⟨"u1", "A", "mysql"⟩, ⟨"u2", "B", "loki"⟩] ["u2", "u1"]).jsonStr) = none →
      ([("DS_A", "u1"), ("DS_B", "u2")].map Prod.fst).Perm
        (templateInputNames (.obj (exportOutput (exportLoop latin1Upper
          "\x7b\"a\":\x7b\"datasource\":\"u1\"\x7d,\"b\":\x7b\"datasource\":\"u2\"\x7d,\"n\":0,\"uid\":\"abc\"\x7d"
          [⟨"u1", "A", "mysql"⟩, ⟨"u2", "B", "loki"⟩] ["u2", "u1"]))))) :=
  extract_resolve_roundtrip latin1Upper ⟨true, fun _ => "0"⟩
    "\x7b\"a\":\x7b\"datasource\":\"u1\"\x7d,\"b\":\x7b\"datasource\":\"u2\"\x7d,\"n\":0,\"uid\":\"abc\"\x7d"
    [⟨"u1", "A", "mysql"⟩, ⟨"u2", "B", "loki"⟩] ["u2", "u1"] [("DS_A", "u1"), ("DS_B", "u2")]
    [("a", .obj [("datasource", .str "u1")]), ("b", .obj [("datasource", .str "u2")]),
      ("n", .num "0"), ("uid", .str "abc")]
    (by unfold IterationOrder; decide) (by decide) (by decide) (by decide) (by decide)
    (by decide) (by decide) (by decide) (by decide!) (fun _ => (by decide : '$' ∉ "0".data)) (by decide)

set_option maxRecDepth 100000 in
/-- The texts of the round trip of the witness: the template file and the text that its
resolution gives. -/
theorem template_roundtrip_texts :
    templateText ⟨true, fun _ => "0"⟩ (.obj (exportOutput (exportLoop latin1Upper
        "\x7b\"a\":\x7b\"datasource\":\"u1\"\x7d,\"b\":\x7b\"datasource\":\"u2\"\x7d,\"n\":0,\"uid\":\"abc\"\x7d"
        [⟨"u1", "A", "mysql"⟩, ⟨"u2", "B", "loki"⟩] ["u2", "u1"]))) =
      "\x7b\n  \"__inputs\": [\n    \x7b\n      \"label\": \"B\",\n      \"name\": \"DS_B\",\n      \"pluginId\": \"loki\",\n      \"type\": \"datasource\"\n    \x7d,\n    \x7b\n      \"label\": \"A\",\n      \"name\": \"DS_A\",\n      \"pluginId\": \"mysql\",\n      \"type\": \"datasource\"\n    \x7d\n  ],\n  \"__requires\": [\n    \x7b\n      \"id\": \"grafana\",\n      \"name\": \"Grafana\",\n      \"type\": \"grafana\",\n      \"version\": \"1.0.0\"\n    \x7d,\n    \x7b\n      \"id\": \"loki\",\n      \"name\": \"loki\",\n      \"type\": \"datasource\",\n      \"version\": \"1.0.0\"\n    \x7d,\n    \x7b\n      \"id\": \"mysql\",\n      \"name\": \"mysql\",\n      \"type\": \"datasource\",\n      \"version\": \"1.0.0\"\n    \x7d\n  ],\n  \"a\": \x7b\n    \"datasource\": \"$\x7bDS_A\x7d\"\n  \x7d,\n  \"b\": \x7b\n    \"datasource\": \"$\x7bDS_B\x7d\"\n  \x7d,\n  \"n\": 0\n\x7d\n" ∧
    substituteMappings
        "\x7b\n  \"__inputs\": [\n    \x7b\n      \"label\": \"B\",\n      \"name\": \"DS_B\",\n      \"pluginId\": \"loki\",\n      \"type\": \"datasource\"\n    \x7d,\n    \x7b\n      \"label\": \"A\",\n      \"name\": \"DS_A\",\n      \"pluginId\": \"mysql\",\n      \"type\": \"datasource\"\n    \x7d\n  ],\n  \"__requires\": [\n    \x7b\n      \"id\": \"grafana\",\n      \"name\": \"Grafana\",\n      \"type\": \"grafana\",\n      \"version\": \"1.0.0\"\n    \x7d,\n    \x7b\n      \"id\": \"loki\",\n      \"name\": \"loki\",\n      \"type\": \"datasource\",\n      \"version\": \"1.0.0\"\n    \x7d,\n    \x7b\n      \"id\": \"mysql\",\n      \"name\": \"mysql\",\n      \"type\": \"datasource\",\n      \"version\": \"1.0.0\"\n    \x7d\n  ],\n  \"a\": \x7b\n    \"datasource\": \"$\x7bDS_A\x7d\"\n  \x7d,\n  \"b\": \x7b\n    \"datasource\": \"$\x7bDS_B\x7d\"\n  \x7d,\n  \"n\": 0\n\x7d\n"
        [("DS_A", "u1"), ("DS_B", "u2")] =
      "\x7b\n  \"__inputs\": [\n    \x7b\n      \"label\": \"B\",\n      \"name\": \"DS_B\",\n      \"pluginId\": \"loki\",\n      \"type\": \"datasource\"\n    \x7d,\n    \x7b\n      \"label\": \"A\",\n      \"name\": \"DS_A\",\n      \"pluginId\": \"mysql\",\n      \"type\": \"datasource\"\n    \x7d\n  ],\n  \"__requires\": [\n    \x7b\n      \"id\": \"grafana\",\n      \"name\": \"Grafana\",\n      \"type\": \"grafana\",\n      \"version\": \"1.0.0\"\n    \x7d,\n    \x7b\n      \"id\": \"loki\",\n      \"name\": \"loki\",\n      \"type\": \"datasource\",\n      \"version\": \"1.0.0\"\n    \x7d,\n    \x7b\n      \"id\": \"mysql\",\n      \"name\": \"mysql\",\n      \"type\": \"datasource\",\n      \"version\": \"1.0.0\"\n    \x7d\n  ],\n  \"a\": \x7b\n    \"datasource\": \"u1\"\n  \x7d,\n  \"b\": \x7b\n    \"datasource\": \"u2\"\n  \x7d,\n  \"n\": 0\n\x7d\n" := by
  exact ⟨by decide!, by decide!⟩

set_option maxRecDepth 100000 in
/-- C5 as stated fails: `u1` and `u2` are no substrings of one another or of other text
and the catalog resolves both, but their data sources `My DB` and `My-DB` derive the same
input name, so both references are written as the same placeholder in the template file
and the template declares one name twice; whichever identifier that name is mapped back
to, the resolved text is not the text that the export writes for the dashboard when it
replaces nothing. -/
theorem extract_resolve_collision :
    usedUIDs "\x7b\"panels\":[\x7b\"datasource\":\"u1\"\x7d,\x7b\"datasource\":\"u2\"\x7d]\x7d"
        = ["u1", "u2"] ∧
      ¬ contains "u1" "u2" ∧ ¬ contains "u2" "u1" ∧
      mappingsBack latin1Upper [⟨"u1", "My DB", "mysql"⟩, ⟨"u2", "My-DB", "mysql"⟩] ["u1", "u2"] =
        [("DS_MY_DB", "u2")] ∧
      templateText ⟨true, fun _ => "0"⟩ (.obj (exportOutput (exportLoop latin1Upper
        "\x7b\"panels\":[\x7b\"datasource\":\"u1\"\x7d,\x7b\"datasource\":\"u2\"\x7d]\x7d"
        [⟨"u1", "My DB", "mysql"⟩, ⟨"u2", "My-DB", "mysql"⟩] ["u1", "u2"]))) =
        "\x7b\n  \"__inputs\": [\n    \x7b\n      \"label\": \"My DB\",\n      \"name\": \"DS_MY_DB\",\n      \"pluginId\": \"mysql\",\n      \"type\": \"datasource\"\n    \x7d,\n    \x7b\n      \"label\": \"My-DB\",\n      \"name\": \"DS_MY_DB\",\n      \"pluginId\": \"mysql\",\n      \"type\": \"datasource\"\n    \x7d\n  ],\n  \"__requires\": [\n    \x7b\n      \"id\": \"grafana\",\n      \"name\": \"Grafana\",\n      \"type\": \"grafana\",\n      \"version\": \"1.0.0\"\n    \x7d,\n    \x7b\n      \"id\": \"mysql\",\n      \"name\": \"mysql\",\n      \"type\": \"datasource\",\n      \"version\": \"1.0.0\"\n    \x7d\n  ],\n  \"panels\": [\n    \x7b\n      \"datasource\": \"$\x7bDS_MY_DB\x7d\"\n    \x7d,\n    \x7b\n      \"datasource\": \"$\x7bDS_MY_DB\x7d\"\n    \x7d\n  ]\n\x7d\n" ∧
      substituteMappings
          (templateText ⟨true, fun _ => "0"⟩ (.obj (exportOutput (exportLoop latin1Upper
            "\x7b\"panels\":[\x7b\"datasource\":\"u1\"\x7d,\x7b\"datasource\":\"u2\"\x7d]\x7d"
            [⟨"u1", "My DB", "mysql"⟩, ⟨"u2", "My-DB", "mysql"⟩] ["u1", "u2"]))))
          [("DS_MY_DB", "u2")] ≠
        templateText ⟨true, fun _ => "0"⟩ (.obj (exportOutput (unreplaced
          (exportLoop latin1Upper
            "\x7b\"panels\":[\x7b\"datasource\":\"u1\"\x7d,\x7b\"datasource\":\"u2\"\x7d]\x7d"
            [⟨"u1", "My DB", "mysql"⟩, ⟨"u2", "My-DB", "mysql"⟩] ["u1", "u2"])
          "\x7b\"panels\":[\x7b\"datasource\":\"u1\"\x7d,\x7b\"datasource\":\"u2\"\x7d]\x7d"))) ∧
      substituteMappings
          (templateText ⟨true, fun _ => "0"⟩ (.obj (exportOutput (exportLoop latin1Upper
            "\x7b\"panels\":[\x7b\"datasource\":\"u1\"\x7d,\x7b\"datasource\":\"u2\"\x7d]\x7d"
            [⟨"u1", "My DB", "mysql"⟩, ⟨"u2", "My-DB", "mysql"⟩] ["u1", "u2"]))))
          [("DS_MY_DB", "u1")] ≠
        templateText ⟨true, fun _ => "0"⟩ (.obj (exportOutput (unreplaced
          (exportLoop latin1Upper
            "\x7b\"panels\":[\x7b\"datasource\":\"u1\"\x7d,\x7b\"datasource\":\"u2\"\x7d]\x7d"
            [⟨"u1", "My DB", "mysql"⟩, ⟨"u2", "My-DB", "mysql"⟩] ["u1", "u2"])
          "\x7b\"panels\":[\x7b\"datasource\":\"u1\"\x7d,\x7b\"datasource\":\"u2\"\x7d]\x7d"))) := by
  exact ⟨by decide, by decide, by decide, by decide, by decide!, by decide!, by decide!⟩

set_option maxRecDepth 100000 in
/-- A derived name with a character that `MarshalIndent` escapes: the data source `R&D`
derives `DS_R&D`, the template file holds the placeholder with `&` written as the escape
`\u0026`, so the placeholder of the name that `dash create` decodes does not occur in the
file, and the resolution leaves the file as it is. -/
theorem template_escaped_name :
    varName latin1Upper "R&D" = "DS_R&D" ∧
      contains
        (templateText ⟨true, fun _ => "0"⟩ (.obj (exportOutput (exportLoop latin1Upper
          "\x7b\"panels\":[\x7b\"datasource\":\"u1\"\x7d]\x7d"
          [⟨"u1", "R&D", "mysql"⟩] ["u1"]))))
        "\"datasource\": \"$\x7bDS_R\\u0026D\x7d\"" ∧
      mappingsBack latin1Upper [⟨"u1", "R&D", "mysql"⟩] ["u1"] = [("DS_R&D", "u1")] ∧
      substituteMappings
        (templateText ⟨true, fun _ => "0"⟩ (.obj (exportOutput (exportLoop latin1Upper
          "\x7b\"panels\":[\x7b\"datasource\":\"u1\"\x7d]\x7d"
          [⟨"u1", "R&D", "mysql"⟩] ["u1"]))))
        [("DS_R&D", "u1")] =
        templateText ⟨true, fun _ => "0"⟩ (.obj (exportOutput (exportLoop latin1Upper
          "\x7b\"panels\":[\x7b\"datasource\":\"u1\"\x7d]\x7d"
          [⟨"u1", "R&D", "mysql"⟩] ["u1"]))) := by
  refine ⟨by decide, by decide!, by decide, by decide!⟩

/-- C7 as the code has it (input names): whenever the body parses, extraction succeeds,
and the emitted inputs (when the rewritten body has no top-level `__inputs` of its own)
carry the derived names of the resolved references, one per reference in the order of the
visit. They are pairwise distinct exactly when those derived names are; a collision is
neither detected nor an error. -/
theorem export_input_names (upper : Char → Char) (raw : String) (allDS : List DataSource)
    (order : List String)
    (hparse : unmarshalObject raw ≠ none) :
    ∃ out, exportExternal upper raw allDS order = .ok out ∧
      (mapGet "__inputs" (finalDash (exportLoop upper raw allDS order).jsonStr) = none →
        templateInputNames out = (resolved allDS order).map (fun ds => varName upper ds.Name)) :=
  ⟨_, exportExternal_ok raw allDS order hparse, fun hbody =>
    templateInputNames_exportOutput _ _ (exportLoop_inputs raw allDS order) hbody⟩

theorem export_input_names_witness :
    ∃ out, exportExternal latin1Upper "\x7b\"panels\":[\x7b\"datasource\":\"u1\"\x7d]\x7d"
        [⟨"u1", "My DB", "mysql"⟩] ["u1"] = .ok out ∧
      (mapGet "__inputs" (finalDash (exportLoop latin1Upper
          "\x7b\"panels\":[\x7b\"datasource\":\"u1\"\x7d]\x7d"
          [⟨"u1", "My DB", "mysql"⟩] ["u1"]).jsonStr) = none →
        templateInputNames out =
          (resolved [⟨"u1", "My DB", "mysql"⟩] ["u1"]).map (fun ds => varName latin1Upper ds.Name)) :=
  export_input_names latin1Upper "\x7b\"panels\":[\x7b\"datasource\":\"u1\"\x7d]\x7d"
    [⟨"u1", "My DB", "mysql"⟩] ["u1"] (by decide)

/-- C7 as stated fails: the data sources `My DB` and `My-DB` derive the same input name,
and extraction succeeds and emits two inputs named `DS_MY_DB`. -/
theorem export_input_names_collide :
    varName latin1Upper "My DB" = "DS_MY_DB" ∧ varName latin1Upper "My-DB" = "DS_MY_DB" ∧
      usedUIDs "\x7b\"panels\":[\x7b\"datasource\":\"u1\"\x7d,\x7b\"datasource\":\"u2\"\x7d]\x7d"
        = ["u1", "u2"] ∧
      exportExternal latin1Upper
        "\x7b\"panels\":[\x7b\"datasource\":\"u1\"\x7d,\x7b\"datasource\":\"u2\"\x7d]\x7d"
        [⟨"u1", "My DB", "mysql"⟩, ⟨"u2", "My-DB", "postgres"⟩] ["u1", "u2"] =
        .ok (.obj [
          ("__inputs", .arr [
            .obj [("name", .str "DS_MY_DB"), ("label", .str "My DB"),
              ("type", .str "datasource"), ("pluginId", .str "mysql")],
            .obj [("name", .str "DS_MY_DB"), ("label", .str "My-DB"),
              ("type", .str "datasource"), ("pluginId", .str "postgres")]]),
          ("__requires", .arr [grafanaRequirement, requireEntry "mysql",
            requireEntry "postgres"]),
          ("panels", .arr [.obj [("datasource", .str "$\x7bDS_MY_DB\x7d")],
            .obj [("datasource", .str "$\x7bDS_MY_DB\x7d")]])]) ∧
      ¬ (templateInputNames (.obj [
          ("__inputs", .arr [
            .obj [("name", .str "DS_MY_DB"), ("label", .str "My DB"),
              ("type", .str "datasource"), ("pluginId", .str "mysql")],
            .obj [("name", .str "DS_MY_DB"), ("label", .str "My-DB"),
              ("type", .str "datasource"), ("pluginId", .str "postgres")]])])).Nodup := by
  decide

/-- C8 as the code has it (template requirements): for every dashboard and catalog, the
requirements built by extraction are the fixed platform entry followed by one entry per
distinct plugin type among the resolved references, and the inputs are one entry of type
`datasource` per resolved reference; each list is emitted under its key unless the
rewritten body has a top-level key `__requires` or `__inputs` of its own. -/
theorem export_requirements (upper : Char → Char) (raw : String) (allDS : List DataSource)
    (order : List String)
    (hparse : unmarshalObject raw ≠ none) (horder : IterationOrder raw order) :
    ∃ (out : JSON) (types : List String), exportExternal upper raw allDS order = .ok out ∧
      order.Nodup ∧ types.Nodup ∧
      (∀ t, t ∈ types ↔ ∃ ds, ds ∈ resolved allDS order ∧ ds.Typ = t) ∧
      (grafanaRequirement :: types.map requireEntry).length =
        1 + ((resolved allDS order).map (fun ds => ds.Typ)).toFinset.card ∧
      (∀ t, field "type" (requireEntry t) = some (.str "datasource") ∧
        field "id" (requireEntry t) = some (.str t) ∧
        field "name" (requireEntry t) = some (.str t)) ∧
      (∀ ds, field "type" (inputEntry upper ds) = some (.str "datasource")) ∧
      (mapGet "__requires" (finalDash (exportLoop upper raw allDS order).jsonStr) = none →
        field "__requires" out = some (.arr (grafanaRequirement :: types.map requireEntry))) ∧
      (mapGet "__inputs" (finalDash (exportLoop upper raw allDS order).jsonStr) = none →
        field "__inputs" out = some (sliceJSON ((resolved allDS order).map (inputEntry upper)))) := by
  refine ⟨_, (exportLoop upper raw allDS order).pluginMap, exportExternal_ok raw allDS order hparse,
    horder.nodup, exportLoop_pluginMap_nodup raw allDS order,
    mem_exportLoop_pluginMap raw allDS order, ?_, ?_, ?_, ?_, ?_⟩
  · rw [List.length_cons, List.length_map, Nat.add_comm]
    congr 1
    rw [← List.toFinset_card_of_nodup (exportLoop_pluginMap_nodup raw allDS order)]
    congr 1
    ext t
    rw [List.mem_toFinset, List.mem_toFinset, mem_exportLoop_pluginMap, List.mem_map]
  · intro t
    exact ⟨rfl, rfl, rfl⟩
  · intro ds
    rfl
  · intro hbody
    rw [field_exportOutput, hbody, exportLoop_requires]
    rfl
  · intro hbody
    rw [field_exportOutput, hbody, exportLoop_inputs]
    rfl

theorem export_requirements_witness :
    ∃ (out : JSON) (types : List String), exportExternal latin1Upper
        "\x7b\"panels\":[\x7b\"datasource\":\"u1\"\x7d,\x7b\"datasource\":\"u2\"\x7d]\x7d"
        [⟨"u1", "A", "mysql"⟩, ⟨"u2", "B", "mysql"⟩] ["u2", "u1"] = .ok out ∧
      ["u2", "u1"].Nodup ∧ types.Nodup ∧
      (∀ t, t ∈ types ↔ ∃ ds,
        ds ∈ resolved [⟨"u1", "A", "mysql"⟩, ⟨"u2", "B", "mysql"⟩] ["u2", "u1"] ∧ ds.Typ = t) ∧
      (grafanaRequirement :: types.map requireEntry).length =
        1 + ((resolved [⟨"u1", "A", "mysql"⟩, ⟨"u2", "B", "mysql"⟩] ["u2", "u1"]).map
          (fun ds => ds.Typ)).toFinset.card ∧
      (∀ t, field "type" (requireEntry t) = some (.str "datasource") ∧
        field "id" (requireEntry t) = some (.str t) ∧
        field "name" (requireEntry t) = some (.str t)) ∧
      (∀ ds, field "type" (inputEntry latin1Upper ds) = some (.str "datasource")) ∧
      (mapGet "__requires" (finalDash (exportLoop latin1Upper
          "\x7b\"panels\":[\x7b\"datasource\":\"u1\"\x7d,\x7b\"datasource\":\"u2\"\x7d]\x7d"
          [⟨"u1", "A", "mysql"⟩, ⟨"u2", "B", "mysql"⟩] ["u2", "u1"]).jsonStr) = none →
        field "__requires" out = some (.arr (grafanaRequirement :: types.map requireEntry))) ∧
      (mapGet "__inputs" (finalDash (exportLoop latin1Upper
          "\x7b\"panels\":[\x7b\"datasource\":\"u1\"\x7d,\x7b\"datasource\":\"u2\"\x7d]\x7d"
          [⟨"u1", "A", "mysql"⟩, ⟨"u2", "B", "mysql"⟩] ["u2", "u1"]).jsonStr) = none →
        field "__inputs" out = some (sliceJSON
          ((resolved [⟨"u1", "A", "mysql"⟩, ⟨"u2", "B", "mysql"⟩] ["u2", "u1"]).map
            (inputEntry latin1Upper)))) :=
  export_requirements latin1Upper
    "\x7b\"panels\":[\x7b\"datasource\":\"u1\"\x7d,\x7b\"datasource\":\"u2\"\x7d]\x7d"
    [⟨"u1", "A", "mysql"⟩, ⟨"u2", "B", "mysql"⟩] ["u2", "u1"] (by decide)
    (by unfold IterationOrder; decide)

/-- C8 as stated fails: a body with a top-level `__requires` of its own keeps it, and the
emitted `__requires` is then not the generated list. -/
theorem export_requirements_overridden :
    usedUIDs "\x7b\"__requires\":[],\"panels\":[\x7b\"datasource\":\"uid-123\"\x7d]\x7d"
        = ["uid-123"] ∧
      exportExternal latin1Upper
        "\x7b\"__requires\":[],\"panels\":[\x7b\"datasource\":\"uid-123\"\x7d]\x7d"
        [⟨"uid-123", "Prom", "prometheus"⟩] ["uid-123"] =
        .ok (.obj [("__inputs", .arr [inputEntry latin1Upper ⟨"uid-123", "Prom", "prometheus"⟩]),
          ("__requires", .arr []),
          ("panels", .arr [.obj [("datasource", .str "$\x7bDS_PROM\x7d")]])]) ∧
      (exportLoop latin1Upper
        "\x7b\"__requires\":[],\"panels\":[\x7b\"datasource\":\"uid-123\"\x7d]\x7d"
        [⟨"uid-123", "Prom", "prometheus"⟩] ["uid-123"]).requires =
        [grafanaRequirement, requireEntry "prometheus"] := by
  decide

/-- C9 as the code has it (body preservation): for every dashboard body that parses and
every catalog, each top-level field, other than `id`, `uid` and `version`, of the body
text after the placeholder substitution (when that text is still a JSON object) is at the
top level of the exported template with its value, alongside `__inputs` and `__requires`;
when the catalog resolves no reference the substituted text is the body itself. -/
theorem export_preserves_body (upper : Char → Char) (raw : String) (allDS : List DataSource)
    (order : List String)
    (rewritten : List (String × JSON)) (k : String) (v : JSON)
    (hparse : unmarshalObject raw ≠ none)
    (hre : unmarshalObject (exportLoop upper raw allDS order).jsonStr = some rewritten)
    (hk : k ≠ "id" ∧ k ≠ "uid" ∧ k ≠ "version")
    (hget : mapGet k rewritten = some v) :
    ∃ out, exportExternal upper raw allDS order = .ok out ∧
      field k out = some v ∧
      (field "__inputs" out).isSome ∧ (field "__requires" out).isSome ∧
      (resolved allDS order = [] → (exportLoop upper raw allDS order).jsonStr = raw) := by
  refine ⟨_, exportExternal_ok raw allDS order hparse, ?_, ?_, ?_,
    @exportLoop_jsonStr_of_unresolved upper raw allDS order⟩
  · rw [field_exportOutput, mapGet_finalDash, unmarshalIgnored_of_unmarshalObject _ _ hre]
    have hk3 : ¬ (k = "version" ∨ k = "uid" ∨ k = "id") := by
      rintro (h | h | h)
      · exact hk.2.2 h
      · exact hk.2.1 h
      · exact hk.1 h
    rw [if_neg hk3]
    simp only [hget]
  · rw [field_exportOutput]
    split
    · rfl
    · rfl
  · rw [field_exportOutput]
    split
    · rfl
    · rfl

set_option maxRecDepth 100000 in
theorem export_preserves_body_witness :
    ∃ out, exportExternal latin1Upper
        "\x7b\"id\":7,\"title\":\"T\",\"panels\":[\x7b\"datasource\":\"uid-123\"\x7d]\x7d"
        [⟨"uid-123", "Prom", "prometheus"⟩] ["uid-123"] = .ok out ∧
      field "panels" out = some (.arr [.obj [("datasource", .str "$\x7bDS_PROM\x7d")]]) ∧
      (field "__inputs" out).isSome ∧ (field "__requires" out).isSome ∧
      (resolved [⟨"uid-123", "Prom", "prometheus"⟩] ["uid-123"] = [] →
        (exportLoop latin1Upper
          "\x7b\"id\":7,\"title\":\"T\",\"panels\":[\x7b\"datasource\":\"uid-123\"\x7d]\x7d"
          [⟨"uid-123", "Prom", "prometheus"⟩] ["uid-123"]).jsonStr =
          "\x7b\"id\":7,\"title\":\"T\",\"panels\":[\x7b\"datasource\":\"uid-123\"\x7d]\x7d") :=
  export_preserves_body latin1Upper
    "\x7b\"id\":7,\"title\":\"T\",\"panels\":[\x7b\"datasource\":\"uid-123\"\x7d]\x7d"
    [⟨"uid-123", "Prom", "prometheus"⟩] ["uid-123"]
    [("id", .num "7"), ("title", .str "T"),
      ("panels", .arr [.obj [("datasource", .str "$\x7bDS_PROM\x7d")]])]
    "panels" (.arr [.obj [("datasource", .str "$\x7bDS_PROM\x7d")]])
    (by decide) (by decide) (by decide) (by decide)

set_option maxRecDepth 100000 in
/-- C9 as stated fails: the substitution is textual, so a top-level key that equals a
resolved identifier is rewritten too, and the field `uid-123` of the body is not in the
exported template. -/
theorem export_rewrites_body_key :
    unmarshalObject
        "\x7b\"title\":\"T\",\"uid-123\":1,\"panels\":[\x7b\"datasource\":\"uid-123\"\x7d]\x7d" =
        some [("title", .str "T"), ("uid-123", .num "1"),
          ("panels", .arr [.obj [("datasource", .str "uid-123")]])] ∧
      usedUIDs
        "\x7b\"title\":\"T\",\"uid-123\":1,\"panels\":[\x7b\"datasource\":\"uid-123\"\x7d]\x7d" =
        ["uid-123"] ∧
      exportExternal latin1Upper
        "\x7b\"title\":\"T\",\"uid-123\":1,\"panels\":[\x7b\"datasource\":\"uid-123\"\x7d]\x7d"
        [⟨"uid-123", "Prom", "prometheus"⟩] ["uid-123"] =
        .ok (.obj [("__inputs", .arr [inputEntry latin1Upper ⟨"uid-123", "Prom", "prometheus"⟩]),
          ("__requires", .arr [grafanaRequirement, requireEntry "prometheus"]),
          ("title", .str "T"), ("$\x7bDS_PROM\x7d", .num "1"),
          ("panels", .arr [.obj [("datasource", .str "$\x7bDS_PROM\x7d")]])]) ∧
      field "uid-123" (.obj [("__inputs", .arr [inputEntry latin1Upper ⟨"uid-123", "Prom", "prometheus"⟩]),
          ("__requires", .arr [grafanaRequirement, requireEntry "prometheus"]),
          ("title", .str "T"), ("$\x7bDS_PROM\x7d", .num "1"),
          ("panels", .arr [.obj [("datasource", .str "$\x7bDS_PROM\x7d")]])]) = none := by
  decide

/-- C10 (instance-field stripping): for every dashboard body and catalog, and every order
of the loop, the exported template is an object with no top-level key `id`, `uid` or
`version`. -/
theorem export_strips_instance_fields (upper : Char → Char) (raw : String) (allDS : List DataSource)
    (order : List String) (out : JSON) (h : exportExternal upper raw allDS order = .ok out) :
    ∃ kvs, out = .obj kvs ∧
      "id" ∉ mapKeys kvs ∧ "uid" ∉ mapKeys kvs ∧ "version" ∉ mapKeys kvs := by
  have hout := exportExternal_eq_ok raw allDS order out h
  refine ⟨_, hout, ?_, ?_, ?_⟩
  · rw [← mapGet_eq_none_iff]
    have hf := field_exportOutput (exportLoop upper raw allDS order) "id"
    rw [mapGet_finalDash] at hf
    exact hf
  · rw [← mapGet_eq_none_iff]
    have hf := field_exportOutput (exportLoop upper raw allDS order) "uid"
    rw [mapGet_finalDash] at hf
    exact hf
  · rw [← mapGet_eq_none_iff]
    have hf := field_exportOutput (exportLoop upper raw allDS order) "version"
    rw [mapGet_finalDash] at hf
    exact hf

set_option maxRecDepth 100000 in
theorem export_strips_instance_fields_witness :
    exportExternal latin1Upper
        "\x7b\"id\":7,\"uid\":\"abc\",\"version\":3,\"title\":\"T\",\"panels\":[]\x7d" [] [] =
        .ok (.obj [("__inputs", .null), ("__requires", .arr [grafanaRequirement]),
          ("title", .str "T"), ("panels", .arr [])]) ∧
      ∃ kvs, JSON.obj [("__inputs", .null), ("__requires", .arr [grafanaRequirement]),
          ("title", .str "T"), ("panels", .arr [])] = .obj kvs ∧
        "id" ∉ mapKeys kvs ∧ "uid" ∉ mapKeys kvs ∧ "version" ∉ mapKeys kvs :=
  ⟨by decide, export_strips_instance_fields latin1Upper
    "\x7b\"id\":7,\"uid\":\"abc\",\"version\":3,\"title\":\"T\",\"panels\":[]\x7d" [] [] _
    (by decide)⟩

/-! ## The template against the dashboard: the claim -/

/-- C4, as the code has it: when the text of the dashboard has no backslash, no identifier
or derived input name has a quote, no derived name a backslash, and no two quoted
occurrences of an identifier share a quote, every data source that discovery finds in the
exported template is one the dashboard uses and the catalog does not resolve; so discovery
on the template finds none when the catalog resolves every data source used. -/
theorem export_template_references (upper : Char → Char) (raw : String) (allDS : List DataSource)
    (order : List String) (out : JSON)
    (horder : IterationOrder raw order)
    (hplain : '\\' ∉ raw.data)
    (hnames : ∀ p, p ∈ resolvedPairs upper allDS order →
      '"' ∉ p.1.data ∧ '"' ∉ p.2.data ∧ '\\' ∉ p.2.data)
    (hoverlap : ∀ p, p ∈ resolvedPairs upper allDS order →
      ¬ contains raw (quoted p.1 ++ p.1 ++ "\""))
    (hout : exportExternal upper raw allDS order = .ok out) :
    (∀ x, x ∈ discoverDatasourceUIDs out [] →
      x ∈ usedUIDs raw ∧ mapGet x (dsMap allDS) = none) ∧
    ((∀ uid, uid ∈ order → mapGet uid (dsMap allDS) ≠ none) →
      discoverDatasourceUIDs out [] = []) := by
  have hall : ∀ x, x ∈ discoverDatasourceUIDs out [] →
      x ∈ usedUIDs raw ∧ mapGet x (dsMap allDS) = none := by
    intro x hx
    have ho := exportExternal_eq_ok raw allDS order out hout
    rw [ho] at hx
    cases hu : unmarshalObject raw with
    | none =>
      unfold exportExternal at hout
      rw [hu] at hout
      cases hout
    | some dashObj =>
      exact found_template raw allDS order dashObj x horder hplain hnames hoverlap hu
        ((found_iff_discover _ x).1 hx)
  refine ⟨hall, ?_⟩
  intro hres
  rw [List.eq_nil_iff_forall_not_mem]
  intro x hx
  obtain ⟨hmem, hnone⟩ := hall x hx
  exact hres x ((List.Perm.mem_iff horder).2 hmem) hnone

set_option maxRecDepth 100000 in
theorem export_template_references_witness :
    (∀ x, x ∈ discoverDatasourceUIDs (.obj (exportOutput (exportLoop latin1Upper
        "\x7b\"title\":\"T\",\"panels\":[\x7b\"datasource\":\"uid-123\"\x7d,\x7b\"datasource\":\x7b\"uid\":\"uid-9\"\x7d\x7d]\x7d"
        [⟨"uid-123", "My-DB", "prometheus"⟩] ["uid-9", "uid-123"]))) [] →
      x ∈ usedUIDs
        "\x7b\"title\":\"T\",\"panels\":[\x7b\"datasource\":\"uid-123\"\x7d,\x7b\"datasource\":\x7b\"uid\":\"uid-9\"\x7d\x7d]\x7d" ∧
      mapGet x (dsMap [⟨"uid-123", "My-DB", "prometheus"⟩]) = none) ∧
    ((∀ uid, uid ∈ ["uid-9", "uid-123"] →
        mapGet uid (dsMap [⟨"uid-123", "My-DB", "prometheus"⟩]) ≠ none) →
      discoverDatasourceUIDs (.obj (exportOutput (exportLoop latin1Upper
        "\x7b\"title\":\"T\",\"panels\":[\x7b\"datasource\":\"uid-123\"\x7d,\x7b\"datasource\":\x7b\"uid\":\"uid-9\"\x7d\x7d]\x7d"
        [⟨"uid-123", "My-DB", "prometheus"⟩] ["uid-9", "uid-123"]))) [] = []) :=
  export_template_references latin1Upper
    "\x7b\"title\":\"T\",\"panels\":[\x7b\"datasource\":\"uid-123\"\x7d,\x7b\"datasource\":\x7b\"uid\":\"uid-9\"\x7d\x7d]\x7d"
    [⟨"uid-123", "My-DB", "prometheus"⟩] ["uid-9", "uid-123"] _
    (by unfold IterationOrder; decide) (by decide) (by decide) (by decide) rfl

/-- C4 as stated fails: the catalog knows no data source `uid-123`, so the loop leaves the
reference as it is and discovery on the exported template finds `uid-123`; and with the
identifier `a/b` written `a\/b` in the text, the catalog resolves it but the textual
replacement does not meet it, and discovery on the template finds `a/b`. -/
theorem export_template_keeps_reference :
    usedUIDs "\x7b\"panels\":[\x7b\"datasource\":\"uid-123\"\x7d]\x7d" = ["uid-123"] ∧
    (∃ out, exportExternal latin1Upper "\x7b\"panels\":[\x7b\"datasource\":\"uid-123\"\x7d]\x7d"
        [] ["uid-123"] = .ok out ∧ discoverDatasourceUIDs out [] = ["uid-123"]) ∧
    usedUIDs "\x7b\"panels\":[\x7b\"datasource\":\"a\\/b\"\x7d]\x7d" = ["a/b"] ∧
    (∃ out, exportExternal latin1Upper "\x7b\"panels\":[\x7b\"datasource\":\"a\\/b\"\x7d]\x7d"
        [⟨"a/b", "Prom", "prometheus"⟩] ["a/b"] = .ok out ∧
      discoverDatasourceUIDs out [] = ["a/b"]) :=
  ⟨by decide, ⟨_, rfl, by decide⟩, by decide, ⟨_, rfl, by decide⟩⟩

/-! ## Template resolution: the claims -/

/-- C12 (selection validation): for an input of type `datasource` with plugin id `p` and a
catalog with at least one data source of type `p`, an answer whose trimmed form `Atoi`
reads as an integer `k` between 1 and the number of candidates is accepted: the candidate
of number `k` exists and the input name is mapped to its identifier before the loop goes on
with the next input; every other answer leaves the mapping as it is and the same prompt
reads the next answer. -/
theorem selection_validation (availableDS : List DataSource) (im : List (String × JSON))
    (more : List JSON) (inputStr : String) (rest : List String)
    (mappings : List (String × String))
    (htype : asString (mapGet "type" im) = "datasource")
    (hcand : availableDS.filter
      (fun ds => decide (ds.Typ = asString (mapGet "pluginId" im))) ≠ []) :
    (∀ k : Int, atoi (trimSpace inputStr) = some k → 1 ≤ k →
      k ≤ ((availableDS.filter
        (fun ds => decide (ds.Typ = asString (mapGet "pluginId" im)))).length : Int) →
      ∃ c, (availableDS.filter
          (fun ds => decide (ds.Typ = asString (mapGet "pluginId" im))))[(k - 1).toNat]? = some c ∧
        resolveInputs availableDS (.obj im :: more) (inputStr :: rest) mappings =
          resolveInputs availableDS more rest
            (mapSet (asString (mapGet "name" im)) c.UID mappings)) ∧
    ((∀ k : Int, atoi (trimSpace inputStr) = some k →
        ¬ (1 ≤ k ∧ k ≤ ((availableDS.filter
          (fun ds => decide (ds.Typ = asString (mapGet "pluginId" im)))).length : Int))) →
      resolveInputs availableDS (.obj im :: more) (inputStr :: rest) mappings =
        resolveInputs availableDS (.obj im :: more) rest mappings) := by
  constructor
  · intro k hk h1 h2
    obtain ⟨c, hc⟩ := candidate_exists availableDS _ k h1 h2
    refine ⟨c, hc, ?_⟩
    rw [resolveInputs_datasource availableDS im more _ mappings htype hcand,
      selectLoop_accept availableDS _ inputStr rest k c hk h1 h2 hc]
  · intro h
    rw [resolveInputs_datasource availableDS im more _ mappings htype hcand,
      resolveInputs_datasource availableDS im more _ mappings htype hcand,
      selectLoop_reject availableDS _ inputStr rest h]

theorem selection_validation_witness :
    (∀ k : Int, atoi (trimSpace " 2 \n") = some k → 1 ≤ k →
      k ≤ (([⟨"a", "A", "p"⟩, ⟨"b", "B", "q"⟩, ⟨"c", "C", "p"⟩] : List DataSource).filter
        (fun ds => decide (ds.Typ = asString (mapGet "pluginId"
          [("name", .str "DS_A"), ("type", .str "datasource"), ("pluginId", .str "p")])))).length →
      ∃ c, (([⟨"a", "A", "p"⟩, ⟨"b", "B", "q"⟩, ⟨"c", "C", "p"⟩] : List DataSource).filter
          (fun ds => decide (ds.Typ = asString (mapGet "pluginId"
            [("name", .str "DS_A"), ("type", .str "datasource"),
              ("pluginId", .str "p")]))))[(k - 1).toNat]? = some c ∧
        resolveInputs [⟨"a", "A", "p"⟩, ⟨"b", "B", "q"⟩, ⟨"c", "C", "p"⟩]
            (.obj [("name", .str "DS_A"), ("type", .str "datasource"), ("pluginId", .str "p")]
              :: []) (" 2 \n" :: ["x"]) [] =
          resolveInputs [⟨"a", "A", "p"⟩, ⟨"b", "B", "q"⟩, ⟨"c", "C", "p"⟩] [] ["x"]
            (mapSet (asString (mapGet "name"
              [("name", .str "DS_A"), ("type", .str "datasource"), ("pluginId", .str "p")]))
              c.UID [])) ∧
    ((∀ k : Int, atoi (trimSpace " 2 \n") = some k →
        ¬ (1 ≤ k ∧ k ≤ ((([⟨"a", "A", "p"⟩, ⟨"b", "B", "q"⟩, ⟨"c", "C", "p"⟩] :
          List DataSource).filter
          (fun ds => decide (ds.Typ = asString (mapGet "pluginId"
            [("name", .str "DS_A"), ("type", .str "datasource"),
              ("pluginId", .str "p")])))).length : Int))) →
      resolveInputs [⟨"a", "A", "p"⟩, ⟨"b", "B", "q"⟩, ⟨"c", "C", "p"⟩]
          (.obj [("name", .str "DS_A"), ("type", .str "datasource"), ("pluginId", .str "p")]
            :: []) (" 2 \n" :: ["x"]) [] =
        resolveInputs [⟨"a", "A", "p"⟩, ⟨"b", "B", "q"⟩, ⟨"c", "C", "p"⟩]
          (.obj [("name", .str "DS_A"), ("type", .str "datasource"), ("pluginId", .str "p")]
            :: []) ["x"] []) :=
  selection_validation [⟨"a", "A", "p"⟩, ⟨"b", "B", "q"⟩, ⟨"c", "C", "p"⟩]
    [("name", .str "DS_A"), ("type", .str "datasource"), ("pluginId", .str "p")] []
    " 2 \n" ["x"] [] (by decide) (by decide)

/-- C11 as the code has it (resolver totality): a run of `dash create` reaches the
substitution step only if the loop over the declared inputs ended with a mapping, every
declared input is an object, and every declared input of type `datasource` has its name
mapped to the identifier of a data source of the catalog (inputs of another type get no
entry); and a run on a file with declared inputs whose loop did not end with a mapping does
not reach the substitution and issues no creation call. -/
theorem resolver_totality (jsonError : String → String)
    (rangeOrder : List (String × String) → List (String × String))
    (data : String) (availableDS : List DataSource) (answers answers2 : List String) :
    (∀ t, (dashCreate jsonError rangeOrder data availableDS answers answers2).substituted =
        some t →
      ∃ mappings unread,
        resolveInputs availableDS (declaredInputs data) answers [] = (.ok mappings, unread) ∧
        t = substituteMappings data (rangeOrder mappings) ∧
        ∀ input, input ∈ declaredInputs data → ∃ im, input = .obj im ∧
          (asString (mapGet "type" im) = "datasource" →
            ∃ ds, ds ∈ availableDS ∧
              mapGet (asString (mapGet "name" im)) mappings = some ds.UID)) ∧
    (declaredInputs data ≠ [] →
      (∀ m, (resolveInputs availableDS (declaredInputs data) answers []).1 ≠ .ok m) →
      (dashCreate jsonError rangeOrder data availableDS answers answers2).substituted = none ∧
      ∀ p, (dashCreate jsonError rangeOrder data availableDS answers answers2).result ≠
        .ok p) := by
  constructor
  · intro t ht
    obtain ⟨mappings, unread, hr, hsub⟩ :=
      dashCreate_substituted jsonError rangeOrder data availableDS answers answers2 t ht
    refine ⟨mappings, unread, hr, hsub, ?_⟩
    obtain ⟨_, h2, h3⟩ := resolveInputs_ok availableDS _ answers unread [] mappings hr
    intro input hin
    obtain ⟨im, him, hmap⟩ := h3 input hin
    refine ⟨im, him, fun htype => ?_⟩
    cases hget : mapGet (asString (mapGet "name" im)) mappings with
    | none => exact absurd hget (hmap htype)
    | some v =>
      rcases h2 _ (mapGet_some_mem _ v mappings hget) with hnil | ⟨im1, ds, _, hds, _, hp⟩
      · cases hnil
      · refine ⟨ds, hds, ?_⟩
        rw [(Prod.mk.inj hp).2]
  · intro hne hr
    have h := dashCreate_of_not_ok jsonError rangeOrder data availableDS answers answers2 hne hr
    exact ⟨h.1, h.2.1⟩

set_option maxRecDepth 100000 in
theorem resolver_totality_witness :
    ∃ mappings unread,
      resolveInputs [⟨"a", "A", "p"⟩, ⟨"c", "C", "p"⟩]
        (declaredInputs
          "\x7b\"__inputs\":[\x7b\"name\":\"DS_A\",\"type\":\"datasource\",\"pluginId\":\"p\"\x7d],\"panels\":[\x7b\"datasource\":\"$\x7bDS_A\x7d\"\x7d]\x7d")
        ["2\n"] [] = (.ok mappings, unread) ∧
      "\x7b\"__inputs\":[\x7b\"name\":\"DS_A\",\"type\":\"datasource\",\"pluginId\":\"p\"\x7d],\"panels\":[\x7b\"datasource\":\"c\"\x7d]\x7d" =
        substituteMappings
          "\x7b\"__inputs\":[\x7b\"name\":\"DS_A\",\"type\":\"datasource\",\"pluginId\":\"p\"\x7d],\"panels\":[\x7b\"datasource\":\"$\x7bDS_A\x7d\"\x7d]\x7d"
          (id mappings) ∧
      ∀ input, input ∈ declaredInputs
          "\x7b\"__inputs\":[\x7b\"name\":\"DS_A\",\"type\":\"datasource\",\"pluginId\":\"p\"\x7d],\"panels\":[\x7b\"datasource\":\"$\x7bDS_A\x7d\"\x7d]\x7d" →
        ∃ im, input = .obj im ∧
          (asString (mapGet "type" im) = "datasource" →
            ∃ ds, ds ∈ ([⟨"a", "A", "p"⟩, ⟨"c", "C", "p"⟩] : List DataSource) ∧
              mapGet (asString (mapGet "name" im)) mappings = some ds.UID) :=
  (resolver_totality (fun _ => "") id
    "\x7b\"__inputs\":[\x7b\"name\":\"DS_A\",\"type\":\"datasource\",\"pluginId\":\"p\"\x7d],\"panels\":[\x7b\"datasource\":\"$\x7bDS_A\x7d\"\x7d]\x7d"
    [⟨"a", "A", "p"⟩, ⟨"c", "C", "p"⟩] ["2\n"] []).1
    "\x7b\"__inputs\":[\x7b\"name\":\"DS_A\",\"type\":\"datasource\",\"pluginId\":\"p\"\x7d],\"panels\":[\x7b\"datasource\":\"c\"\x7d]\x7d"
    (by decide)

set_option maxRecDepth 100000 in
/-- C11 as stated fails: the file declares the input `VAR_X` of type `constant`; the loop
skips it, the mapping stays empty, and the run goes through the substitution step to the
creation call with the placeholder of `VAR_X` still in the document. -/
theorem resolver_skips_constant_input :
    declaredInputs
        "\x7b\"__inputs\":[\x7b\"name\":\"VAR_X\",\"type\":\"constant\",\"value\":\"1\"\x7d],\"title\":\"$\x7bVAR_X\x7d\"\x7d" =
      [.obj [("name", .str "VAR_X"), ("type", .str "constant"), ("value", .str "1")]] ∧
    resolveInputs []
        [.obj [("name", .str "VAR_X"), ("type", .str "constant"), ("value", .str "1")]]
        [] [] = (.ok [], []) ∧
    mapGet "VAR_X" ([] : List (String × String)) = none ∧
    dashCreate (fun _ => "") id
        "\x7b\"__inputs\":[\x7b\"name\":\"VAR_X\",\"type\":\"constant\",\"value\":\"1\"\x7d],\"title\":\"$\x7bVAR_X\x7d\"\x7d"
        [] [] [] =
      ⟨.ok (.obj [("dashboard", .obj [("title", .str "$\x7bVAR_X\x7d")]),
          ("overwrite", .bool false)]),
        some "\x7b\"__inputs\":[\x7b\"name\":\"VAR_X\",\"type\":\"constant\",\"value\":\"1\"\x7d],\"title\":\"$\x7bVAR_X\x7d\"\x7d",
        []⟩ := by
  decide

/-- C13 (empty candidate list is fatal): when the loop over the declared inputs reaches an
input of type `datasource` whose plugin id is the type of no data source of the catalog,
the run returns the error `no datasources found for type ...`; no answer is read for that
input, the substitution is not reached and no creation call is issued. -/
theorem empty_candidates_fatal (jsonError : String → String)
    (rangeOrder : List (String × String) → List (String × String))
    (data : String) (availableDS : List DataSource) (answers answers1 answers2 : List String)
    (pre post : List JSON) (im : List (String × JSON)) (mappings : List (String × String))
    (hdecl : declaredInputs data = pre ++ .obj im :: post)
    (hpre : resolveInputs availableDS pre answers [] = (.ok mappings, answers1))
    (htype : asString (mapGet "type" im) = "datasource")
    (hnone : ∀ ds, ds ∈ availableDS → ds.Typ ≠ asString (mapGet "pluginId" im)) :
    (dashCreate jsonError rangeOrder data availableDS answers answers2).result =
      .failed ("no datasources found for type " ++ asString (mapGet "pluginId" im)) ∧
    (dashCreate jsonError rangeOrder data availableDS answers answers2).unread = answers1 ∧
    (dashCreate jsonError rangeOrder data availableDS answers answers2).substituted = none ∧
    ∀ p, (dashCreate jsonError rangeOrder data availableDS answers answers2).result ≠ .ok p := by
  have hres : resolveInputs availableDS (declaredInputs data) answers [] =
      (.failed ("no datasources found for type " ++ asString (mapGet "pluginId" im)),
        answers1) := by
    rw [hdecl, resolveInputs_append availableDS pre _ answers answers1 [] mappings hpre,
      resolveInputs_no_candidate availableDS im post answers1 mappings htype hnone]
  have hne : declaredInputs data ≠ [] := by
    rw [hdecl]
    simp
  have h := dashCreate_of_not_ok jsonError rangeOrder data availableDS answers answers2 hne
    (by rw [hres]; intro m hm; cases hm)
  rw [hres] at h
  exact ⟨h.2.2.2 _ rfl, h.2.2.1, h.1, h.2.1⟩

set_option maxRecDepth 100000 in
theorem empty_candidates_fatal_witness :
    (dashCreate (fun _ => "") id
      "\x7b\"__inputs\":[\x7b\"name\":\"DS_A\",\"type\":\"datasource\",\"pluginId\":\"p\"\x7d,\x7b\"name\":\"DS_B\",\"type\":\"datasource\",\"pluginId\":\"q\"\x7d]\x7d"
      [⟨"a", "A", "p"⟩] ["1\n", "1\n"] []).result =
      .failed ("no datasources found for type " ++ asString (mapGet "pluginId"
        [("name", .str "DS_B"), ("type", .str "datasource"), ("pluginId", .str "q")])) ∧
    (dashCreate (fun _ => "") id
      "\x7b\"__inputs\":[\x7b\"name\":\"DS_A\",\"type\":\"datasource\",\"pluginId\":\"p\"\x7d,\x7b\"name\":\"DS_B\",\"type\":\"datasource\",\"pluginId\":\"q\"\x7d]\x7d"
      [⟨"a", "A", "p"⟩] ["1\n", "1\n"] []).unread = ["1\n"] ∧
    (dashCreate (fun _ => "") id
      "\x7b\"__inputs\":[\x7b\"name\":\"DS_A\",\"type\":\"datasource\",\"pluginId\":\"p\"\x7d,\x7b\"name\":\"DS_B\",\"type\":\"datasource\",\"pluginId\":\"q\"\x7d]\x7d"
      [⟨"a", "A", "p"⟩] ["1\n", "1\n"] []).substituted = none ∧
    ∀ p, (dashCreate (fun _ => "") id
      "\x7b\"__inputs\":[\x7b\"name\":\"DS_A\",\"type\":\"datasource\",\"pluginId\":\"p\"\x7d,\x7b\"name\":\"DS_B\",\"type\":\"datasource\",\"pluginId\":\"q\"\x7d]\x7d"
      [⟨"a", "A", "p"⟩] ["1\n", "1\n"] []).result ≠ .ok p :=
  empty_candidates_fatal (fun _ => "") id
    "\x7b\"__inputs\":[\x7b\"name\":\"DS_A\",\"type\":\"datasource\",\"pluginId\":\"p\"\x7d,\x7b\"name\":\"DS_B\",\"type\":\"datasource\",\"pluginId\":\"q\"\x7d]\x7d"
    [⟨"a", "A", "p"⟩] ["1\n", "1\n"] ["1\n"] []
    [.obj [("name", .str "DS_A"), ("type", .str "datasource"), ("pluginId", .str "p")]] []
    [("name", .str "DS_B"), ("type", .str "datasource"), ("pluginId", .str "q")]
    [("DS_A", "a")] (by decide) (by decide) (by decide) (by decide)

/-- C15 as the code has it: for a file whose `__inputs` is a non-empty array, the document
handed to the creation call has neither a top-level `__inputs` nor a top-level
`__requires`. -/
theorem create_strips_metadata (jsonError : String → String)
    (rangeOrder : List (String × String) → List (String × String))
    (data : String) (availableDS : List DataSource) (answers answers2 : List String)
    (payload : JSON)
    (hne : declaredInputs data ≠ [])
    (h : (dashCreate jsonError rangeOrder data availableDS answers answers2).result =
      .ok payload) :
    ∃ d, field "dashboard" payload = some d ∧
      field "__inputs" d = none ∧ field "__requires" d = none := by
  cases hdi : declaredInputs data with
  | nil => exact absurd hdi hne
  | cons input inputs =>
    obtain ⟨dashRaw, hd, hi⟩ := declaredInputs_cons data input inputs hdi
    unfold dashCreate at h
    rw [hd] at h
    dsimp only at h
    rw [hi] at h
    dsimp only at h
    generalize resolveInputs availableDS (input :: inputs) answers [] = r at h
    obtain ⟨o, a⟩ := r
    cases o with
    | ok m =>
      dsimp only at h
      generalize unmarshalInto dashRaw (substituteMappings data (rangeOrder m)) = g at h
      cases g with
      | none => cases h
      | some g1 =>
        cases g1 with
        | none =>
          obtain ⟨d, hd1, hk⟩ := createPayload_ok none answers2 payload h
          exact ⟨d, hd1, by rw [hk _ (by decide) (by decide)]; rfl,
            by rw [hk _ (by decide) (by decide)]; rfl⟩
        | some dashRaw1 =>
          obtain ⟨d, hd1, hk⟩ := createPayload_ok _ answers2 payload h
          refine ⟨d, hd1, ?_, ?_⟩
          · rw [hk _ (by decide) (by decide)]
            show mapGet _ (mapDelete _ (mapDelete _ _)) = none
            rw [mapGet_mapDelete, mapGet_mapDelete]
            simp
          · rw [hk _ (by decide) (by decide)]
            show mapGet _ (mapDelete _ (mapDelete _ _)) = none
            rw [mapGet_mapDelete]
            simp
    | failed err => cases h
    | panicked => cases h
    | waiting => cases h

set_option maxRecDepth 100000 in
theorem create_strips_metadata_witness :
    ∃ d, field "dashboard" (.obj [("dashboard", .obj [("title", .str "T"),
        ("panels", .arr [.obj [("datasource", .str "c")]])]), ("overwrite", .bool false)]) =
        some d ∧
      field "__inputs" d = none ∧ field "__requires" d = none :=
  create_strips_metadata (fun _ => "") id
    "\x7b\"title\":\"T\",\"__inputs\":[\x7b\"name\":\"DS_A\",\"type\":\"datasource\",\"pluginId\":\"p\"\x7d],\"__requires\":[],\"panels\":[\x7b\"datasource\":\"$\x7bDS_A\x7d\"\x7d]\x7d"
    [⟨"a", "A", "p"⟩, ⟨"b", "B", "q"⟩, ⟨"c", "C", "p"⟩] ["x\n", " 2 \n", "z"] ["\n", "\n"]
    _ (by decide) (by decide)

set_option maxRecDepth 100000 in
/-- C15 as stated fails: a template exported for a dashboard without data sources declares
`__inputs` as `null` and `__requires` with the platform entry; `dash create` does not take
the template path and hands both fields to the creation call. -/
theorem create_keeps_metadata :
    (dashCreate (fun _ => "") id
      "\x7b\"__inputs\":null,\"__requires\":[\x7b\"type\":\"grafana\",\"id\":\"grafana\",\"name\":\"Grafana\",\"version\":\"1.0.0\"\x7d],\"title\":\"T\"\x7d"
      [] [] ["\n", "\n"]).result =
      .ok (.obj [("dashboard", .obj [("__inputs", .null),
        ("__requires", .arr [.obj [("type", .str "grafana"), ("id", .str "grafana"),
          ("name", .str "Grafana"), ("version", .str "1.0.0")]]),
        ("title", .str "T")]), ("overwrite", .bool false)]) ∧
    field "__inputs" (.obj [("__inputs", .null),
        ("__requires", .arr [.obj [("type", .str "grafana"), ("id", .str "grafana"),
          ("name", .str "Grafana"), ("version", .str "1.0.0")]]),
        ("title", .str "T")]) = some .null ∧
    field "__requires" (.obj [("__inputs", .null),
        ("__requires", .arr [.obj [("type", .str "grafana"), ("id", .str "grafana"),
          ("name", .str "Grafana"), ("version", .str "1.0.0")]]),
        ("title", .str "T")]) =
      some (.arr [.obj [("type", .str "grafana"), ("id", .str "grafana"),
        ("name", .str "Grafana"), ("version", .str "1.0.0")]]) := by
  decide

/-! ## The substitution step: the claim -/

/-- C14 as the code has it: when every `$\x7b` of the template file is closed by a brace
before the next `$`, no name of a declared input of type `datasource` contains `$` or a
closing brace, and every identifier of the catalog is non-empty and contains neither `$`
nor an opening brace, then the text after the substitution step contains the placeholder
of no declared input of type `datasource`. -/
theorem resolved_no_placeholder (jsonError : String → String)
    (rangeOrder : List (String × String) → List (String × String))
    (data : String) (availableDS : List DataSource) (answers answers2 : List String)
    (t : String)
    (horder : RangeOrder rangeOrder)
    (hclosed : placeholdersClosed data.data = true)
    (hnames : ∀ input, input ∈ declaredInputs data →
      asString (field "type" input) = "datasource" →
      '$' ∉ (asString (field "name" input)).data ∧
        '\x7d' ∉ (asString (field "name" input)).data)
    (huids : ∀ ds, ds ∈ availableDS →
      ds.UID ≠ "" ∧ '$' ∉ ds.UID.data ∧ '\x7b' ∉ ds.UID.data)
    (hsub : (dashCreate jsonError rangeOrder data availableDS answers answers2).substituted =
      some t) :
    ∀ input, input ∈ declaredInputs data →
      asString (field "type" input) = "datasource" →
      ¬ contains t (placeholder (asString (field "name" input))) := by
  obtain ⟨mappings, unread, hr, ht⟩ :=
    dashCreate_substituted jsonError rangeOrder data availableDS answers answers2 t hsub
  obtain ⟨_, h2, h3⟩ := resolveInputs_ok availableDS _ answers unread [] mappings hr
  have hN : ∀ q, q ∈ (rangeOrder mappings).map (fun m => (m.1.data, m.2.data)) →
      '$' ∉ q.1 ∧ q.2 ≠ [] ∧ '$' ∉ q.2 ∧ '\x7b' ∉ q.2 := by
    intro q hq
    obtain ⟨p, hp, hpq⟩ := List.mem_map.1 hq
    have hp1 : p ∈ mappings := (List.Perm.mem_iff (horder mappings)).1 hp
    rcases h2 p hp1 with hnil | ⟨im, ds, him, hds, htype, hpe⟩
    · cases hnil
    · obtain ⟨hu1, hu2, hu3⟩ := huids ds hds
      rw [← hpq, hpe]
      refine ⟨(hnames (.obj im) him htype).1, ?_, hu2, hu3⟩
      intro he
      exact hu1 (String.ext he)
  obtain ⟨_, hfin⟩ := foldl_replaceScan_placeholder _ data.data hN
    (closed_of_placeholdersClosed _ hclosed)
  intro input hin htype hcon
  unfold contains at hcon
  rw [ht, substituteMappings_foldl, placeholder_data] at hcon
  obtain ⟨_, hne⟩ := hfin _ (hnames input hin htype).2 hcon
  obtain ⟨im, him, hmap⟩ := h3 _ hin
  subst him
  cases hget : mapGet (asString (mapGet "name" im)) mappings with
  | none => exact hmap htype hget
  | some v =>
    have hmem : (asString (mapGet "name" im), v) ∈ rangeOrder mappings :=
      (List.Perm.mem_iff (horder mappings)).2 (mapGet_some_mem _ v mappings hget)
    exact hne ((asString (mapGet "name" im)).data, v.data)
      (List.mem_map.2 ⟨_, hmem, rfl⟩) rfl

set_option maxRecDepth 100000 in
theorem resolved_no_placeholder_witness :
    ¬ contains
      "\x7b\"__inputs\":[\x7b\"name\":\"DS_A\",\"type\":\"datasource\",\"pluginId\":\"p\"\x7d],\"panels\":[\x7b\"datasource\":\"c\",\"interval\":\"$\x7b__interval\x7d\"\x7d]\x7d"
      (placeholder (asString (field "name"
        (.obj [("name", .str "DS_A"), ("type", .str "datasource"), ("pluginId", .str "p")])))) :=
  resolved_no_placeholder (fun _ => "") id
    "\x7b\"__inputs\":[\x7b\"name\":\"DS_A\",\"type\":\"datasource\",\"pluginId\":\"p\"\x7d],\"panels\":[\x7b\"datasource\":\"$\x7bDS_A\x7d\",\"interval\":\"$\x7b__interval\x7d\"\x7d]\x7d"
    [⟨"a", "A", "p"⟩, ⟨"c", "C", "p"⟩] ["2\n"] []
    "\x7b\"__inputs\":[\x7b\"name\":\"DS_A\",\"type\":\"datasource\",\"pluginId\":\"p\"\x7d],\"panels\":[\x7b\"datasource\":\"c\",\"interval\":\"$\x7b__interval\x7d\"\x7d]\x7d"
    (fun _ => List.Perm.refl _) (by decide) (by decide) (by decide) (by decide)
    (.obj [("name", .str "DS_A"), ("type", .str "datasource"), ("pluginId", .str "p")])
    (by decide) (by decide)

set_option maxRecDepth 100000 in
/-- C14 as stated fails. The declared input `VAR_X` of type `constant` gets no mapping and
its placeholder stays in the text after the substitution. And with two inputs of type
`datasource` both mapped to the identifier `A`, the text `$\x7bDS_$\x7bDS_B\x7d\x7d`
becomes the placeholder of the declared input `DS_A` when that of `DS_B` is replaced
last. -/
theorem resolved_keeps_placeholder :
    (dashCreate (fun _ => "") id
      "\x7b\"__inputs\":[\x7b\"name\":\"VAR_X\",\"type\":\"constant\",\"value\":\"1\"\x7d],\"title\":\"$\x7bVAR_X\x7d\"\x7d"
      [] [] []).substituted =
      some "\x7b\"__inputs\":[\x7b\"name\":\"VAR_X\",\"type\":\"constant\",\"value\":\"1\"\x7d],\"title\":\"$\x7bVAR_X\x7d\"\x7d" ∧
    contains
      "\x7b\"__inputs\":[\x7b\"name\":\"VAR_X\",\"type\":\"constant\",\"value\":\"1\"\x7d],\"title\":\"$\x7bVAR_X\x7d\"\x7d"
      (placeholder "VAR_X") ∧
    (dashCreate (fun _ => "") id
      "\x7b\"__inputs\":[\x7b\"name\":\"DS_A\",\"type\":\"datasource\",\"pluginId\":\"p\"\x7d,\x7b\"name\":\"DS_B\",\"type\":\"datasource\",\"pluginId\":\"p\"\x7d],\"x\":\"$\x7bDS_$\x7bDS_B\x7d\x7d\"\x7d"
      [⟨"A", "Prom", "p"⟩] ["1\n", "1\n"] []).substituted =
      some "\x7b\"__inputs\":[\x7b\"name\":\"DS_A\",\"type\":\"datasource\",\"pluginId\":\"p\"\x7d,\x7b\"name\":\"DS_B\",\"type\":\"datasource\",\"pluginId\":\"p\"\x7d],\"x\":\"$\x7bDS_A\x7d\"\x7d" ∧
    contains
      "\x7b\"__inputs\":[\x7b\"name\":\"DS_A\",\"type\":\"datasource\",\"pluginId\":\"p\"\x7d,\x7b\"name\":\"DS_B\",\"type\":\"datasource\",\"pluginId\":\"p\"\x7d],\"x\":\"$\x7bDS_A\x7d\"\x7d"
      (placeholder "DS_A") := by
  decide

/-! ## The edit session: the claims -/

/-- C16 as the code has it (retry keeps the text): for a content none of whose lines is a
comment line and a non-empty error message without a line break, the cleaned text of the
file of a retry round that the editor left unchanged is the content after one line break,
and that is the content of the next round whenever the loop goes on. -/
theorem retry_keeps_content (jsonError : String → String) (folderUID : String)
    (env : RoundEnv) (e c : String)
    (he : e ≠ "") (hnl : '\n' ∉ e.data)
    (hc : ∀ l, l ∈ splitLines c.data → isCommentLine l = false)
    (hed : env.editor (tmpFileText e c) = .saved (tmpFileText e c)) :
    cleanJSON (tmpFileText e c) = "\n" ++ c ∧
    ∀ e1 c1, (editRound jsonError folderUID env e c).next = .again e1 c1 → c1 = "\n" ++ c := by
  have h := cleanJSON_tmpFileText e c he hnl hc
  refine ⟨h, ?_⟩
  intro e1 c1 h1
  rw [editRound_again jsonError folderUID env e c _ e1 c1 hed h1, h]

theorem retry_keeps_content_witness :
    cleanJSON (tmpFileText "unexpected end of JSON input" "\x7b\"title\": \"X\"") =
      "\n" ++ "\x7b\"title\": \"X\"" ∧
    ∀ e1 c1, (editRound (fun _ => "unexpected end of JSON input") ""
        ⟨fun text => .saved text, fun _ => .response 200 "200 OK" ""⟩
        "unexpected end of JSON input" "\x7b\"title\": \"X\"").next = .again e1 c1 →
      c1 = "\n" ++ "\x7b\"title\": \"X\"" :=
  retry_keeps_content (fun _ => "unexpected end of JSON input") ""
    ⟨fun text => .saved text, fun _ => .response 200 "200 OK" ""⟩
    "unexpected end of JSON input" "\x7b\"title\": \"X\"" (by decide) (by decide) (by decide) rfl

/-- C16 as stated fails: with the content `\x7b"title": "X"` and the error of the decoder,
the file left unchanged is cleaned to the content after the empty line that closes the
annotation, which is not the content. -/
theorem retry_adds_line_break :
    cleanJSON (tmpFileText "unexpected end of JSON input" "\x7b\"title\": \"X\"") =
      "\n\x7b\"title\": \"X\"" ∧
    cleanJSON (tmpFileText "unexpected end of JSON input" "\x7b\"title\": \"X\"") ≠
      "\x7b\"title\": \"X\"" := by
  decide

/-- The annotation of an error message without a line break: the text written before the
content has exactly two lines that are not blank, the line of the error and the line of the
hint, both comment lines; and the cleaned lines of the file are an empty line and the
cleaned lines of the content, with nothing of the error message. -/
theorem annotation_two_comment_lines (e : String) (he : e ≠ "") (hnl : '\n' ∉ e.data) :
    (splitLines (tmpFileText e "").data).filter (fun l => !l.all unicodeIsSpace) =
      [("// ERROR: " ++ e).data, "// Fix the error below and save to retry.".data] ∧
    isCommentLine ("// ERROR: " ++ e).data = true ∧
    isCommentLine "// Fix the error below and save to retry.".data = true ∧
    ∀ c, cleanLines (tmpFileText e c).data = [] :: cleanLines c.data := by
  refine ⟨?_, isCommentLine_error_line e, isCommentLine_slashes _,
    fun c => cleanLines_tmpFileText e c he hnl⟩
  rw [splitLines_tmpFileText e "" he hnl]
  have h1 : (("// ERROR: " ++ e).data).all unicodeIsSpace = false := by
    rw [String.data_append]
    rfl
  rw [List.filter_cons, h1]
  rfl

theorem annotation_two_comment_lines_witness :
    (splitLines (tmpFileText "400 Bad Request: no" "").data).filter
        (fun l => !l.all unicodeIsSpace) =
      [("// ERROR: " ++ "400 Bad Request: no").data,
        "// Fix the error below and save to retry.".data] ∧
    isCommentLine ("// ERROR: " ++ "400 Bad Request: no").data = true ∧
    isCommentLine "// Fix the error below and save to retry.".data = true ∧
    ∀ c, cleanLines (tmpFileText "400 Bad Request: no" c).data = [] :: cleanLines c.data :=
  annotation_two_comment_lines "400 Bad Request: no" (by decide) (by decide)

/-- C17 at the failing input: the body of a server error holds a line break; line 370
writes the message after one `// ERROR: `, so the text written before the content has three
lines that are not blank, the second of them is no comment line, and it becomes part of the
cleaned text that is taken for the document. -/
theorem annotation_leaks_error_body :
    (splitLines (tmpFileText "500 Internal Server Error: <html>\n<body>oops</body>" "").data).filter
        (fun l => !l.all unicodeIsSpace) =
      ["// ERROR: 500 Internal Server Error: <html>".data, "<body>oops</body>".data,
        "// Fix the error below and save to retry.".data] ∧
    isCommentLine "<body>oops</body>".data = false ∧
    cleanJSON (tmpFileText "500 Internal Server Error: <html>\n<body>oops</body>" "\x7b\x7d") =
      "<body>oops</body>\n\n\x7b\x7d" := by
  decide

/-- C18 (comment stripping): the cleaned text is the lines of the edited text that are no
comment lines, unchanged and in their order, joined by line breaks; and no line of the
cleaned text is a comment line. -/
theorem comment_stripping (updated : String) :
    cleanJSON updated =
      ⟨joinLines ((splitLines updated.data).filter (fun line => !isCommentLine line))⟩ ∧
    ((splitLines updated.data).filter (fun line => !isCommentLine line)).Sublist
      (splitLines updated.data) ∧
    ∀ line, line ∈ splitLines (cleanJSON updated).data → isCommentLine line = false := by
  refine ⟨?_, List.filter_sublist _, fun line h => splitLines_cleanJSON updated line h⟩
  unfold cleanJSON
  rw [cleanLines_eq]

theorem comment_stripping_witness :
    cleanJSON "// a\n\x7b\x7d\n  # b\n" =
      ⟨joinLines ((splitLines "// a\n\x7b\x7d\n  # b\n".data).filter
        (fun line => !isCommentLine line))⟩ ∧
    ((splitLines "// a\n\x7b\x7d\n  # b\n".data).filter
      (fun line => !isCommentLine line)).Sublist
      (splitLines "// a\n\x7b\x7d\n  # b\n".data) ∧
    ∀ line, line ∈ splitLines (cleanJSON "// a\n\x7b\x7d\n  # b\n").data →
      isCommentLine line = false :=
  comment_stripping "// a\n\x7b\x7d\n  # b\n"

/-- C19 (blank-content abort): when every line of the edited text is a comment line or
white space, the round ends the session without an error and without an update call: the
calls of the session are those made before the round. -/
theorem blank_content_aborts (jsonError : String → String) (folderUID : String)
    (env : RoundEnv) (rest : List RoundEnv) (lastError content updated : String)
    (calls : List JSON)
    (hed : env.editor (tmpFileText lastError content) = .saved updated)
    (hblank : ∀ l, l ∈ splitLines updated.data →
      isCommentLine l = true ∨ l.all unicodeIsSpace = true) :
    editRound jsonError folderUID env lastError content = ⟨none, .done⟩ ∧
    editLoop jsonError folderUID (env :: rest) lastError content calls = ⟨calls, .done⟩ := by
  have h : editRound jsonError folderUID env lastError content = ⟨none, .done⟩ := by
    rw [editRound_saved jsonError folderUID env lastError content updated hed]
    exact (validateAndSubmit_cases jsonError folderUID env.server updated).1
      (trimSpace_cleanJSON_of_blank updated hblank)
  refine ⟨h, ?_⟩
  rw [editLoop, h]
  simp

theorem blank_content_aborts_witness :
    editRound (fun _ => "err") "f1"
        ⟨fun _ => .saved "// ERROR: x\n  \n# note\n\t", fun _ => .response 200 "200 OK" ""⟩
        "x" "\x7b\x7d" = ⟨none, .done⟩ ∧
    editLoop (fun _ => "err") "f1"
        (⟨fun _ => .saved "// ERROR: x\n  \n# note\n\t", fun _ => .response 200 "200 OK" ""⟩ :: [])
        "x" "\x7b\x7d" [.null] = ⟨[.null], .done⟩ :=
  blank_content_aborts (fun _ => "err") "f1"
    ⟨fun _ => .saved "// ERROR: x\n  \n# note\n\t", fun _ => .response 200 "200 OK" ""⟩ []
    "x" "\x7b\x7d" "// ERROR: x\n  \n# note\n\t" [.null] rfl (by decide)

/-- C20 as the code has it: in a round whose cleaned text is not blank, the update call is
made exactly when `json.Unmarshal` decodes the cleaned text without an error to a JSON
object (well-formed, every number within `float64`, the nesting within the limit) or to the
literal `null`, with the decoded map (the nil map for `null`) as the dashboard of the
payload; for any other text no call is made and the loop goes on with the message of the
decoder as `lastError` and the cleaned text as content. -/
theorem submission_only_of_maps (jsonError : String → String) (folderUID : String)
    (env : RoundEnv) (lastError content updated : String)
    (hed : env.editor (tmpFileText lastError content) = .saved updated)
    (hnb : trimSpace (cleanJSON updated) ≠ "") :
    ((editRound jsonError folderUID env lastError content).call ≠ none ↔
      (∃ kvs, decode (cleanJSON updated) = some (.obj kvs)) ∨
        decode (cleanJSON updated) = some .null) ∧
    (∀ kvs, decode (cleanJSON updated) = some (.obj kvs) →
      (editRound jsonError folderUID env lastError content).call =
        some (updatePayload (some kvs) folderUID)) ∧
    ((∀ kvs, decode (cleanJSON updated) ≠ some (.obj kvs)) →
      decode (cleanJSON updated) ≠ some .null →
      editRound jsonError folderUID env lastError content =
        ⟨none, .again (jsonError (cleanJSON updated)) (cleanJSON updated)⟩) := by
  rw [editRound_saved jsonError folderUID env lastError content updated hed]
  obtain ⟨_, h2, h3⟩ := validateAndSubmit_cases jsonError folderUID env.server updated
  have hrej : (∀ kvs, decode (cleanJSON updated) ≠ some (.obj kvs)) →
      decode (cleanJSON updated) ≠ some .null →
      validateAndSubmit jsonError folderUID env.server updated =
        ⟨none, .again (jsonError (cleanJSON updated)) (cleanJSON updated)⟩ :=
    fun ha hb => h2 hnb ((unmarshalNew_eq_none _).2 ⟨ha, hb⟩)
  refine ⟨⟨?_, ?_⟩, ?_, hrej⟩
  · intro hcall
    by_contra hno
    rw [not_or, not_exists] at hno
    rw [hrej hno.1 hno.2] at hcall
    exact hcall rfl
  · intro hdec
    have hu : ∃ dashObj, unmarshalNew (cleanJSON updated) = some dashObj := by
      rcases hdec with ⟨kvs, hk⟩ | hk
      · exact ⟨some kvs, by unfold unmarshalNew; rw [hk]⟩
      · exact ⟨none, by unfold unmarshalNew; rw [hk]⟩
    obtain ⟨dashObj, hd⟩ := hu
    obtain ⟨next, hn, _⟩ := h3 dashObj hnb hd
    rw [hn]
    intro hh
    cases hh
  · intro kvs hk
    obtain ⟨next, hn, _⟩ := h3 (some kvs) hnb (by unfold unmarshalNew; rw [hk])
    rw [hn]

set_option maxRecDepth 100000 in
theorem submission_only_of_maps_witness :
    ((editRound (fun _ => "err") "f1"
        ⟨fun _ => .saved "// note\n\x7b\"title\":\"T\"\x7d", fun _ => .response 200 "200 OK" ""⟩
        "" "\x7b\x7d").call ≠ none ↔
      (∃ kvs, decode (cleanJSON "// note\n\x7b\"title\":\"T\"\x7d") = some (.obj kvs)) ∨
        decode (cleanJSON "// note\n\x7b\"title\":\"T\"\x7d") = some .null) ∧
    (∀ kvs, decode (cleanJSON "// note\n\x7b\"title\":\"T\"\x7d") = some (.obj kvs) →
      (editRound (fun _ => "err") "f1"
        ⟨fun _ => .saved "// note\n\x7b\"title\":\"T\"\x7d", fun _ => .response 200 "200 OK" ""⟩
        "" "\x7b\x7d").call = some (updatePayload (some kvs) "f1")) ∧
    ((∀ kvs, decode (cleanJSON "// note\n\x7b\"title\":\"T\"\x7d") ≠ some (.obj kvs)) →
      decode (cleanJSON "// note\n\x7b\"title\":\"T\"\x7d") ≠ some .null →
      editRound (fun _ => "err") "f1"
        ⟨fun _ => .saved "// note\n\x7b\"title\":\"T\"\x7d", fun _ => .response 200 "200 OK" ""⟩
        "" "\x7b\x7d" =
        ⟨none, .again ((fun _ => "err") (cleanJSON "// note\n\x7b\"title\":\"T\"\x7d"))
          (cleanJSON "// note\n\x7b\"title\":\"T\"\x7d")⟩) :=
  submission_only_of_maps (fun _ => "err") "f1"
    ⟨fun _ => .saved "// note\n\x7b\"title\":\"T\"\x7d", fun _ => .response 200 "200 OK" ""⟩
    "" "\x7b\x7d" "// note\n\x7b\"title\":\"T\"\x7d" rfl (by decide)

set_option maxRecDepth 100000 in
/-- An object with a number past `float64` is a well-formed JSON object that
`json.Unmarshal` rejects: no update call is made for it, and the round goes back to
editing. -/
theorem range_error_is_not_submitted :
    decode "\x7b\"a\":1e400\x7d" = none ∧
    editRound (fun _ => "json: cannot unmarshal number 1e400 into Go value of type float64") ""
        ⟨fun _ => .saved "\x7b\"a\":1e400\x7d", fun _ => .response 200 "200 OK" ""⟩ ""
        "\x7b\x7d" =
      ⟨none, .again "json: cannot unmarshal number 1e400 into Go value of type float64"
        "\x7b\"a\":1e400\x7d"⟩ := by
  decide!

set_option maxRecDepth 100000 in
/-- C20 as stated fails: the edited text `null` is not blank and is no JSON object, yet
the decoder accepts it for a map, and the round makes the update call with `null` as the
dashboard. -/
theorem null_is_submitted :
    trimSpace (cleanJSON "null") ≠ "" ∧
    decode (cleanJSON "null") = some .null ∧
    editRound (fun _ => "err") ""
        ⟨fun _ => .saved "null", fun _ => .response 400 "400 Bad Request" "no"⟩ "" "\x7b\x7d" =
      ⟨some (.obj [("dashboard", .null), ("overwrite", .bool true)]),
        .again "400 Bad Request: no" "null"⟩ := by
  decide

/-! ## Name resolution, the stored configuration, the completion and the retry transitions: the claims -/

/-- C22 as the code has it: for a catalog and an entry `e` of it such that no entry before
`e` has the text as its name or as its id in decimal, `ResolveID` on the id of `e` in decimal
and `ResolveID` on the name of `e` both return the id of `e`. -/
theorem resolveID_of_entry (pre post : List datasource.DataSource)
    (e : datasource.DataSource) (s : String)
    (hs : s = decimal e.ID ∨ s = e.Name)
    (hpre : ∀ d, d ∈ pre → decimal d.ID ≠ s ∧ d.Name ≠ s) :
    datasource.ResolveID (pre ++ e :: post) s = .ok e.ID := by
  apply resolveID_of_first
  · intro d hd
    cases hm : datasource.matches d s with
    | false => rfl
    | true =>
      rcases (matches_iff d s).1 hm with h | h
      · exact absurd h (hpre d hd).1
      · exact absurd h (hpre d hd).2
  · rw [matches_iff]
    rcases hs with h | h
    · exact Or.inl h.symm
    · exact Or.inr h.symm

theorem resolveID_of_entry_witness :
    datasource.ResolveID ([⟨1, "Prometheus"⟩] ++ ⟨2, "InfluxDB"⟩ :: [⟨3, "Loki"⟩]) "InfluxDB" =
      .ok (2 : Int) :=
  resolveID_of_entry [⟨1, "Prometheus"⟩] [⟨3, "Loki"⟩] ⟨2, "InfluxDB"⟩ "InfluxDB"
    (Or.inr rfl) (by decide)

/-- C22 as stated fails: in the catalog of a data source with id 1 named `2` and a data
source with id 2, `ResolveID` on the decimal id of the second returns 1; and of two entries
with the same name, `ResolveID` on the name returns the id of the first. -/
theorem resolveID_first_match_wins :
    datasource.ResolveID [⟨1, "2"⟩, ⟨2, "Loki"⟩] (decimal 2) = .ok 1 ∧
    datasource.ResolveID [⟨1, "Prom"⟩, ⟨2, "Prom"⟩] "Prom" = .ok 1 := by
  decide

/-- C23 (ResolveID fails exactly when nothing matches): on a fetched catalog, `ResolveID`
returns the error `datasource s not found` if and only if no entry has `s` as its name or as
its id in decimal, it returns no other error, and when it succeeds the id is that of the
first entry, in catalog order, that matches. -/
theorem resolveID_error_iff (dss : List datasource.DataSource) (s : String) :
    (datasource.ResolveID dss s = .error ("datasource " ++ s ++ " not found") ↔
      ∀ d, d ∈ dss → ¬ (d.Name = s ∨ decimal d.ID = s)) ∧
    (∀ err, datasource.ResolveID dss s = .error err →
      err = "datasource " ++ s ++ " not found") ∧
    (∀ id, datasource.ResolveID dss s = .ok id →
      ∃ pre e post, dss = pre ++ e :: post ∧
        (∀ d, d ∈ pre → ¬ (d.Name = s ∨ decimal d.ID = s)) ∧
        (e.Name = s ∨ decimal e.ID = s) ∧ id = e.ID) := by
  have hno : ∀ d : datasource.DataSource, datasource.matches d s = false →
      ¬ (d.Name = s ∨ decimal d.ID = s) := by
    intro d hd hh
    have := (matches_iff d s).2 (Or.comm.1 hh)
    rw [hd] at this
    cases this
  rcases resolveID_cases s dss with ⟨herr, hall⟩ | ⟨pre, e, post, hd, hpre, he, hok⟩
  · refine ⟨⟨fun _ d hd => hno d (hall d hd), fun _ => herr⟩, ?_, ?_⟩
    · intro err h
      rw [herr] at h
      cases h
      rfl
    · intro id h
      rw [herr] at h
      cases h
  · refine ⟨⟨?_, ?_⟩, ?_, ?_⟩
    · intro h
      rw [hok] at h
      cases h
    · intro h
      exfalso
      exact h e (by rw [hd]; simp) (Or.comm.1 ((matches_iff e s).1 he))
    · intro err h
      rw [hok] at h
      cases h
    · intro id h
      rw [hok] at h
      cases h
      exact ⟨pre, e, post, hd, fun d hd1 => hno d (hpre d hd1),
        Or.comm.1 ((matches_iff e s).1 he), rfl⟩

theorem resolveID_error_iff_witness :
    (datasource.ResolveID [⟨1, "Prometheus"⟩, ⟨2, "InfluxDB"⟩] "Unknown" =
        .error ("datasource " ++ "Unknown" ++ " not found") ↔
      ∀ d, d ∈ ([⟨1, "Prometheus"⟩, ⟨2, "InfluxDB"⟩] : List datasource.DataSource) →
        ¬ (d.Name = "Unknown" ∨ decimal d.ID = "Unknown")) ∧
    (∀ err, datasource.ResolveID [⟨1, "Prometheus"⟩, ⟨2, "InfluxDB"⟩] "Unknown" = .error err →
      err = "datasource " ++ "Unknown" ++ " not found") ∧
    (∀ id, datasource.ResolveID [⟨1, "Prometheus"⟩, ⟨2, "InfluxDB"⟩] "Unknown" = .ok id →
      ∃ pre e post, ([⟨1, "Prometheus"⟩, ⟨2, "InfluxDB"⟩] : List datasource.DataSource) =
          pre ++ e :: post ∧
        (∀ d, d ∈ pre → ¬ (d.Name = "Unknown" ∨ decimal d.ID = "Unknown")) ∧
        (e.Name = "Unknown" ∨ decimal e.ID = "Unknown") ∧ id = e.ID) :=
  resolveID_error_iff [⟨1, "Prometheus"⟩, ⟨2, "InfluxDB"⟩] "Unknown"

/-- C24 (SaveProfile adds or updates a profile): for a stored configuration that `load`
reads, `SaveProfile p` returns no error, and afterwards `LoadAll` gives a map with `p` under
the name of `p` and every other name as before, and the active profile name and the active
organization are as before. -/
theorem saveProfile_frame (st : config.Store) (cfg : config.fileConfig) (p : config.Profile)
    (hload : config.load st = .ok cfg) :
    (config.SaveProfile p st).1 = none ∧
    (∃ m, config.LoadAll (config.SaveProfile p st).2 = .ok m ∧
      mapGet p.Name m = some p ∧ ∀ k, k ≠ p.Name → mapGet k m = mapGet k cfg.Profiles) ∧
    ∃ cfg1, config.load (config.SaveProfile p st).2 = .ok cfg1 ∧
      cfg1.Active = cfg.Active ∧ cfg1.ActiveOrg = cfg.ActiveOrg := by
  unfold config.SaveProfile
  rw [hload]
  refine ⟨rfl, ⟨mapSet p.Name p cfg.Profiles, rfl, ?_, ?_⟩, ⟨_, rfl, rfl, rfl⟩⟩
  · rw [mapGet_mapSet, if_pos rfl]
  · intro k hk
    rw [mapGet_mapSet, if_neg (fun h => hk h.symm)]

theorem saveProfile_frame_witness :
    (config.SaveProfile ⟨"b", "http://b", "u", "p"⟩
        (.holding ⟨"a", "1", [("a", ⟨"a", "http://a", "u", "p"⟩)]⟩)).1 = none ∧
    (∃ m, config.LoadAll (config.SaveProfile ⟨"b", "http://b", "u", "p"⟩
        (.holding ⟨"a", "1", [("a", ⟨"a", "http://a", "u", "p"⟩)]⟩)).2 = .ok m ∧
      mapGet (config.Profile.Name ⟨"b", "http://b", "u", "p"⟩) m =
        some ⟨"b", "http://b", "u", "p"⟩ ∧
      ∀ k, k ≠ config.Profile.Name ⟨"b", "http://b", "u", "p"⟩ →
        mapGet k m = mapGet k (config.fileConfig.Profiles
          ⟨"a", "1", [("a", ⟨"a", "http://a", "u", "p"⟩)]⟩)) ∧
    ∃ cfg1, config.load (config.SaveProfile ⟨"b", "http://b", "u", "p"⟩
        (.holding ⟨"a", "1", [("a", ⟨"a", "http://a", "u", "p"⟩)]⟩)).2 = .ok cfg1 ∧
      cfg1.Active = config.fileConfig.Active ⟨"a", "1", [("a", ⟨"a", "http://a", "u", "p"⟩)]⟩ ∧
      cfg1.ActiveOrg =
        config.fileConfig.ActiveOrg ⟨"a", "1", [("a", ⟨"a", "http://a", "u", "p"⟩)]⟩ :=
  saveProfile_frame (.holding ⟨"a", "1", [("a", ⟨"a", "http://a", "u", "p"⟩)]⟩)
    ⟨"a", "1", [("a", ⟨"a", "http://a", "u", "p"⟩)]⟩ ⟨"b", "http://b", "u", "p"⟩ rfl

/-- C25 as the code has it: for a stored configuration with a profile under the non-empty
name `n`, `SetActive n` returns no error and a following `GetActive` returns, without an
error, the profile stored under `n`. -/
theorem setActive_getActive (st : config.Store) (cfg : config.fileConfig) (n : String)
    (p : config.Profile)
    (hload : config.load st = .ok cfg)
    (hp : mapGet n cfg.Profiles = some p)
    (hn : n ≠ "") :
    (config.SetActive n st).1 = none ∧
    config.GetActive (config.SetActive n st).2 = .ok (some p) := by
  unfold config.SetActive
  rw [hload]
  dsimp only
  rw [hp]
  refine ⟨rfl, ?_⟩
  unfold config.GetActive config.save config.load
  dsimp only
  rw [if_neg hn, hp]

theorem setActive_getActive_witness :
    (config.SetActive "test-profile" (.holding ⟨"", "",
      [("test-profile", ⟨"test-profile", "http://localhost:3000", "admin", "admin"⟩)]⟩)).1 =
      none ∧
    config.GetActive (config.SetActive "test-profile" (.holding ⟨"", "",
      [("test-profile", ⟨"test-profile", "http://localhost:3000", "admin", "admin"⟩)]⟩)).2 =
      .ok (some ⟨"test-profile", "http://localhost:3000", "admin", "admin"⟩) :=
  setActive_getActive _ ⟨"", "",
      [("test-profile", ⟨"test-profile", "http://localhost:3000", "admin", "admin"⟩)]⟩
    "test-profile" ⟨"test-profile", "http://localhost:3000", "admin", "admin"⟩ rfl
    (by decide) (by decide)

/-- C25 as stated fails: a stored configuration has a profile under the empty name;
`SetActive ""` returns no error, and the following `GetActive` returns no profile, as the
empty active name means that no profile is active. -/
theorem setActive_empty_name :
    mapGet "" (config.fileConfig.Profiles
      ⟨"a", "", [("a", ⟨"a", "http://a", "u", "p"⟩), ("", ⟨"", "http://e", "u", "p"⟩)]⟩) =
      some ⟨"", "http://e", "u", "p"⟩ ∧
    (config.SetActive "" (.holding
      ⟨"a", "", [("a", ⟨"a", "http://a", "u", "p"⟩), ("", ⟨"", "http://e", "u", "p"⟩)]⟩)).1 =
      none ∧
    config.GetActive (config.SetActive "" (.holding
      ⟨"a", "", [("a", ⟨"a", "http://a", "u", "p"⟩), ("", ⟨"", "http://e", "u", "p"⟩)]⟩)).2 =
      .ok none :=
  ⟨by decide, by decide, rfl⟩

/-- C26 (SetActive rejects unknown profiles): for a stored configuration that `load` reads,
`SetActive n` returns an error if and only if no profile is stored under `n`, the error is
`profile n does not exist`, and the stored configuration is then left as it was. -/
theorem setActive_unknown (st : config.Store) (cfg : config.fileConfig) (n : String)
    (hload : config.load st = .ok cfg) :
    ((config.SetActive n st).1 ≠ none ↔ mapGet n cfg.Profiles = none) ∧
    ((config.SetActive n st).1 = some ("profile " ++ n ++ " does not exist") ↔
      mapGet n cfg.Profiles = none) ∧
    (mapGet n cfg.Profiles = none → (config.SetActive n st).2 = st) := by
  unfold config.SetActive
  rw [hload]
  dsimp only
  cases hp : mapGet n cfg.Profiles with
  | none =>
    exact ⟨⟨fun _ => rfl, fun _ h => (by cases h)⟩, ⟨fun _ => rfl, fun _ => rfl⟩, fun _ => rfl⟩
  | some p =>
    exact ⟨⟨fun h => absurd rfl h, fun h => (by cases h)⟩,
      ⟨fun h => (by cases h), fun h => (by cases h)⟩, fun h => (by cases h)⟩

theorem setActive_unknown_witness :
    ((config.SetActive "b" (.holding ⟨"a", "1", [("a", ⟨"a", "http://a", "u", "p"⟩)]⟩)).1 ≠
        none ↔
      mapGet "b" (config.fileConfig.Profiles
        ⟨"a", "1", [("a", ⟨"a", "http://a", "u", "p"⟩)]⟩) = none) ∧
    ((config.SetActive "b" (.holding ⟨"a", "1", [("a", ⟨"a", "http://a", "u", "p"⟩)]⟩)).1 =
        some ("profile " ++ "b" ++ " does not exist") ↔
      mapGet "b" (config.fileConfig.Profiles
        ⟨"a", "1", [("a", ⟨"a", "http://a", "u", "p"⟩)]⟩) = none) ∧
    (mapGet "b" (config.fileConfig.Profiles
        ⟨"a", "1", [("a", ⟨"a", "http://a", "u", "p"⟩)]⟩) = none →
      (config.SetActive "b" (.holding ⟨"a", "1", [("a", ⟨"a", "http://a", "u", "p"⟩)]⟩)).2 =
        .holding ⟨"a", "1", [("a", ⟨"a", "http://a", "u", "p"⟩)]⟩) :=
  setActive_unknown (.holding ⟨"a", "1", [("a", ⟨"a", "http://a", "u", "p"⟩)]⟩)
    ⟨"a", "1", [("a", ⟨"a", "http://a", "u", "p"⟩)]⟩ "b" rfl

set_option maxRecDepth 100000 in
/-- C27 at the failing input: with the shell `bash` and no rc file, `installForShell` writes
the sourcing line without the marker line; `uninstallForShell` then leaves the content as it
is, and its first line still names the completion file. When the rc file existed, the
marker is written and the sourcing line is removed. -/
theorem uninstall_keeps_sourcing_line :
    installRc "bash" (compFile "/home/u" "bash") none =
      "source /home/u/.gcli/completion/gcli.bash\n" ∧
    uninstallRc (compFile "/home/u" "bash") (installRc "bash" (compFile "/home/u" "bash") none) =
      "source /home/u/.gcli/completion/gcli.bash\n" ∧
    (∃ line, line ∈ splitLines (uninstallRc (compFile "/home/u" "bash")
        (installRc "bash" (compFile "/home/u" "bash") none)).data ∧
      contains ⟨line⟩ (compFile "/home/u" "bash")) ∧
    uninstallRc (compFile "/home/u" "bash")
      (installRc "bash" (compFile "/home/u" "bash") (some "alias ll=ls\n")) =
      "alias ll=ls\n\n" := by
  refine ⟨by decide, by decide, ⟨"source /home/u/.gcli/completion/gcli.bash".data, ?_, ?_⟩,
    by decide⟩
  · decide
  · decide

/-- C21 (retry transitions): a round goes back to editing exactly on a text that
`json.Unmarshal` rejects and on a response whose status is not 200. The next content is
then the cleaned text of the round, and `lastError` is a message that is not empty: the
message of the error of `json.Unmarshal`, or the status line, `: ` and the body of the
response; and the session runs its next round from this message and this content (the
file that the next editor opens is written from them). A response with status 200 ends
the session: whatever rounds are left, the session is over after the call of this round. -/
theorem retry_transitions (unmarshalError : String → UnmarshalError) (folderUID : String)
    (env : RoundEnv) (rest : List RoundEnv) (lastError content updated : String)
    (calls : List JSON)
    (hed : env.editor (tmpFileText lastError content) = .saved updated) :
    (∀ e c, (editRound (fun t => (unmarshalError t).Error) folderUID env lastError
        content).next = .again e c →
      c = cleanJSON updated ∧ e ≠ "" ∧
      ((unmarshalNew (cleanJSON updated) = none ∧
          e = (unmarshalError (cleanJSON updated)).Error) ∨
        ∃ dashObj statusCode status body,
          unmarshalNew (cleanJSON updated) = some dashObj ∧
          env.server (updatePayload dashObj folderUID) = .response statusCode status body ∧
          statusCode ≠ 200 ∧ e = status ++ ": " ++ body)) ∧
    (trimSpace (cleanJSON updated) ≠ "" → unmarshalNew (cleanJSON updated) = none →
      editLoop (fun t => (unmarshalError t).Error) folderUID (env :: rest) lastError content
          calls =
        editLoop (fun t => (unmarshalError t).Error) folderUID rest
          (unmarshalError (cleanJSON updated)).Error (cleanJSON updated) calls) ∧
    (∀ dashObj statusCode status body, trimSpace (cleanJSON updated) ≠ "" →
      unmarshalNew (cleanJSON updated) = some dashObj →
      env.server (updatePayload dashObj folderUID) = .response statusCode status body →
      statusCode ≠ 200 →
      editLoop (fun t => (unmarshalError t).Error) folderUID (env :: rest) lastError content
          calls =
        editLoop (fun t => (unmarshalError t).Error) folderUID rest
          (status ++ ": " ++ body) (cleanJSON updated)
          (calls ++ [updatePayload dashObj folderUID])) ∧
    (∀ env1 e c, editRound (fun t => (unmarshalError t).Error) folderUID env1 e c =
      match env1.editor (tmpFileText e c) with
      | .failed err => ⟨none, .error err⟩
      | .saved updated1 =>
        validateAndSubmit (fun t => (unmarshalError t).Error) folderUID env1.server updated1) ∧
    (∀ dashObj status body, trimSpace (cleanJSON updated) ≠ "" →
      unmarshalNew (cleanJSON updated) = some dashObj →
      env.server (updatePayload dashObj folderUID) = .response 200 status body →
      editLoop (fun t => (unmarshalError t).Error) folderUID (env :: rest) lastError content
          calls =
        ⟨calls ++ [updatePayload dashObj folderUID], .done⟩) := by
  have hround := editRound_saved (fun t => (unmarshalError t).Error) folderUID env lastError
    content updated hed
  obtain ⟨h1, h2, _⟩ :=
    validateAndSubmit_cases (fun t => (unmarshalError t).Error) folderUID env.server updated
  refine ⟨?_, ?_, ?_, ?_, ?_⟩
  · intro e c h
    rw [hround] at h
    by_cases hb : trimSpace (cleanJSON updated) = ""
    · rw [h1 hb] at h
      cases h
    · cases hu : unmarshalNew (cleanJSON updated) with
      | none =>
        rw [h2 hb hu] at h
        cases h
        exact ⟨rfl, unmarshalError_ne_empty _, Or.inl ⟨rfl, rfl⟩⟩
      | some dashObj =>
        cases hs : env.server (updatePayload dashObj folderUID) with
        | unreachable err =>
          rw [validateAndSubmit_unreachable _ folderUID env.server updated dashObj err
            hb hu hs] at h
          cases h
        | response statusCode status body =>
          rw [validateAndSubmit_response _ folderUID env.server updated dashObj
            statusCode status body hb hu hs] at h
          by_cases hc : statusCode ≠ 200
          · rw [if_pos hc] at h
            cases h
            exact ⟨rfl, status_message_ne_empty status body,
              Or.inr ⟨dashObj, statusCode, status, body, rfl, hs, hc, rfl⟩⟩
          · rw [if_neg hc] at h
            cases h
  · intro hb hu
    have hr := editLoop_again (fun t => (unmarshalError t).Error) folderUID env rest lastError
      content calls none (unmarshalError (cleanJSON updated)).Error (cleanJSON updated)
      (by rw [hround, h2 hb hu])
    rw [hr]
    simp
  · intro dashObj statusCode status body hb hu hs hc
    have hr := editLoop_again (fun t => (unmarshalError t).Error) folderUID env rest lastError
      content calls (some (updatePayload dashObj folderUID)) (status ++ ": " ++ body)
      (cleanJSON updated)
      (by rw [hround, validateAndSubmit_response _ folderUID env.server updated dashObj
        statusCode status body hb hu hs, if_pos hc])
    rw [hr]
    rfl
  · intro env1 e c
    rfl
  · intro dashObj status body hb hu hs
    have hr : editRound (fun t => (unmarshalError t).Error) folderUID env lastError content =
        ⟨some (updatePayload dashObj folderUID), .done⟩ := by
      rw [hround, validateAndSubmit_response _ folderUID env.server updated dashObj
        200 status body hb hu hs]
      simp
    rw [editLoop, hr]
    rfl

set_option maxRecDepth 100000 in
theorem retry_transitions_witness :
    editLoop (fun _ => UnmarshalError.Error .unexpectedEnd) "f1"
        (⟨fun _ => .saved "// note\n\x7b\"title\":", fun _ => .response 200 "200 OK" "ok"⟩ ::
          [⟨fun t => .saved t, fun _ => .response 500 "500" "no"⟩])
        "" "\x7b\x7d" [] =
      editLoop (fun _ => UnmarshalError.Error .unexpectedEnd) "f1"
        [⟨fun t => .saved t, fun _ => .response 500 "500" "no"⟩]
        "unexpected end of JSON input" "\x7b\"title\":" [] :=
  (retry_transitions (fun _ => .unexpectedEnd) "f1"
    ⟨fun _ => .saved "// note\n\x7b\"title\":", fun _ => .response 200 "200 OK" "ok"⟩
    [⟨fun t => .saved t, fun _ => .response 500 "500" "no"⟩]
    "" "\x7b\x7d" "// note\n\x7b\"title\":" [] rfl).2.1 (by decide) (by decide)

/-! ## The literal substitution, the unresolved references and the generated keys: the claims -/

/-- C28, as the code has it (whole-document literal substitution): when the loop visits
the discovered identifiers, no resolved identifier and no derived input name contains a
quote, and no two occurrences of a quoted resolved identifier share a quote, then, the
document text being cut at its quotes, the rewritten text is the same text in which every
stretch between two quotes that is a resolved identifier has become the placeholder of that
identifier and every other stretch is as it was, wherever the stretch stands (a binding, any
other string value, an object key); and the rewritten text contains no quoted resolved
identifier. -/
theorem literal_substitution (upper : Char → Char) (raw : String) (allDS : List DataSource)
    (order : List String)
    (horder : IterationOrder raw order)
    (hquote : ∀ p, p ∈ resolvedPairs upper allDS order → '"' ∉ p.1.data ∧ '"' ∉ p.2.data)
    (hoverlap : ∀ p, p ∈ resolvedPairs upper allDS order →
      ¬ contains raw (quoted p.1 ++ p.1 ++ "\"")) :
    (∀ s0 inner, raw.data = s0 ++ led inner → '"' ∉ s0 → (∀ s, s ∈ inner → '"' ∉ s) →
      (exportLoop upper raw allDS order).jsonStr.data =
        s0 ++ led (mapInit (subst (charPairs (resolvedPairs upper allDS order))) inner)) ∧
    (∀ uid ds, uid ∈ order → mapGet uid (dsMap allDS) = some ds →
      subst (charPairs (resolvedPairs upper allDS order)) uid.data =
          (placeholder (varName upper ds.Name)).data ∧
        ¬ contains (exportLoop upper raw allDS order).jsonStr (quoted uid)) ∧
    (∀ s, (∀ uid ds, uid ∈ order → mapGet uid (dsMap allDS) = some ds → uid.data ≠ s) →
      subst (charPairs (resolvedPairs upper allDS order)) s = s) := by
  have hext := extractable_of_strings raw allDS order horder hquote hoverlap
  refine ⟨?_, ?_, subst_resolved_other allDS order⟩
  · intro s0 inner hraw hs0 hin
    rw [exportLoop_jsonStr_data, hraw]
    rw [hraw] at hext
    exact extractChars_segments s0 inner hs0 hin _ hext
  · intro uid ds hu hds
    have hp := @mem_resolvedPairs upper allDS order uid ds hu hds
    have hq : (uid.data, (placeholder (varName upper ds.Name)).data) ∈
        charPairs (resolvedPairs upper allDS order) := List.mem_map.2 ⟨_, hp, rfl⟩
    constructor
    · exact subst_of_mem _ _ hext.nodup hq
    · unfold contains
      rw [exportLoop_jsonStr_data, quoted_data]
      exact extract_no_quoted raw.data _ hext _ hq

set_option maxRecDepth 100000 in
theorem literal_substitution_witness :
    (∀ s0 inner,
      String.data "\x7b\"u1\":\x7b\"datasource\":\"u1\"\x7d,\"title\":\"u1\"\x7d" =
        s0 ++ led inner → '"' ∉ s0 → (∀ s, s ∈ inner → '"' ∉ s) →
      (exportLoop latin1Upper "\x7b\"u1\":\x7b\"datasource\":\"u1\"\x7d,\"title\":\"u1\"\x7d"
        [⟨"u1", "A", "mysql"⟩] ["u1"]).jsonStr.data =
        s0 ++ led (mapInit (subst (charPairs (resolvedPairs latin1Upper [⟨"u1", "A", "mysql"⟩] ["u1"])))
          inner)) ∧
    (∀ uid ds, uid ∈ ["u1"] → mapGet uid (dsMap [⟨"u1", "A", "mysql"⟩]) = some ds →
      subst (charPairs (resolvedPairs latin1Upper [⟨"u1", "A", "mysql"⟩] ["u1"])) uid.data =
          (placeholder (varName latin1Upper ds.Name)).data ∧
        ¬ contains (exportLoop latin1Upper "\x7b\"u1\":\x7b\"datasource\":\"u1\"\x7d,\"title\":\"u1\"\x7d"
          [⟨"u1", "A", "mysql"⟩] ["u1"]).jsonStr (quoted uid)) ∧
    (∀ s, (∀ uid ds, uid ∈ ["u1"] → mapGet uid (dsMap [⟨"u1", "A", "mysql"⟩]) = some ds →
        uid.data ≠ s) →
      subst (charPairs (resolvedPairs latin1Upper [⟨"u1", "A", "mysql"⟩] ["u1"])) s = s) :=
  literal_substitution latin1Upper "\x7b\"u1\":\x7b\"datasource\":\"u1\"\x7d,\"title\":\"u1\"\x7d"
    [⟨"u1", "A", "mysql"⟩] ["u1"] (by unfold IterationOrder; decide) (by decide) (by decide)

set_option maxRecDepth 100000 in
/-- C28 as stated fails: the catalog resolves the identifier `:` that the document binds;
the leftmost occurrence of the quoted identifier begins at the quote that closes the key,
the occurrence that is the value shares a quote with it and is passed over, and the
rewritten text still contains the quoted identifier. -/
theorem literal_substitution_overlap :
    usedUIDs "\x7b\"datasource\":\":\"\x7d" = [":"] ∧
      mapGet ":" (dsMap [⟨":", "X", "mysql"⟩]) = some ⟨":", "X", "mysql"⟩ ∧
      (exportLoop latin1Upper "\x7b\"datasource\":\":\"\x7d" [⟨":", "X", "mysql"⟩] [":"]).jsonStr =
        "\x7b\"datasource\"$\x7bDS_X\x7d\":\"\x7d" ∧
      contains (exportLoop latin1Upper "\x7b\"datasource\":\":\"\x7d" [⟨":", "X", "mysql"⟩] [":"]).jsonStr
        (quoted ":") := by
  decide

/-- C29, as the code has it (unresolvable references are skipped): for every dashboard and
catalog, the visit of a discovered identifier that has no entry in the catalog changes
nothing, neither the inputs nor the requirements nor the text, so the exported template is
that of the visit of the other identifiers alone and every input and requirement comes from
another identifier. When no resolved identifier and no derived input name contains a quote
and no two occurrences of a quoted resolved identifier share a quote, every stretch between
two quotes of the document text that is the unresolved identifier stands unchanged, at the
same place, in the rewritten text that the template is decoded from. When moreover the
text has no backslash, no derived name has one, the rewritten text is still a JSON object
and no object key of the dashboard is a resolved identifier, an unresolved identifier that
discovery finds in the dashboard outside its top-level `id`, `uid` and `version` is found by
discovery, as that concrete identifier, in the exported template. -/
theorem unresolved_skipped (upper : Char → Char) (raw : String) (allDS : List DataSource)
    (order : List String)
    (uid : String) (hnone : mapGet uid (dsMap allDS) = none) :
    (∀ st, (exportStep upper (dsMap allDS) st uid).inputs = st.inputs ∧
      (exportStep upper (dsMap allDS) st uid).requires = st.requires ∧
      (exportStep upper (dsMap allDS) st uid).pluginMap = st.pluginMap ∧
      (exportStep upper (dsMap allDS) st uid).jsonStr = st.jsonStr) ∧
    exportExternal upper raw allDS order =
      exportExternal upper raw allDS (order.filter (fun x => decide (x ≠ uid))) ∧
    (exportLoop upper raw allDS order).inputs = (resolved allDS order).map (inputEntry upper) ∧
    (exportLoop upper raw allDS order).requires =
      grafanaRequirement :: (exportLoop upper raw allDS order).pluginMap.map requireEntry ∧
    (∀ t, t ∈ (exportLoop upper raw allDS order).pluginMap ↔
      ∃ ds, ds ∈ resolved allDS order ∧ ds.Typ = t) ∧
    (∀ d, d ∈ resolved allDS order →
      ∃ x, x ∈ order ∧ x ≠ uid ∧ mapGet x (dsMap allDS) = some d) ∧
    (IterationOrder raw order →
      (∀ p, p ∈ resolvedPairs upper allDS order → '"' ∉ p.1.data ∧ '"' ∉ p.2.data) →
      (∀ p, p ∈ resolvedPairs upper allDS order → ¬ contains raw (quoted p.1 ++ p.1 ++ "\"")) →
      ∀ s0 inner, raw.data = s0 ++ led inner → '"' ∉ s0 → (∀ s, s ∈ inner → '"' ∉ s) →
        ∃ inner1, (exportLoop upper raw allDS order).jsonStr.data = s0 ++ led inner1 ∧
          inner1.length = inner.length ∧
          ∀ (i : Nat), inner[i]? = some uid.data → inner1[i]? = some uid.data) ∧
    (IterationOrder raw order → '\\' ∉ raw.data →
      (∀ p, p ∈ resolvedPairs upper allDS order →
        '"' ∉ p.1.data ∧ '"' ∉ p.2.data ∧ '\\' ∉ p.2.data) →
      (∀ p, p ∈ resolvedPairs upper allDS order → ¬ contains raw (quoted p.1 ++ p.1 ++ "\"")) →
      ∀ dashObj, unmarshalObject raw = some dashObj →
        unmarshalObject (exportLoop upper raw allDS order).jsonStr ≠ none →
        (∀ n, n ∈ nodes (.obj dashObj) → ∀ k, k ∈ keysOf n →
          ∀ p, p ∈ resolvedPairs upper allDS order → p.1 ≠ k) →
        uid ∈ discoverDatasourceUIDs
          (.obj (mapDelete "version" (mapDelete "uid" (mapDelete "id" dashObj)))) [] →
        ∃ out, exportExternal upper raw allDS order = .ok out ∧
          uid ∈ discoverDatasourceUIDs out []) := by
  have hfix : subst (charPairs (resolvedPairs upper allDS order)) uid.data = uid.data := by
    apply subst_resolved_other
    intro x ds _ hds hxd
    have hxu : x = uid := String.ext hxd
    rw [hxu, hnone] at hds
    cases hds
  have hstep : ∀ st, exportStep upper (dsMap allDS) st uid = st := by
    intro st
    unfold exportStep
    rw [hnone]
  have hloop : exportLoop upper raw allDS order =
      exportLoop upper raw allDS (order.filter (fun x => decide (x ≠ uid))) := by
    unfold exportLoop
    exact foldl_exportStep_filter (dsMap allDS) uid hnone order _
  refine ⟨?_, ?_, exportLoop_inputs raw allDS order, exportLoop_requires raw allDS order,
    mem_exportLoop_pluginMap raw allDS order, ?_, ?_, ?_⟩
  · intro st
    rw [hstep st]
    exact ⟨rfl, rfl, rfl, rfl⟩
  · unfold exportExternal
    rw [hloop]
  · intro d hd
    unfold resolved at hd
    obtain ⟨x, hx, hxd⟩ := List.mem_filterMap.1 hd
    refine ⟨x, hx, ?_, hxd⟩
    intro hxu
    rw [hxu, hnone] at hxd
    cases hxd
  · intro horder hquote hoverlap s0 inner hraw hs0 hin
    have hext := extractable_of_strings raw allDS order horder hquote hoverlap
    rw [hraw] at hext
    refine ⟨mapInit (subst (charPairs (resolvedPairs upper allDS order))) inner, ?_,
      length_mapInit _ inner, ?_⟩
    · rw [exportLoop_jsonStr_data, hraw]
      exact extractChars_segments s0 inner hs0 hin _ hext
    · exact getElem?_mapInit _ uid.data hfix inner
  · intro horder hplain hnames hoverlap dashObj hu hre hkeys hfound
    have hkf : KeysFixed (charPairs (resolvedPairs upper allDS order)) (.obj dashObj) := by
      intro n hn k hk
      have hsub : subst (charPairs (resolvedPairs upper allDS order)) k.data = k.data := by
        apply subst_of_not_mem
        intro hmem
        obtain ⟨q, hq, hqk⟩ := List.mem_map.1 hmem
        obtain ⟨p, hp, hpq⟩ := List.mem_map.1 hq
        apply hkeys n hn k hk p hp
        apply String.ext
        rw [← hqk, ← hpq]
      exact String.ext hsub
    have hok : exportExternal upper raw allDS order =
        .ok (.obj (exportOutput (exportLoop upper raw allDS order))) := by
      unfold exportExternal
      rw [hu]
    refine ⟨_, hok, ?_⟩
    rw [found_iff_discover] at hfound ⊢
    exact found_body_template raw allDS order dashObj uid horder hplain hnames hoverlap hu hre
      hkf (String.ext hfix) hfound

set_option maxRecDepth 100000 in
theorem unresolved_skipped_witness :
    mapGet "u2" (dsMap [⟨"u1", "A", "mysql"⟩]) = none ∧
    exportExternal latin1Upper "\x7b\"a\":\x7b\"datasource\":\"u1\"\x7d,\"b\":\x7b\"datasource\":\"u2\"\x7d\x7d"
        [⟨"u1", "A", "mysql"⟩] ["u1", "u2"] =
      exportExternal latin1Upper "\x7b\"a\":\x7b\"datasource\":\"u1\"\x7d,\"b\":\x7b\"datasource\":\"u2\"\x7d\x7d"
        [⟨"u1", "A", "mysql"⟩] (["u1", "u2"].filter (fun x => decide (x ≠ "u2"))) ∧
    (∀ d, d ∈ resolved [⟨"u1", "A", "mysql"⟩] ["u1", "u2"] →
      ∃ x, x ∈ ["u1", "u2"] ∧ x ≠ "u2" ∧ mapGet x (dsMap [⟨"u1", "A", "mysql"⟩]) = some d) ∧
    (∀ s0 inner,
      String.data "\x7b\"a\":\x7b\"datasource\":\"u1\"\x7d,\"b\":\x7b\"datasource\":\"u2\"\x7d\x7d" =
        s0 ++ led inner → '"' ∉ s0 → (∀ s, s ∈ inner → '"' ∉ s) →
      ∃ inner1, (exportLoop latin1Upper "\x7b\"a\":\x7b\"datasource\":\"u1\"\x7d,\"b\":\x7b\"datasource\":\"u2\"\x7d\x7d"
          [⟨"u1", "A", "mysql"⟩] ["u1", "u2"]).jsonStr.data = s0 ++ led inner1 ∧
        inner1.length = inner.length ∧
        ∀ (i : Nat), inner[i]? = some (String.data "u2") →
          inner1[i]? = some (String.data "u2")) ∧
    (∃ out, exportExternal latin1Upper "\x7b\"a\":\x7b\"datasource\":\"u1\"\x7d,\"b\":\x7b\"datasource\":\"u2\"\x7d\x7d"
        [⟨"u1", "A", "mysql"⟩] ["u1", "u2"] = .ok out ∧
      "u2" ∈ discoverDatasourceUIDs out []) :=
  ⟨by decide,
   (unresolved_skipped latin1Upper "\x7b\"a\":\x7b\"datasource\":\"u1\"\x7d,\"b\":\x7b\"datasource\":\"u2\"\x7d\x7d"
      [⟨"u1", "A", "mysql"⟩] ["u1", "u2"] "u2" (by decide)).2.1,
   (unresolved_skipped latin1Upper "\x7b\"a\":\x7b\"datasource\":\"u1\"\x7d,\"b\":\x7b\"datasource\":\"u2\"\x7d\x7d"
      [⟨"u1", "A", "mysql"⟩] ["u1", "u2"] "u2" (by decide)).2.2.2.2.2.1,
   (unresolved_skipped latin1Upper "\x7b\"a\":\x7b\"datasource\":\"u1\"\x7d,\"b\":\x7b\"datasource\":\"u2\"\x7d\x7d"
      [⟨"u1", "A", "mysql"⟩] ["u1", "u2"] "u2" (by decide)).2.2.2.2.2.2.1
      (by unfold IterationOrder; decide) (by decide) (by decide),
   (unresolved_skipped latin1Upper "\x7b\"a\":\x7b\"datasource\":\"u1\"\x7d,\"b\":\x7b\"datasource\":\"u2\"\x7d\x7d"
      [⟨"u1", "A", "mysql"⟩] ["u1", "u2"] "u2" (by decide)).2.2.2.2.2.2.2
      (by unfold IterationOrder; decide) (by decide) (by decide) (by decide)
      [("a", .obj [("datasource", .str "u1")]), ("b", .obj [("datasource", .str "u2")])]
      (by decide) (by decide) (by decide) (by decide)⟩

set_option maxRecDepth 100000 in
/-- C29 as stated fails: the document binds `:` and `u`, the catalog resolves `:` alone,
and the replacement of the quoted `:` takes the quotes and the colon between each key
`datasource` and its value; the rewritten text is no JSON any more, the exported template
has the two generated lists and nothing of the body, and the unresolved identifier `u` is
nowhere in it. -/
theorem unresolved_reference_lost :
    usedUIDs "\x7b\"a\":\x7b\"datasource\":\":\"\x7d,\"b\":\x7b\"datasource\":\"u\"\x7d\x7d"
        = [":", "u"] ∧
      mapGet "u" (dsMap [⟨":", "X", "mysql"⟩]) = none ∧
      (exportLoop latin1Upper "\x7b\"a\":\x7b\"datasource\":\":\"\x7d,\"b\":\x7b\"datasource\":\"u\"\x7d\x7d"
        [⟨":", "X", "mysql"⟩] [":", "u"]).jsonStr =
        "\x7b\"a\":\x7b\"datasource\"$\x7bDS_X\x7d\":\"\x7d,\"b\":\x7b\"datasource\"$\x7bDS_X\x7d\"u\"\x7d\x7d" ∧
      exportExternal latin1Upper "\x7b\"a\":\x7b\"datasource\":\":\"\x7d,\"b\":\x7b\"datasource\":\"u\"\x7d\x7d"
        [⟨":", "X", "mysql"⟩] [":", "u"] =
        .ok (.obj [("__inputs", .arr [inputEntry latin1Upper ⟨":", "X", "mysql"⟩]),
          ("__requires", .arr [grafanaRequirement, requireEntry "mysql"])]) ∧
      discoverDatasourceUIDs (.obj [("__inputs", .arr [inputEntry latin1Upper ⟨":", "X", "mysql"⟩]),
          ("__requires", .arr [grafanaRequirement, requireEntry "mysql"])]) [] = [] := by
  decide

/-- C30, as the code has it (generated metadata against body keys): for every dashboard
body that parses, every catalog and each of the keys `__inputs` and `__requires`, the value
of the key in the exported template is the value that the body text after the placeholder
substitution, decoded again with the error ignored, has for it at the top level, and the list
derived from the resolved references when that text has no such key (or is no JSON object
any more); when
the catalog resolves no discovered reference the substituted text is the body itself, so the
value of the body replaces the derived list exactly when the body has the key. -/
theorem export_metadata_keys (upper : Char → Char) (raw : String) (allDS : List DataSource)
    (order : List String)
    (dashObj : List (String × JSON)) (k : String)
    (hparse : unmarshalObject raw = some dashObj)
    (hk : k = "__inputs" ∨ k = "__requires") :
    ∃ out, exportExternal upper raw allDS order = .ok out ∧
      (exportLoop upper raw allDS order).inputs = (resolved allDS order).map (inputEntry upper) ∧
      (exportLoop upper raw allDS order).requires =
        grafanaRequirement :: (exportLoop upper raw allDS order).pluginMap.map requireEntry ∧
      (∀ v, mapGet k (unmarshalIgnored (exportLoop upper raw allDS order).jsonStr) = some v →
        field k out = some v) ∧
      (mapGet k (unmarshalIgnored (exportLoop upper raw allDS order).jsonStr) = none →
        field k out = mapGet k
          [("__inputs", sliceJSON (exportLoop upper raw allDS order).inputs),
           ("__requires", sliceJSON (exportLoop upper raw allDS order).requires)]) ∧
      (resolved allDS order = [] →
        (∀ v, mapGet k dashObj = some v → field k out = some v) ∧
        (mapGet k dashObj = none →
          field k out = mapGet k
            [("__inputs", sliceJSON []), ("__requires", sliceJSON [grafanaRequirement])])) := by
  have hne : ¬ (k = "version" ∨ k = "uid" ∨ k = "id") := by
    rcases hk with hk | hk <;> rw [hk] <;> decide
  have hfd : ∀ jsonStr, mapGet k (finalDash jsonStr) =
      mapGet k (unmarshalIgnored jsonStr) := by
    intro jsonStr
    rw [mapGet_finalDash, if_neg hne]
  have hok : exportExternal upper raw allDS order =
      .ok (.obj (exportOutput (exportLoop upper raw allDS order))) := by
    unfold exportExternal
    rw [hparse]
  refine ⟨_, hok, exportLoop_inputs raw allDS order, exportLoop_requires raw allDS order,
    ?_, ?_, ?_⟩
  · intro v hv
    rw [field_exportOutput, hfd, hv]
  · intro hnone
    rw [field_exportOutput, hfd, hnone]
  · intro hres
    have hjs := @exportLoop_jsonStr_of_unresolved upper raw allDS order hres
    have hin : (exportLoop upper raw allDS order).inputs = [] := by
      rw [exportLoop_inputs, hres]
      rfl
    have hpm : (exportLoop upper raw allDS order).pluginMap = [] := by
      rw [List.eq_nil_iff_forall_not_mem]
      intro t ht
      obtain ⟨ds, hds, _⟩ := (mem_exportLoop_pluginMap raw allDS order t).1 ht
      rw [hres] at hds
      cases hds
    have hrq : (exportLoop upper raw allDS order).requires = [grafanaRequirement] := by
      rw [exportLoop_requires, hpm]
      rfl
    constructor
    · intro v hv
      rw [field_exportOutput, hfd, hjs, unmarshalIgnored_of_unmarshalObject _ _ hparse, hv]
    · intro hnone
      rw [field_exportOutput, hfd, hjs, unmarshalIgnored_of_unmarshalObject _ _ hparse, hnone,
        hin, hrq]

set_option maxRecDepth 100000 in
theorem export_metadata_keys_witness :
    ∃ out, exportExternal latin1Upper
        "\x7b\"__inputs\":[],\"panels\":[\x7b\"datasource\":\"u1\"\x7d]\x7d"
        [⟨"u1", "A", "mysql"⟩] ["u1"] = .ok out ∧
      (exportLoop latin1Upper "\x7b\"__inputs\":[],\"panels\":[\x7b\"datasource\":\"u1\"\x7d]\x7d"
        [⟨"u1", "A", "mysql"⟩] ["u1"]).inputs =
        (resolved [⟨"u1", "A", "mysql"⟩] ["u1"]).map (inputEntry latin1Upper) ∧
      (exportLoop latin1Upper "\x7b\"__inputs\":[],\"panels\":[\x7b\"datasource\":\"u1\"\x7d]\x7d"
        [⟨"u1", "A", "mysql"⟩] ["u1"]).requires =
        grafanaRequirement ::
          (exportLoop latin1Upper "\x7b\"__inputs\":[],\"panels\":[\x7b\"datasource\":\"u1\"\x7d]\x7d"
            [⟨"u1", "A", "mysql"⟩] ["u1"]).pluginMap.map requireEntry ∧
      (∀ v, mapGet "__inputs" (unmarshalIgnored (exportLoop latin1Upper
          "\x7b\"__inputs\":[],\"panels\":[\x7b\"datasource\":\"u1\"\x7d]\x7d"
          [⟨"u1", "A", "mysql"⟩] ["u1"]).jsonStr) = some v →
        field "__inputs" out = some v) ∧
      (mapGet "__inputs" (unmarshalIgnored (exportLoop latin1Upper
          "\x7b\"__inputs\":[],\"panels\":[\x7b\"datasource\":\"u1\"\x7d]\x7d"
          [⟨"u1", "A", "mysql"⟩] ["u1"]).jsonStr) = none →
        field "__inputs" out = mapGet "__inputs"
          [("__inputs", sliceJSON (exportLoop latin1Upper
              "\x7b\"__inputs\":[],\"panels\":[\x7b\"datasource\":\"u1\"\x7d]\x7d"
              [⟨"u1", "A", "mysql"⟩] ["u1"]).inputs),
           ("__requires", sliceJSON (exportLoop latin1Upper
              "\x7b\"__inputs\":[],\"panels\":[\x7b\"datasource\":\"u1\"\x7d]\x7d"
              [⟨"u1", "A", "mysql"⟩] ["u1"]).requires)]) ∧
      (resolved [⟨"u1", "A", "mysql"⟩] ["u1"] = [] →
        (∀ v, mapGet "__inputs" [("__inputs", JSON.arr []),
            ("panels", .arr [.obj [("datasource", .str "u1")]])] = some v →
          field "__inputs" out = some v) ∧
        (mapGet "__inputs" [("__inputs", JSON.arr []),
            ("panels", .arr [.obj [("datasource", .str "u1")]])] = none →
          field "__inputs" out = mapGet "__inputs"
            [("__inputs", sliceJSON []), ("__requires", sliceJSON [grafanaRequirement])])) :=
  export_metadata_keys latin1Upper "\x7b\"__inputs\":[],\"panels\":[\x7b\"datasource\":\"u1\"\x7d]\x7d"
    [⟨"u1", "A", "mysql"⟩] ["u1"]
    [("__inputs", .arr []), ("panels", .arr [.obj [("datasource", .str "u1")]])] "__inputs"
    (by decide) (Or.inl rfl)

set_option maxRecDepth 100000 in
/-- C30 as stated fails: the body has a top-level `__inputs` whose value is the text `u1`,
the catalog resolves the reference `u1`, and the `__inputs` of the exported template is
neither the derived list nor the value of the body but the placeholder text that the
substitution made of that value. -/
theorem export_metadata_rewritten :
    usedUIDs "\x7b\"__inputs\":\"u1\",\"panels\":[\x7b\"datasource\":\"u1\"\x7d]\x7d"
        = ["u1"] ∧
      unmarshalObject "\x7b\"__inputs\":\"u1\",\"panels\":[\x7b\"datasource\":\"u1\"\x7d]\x7d"
        = some [("__inputs", .str "u1"), ("panels", .arr [.obj [("datasource", .str "u1")]])] ∧
      (exportLoop latin1Upper "\x7b\"__inputs\":\"u1\",\"panels\":[\x7b\"datasource\":\"u1\"\x7d]\x7d"
        [⟨"u1", "A", "mysql"⟩] ["u1"]).inputs = [inputEntry latin1Upper ⟨"u1", "A", "mysql"⟩] ∧
      exportExternal latin1Upper "\x7b\"__inputs\":\"u1\",\"panels\":[\x7b\"datasource\":\"u1\"\x7d]\x7d"
        [⟨"u1", "A", "mysql"⟩] ["u1"] =
        .ok (.obj [("__inputs", .str "$\x7bDS_A\x7d"),
          ("__requires", .arr [grafanaRequirement, requireEntry "mysql"]),
          ("panels", .arr [.obj [("datasource", .str "$\x7bDS_A\x7d")]])]) := by
  decide

end Gcli
